import Mathlib

/-!
# Advection engine of VAPOR (`src/lib/flow/Advection.cpp`)

A shallow embedding of the particle-advection engine and proofs of its
contract.

Modelling conventions.

* C++ `float` is modelled by exact rational arithmetic (`ℚ`): rounding, NaN and
  infinities are outside the model. The definitions of the namespace `rounded`
  are the same methods with a rounding `fl` applied after every operation on
  `float`; `binary32` is the rounding of IEEE 754 single precision, to nearest,
  ties to even (overflow stays outside the model).
* `std::stof` is a function to `Option ℚ` where only `std::invalid_argument`
  matters; the definitions of the namespace `throwing` are the import with both
  exceptions of `std::stof`.
* `std::vector` is a `List`; a C array of three elements is an `Axes`.
* The `Field` object is consumed through its three sampling methods, taken as
  pure functions of (time, position).
* A call that cannot finish is `Except.error`: `Halt.assertFailed` when an
  `assert` of the source fires, `Halt.outOfFuel` when a `while` loop has not
  finished within the supplied number of iterations.
-/

namespace flow

/-! ## External declarations -/

/-- Reasons for which a call does not return to its caller. -/
inductive Halt where
  | assertFailed
  | outOfFuel
  deriving DecidableEq, Repr

/-- The type `glm::vec3`, with exact components. -/
structure Vec3 where
  x : ℚ
  y : ℚ
  z : ℚ
  deriving DecidableEq, Repr

namespace Vec3

/-- Component-wise sum, `a + b` on `glm::vec3`. -/
def add (a b : Vec3) : Vec3 := ⟨a.x + b.x, a.y + b.y, a.z + b.z⟩

/-- Component-wise difference, `a - b` on `glm::vec3`. -/
def sub (a b : Vec3) : Vec3 := ⟨a.x - b.x, a.y - b.y, a.z - b.z⟩

/-- Scaling, `k * a` on `glm::vec3`. -/
def smul (k : ℚ) (a : Vec3) : Vec3 := ⟨k * a.x, k * a.y, k * a.z⟩

/-- The product `glm::dot( a, b )`. -/
def dot (a b : Vec3) : ℚ := a.x * b.x + a.y * b.y + a.z * b.z

/-- Component read `a[i]`. -/
def get (a : Vec3) (i : Fin 3) : ℚ :=
  match i with
  | 0 => a.x
  | 1 => a.y
  | 2 => a.z

/-- Component write `a[i] = v`. -/
def set (a : Vec3) (i : Fin 3) (v : ℚ) : Vec3 :=
  match i with
  | 0 => { a with x := v }
  | 1 => { a with y := v }
  | 2 => { a with z := v }

end Vec3

/-- A C array of three elements, one per spatial axis. -/
structure Axes (α : Type) where
  a0 : α
  a1 : α
  a2 : α
  deriving DecidableEq, Repr

/-- Element read `arr[i]`. -/
def Axes.get {α : Type} (arr : Axes α) (i : Fin 3) : α :=
  match i with
  | 0 => arr.a0
  | 1 => arr.a1
  | 2 => arr.a2

/-- Element write `arr[i] = v`. -/
def Axes.set {α : Type} (arr : Axes α) (i : Fin 3) (v : α) : Axes α :=
  match i with
  | 0 => { arr with a0 := v }
  | 1 => { arr with a1 := v }
  | 2 => { arr with a2 := v }

/-- Modelled from the spec: the class `Particle` of `vapor/Particle.h`, which is
not among the sources. Spec §3: a location, a time, a value (default 0), the
special/separator marker, and the append-only list of attached properties. -/
structure Particle where
  location : Vec3
  time : ℚ
  value : ℚ
  isSpecial : Bool
  properties : List ℚ
  deriving DecidableEq, Repr

namespace Particle

/-- Modelled from the spec: the default constructor `Particle p;` of
`vapor/Particle.h`: value 0, not special, no attached property; the location and
the time are taken to be zero. -/
def default : Particle := ⟨⟨0, 0, 0⟩, 0, 0, false, []⟩

/-- Modelled from the spec: `Particle::SetSpecial` of `vapor/Particle.h`. -/
def SetSpecial (p : Particle) (b : Bool) : Particle := { p with isSpecial := b }

/-- Modelled from the spec: `Particle::IsSpecial` of `vapor/Particle.h`. -/
def IsSpecial (p : Particle) : Bool := p.isSpecial

/-- Modelled from the spec: `Particle::AttachProperty` of `vapor/Particle.h`,
which appends to the property history. -/
def AttachProperty (p : Particle) (v : ℚ) : Particle :=
  { p with properties := p.properties ++ [v] }

/-- Modelled from the spec: `Particle::ClearProperties` of `vapor/Particle.h`. -/
def ClearProperties (p : Particle) : Particle := { p with properties := [] }

end Particle

/-- The sampling interface of `flow::Field` (spec §6), consumed only. A
sampling method returns its status code together with the value written to its
output parameter. -/
structure Field where
  InsideVolumeVelocity : ℚ → Vec3 → Bool
  GetVelocity : ℚ → Vec3 → Int × Vec3
  GetScalar : ℚ → Vec3 → Int × ℚ

/-- The status codes of `vapor/Advection.h`, whose values are not among the
sources; they are parameters of the model. -/
structure Codes where
  ADVECT_HAPPENED : Int
  NO_SEED_PARTICLE_YET : Int
  FILE_ERROR : Int
  deriving DecidableEq, Repr

/-- The enumeration `ADVECTION_METHOD`. -/
inductive ADVECTION_METHOD where
  | EULER
  | RK4
  deriving DecidableEq, Repr

/-- The functions of the glm library that have no exact rational counterpart;
`length` stands for `glm::length`. -/
structure Glm where
  length : Vec3 → ℚ

/-! ## The class `Advection` -/

/-- The data members of `flow::Advection`. -/
structure Advection where
  _streams : List (List Particle)
  _separatorCount : List Nat
  _isPeriodic : Axes Bool
  _periodicBounds : Axes (ℚ × ℚ)
  _lowerAngleCos : ℚ
  _upperAngleCos : ℚ
  deriving DecidableEq, Repr

/-- The call `v.resize( n )` of `std::vector`, `d` being the value-initialised
element. -/
def vectorResize {α : Type} (v : List α) (n : Nat) (d : α) : List α :=
  v.take n ++ List.replicate (n - v.length) d

/-- The call `v[i].push_back( p )` on a vector of vectors. -/
def pushBackAt {α : Type} (v : List (List α)) (i : Nat) (p : α) : List (List α) :=
  match v[i]? with
  | some s => v.set i (s ++ [p])
  | none => v

/-- The loop `for( i = 0; i < seeds.size(); i++ ) _streams[i].push_back( seeds[i] )`,
from index `i` on, `rest` being the seeds not yet visited. -/
def UseSeedParticles.fill : List Particle → Nat → List (List Particle) → List (List Particle)
  | [], _, streams => streams
  | p :: rest, i, streams => UseSeedParticles.fill rest (i + 1) (pushBackAt streams i p)

/-- The method `Advection::UseSeedParticles` (lines 25-36). -/
def UseSeedParticles (A : Advection) (seeds : List Particle) : Advection :=
  let cleared : List (List Particle) := []
  let resized := vectorResize cleared seeds.length []
  let filled := UseSeedParticles.fill seeds 0 resized
  let counts := vectorResize A._separatorCount seeds.length 0
  { A with _streams := filled, _separatorCount := counts.map fun _ => 0 }

/-- The loop of `Advection::CheckReady` over the streams. -/
def CheckReady.go (c : Codes) : List (List Particle) → Int
  | [] => 0
  | s :: rest => if s.length < 1 then c.NO_SEED_PARTICLE_YET else CheckReady.go c rest

/-- The method `Advection::CheckReady` (lines 38-49); it is `const`, hence a
function of the state alone. -/
def CheckReady (c : Codes) (A : Advection) : Int :=
  CheckReady.go c A._streams

/-- The loop `while( pval < min ) pval += span;` of `_applyPeriodic`, run for at
most `fuel` iterations. -/
def _applyPeriodic.up (span min : ℚ) : Nat → ℚ → Except Halt ℚ
  | 0, pval => if pval < min then .error .outOfFuel else .ok pval
  | fuel + 1, pval =>
    if pval < min then _applyPeriodic.up span min fuel (pval + span) else .ok pval

/-- The loop `while( pval > max ) pval -= span;` of `_applyPeriodic`, run for at
most `fuel` iterations. -/
def _applyPeriodic.down (span max : ℚ) : Nat → ℚ → Except Halt ℚ
  | 0, pval => if pval > max then .error .outOfFuel else .ok pval
  | fuel + 1, pval =>
    if pval > max then _applyPeriodic.down span max fuel (pval - span) else .ok pval

/-- The method `Advection::_applyPeriodic` (lines 524-543). -/
def _applyPeriodic (fuel : Nat) (val min max : ℚ) : Except Halt ℚ :=
  let span := max - min
  let pval := val
  if val ≥ min ∧ val ≤ max then .ok pval
  else if val < min then _applyPeriodic.up span min fuel pval
  else _applyPeriodic.down span max fuel pval

/-- One iteration of the loop over the three axes (lines 71-78 and 170-177):
the pair is `(loc, locChanged)`. -/
def wrapAxis (fuel : Nat) (A : Advection) (i : Fin 3) (acc : Vec3 × Bool) :
    Except Halt (Vec3 × Bool) :=
  if A._isPeriodic.get i then do
    let v ← _applyPeriodic fuel (acc.1.get i) (A._periodicBounds.get i).1
      (A._periodicBounds.get i).2
    pure (acc.1.set i v, true)
  else pure acc

/-- The loop `for( int i = 0; i < 3; i++ )` that corrects the coordinates along
the periodic dimensions; returns `(loc, locChanged)`. -/
def wrapLocation (fuel : Nat) (A : Advection) (loc : Vec3) : Except Halt (Vec3 × Bool) := do
  let r0 ← wrapAxis fuel A 0 (loc, false)
  let r1 ← wrapAxis fuel A 1 r0
  wrapAxis fuel A 2 r1

/-- The method `Advection::_advectEuler` (lines 297-306). The result is the
returned status with the final content of the output particle `p1`. -/
def _advectEuler (velocity : Field) (p0 : Particle) (dt : ℚ) (p1 : Particle) :
    Except Halt (Int × Particle) :=
  let (rv, v0) := velocity.GetVelocity p0.time p0.location
  if rv ≠ 0 then .error .assertFailed
  else .ok (0, { p1 with location := p0.location.add (Vec3.smul dt v0), time := p0.time + dt })

/-- The method `Advection::_advectRK4` (lines 308-328). The result is the
returned status with the final content of the output particle `p1`. -/
def _advectRK4 (velocity : Field) (p0 : Particle) (dt : ℚ) (p1 : Particle) :
    Except Halt (Int × Particle) :=
  let dt2 := dt * (1 / 2)
  let (rv1, k1) := velocity.GetVelocity p0.time p0.location
  if rv1 ≠ 0 then .error .assertFailed
  else
    let (rv2, k2) := velocity.GetVelocity (p0.time + dt2) (p0.location.add (Vec3.smul dt2 k1))
    if rv2 ≠ 0 then .ok (rv2, p1)
    else
      let (rv3, k3) := velocity.GetVelocity (p0.time + dt2) (p0.location.add (Vec3.smul dt2 k2))
      if rv3 ≠ 0 then .ok (rv3, p1)
      else
        let (rv4, k4) := velocity.GetVelocity (p0.time + dt) (p0.location.add (Vec3.smul dt k3))
        if rv4 ≠ 0 then .ok (rv4, p1)
        else
          .ok (0, { p1 with
            location := p0.location.add
              (Vec3.smul (dt / 6) ((k1.add (Vec3.smul 2 (k2.add k3))).add k4)),
            time := p0.time + dt })

/-- The `switch (method)` of lines 125-131 and 213-219. -/
def advect (method : ADVECTION_METHOD) (velocity : Field) (p0 : Particle) (dt : ℚ)
    (p1 : Particle) : Except Halt (Int × Particle) :=
  match method with
  | .EULER => _advectEuler velocity p0 dt p1
  | .RK4 => _advectRK4 velocity p0 dt p1

/-- The method `Advection::_calcAdjustFactor` (lines 330-349). -/
def _calcAdjustFactor (G : Glm) (A : Advection) (p2 p1 p0 : Particle) : ℚ :=
  let p2p1 := p1.location.sub p2.location
  let p1p0 := p0.location.sub p1.location
  let denominator := G.length p2p1 * G.length p1p0
  if denominator < 1 / 10000000 then 1
  else
    let cosine := Vec3.dot p2p1 p1p0 / denominator
    if cosine > A._lowerAngleCos then 5 / 4
    else if cosine < A._upperAngleCos then 1 / 2
    else 1

/-- The function `glm::clamp( x, minVal, maxVal )`, that is
`min( max( x, minVal ), maxVal )`. -/
def glmClamp (x minVal maxVal : ℚ) : ℚ := min (max x minVal) maxVal

/-- The local variables of the loop over the streams together with the member
`_separatorCount` that the loop updates. -/
structure LoopVars where
  happened : Bool
  streamIdx : Nat
  separatorCount : List Nat
  deriving DecidableEq, Repr

/-- The statement `v[i]++` on a vector of counters. -/
def incrementAt (v : List Nat) (i : Nat) : List Nat :=
  match v[i]? with
  | some n => v.set i (n + 1)
  | none => v

/-- The separator of lines 91-98 and 187-189: a default particle marked
special. -/
def separator : Particle := Particle.default.SetSpecial true

/-- The step size of `AdvectOneStep` (lines 105-121), for the stream `s` whose
last particle is `past0`. -/
def AdvectOneStep.stepSize (G : Glm) (A : Advection) (deltaT : ℚ) (s : List Particle)
    (past0 : Particle) : ℚ :=
  let dt := deltaT
  let mindt := deltaT / 20
  let maxdt := deltaT * 50
  if s.length > 2 then
    match s[s.length - 2]?, s[s.length - 3]? with
    | some past1, some past2 =>
      if (!past1.IsSpecial) && (!past2.IsSpecial) then
        let dt := past0.time - past1.time
        let dt := dt * _calcAdjustFactor G A past2 past1 past0
        if dt > 0 then glmClamp dt mindt maxdt else glmClamp dt maxdt mindt
      else dt
    | _, _ => dt
  else dt

/-- Lines 63-103 of `AdvectOneStep` for the stream `s` whose last particle is
`p0`: `none` when a `continue` fires, else the stream and the loop variables
after the periodic correction. -/
def AdvectOneStep.wrap (fuel : Nat) (A : Advection) (velocity : Field) (s : List Particle)
    (p0 : Particle) (v : LoopVars) : Except Halt (Option (List Particle × LoopVars)) :=
  if !velocity.InsideVolumeVelocity p0.time p0.location then do
    let (loc, locChanged) ← wrapLocation fuel A p0.location
    if !locChanged then pure none
    else if velocity.InsideVolumeVelocity p0.time loc then
      pure (some (s.dropLast ++ [separator, { p0 with location := loc }],
        { v with separatorCount := incrementAt v.separatorCount v.streamIdx }))
    else pure none
  else pure (some (s, v))

/-- Lines 105-140 of `AdvectOneStep`: the integration from the last particle
`past0` of the stream `s`. -/
def AdvectOneStep.integrate (G : Glm) (A : Advection) (velocity : Field) (deltaT : ℚ)
    (method : ADVECTION_METHOD) (s : List Particle) (past0 : Particle) (v : LoopVars) :
    Except Halt (List Particle × LoopVars) := do
  let dt := AdvectOneStep.stepSize G A deltaT s past0
  let (rv, p1) ← advect method velocity past0 dt Particle.default
  if rv ≠ 0 then pure (s, v)
  else pure (s ++ [p1], { v with happened := true, streamIdx := v.streamIdx + 1 })

/-- The body of the loop over the streams of `AdvectOneStep` (lines 62-141).
The stream is not empty when the loop runs, `CheckReady` having passed. -/
def AdvectOneStep.body (fuel : Nat) (G : Glm) (A : Advection) (velocity : Field) (deltaT : ℚ)
    (method : ADVECTION_METHOD) (s : List Particle) (v : LoopVars) :
    Except Halt (List Particle × LoopVars) :=
  match s.getLast? with
  | none => pure (s, v)
  | some p0 => do
    match ← AdvectOneStep.wrap fuel A velocity s p0 v with
    | none => pure (s, v)
    | some (s1, v1) =>
      match s1.getLast? with
      | none => pure (s1, v1)
      | some past0 => AdvectOneStep.integrate G A velocity deltaT method s1 past0 v1

/-- The loop `for( auto& s : _streams )` of `AdvectOneStep`. -/
def AdvectOneStep.loop (fuel : Nat) (G : Glm) (A : Advection) (velocity : Field) (deltaT : ℚ)
    (method : ADVECTION_METHOD) : List (List Particle) → LoopVars →
    Except Halt (List (List Particle) × LoopVars)
  | [], v => pure ([], v)
  | s :: rest, v => do
    let (s1, v1) ← AdvectOneStep.body fuel G A velocity deltaT method s v
    let (rest1, v2) ← AdvectOneStep.loop fuel G A velocity deltaT method rest v1
    pure (s1 :: rest1, v2)

/-- The method `Advection::AdvectOneStep` (lines 52-147): the returned status
and the state after the call. -/
def AdvectOneStep (c : Codes) (fuel : Nat) (G : Glm) (A : Advection) (velocity : Field)
    (deltaT : ℚ) (method : ADVECTION_METHOD) : Except Halt (Int × Advection) :=
  let ready := CheckReady c A
  if ready ≠ 0 then pure (ready, A)
  else do
    let (streams, v) ← AdvectOneStep.loop fuel G A velocity deltaT method A._streams
      ⟨false, 0, A._separatorCount⟩
    pure (if v.happened then c.ADVECT_HAPPENED else 0,
      { A with _streams := streams, _separatorCount := v.separatorCount })

/-- The step size of `AdvectTillTime` (lines 196-209), for the stream `s` and
the local copy `p0` of its last particle. -/
def AdvectTillTime.stepSize (G : Glm) (A : Advection) (deltaT : ℚ) (s : List Particle)
    (p0 : Particle) : ℚ :=
  let dt := deltaT
  let mindt := deltaT / 20
  let maxdt := deltaT * 50
  if s.length > 2 then
    match s[s.length - 2]?, s[s.length - 3]? with
    | some past1, some past2 =>
      if (!past1.IsSpecial) && (!past2.IsSpecial) then
        let dt := p0.time - past1.time
        let dt := if dt < maxdt then dt else maxdt
        let dt := if dt > mindt then dt else mindt
        dt * _calcAdjustFactor G A past2 past1 p0
      else dt
    | _, _ => dt
  else dt

/-- Lines 163-194 of `AdvectTillTime` for the stream `s` and the local copy `p0`
of its last particle: `none` when a `break` fires, else the stream, `p0` and the
loop variables after the periodic correction. -/
def AdvectTillTime.wrap (fuel : Nat) (A : Advection) (velocity : Field) (s : List Particle)
    (p0 : Particle) (v : LoopVars) :
    Except Halt (Option (List Particle × Particle × LoopVars)) :=
  if !velocity.InsideVolumeVelocity p0.time p0.location then
    match s.getLast? with
    | none => pure none
    | some last => do
      let (loc, locChanged) ← wrapLocation fuel A last.location
      if !locChanged then pure none
      else if velocity.InsideVolumeVelocity p0.time loc then
        pure (some (s.dropLast ++ [separator, { last with location := loc }],
          { last with location := loc },
          { v with separatorCount := incrementAt v.separatorCount v.streamIdx }))
      else pure none
  else pure (some (s, p0, v))

/-- The loop `while( p0.time < targetT )` of `AdvectTillTime` (lines 161-230),
run for at most `n` iterations. -/
def AdvectTillTime.whileLoop (fuel : Nat) (G : Glm) (A : Advection) (velocity : Field)
    (deltaT targetT : ℚ) (method : ADVECTION_METHOD) :
    Nat → List Particle → Particle → LoopVars → Except Halt (List Particle × LoopVars)
  | 0, s, p0, v => if p0.time < targetT then .error .outOfFuel else pure (s, v)
  | n + 1, s, p0, v =>
    if p0.time < targetT then do
      match ← AdvectTillTime.wrap fuel A velocity s p0 v with
      | none => pure (s, v)
      | some (s1, q0, v1) =>
        let dt := AdvectTillTime.stepSize G A deltaT s1 q0
        let (rv, p1) ← advect method velocity q0 dt Particle.default
        if rv ≠ 0 then pure (s1, v1)
        else
          AdvectTillTime.whileLoop fuel G A velocity deltaT targetT method n (s1 ++ [p1]) p1
            { v1 with happened := true }
    else pure (s, v)

/-- The body of the loop over the streams of `AdvectTillTime` (lines 159-232).
The stream is not empty when the loop runs, `CheckReady` having passed. -/
def AdvectTillTime.body (fuel : Nat) (G : Glm) (A : Advection) (velocity : Field)
    (deltaT targetT : ℚ) (method : ADVECTION_METHOD) (s : List Particle) (v : LoopVars) :
    Except Halt (List Particle × LoopVars) :=
  match s.getLast? with
  | none => pure (s, v)
  | some p0 => do
    let (s1, v1) ← AdvectTillTime.whileLoop fuel G A velocity deltaT targetT method fuel s p0 v
    pure (s1, { v1 with streamIdx := v1.streamIdx + 1 })

/-- The loop `for( auto& s : _streams )` of `AdvectTillTime`. -/
def AdvectTillTime.loop (fuel : Nat) (G : Glm) (A : Advection) (velocity : Field)
    (deltaT targetT : ℚ) (method : ADVECTION_METHOD) : List (List Particle) → LoopVars →
    Except Halt (List (List Particle) × LoopVars)
  | [], v => pure ([], v)
  | s :: rest, v => do
    let (s1, v1) ← AdvectTillTime.body fuel G A velocity deltaT targetT method s v
    let (rest1, v2) ← AdvectTillTime.loop fuel G A velocity deltaT targetT method rest v1
    pure (s1 :: rest1, v2)

/-- The method `Advection::AdvectTillTime` (lines 149-238): the returned status
and the state after the call. Every `while` loop of the call may run for `fuel`
iterations. -/
def AdvectTillTime (c : Codes) (fuel : Nat) (G : Glm) (A : Advection) (velocity : Field)
    (deltaT targetT : ℚ) (method : ADVECTION_METHOD) : Except Halt (Int × Advection) :=
  let ready := CheckReady c A
  if ready ≠ 0 then pure (ready, A)
  else do
    let (streams, v) ← AdvectTillTime.loop fuel G A velocity deltaT targetT method A._streams
      ⟨false, 0, A._separatorCount⟩
    pure (if v.happened then c.ADVECT_HAPPENED else 0,
      { A with _streams := streams, _separatorCount := v.separatorCount })

/-- The method `Advection::GetNumberOfStreams` (lines 450-454). -/
def GetNumberOfStreams (A : Advection) : Nat := A._streams.length

/-- The method `Advection::GetStreamAt` (lines 456-462); `none` stands for the
exception thrown by `std::vector::at`. -/
def GetStreamAt (A : Advection) (i : Nat) : Option (List Particle) := A._streams[i]?

/-- The constructor `Advection::Advection` (lines 7-18). The two cosines,
computed by `glm::cos( glm::radians( . ) )` from 3 and 15 degrees, are
parameters. -/
def Advection.ctor (lowerAngleCos upperAngleCos : ℚ) : Advection :=
  ⟨[], [], ⟨false, false, false⟩, ⟨(0, 0), (0, 0), (0, 0)⟩, lowerAngleCos, upperAngleCos⟩

/-- The subtraction of two `size_t` values, modulo `2 ^ 64`. -/
def sizeSub (a b : Nat) : Nat := (a + 2 ^ 64 - b % 2 ^ 64) % 2 ^ 64

/-- The loop of `Advection::GetMaxNumOfSteps` over the streams, with its local
variables `max` and `idx`. Reading `_separatorCount[idx]` past the end is
undefined in the source; the model reads 0 there. -/
def GetMaxNumOfSteps.go (separatorCount : List Nat) : List (List Particle) → Nat → Nat → Nat
  | [], max, _ => max
  | s :: rest, max, idx =>
    let num := sizeSub s.length (separatorCount.getD idx 0)
    GetMaxNumOfSteps.go separatorCount rest (if max > num then max else num) (idx + 1)

/-- The method `Advection::GetMaxNumOfSteps` (lines 464-476). -/
def GetMaxNumOfSteps (A : Advection) : Nat :=
  GetMaxNumOfSteps.go A._separatorCount A._streams 0 0

/-- The loop that computes `mostSteps` (lines 244-247 and 275-278), from the
current value `m`. -/
def mostSteps.go : List (List Particle) → Nat → Nat
  | [], m => m
  | s :: rest, m => mostSteps.go rest (if s.length > m then s.length else m)

/-- The value of `mostSteps`: the largest stream size. -/
def mostSteps (streams : List (List Particle)) : Nat := mostSteps.go streams 0

/-- The statement `if( i < s.size() ) { auto& p = s[i]; ... }` of lines 253-266
and 283-290, `f` being the treatment of the particle. -/
def visitAt (f : Particle → Except Halt Particle) (i : Nat) (s : List Particle) :
    Except Halt (List Particle) :=
  match s[i]? with
  | some p => do
    let p1 ← f p
    pure (s.set i p1)
  | none => pure s

/-- The inner loop `for( auto& s : _streams )` of lines 252 and 282. -/
def visitStreams (f : Particle → Except Halt Particle) (i : Nat) :
    List (List Particle) → Except Halt (List (List Particle))
  | [] => pure []
  | s :: rest => do
    let s1 ← visitAt f i s
    let rest1 ← visitStreams f i rest
    pure (s1 :: rest1)

/-- The outer loop `for( size_t i = 0; i < mostSteps; i++ )` of lines 250 and
280, from index `i` on with `n` iterations left. -/
def visitSteps (f : Particle → Except Halt Particle) :
    Nat → Nat → List (List Particle) → Except Halt (List (List Particle))
  | 0, _, streams => pure streams
  | n + 1, i, streams => do
    let streams1 ← visitStreams f i streams
    visitSteps f n (i + 1) streams1

/-- The treatment of one particle by `CalculateParticleValues` (lines 255-265). -/
def CalculateParticleValues.visit (scalar : Field) (skipNonZero : Bool) (p : Particle) :
    Except Halt Particle :=
  if p.IsSpecial then pure p
  else if skipNonZero && decide (p.value ≠ 0) then pure p
  else
    let (rv, value) := scalar.GetScalar p.time p.location
    if rv ≠ 0 then .error .assertFailed
    else pure { p with value := value }

/-- The method `Advection::CalculateParticleValues` (lines 241-270). -/
def CalculateParticleValues (scalar : Field) (skipNonZero : Bool) (A : Advection) :
    Except Halt (Int × Advection) := do
  let streams ← visitSteps (CalculateParticleValues.visit scalar skipNonZero)
    (mostSteps A._streams) 0 A._streams
  pure (0, { A with _streams := streams })

/-- The treatment of one particle by `CalculateParticleProperties` (lines
285-289). -/
def CalculateParticleProperties.visit (scalar : Field) (p : Particle) : Except Halt Particle :=
  let (rv, value) := scalar.GetScalar p.time p.location
  if rv ≠ 0 then .error .assertFailed
  else pure (p.AttachProperty value)

/-- The method `Advection::CalculateParticleProperties` (lines 272-294). -/
def CalculateParticleProperties (scalar : Field) (A : Advection) :
    Except Halt (Int × Advection) := do
  let streams ← visitSteps (CalculateParticleProperties.visit scalar)
    (mostSteps A._streams) 0 A._streams
  pure (0, { A with _streams := streams })

/-- The method `Advection::ClearParticleProperties` (lines 478-484). -/
def ClearParticleProperties (A : Advection) : Advection :=
  { A with _streams := A._streams.map fun stream => stream.map fun part => part.ClearProperties }

/-- The method `Advection::ResetParticleValues` (lines 486-492). -/
def ResetParticleValues (A : Advection) : Advection :=
  { A with _streams := A._streams.map fun stream => stream.map fun part =>
      { part with value := 0 } }

/-- The methods `Advection::SetXPeriodicity`, `SetYPeriodicity` and
`SetZPeriodicity` (lines 494-522), `i` being the axis they write. -/
def SetPeriodicity (i : Fin 3) (A : Advection) (isPeri : Bool) (min max : ℚ) : Advection :=
  { A with
    _isPeriodic := A._isPeriodic.set i isPeri,
    _periodicBounds := A._periodicBounds.set i (if isPeri then (min, max) else (0, 0)) }

/-- The method `Advection::SetXPeriodicity` (lines 494-502). -/
def SetXPeriodicity (A : Advection) (isPeri : Bool) (min max : ℚ) : Advection :=
  SetPeriodicity 0 A isPeri min max

/-- The method `Advection::SetYPeriodicity` (lines 504-512). -/
def SetYPeriodicity (A : Advection) (isPeri : Bool) (min max : ℚ) : Advection :=
  SetPeriodicity 1 A isPeri min max

/-- The method `Advection::SetZPeriodicity` (lines 514-522). -/
def SetZPeriodicity (A : Advection) (isPeri : Bool) (min max : ℚ) : Advection :=
  SetPeriodicity 2 A isPeri min max

/-- The states reachable from a freshly constructed `Advection` by calls, in any
order, of the seeding, integration, scalar and periodicity methods that
return. -/
inductive Reachable (c : Codes) (G : Glm) : Advection → Prop where
  | fresh (lowerAngleCos upperAngleCos : ℚ) :
      Reachable c G (Advection.ctor lowerAngleCos upperAngleCos)
  | useSeedParticles (A : Advection) (seeds : List Particle) :
      Reachable c G A → Reachable c G (UseSeedParticles A seeds)
  | advectOneStep (A A1 : Advection) (fuel : Nat) (velocity : Field) (deltaT : ℚ)
      (method : ADVECTION_METHOD) (rv : Int) :
      Reachable c G A → AdvectOneStep c fuel G A velocity deltaT method = .ok (rv, A1) →
      Reachable c G A1
  | advectTillTime (A A1 : Advection) (fuel : Nat) (velocity : Field) (deltaT targetT : ℚ)
      (method : ADVECTION_METHOD) (rv : Int) :
      Reachable c G A →
      AdvectTillTime c fuel G A velocity deltaT targetT method = .ok (rv, A1) →
      Reachable c G A1
  | calculateParticleValues (A A1 : Advection) (scalar : Field) (skipNonZero : Bool) (rv : Int) :
      Reachable c G A → CalculateParticleValues scalar skipNonZero A = .ok (rv, A1) →
      Reachable c G A1
  | calculateParticleProperties (A A1 : Advection) (scalar : Field) (rv : Int) :
      Reachable c G A → CalculateParticleProperties scalar A = .ok (rv, A1) →
      Reachable c G A1
  | resetParticleValues (A : Advection) :
      Reachable c G A → Reachable c G (ResetParticleValues A)
  | clearParticleProperties (A : Advection) :
      Reachable c G A → Reachable c G (ClearParticleProperties A)
  | setPeriodicity (A : Advection) (i : Fin 3) (isPeri : Bool) (min max : ℚ) :
      Reachable c G A → Reachable c G (SetPeriodicity i A isPeri min max)

/-- The states reachable from `UseSeedParticles` with seeds that are not special
by calls of `AdvectOneStep` and of `AdvectTillTime` that return, for any field,
step, method and periodicity. -/
inductive Advected (c : Codes) (G : Glm) : Advection → Prop where
  | seeded (A : Advection) (seeds : List Particle) :
      (∀ p ∈ seeds, p.isSpecial = false) → Advected c G (UseSeedParticles A seeds)
  | advectOneStep (A A1 : Advection) (fuel : Nat) (velocity : Field) (deltaT : ℚ)
      (method : ADVECTION_METHOD) (rv : Int) :
      Advected c G A → AdvectOneStep c fuel G A velocity deltaT method = .ok (rv, A1) →
      Advected c G A1
  | advectTillTime (A A1 : Advection) (fuel : Nat) (velocity : Field) (deltaT targetT : ℚ)
      (method : ADVECTION_METHOD) (rv : Int) :
      Advected c G A →
      AdvectTillTime c fuel G A velocity deltaT targetT method = .ok (rv, A1) →
      Advected c G A1

/-- The text functions of the C and C++ standard libraries that the import and
the export call: `stof` stands for `std::stof`, with `none` for the exception
`std::invalid_argument`, and `printf_f` for the rendering of one `%f` field by
`std::fprintf`. The other exception of `std::stof`, `std::out_of_range`, which
the import does not catch, is that of `StofOutcome` and of the definitions of
`throwing`. -/
structure TextLib where
  stof : List Char → Option ℚ
  printf_f : ℚ → List Char

/-- Modelled from the spec: the constructor `Particle( const float* loc, float t )`
of `vapor/Particle.h`, called on `values.data()`: the location is made of the
first three values, the value is 0, the particle is not special. -/
def Particle.ofArray (loc : List ℚ) (t : ℚ) : Particle :=
  ⟨⟨loc.getD 0 0, loc.getD 1 0, loc.getD 2 0⟩, t, 0, false, []⟩

/-- The lines that successive calls of `std::getline` extract from a text,
`cur` being the part of the current line already read. -/
def getLines.go : List Char → List Char → List (List Char)
  | cur, [] => if cur.isEmpty then [] else [cur]
  | cur, ch :: rest =>
    if ch = '\n' then cur :: getLines.go [] rest else getLines.go (cur ++ [ch]) rest

/-- The lines that the loop `while( std::getline( ifs, line ) )` visits. -/
def getLines (text : List Char) : List (List Char) := getLines.go [] text

/-- Membership in the set `" \t"` given to `find_first_not_of`. -/
def isBlankChar (ch : Char) : Bool := ch == ' ' || ch == '\t'

/-- Lines 398-400: `found = line.find_first_not_of( " \t" )`, and
`line = line.substr( found, ... )` when `found != npos`. -/
def trimLeading (line : List Char) : List Char :=
  match line.dropWhile isBlankChar with
  | [] => line
  | first :: rest => first :: rest

/-- The call `line.find( ',', start )` followed by `line.substr( start, end - start )`:
the text before the next comma and the text after it, or `none` when no comma
is left (`end == npos`). -/
def splitComma : List Char → Option (List Char × List Char)
  | [] => none
  | ch :: rest =>
    if ch = ',' then some ([], rest)
    else
      match splitComma rest with
      | none => none
      | some (str, after) => some (ch :: str, after)

/-- The loop `while( end != npos && values.size() < 4 )` of lines 414-429 on the
text that starts at `start`, with `n` values still accepted; `none` when
`std::stof` throws. -/
def InputStreamsGnuplot.values (stof : List Char → Option ℚ) : Nat → List Char → Option (List ℚ)
  | 0, _ => some []
  | n + 1, text =>
    match splitComma text with
    | none => some []
    | some (str, after) =>
      match stof str with
      | none => none
      | some val =>
        match InputStreamsGnuplot.values stof n after with
        | none => none
        | some vals => some (val :: vals)

/-- What one iteration of the loop over the lines does with its line. -/
inductive LineResult where
  | skipped
  | seed (p : Particle)
  | fileError
  deriving DecidableEq, Repr

/-- The body of the loop over the lines of `InputStreamsGnuplot` (lines 397-440). -/
def InputStreamsGnuplot.line (stof : List Char → Option ℚ) (line : List Char) : LineResult :=
  let line := trimLeading line
  if line.isEmpty then .skipped
  else if line.head? = some '#' then .skipped
  else
    match InputStreamsGnuplot.values stof 4 (line ++ [',']) with
    | none => .fileError
    | some values =>
      if values.length < 3 then .fileError
      else if values.length = 3 then .seed (Particle.ofArray values 0)
      else .seed (Particle.ofArray values (values.getD 3 0))

/-- The loop `while( std::getline( ifs, line ) )` of `InputStreamsGnuplot` with
its vector `newSeeds`; `none` when the loop returns `FILE_ERROR`. -/
def InputStreamsGnuplot.lines (stof : List Char → Option ℚ) :
    List (List Char) → List Particle → Option (List Particle)
  | [], newSeeds => some newSeeds
  | line :: rest, newSeeds =>
    match InputStreamsGnuplot.line stof line with
    | .skipped => InputStreamsGnuplot.lines stof rest newSeeds
    | .seed p => InputStreamsGnuplot.lines stof rest (newSeeds ++ [p])
    | .fileError => none

/-- The method `Advection::InputStreamsGnuplot` (lines 385-448). The file is
given by its content, `none` when it cannot be opened. -/
def InputStreamsGnuplot (c : Codes) (T : TextLib) (file : Option (List Char)) (A : Advection) :
    Int × Advection :=
  match file with
  | none => (c.FILE_ERROR, A)
  | some text =>
    match InputStreamsGnuplot.lines T.stof (getLines text) [] with
    | none => (c.FILE_ERROR, A)
    | some newSeeds =>
      if !newSeeds.isEmpty then (0, UseSeedParticles A newSeeds) else (0, A)

/-- The header line written by `OutputStreamsGnuplot` (line 369). -/
def OutputStreamsGnuplot.header : List Char :=
  "# X-position      Y-position      Z-position     Time     Value".toList

/-- The text written for one particle (lines 374-376): nothing for a special
particle, else the five fields of `"%f, %f, %f, %f, %f\n"`. -/
def OutputStreamsGnuplot.particle (T : TextLib) (p : Particle) : List Char :=
  if !p.IsSpecial then
    T.printf_f p.location.x ++ [',', ' '] ++ T.printf_f p.location.y ++ [',', ' '] ++
      T.printf_f p.location.z ++ [',', ' '] ++ T.printf_f p.time ++ [',', ' '] ++
      T.printf_f p.value ++ ['\n']
  else []

/-- The loop `for( const auto& p : s )` of the export. -/
def OutputStreamsGnuplot.particles (T : TextLib) : List Particle → List Char
  | [] => []
  | p :: rest => OutputStreamsGnuplot.particle T p ++ OutputStreamsGnuplot.particles T rest

/-- The loop `for( const auto& s : _streams )` of the export: the lines of each
stream, then `"\n\n"`. -/
def OutputStreamsGnuplot.streams (T : TextLib) : List (List Particle) → List Char
  | [] => []
  | s :: rest =>
    OutputStreamsGnuplot.particles T s ++ ['\n', '\n'] ++ OutputStreamsGnuplot.streams T rest

/-- The text that `OutputStreamsGnuplot` writes to the file it opened. -/
def OutputStreamsGnuplot.text (T : TextLib) (A : Advection) : List Char :=
  OutputStreamsGnuplot.header ++ ['\n'] ++ OutputStreamsGnuplot.streams T A._streams

/-- The method `Advection::OutputStreamsGnuplot` (lines 351-383): the returned
status and, when the file was written, its new content. `opens` tells whether
`std::fopen` succeeds, `old` is the previous content of the file. -/
def OutputStreamsGnuplot (c : Codes) (T : TextLib) (A : Advection) (filename : List Char)
    (append : Bool) (opens : Bool) (old : List Char) : Int × Option (List Char) :=
  if filename.isEmpty then (c.FILE_ERROR, none)
  else if !opens then (c.FILE_ERROR, none)
  else (0, some ((if append then old else []) ++ OutputStreamsGnuplot.text T A))

/-- The comma-separated fields of a line. -/
def commaTokens : List Char → List (List Char)
  | [] => [[]]
  | ch :: rest =>
    if ch = ',' then [] :: commaTokens rest
    else
      match commaTokens rest with
      | [] => [[ch]]
      | str :: strs => (ch :: str) :: strs

/-- The values of a list of fields, `none` when one of them is not parsable. -/
def parseAll (stof : List Char → Option ℚ) : List (List Char) → Option (List ℚ)
  | [] => some []
  | str :: strs =>
    match stof str with
    | none => none
    | some val =>
      match parseAll stof strs with
      | none => none
      | some vals => some (val :: vals)

/-- A blank line: empty, or made only of spaces and tabs. -/
def isBlankLine (line : List Char) : Bool := line.all isBlankChar

/-- A comment line: its first character that is neither a space nor a tab is `#`. -/
def isCommentLine (line : List Char) : Bool := (line.dropWhile isBlankChar).head? == some '#'

/-- A data line: neither blank nor a comment. -/
def isDataLine (line : List Char) : Bool := !isBlankLine line && !isCommentLine line

/-- The seed that the import draws from a line, if any. -/
def InputStreamsGnuplot.seedOf (stof : List Char → Option ℚ) (line : List Char) :
    Option Particle :=
  match InputStreamsGnuplot.line stof line with
  | .seed p => some p
  | _ => none

/-- The particle described by a data line: location = the first three values,
time = the fourth value if present, else 0; the values after the fourth are
ignored. -/
def seedOfFields (stof : List Char → Option ℚ) (line : List Char) : Particle :=
  Particle.ofArray (((commaTokens (trimLeading line)).take 4).map fun str => (stof str).getD 0)
    ((((commaTokens (trimLeading line)).take 4).map fun str => (stof str).getD 0).getD 3 0)

/-- A data line with at least 3 fields whose first four fields (all of them when
there are fewer) are parsable. -/
def wellFormedLine (stof : List Char → Option ℚ) (line : List Char) : Prop :=
  3 ≤ (commaTokens (trimLeading line)).length ∧
  ∀ str ∈ (commaTokens (trimLeading line)).take 4, (stof str).isSome = true

/-- The particles that are written by the export, in the order of the file. -/
def exported (A : Advection) : List Particle :=
  A._streams.flatten.filter fun p => !p.IsSpecial

/-- The line written by the export for a particle that is not special, without
its end of line. -/
def exportedLine (T : TextLib) (p : Particle) : List Char :=
  T.printf_f p.location.x ++ [',', ' '] ++ T.printf_f p.location.y ++ [',', ' '] ++
    T.printf_f p.location.z ++ [',', ' '] ++ T.printf_f p.time ++ [',', ' '] ++
    T.printf_f p.value

/-- The lines that the export writes after its header: for each stream the
lines of its particles that are not special, then two empty lines. -/
def exportedLines (T : TextLib) : List (List Particle) → List (List Char)
  | [] => []
  | s :: rest =>
    (s.filter fun p => !p.IsSpecial).map (exportedLine T) ++ [[], []] ++ exportedLines T rest

/-- The seed read back from the line written for `p`: the values that `stof`
gives to the first four fields of the line. -/
def reimported (T : TextLib) (p : Particle) : Particle :=
  ⟨⟨(T.stof (T.printf_f p.location.x)).getD 0, (T.stof (' ' :: T.printf_f p.location.y)).getD 0,
    (T.stof (' ' :: T.printf_f p.location.z)).getD 0⟩,
    (T.stof (' ' :: T.printf_f p.time)).getD 0, 0, false, []⟩

/-- The rendering of `x` by `%f` is a plain number: it holds no comma and no end
of line, it starts with a character that is neither a blank nor `#`, and `stof`
parses it, also after a space. -/
def printable (T : TextLib) (x : ℚ) : Bool :=
  !(T.printf_f x).contains ',' && !(T.printf_f x).contains '\n' &&
    (T.stof (T.printf_f x)).isSome && (T.stof (' ' :: T.printf_f x)).isSome &&
    match T.printf_f x with
    | [] => false
    | first :: _ => !isBlankChar first && first != '#'

/-- The five fields written for the particle are plain numbers. -/
def printableParticle (T : TextLib) (p : Particle) : Bool :=
  printable T p.location.x && printable T p.location.y && printable T p.location.z &&
    printable T p.time && printable T p.value

/-- Number of particles of a stream that are not separators. An integration
step appends one such particle; the periodic correction inserts a special one
and relocates the last particle, leaving this number unchanged. -/
def physicalCount (s : List Particle) : Nat := s.countP fun p => !p.IsSpecial

/-- The histories of one stream within a call of `AdvectTillTime`: the stream
`s` becomes `s1` by periodic corrections of its last particle (a separator is
inserted before the relocated particle) and by integration steps, each of them
taken from a last particle whose time is below `targetT` and appending the
integrated particle. -/
inductive TillTimeHistory (fuel : Nat) (G : Glm) (A : Advection) (velocity : Field)
    (deltaT targetT : ℚ) (method : ADVECTION_METHOD) : List Particle → List Particle → Prop where
  | stop (s : List Particle) : TillTimeHistory fuel G A velocity deltaT targetT method s s
  | wrap (s s1 : List Particle) (p0 : Particle) (loc : Vec3) :
      s.getLast? = some p0 → p0.time < targetT →
      velocity.InsideVolumeVelocity p0.time p0.location = false →
      wrapLocation fuel A p0.location = .ok (loc, true) →
      velocity.InsideVolumeVelocity p0.time loc = true →
      TillTimeHistory fuel G A velocity deltaT targetT method
        (s.dropLast ++ [separator, { p0 with location := loc }]) s1 →
      TillTimeHistory fuel G A velocity deltaT targetT method s s1
  | step (s s1 : List Particle) (p0 p1 : Particle) :
      s.getLast? = some p0 → p0.time < targetT →
      velocity.InsideVolumeVelocity p0.time p0.location = true →
      advect method velocity p0 (AdvectTillTime.stepSize G A deltaT s p0) Particle.default =
        .ok (0, p1) →
      TillTimeHistory fuel G A velocity deltaT targetT method (s ++ [p1]) s1 →
      TillTimeHistory fuel G A velocity deltaT targetT method s s1

/-- The reasons for which `AdvectTillTime` leaves the stream `s` before its last
particle `p` has reached the target time: `p` is outside the domain and the
periodic correction does not bring it back (no periodic axis, or a corrected
location still outside), or the integration step from `p` failed. -/
def StoppedEarly (fuel : Nat) (G : Glm) (A : Advection) (velocity : Field) (deltaT : ℚ)
    (method : ADVECTION_METHOD) (s : List Particle) (p : Particle) : Prop :=
  (velocity.InsideVolumeVelocity p.time p.location = false ∧
    ∃ (loc : Vec3) (ch : Bool), wrapLocation fuel A p.location = .ok (loc, ch) ∧
      (ch = false ∨ velocity.InsideVolumeVelocity p.time loc = false)) ∨
  (velocity.InsideVolumeVelocity p.time p.location = true ∧
    ∃ (st : Int) (p1 : Particle), st ≠ 0 ∧
      advect method velocity p (AdvectTillTime.stepSize G A deltaT s p) Particle.default =
        .ok (st, p1))

/-- The product of the lengths of the segments `p2 -> p1` and `p1 -> p0`. -/
def segmentProduct (G : Glm) (p2 p1 p0 : Particle) : ℚ :=
  G.length (p1.location.sub p2.location) * G.length (p0.location.sub p1.location)

/-- The cosine of the turning angle between the segments `p2 -> p1` and
`p1 -> p0`. The angle is at most a given one exactly when its cosine is at least
the cosine of that angle. -/
def turnCosine (G : Glm) (p2 p1 p0 : Particle) : ℚ :=
  Vec3.dot (p1.location.sub p2.location) (p0.location.sub p1.location) /
    segmentProduct G p2 p1 p0

/-- The call with result `r` finishes: it is not cut short by the bound put on
the iterations of its loops, and it returns a value when no assertion can
fire. -/
def Finishes {α : Type} (noAssert : Prop) (r : Except Halt α) : Prop :=
  r ≠ .error .outOfFuel ∧ (noAssert → ∃ a : α, r = .ok a)

/-- The order of two consecutive particles of a stream: when neither is a
separator, the second one is later than the first. -/
def TimeOrdered (a b : Particle) : Prop :=
  a.isSpecial = false → b.isSpecial = false → a.time < b.time

/-- The states reachable from `UseSeedParticles` by calls of `AdvectOneStep` and
of `AdvectTillTime` that return and are made with a positive `deltaT`, for any
field, method and periodicity. -/
inductive AdvectedForward (c : Codes) (G : Glm) : Advection → Prop where
  | seeded (A : Advection) (seeds : List Particle) :
      AdvectedForward c G (UseSeedParticles A seeds)
  | advectOneStep (A A1 : Advection) (fuel : Nat) (velocity : Field) (deltaT : ℚ)
      (method : ADVECTION_METHOD) (rv : Int) :
      AdvectedForward c G A → 0 < deltaT →
      AdvectOneStep c fuel G A velocity deltaT method = .ok (rv, A1) →
      AdvectedForward c G A1
  | advectTillTime (A A1 : Advection) (fuel : Nat) (velocity : Field) (deltaT targetT : ℚ)
      (method : ADVECTION_METHOD) (rv : Int) :
      AdvectedForward c G A → 0 < deltaT →
      AdvectTillTime c fuel G A velocity deltaT targetT method = .ok (rv, A1) →
      AdvectedForward c G A1

/-! ## Text import with both exceptions of `std::stof` -/

/-- What a call of `std::stof` does: it returns a value, or throws
`std::invalid_argument` (no conversion could be performed), or throws
`std::out_of_range` (the converted value is outside the range of `float`). -/
inductive StofOutcome where
  | value (val : ℚ)
  | invalid_argument
  | out_of_range
  deriving DecidableEq, Repr

/-- An exception that no handler of `InputStreamsGnuplot` catches, and that leaves
the method: the only handler of the method is
`catch( const std::invalid_argument& e )` (line 421). -/
inductive Uncaught where
  | out_of_range
  deriving DecidableEq, Repr

namespace throwing

/-- The loop `while( end != npos && values.size() < 4 )` of lines 414-429 on the
text that starts at `start`, with `n` values still accepted: `.ok none` when
`std::stof` throws `std::invalid_argument`, which the handler of line 421 turns into
`return FILE_ERROR`, and `.error` when it throws `std::out_of_range`, which is not
caught. -/
def InputStreamsGnuplot.values (stof : List Char → StofOutcome) :
    Nat → List Char → Except Uncaught (Option (List ℚ))
  | 0, _ => .ok (some [])
  | n + 1, text =>
    match splitComma text with
    | none => .ok (some [])
    | some (str, after) =>
      match stof str with
      | .out_of_range => .error .out_of_range
      | .invalid_argument => .ok none
      | .value val =>
        match InputStreamsGnuplot.values stof n after with
        | .error e => .error e
        | .ok none => .ok none
        | .ok (some vals) => .ok (some (val :: vals))

/-- The body of the loop over the lines of `InputStreamsGnuplot` (lines 397-440). -/
def InputStreamsGnuplot.line (stof : List Char → StofOutcome) (line : List Char) :
    Except Uncaught LineResult :=
  let line := trimLeading line
  if line.isEmpty then .ok .skipped
  else if line.head? = some '#' then .ok .skipped
  else
    match InputStreamsGnuplot.values stof 4 (line ++ [',']) with
    | .error e => .error e
    | .ok none => .ok .fileError
    | .ok (some values) =>
      if values.length < 3 then .ok .fileError
      else if values.length = 3 then .ok (.seed (Particle.ofArray values 0))
      else .ok (.seed (Particle.ofArray values (values.getD 3 0)))

/-- The loop `while( std::getline( ifs, line ) )` of `InputStreamsGnuplot` with
its vector `newSeeds`; `.ok none` when the loop returns `FILE_ERROR`. -/
def InputStreamsGnuplot.lines (stof : List Char → StofOutcome) :
    List (List Char) → List Particle → Except Uncaught (Option (List Particle))
  | [], newSeeds => .ok (some newSeeds)
  | line :: rest, newSeeds =>
    match InputStreamsGnuplot.line stof line with
    | .error e => .error e
    | .ok .skipped => InputStreamsGnuplot.lines stof rest newSeeds
    | .ok (.seed p) => InputStreamsGnuplot.lines stof rest (newSeeds ++ [p])
    | .ok .fileError => .ok none

/-- The method `Advection::InputStreamsGnuplot` (lines 385-448) with both exceptions
of `std::stof`: the status and the state when the method returns, `.error` when an
exception leaves it. The file is given by its content, `none` when it cannot be
opened. -/
def InputStreamsGnuplot (c : Codes) (stof : List Char → StofOutcome)
    (file : Option (List Char)) (A : Advection) : Except Uncaught (Int × Advection) :=
  match file with
  | none => .ok (c.FILE_ERROR, A)
  | some text =>
    match InputStreamsGnuplot.lines stof (getLines text) [] with
    | .error e => .error e
    | .ok none => .ok (c.FILE_ERROR, A)
    | .ok (some newSeeds) =>
      if !newSeeds.isEmpty then .ok (0, UseSeedParticles A newSeeds) else .ok (0, A)

/-- The outcomes of `std::stof` on a list of fields, read in order until one of them
throws. -/
def parseAll (stof : List Char → StofOutcome) :
    List (List Char) → Except Uncaught (Option (List ℚ))
  | [] => .ok (some [])
  | str :: strs =>
    match stof str with
    | .out_of_range => .error .out_of_range
    | .invalid_argument => .ok none
    | .value val =>
      match parseAll stof strs with
      | .error e => .error e
      | .ok none => .ok none
      | .ok (some vals) => .ok (some (val :: vals))

end throwing

/-! ## Binary32 arithmetic

The definitions above compute with exact rationals. The ones below take the
rounding `fl` applied to the result of every floating-point operation of the
source; with `binary32` for `fl` they compute what the C++ `float` computes, as
long as no overflow occurs. -/

/-- The integer nearest to `y`, the even one of the two when `y` is halfway. -/
def roundHalfEven (y : ℚ) : Int :=
  if y - ⌊y⌋ < 1 / 2 then ⌊y⌋
  else if 1 / 2 < y - ⌊y⌋ then ⌊y⌋ + 1
  else if ⌊y⌋ % 2 = 0 then ⌊y⌋ else ⌊y⌋ + 1

/-- The binary32 value nearest to `x` (round to nearest, ties to even): 24
significant bits, the exponent of the leading bit being at least `-126`. The
overflow to infinity is outside the model. -/
def binary32 (x : ℚ) : ℚ :=
  roundHalfEven (x / 2 ^ (max (Int.log 2 |x|) (-126) - 23)) *
    2 ^ (max (Int.log 2 |x|) (-126) - 23)

/-- Component-wise sum `a + b` on `glm::vec3`, each component rounded. -/
def Vec3.addR (fl : ℚ → ℚ) (a b : Vec3) : Vec3 := ⟨fl (a.x + b.x), fl (a.y + b.y), fl (a.z + b.z)⟩

/-- Component-wise difference `a - b` on `glm::vec3`, each component rounded. -/
def Vec3.subR (fl : ℚ → ℚ) (a b : Vec3) : Vec3 := ⟨fl (a.x - b.x), fl (a.y - b.y), fl (a.z - b.z)⟩

/-- Scaling `k * a` on `glm::vec3`, each component rounded. -/
def Vec3.smulR (fl : ℚ → ℚ) (k : ℚ) (a : Vec3) : Vec3 := ⟨fl (k * a.x), fl (k * a.y), fl (k * a.z)⟩

/-- The product `glm::dot( a, b )`, the sum of the three rounded products taken
from left to right. -/
def Vec3.dotR (fl : ℚ → ℚ) (a b : Vec3) : ℚ :=
  fl (fl (fl (a.x * b.x) + fl (a.y * b.y)) + fl (a.z * b.z))

namespace rounded

/-- The loop `while( pval < min ) pval += span;` of `_applyPeriodic`, run for at
most `fuel` iterations, the sum being rounded. -/
def _applyPeriodic.up (fl : ℚ → ℚ) (span min : ℚ) : Nat → ℚ → Except Halt ℚ
  | 0, pval => if pval < min then .error .outOfFuel else .ok pval
  | fuel + 1, pval =>
    if pval < min then _applyPeriodic.up fl span min fuel (fl (pval + span)) else .ok pval

/-- The loop `while( pval > max ) pval -= span;` of `_applyPeriodic`, run for at
most `fuel` iterations, the difference being rounded. -/
def _applyPeriodic.down (fl : ℚ → ℚ) (span max : ℚ) : Nat → ℚ → Except Halt ℚ
  | 0, pval => if pval > max then .error .outOfFuel else .ok pval
  | fuel + 1, pval =>
    if pval > max then _applyPeriodic.down fl span max fuel (fl (pval - span)) else .ok pval

/-- The method `Advection::_applyPeriodic` (lines 524-543) with rounded
operations. -/
def _applyPeriodic (fl : ℚ → ℚ) (fuel : Nat) (val min max : ℚ) : Except Halt ℚ :=
  let span := fl (max - min)
  let pval := val
  if val ≥ min ∧ val ≤ max then .ok pval
  else if val < min then _applyPeriodic.up fl span min fuel pval
  else _applyPeriodic.down fl span max fuel pval

/-- One iteration of the loop over the three axes (lines 71-78 and 170-177):
the pair is `(loc, locChanged)`. -/
def wrapAxis (fl : ℚ → ℚ) (fuel : Nat) (A : Advection) (i : Fin 3) (acc : Vec3 × Bool) :
    Except Halt (Vec3 × Bool) :=
  if A._isPeriodic.get i then do
    let v ← _applyPeriodic fl fuel (acc.1.get i) (A._periodicBounds.get i).1
      (A._periodicBounds.get i).2
    pure (acc.1.set i v, true)
  else pure acc

/-- The loop `for( int i = 0; i < 3; i++ )` that corrects the coordinates along
the periodic dimensions; returns `(loc, locChanged)`. -/
def wrapLocation (fl : ℚ → ℚ) (fuel : Nat) (A : Advection) (loc : Vec3) :
    Except Halt (Vec3 × Bool) := do
  let r0 ← wrapAxis fl fuel A 0 (loc, false)
  let r1 ← wrapAxis fl fuel A 1 r0
  wrapAxis fl fuel A 2 r1

/-- The method `Advection::_advectEuler` (lines 297-306) with rounded
operations: `dt * v0`, the sum of the locations and `p0.time + dt`. -/
def _advectEuler (fl : ℚ → ℚ) (velocity : Field) (p0 : Particle) (dt : ℚ) (p1 : Particle) :
    Except Halt (Int × Particle) :=
  let (rv, v0) := velocity.GetVelocity p0.time p0.location
  if rv ≠ 0 then .error .assertFailed
  else .ok (0, { p1 with
    location := Vec3.addR fl p0.location (Vec3.smulR fl dt v0),
    time := fl (p0.time + dt) })

/-- The method `Advection::_advectRK4` (lines 308-328) with rounded
operations. -/
def _advectRK4 (fl : ℚ → ℚ) (velocity : Field) (p0 : Particle) (dt : ℚ) (p1 : Particle) :
    Except Halt (Int × Particle) :=
  let dt2 := fl (dt * (1 / 2))
  let (rv1, k1) := velocity.GetVelocity p0.time p0.location
  if rv1 ≠ 0 then .error .assertFailed
  else
    let (rv2, k2) := velocity.GetVelocity (fl (p0.time + dt2))
      (Vec3.addR fl p0.location (Vec3.smulR fl dt2 k1))
    if rv2 ≠ 0 then .ok (rv2, p1)
    else
      let (rv3, k3) := velocity.GetVelocity (fl (p0.time + dt2))
        (Vec3.addR fl p0.location (Vec3.smulR fl dt2 k2))
      if rv3 ≠ 0 then .ok (rv3, p1)
      else
        let (rv4, k4) := velocity.GetVelocity (fl (p0.time + dt))
          (Vec3.addR fl p0.location (Vec3.smulR fl dt k3))
        if rv4 ≠ 0 then .ok (rv4, p1)
        else
          .ok (0, { p1 with
            location := Vec3.addR fl p0.location
              (Vec3.smulR fl (fl (dt / 6))
                (Vec3.addR fl (Vec3.addR fl k1 (Vec3.smulR fl 2 (Vec3.addR fl k2 k3))) k4)),
            time := fl (p0.time + dt) })

/-- The `switch (method)` of lines 125-131 and 213-219. -/
def advect (fl : ℚ → ℚ) (method : ADVECTION_METHOD) (velocity : Field) (p0 : Particle)
    (dt : ℚ) (p1 : Particle) : Except Halt (Int × Particle) :=
  match method with
  | .EULER => _advectEuler fl velocity p0 dt p1
  | .RK4 => _advectRK4 fl velocity p0 dt p1

/-- The method `Advection::_calcAdjustFactor` (lines 330-349) with rounded
operations; the three values it returns are binary32 numbers. -/
def _calcAdjustFactor (fl : ℚ → ℚ) (G : Glm) (A : Advection) (p2 p1 p0 : Particle) : ℚ :=
  let p2p1 := Vec3.subR fl p1.location p2.location
  let p1p0 := Vec3.subR fl p0.location p1.location
  let denominator := fl (G.length p2p1 * G.length p1p0)
  if denominator < 1 / 10000000 then 1
  else
    let cosine := fl (Vec3.dotR fl p2p1 p1p0 / denominator)
    if cosine > A._lowerAngleCos then 5 / 4
    else if cosine < A._upperAngleCos then 1 / 2
    else 1

/-- The step size of `AdvectOneStep` (lines 105-121) with rounded operations. -/
def AdvectOneStep.stepSize (fl : ℚ → ℚ) (G : Glm) (A : Advection) (deltaT : ℚ)
    (s : List Particle) (past0 : Particle) : ℚ :=
  let dt := deltaT
  let mindt := fl (deltaT / 20)
  let maxdt := fl (deltaT * 50)
  if s.length > 2 then
    match s[s.length - 2]?, s[s.length - 3]? with
    | some past1, some past2 =>
      if (!past1.IsSpecial) && (!past2.IsSpecial) then
        let dt := fl (past0.time - past1.time)
        let dt := fl (dt * _calcAdjustFactor fl G A past2 past1 past0)
        if dt > 0 then glmClamp dt mindt maxdt else glmClamp dt maxdt mindt
      else dt
    | _, _ => dt
  else dt

/-- Lines 63-103 of `AdvectOneStep`, as `flow.AdvectOneStep.wrap`, with the
rounded periodic correction. -/
def AdvectOneStep.wrap (fl : ℚ → ℚ) (fuel : Nat) (A : Advection) (velocity : Field)
    (s : List Particle) (p0 : Particle) (v : LoopVars) :
    Except Halt (Option (List Particle × LoopVars)) :=
  if !velocity.InsideVolumeVelocity p0.time p0.location then do
    let (loc, locChanged) ← wrapLocation fl fuel A p0.location
    if !locChanged then pure none
    else if velocity.InsideVolumeVelocity p0.time loc then
      pure (some (s.dropLast ++ [separator, { p0 with location := loc }],
        { v with separatorCount := incrementAt v.separatorCount v.streamIdx }))
    else pure none
  else pure (some (s, v))

/-- Lines 105-140 of `AdvectOneStep` with rounded operations. -/
def AdvectOneStep.integrate (fl : ℚ → ℚ) (G : Glm) (A : Advection) (velocity : Field)
    (deltaT : ℚ) (method : ADVECTION_METHOD) (s : List Particle) (past0 : Particle)
    (v : LoopVars) : Except Halt (List Particle × LoopVars) := do
  let dt := AdvectOneStep.stepSize fl G A deltaT s past0
  let (rv, p1) ← advect fl method velocity past0 dt Particle.default
  if rv ≠ 0 then pure (s, v)
  else pure (s ++ [p1], { v with happened := true, streamIdx := v.streamIdx + 1 })

/-- The body of the loop over the streams of `AdvectOneStep` (lines 62-141) with
rounded operations. -/
def AdvectOneStep.body (fl : ℚ → ℚ) (fuel : Nat) (G : Glm) (A : Advection) (velocity : Field)
    (deltaT : ℚ) (method : ADVECTION_METHOD) (s : List Particle) (v : LoopVars) :
    Except Halt (List Particle × LoopVars) :=
  match s.getLast? with
  | none => pure (s, v)
  | some p0 => do
    match ← AdvectOneStep.wrap fl fuel A velocity s p0 v with
    | none => pure (s, v)
    | some (s1, v1) =>
      match s1.getLast? with
      | none => pure (s1, v1)
      | some past0 => AdvectOneStep.integrate fl G A velocity deltaT method s1 past0 v1

/-- The loop `for( auto& s : _streams )` of `AdvectOneStep`. -/
def AdvectOneStep.loop (fl : ℚ → ℚ) (fuel : Nat) (G : Glm) (A : Advection) (velocity : Field)
    (deltaT : ℚ) (method : ADVECTION_METHOD) : List (List Particle) → LoopVars →
    Except Halt (List (List Particle) × LoopVars)
  | [], v => pure ([], v)
  | s :: rest, v => do
    let (s1, v1) ← AdvectOneStep.body fl fuel G A velocity deltaT method s v
    let (rest1, v2) ← AdvectOneStep.loop fl fuel G A velocity deltaT method rest v1
    pure (s1 :: rest1, v2)

/-- The method `Advection::AdvectOneStep` (lines 52-147) with rounded
operations: the returned status and the state after the call. -/
def AdvectOneStep (fl : ℚ → ℚ) (c : Codes) (fuel : Nat) (G : Glm) (A : Advection)
    (velocity : Field) (deltaT : ℚ) (method : ADVECTION_METHOD) :
    Except Halt (Int × Advection) :=
  let ready := CheckReady c A
  if ready ≠ 0 then pure (ready, A)
  else do
    let (streams, v) ← AdvectOneStep.loop fl fuel G A velocity deltaT method A._streams
      ⟨false, 0, A._separatorCount⟩
    pure (if v.happened then c.ADVECT_HAPPENED else 0,
      { A with _streams := streams, _separatorCount := v.separatorCount })

/-- The step size of `AdvectTillTime` (lines 196-209) with rounded operations. -/
def AdvectTillTime.stepSize (fl : ℚ → ℚ) (G : Glm) (A : Advection) (deltaT : ℚ)
    (s : List Particle) (p0 : Particle) : ℚ :=
  let dt := deltaT
  let mindt := fl (deltaT / 20)
  let maxdt := fl (deltaT * 50)
  if s.length > 2 then
    match s[s.length - 2]?, s[s.length - 3]? with
    | some past1, some past2 =>
      if (!past1.IsSpecial) && (!past2.IsSpecial) then
        let dt := fl (p0.time - past1.time)
        let dt := if dt < maxdt then dt else maxdt
        let dt := if dt > mindt then dt else mindt
        fl (dt * _calcAdjustFactor fl G A past2 past1 p0)
      else dt
    | _, _ => dt
  else dt

/-- Lines 163-194 of `AdvectTillTime`, as `flow.AdvectTillTime.wrap`, with the
rounded periodic correction. -/
def AdvectTillTime.wrap (fl : ℚ → ℚ) (fuel : Nat) (A : Advection) (velocity : Field)
    (s : List Particle) (p0 : Particle) (v : LoopVars) :
    Except Halt (Option (List Particle × Particle × LoopVars)) :=
  if !velocity.InsideVolumeVelocity p0.time p0.location then
    match s.getLast? with
    | none => pure none
    | some last => do
      let (loc, locChanged) ← wrapLocation fl fuel A last.location
      if !locChanged then pure none
      else if velocity.InsideVolumeVelocity p0.time loc then
        pure (some (s.dropLast ++ [separator, { last with location := loc }],
          { last with location := loc },
          { v with separatorCount := incrementAt v.separatorCount v.streamIdx }))
      else pure none
  else pure (some (s, p0, v))

/-- The loop `while( p0.time < targetT )` of `AdvectTillTime` (lines 161-230)
with rounded operations, run for at most `n` iterations. -/
def AdvectTillTime.whileLoop (fl : ℚ → ℚ) (fuel : Nat) (G : Glm) (A : Advection)
    (velocity : Field) (deltaT targetT : ℚ) (method : ADVECTION_METHOD) :
    Nat → List Particle → Particle → LoopVars → Except Halt (List Particle × LoopVars)
  | 0, s, p0, v => if p0.time < targetT then .error .outOfFuel else pure (s, v)
  | n + 1, s, p0, v =>
    if p0.time < targetT then do
      match ← AdvectTillTime.wrap fl fuel A velocity s p0 v with
      | none => pure (s, v)
      | some (s1, q0, v1) =>
        let dt := AdvectTillTime.stepSize fl G A deltaT s1 q0
        let (rv, p1) ← advect fl method velocity q0 dt Particle.default
        if rv ≠ 0 then pure (s1, v1)
        else
          AdvectTillTime.whileLoop fl fuel G A velocity deltaT targetT method n (s1 ++ [p1]) p1
            { v1 with happened := true }
    else pure (s, v)

/-- The body of the loop over the streams of `AdvectTillTime` (lines 159-232)
with rounded operations. -/
def AdvectTillTime.body (fl : ℚ → ℚ) (fuel : Nat) (G : Glm) (A : Advection) (velocity : Field)
    (deltaT targetT : ℚ) (method : ADVECTION_METHOD) (s : List Particle) (v : LoopVars) :
    Except Halt (List Particle × LoopVars) :=
  match s.getLast? with
  | none => pure (s, v)
  | some p0 => do
    let (s1, v1) ←
      AdvectTillTime.whileLoop fl fuel G A velocity deltaT targetT method fuel s p0 v
    pure (s1, { v1 with streamIdx := v1.streamIdx + 1 })

/-- The loop `for( auto& s : _streams )` of `AdvectTillTime`. -/
def AdvectTillTime.loop (fl : ℚ → ℚ) (fuel : Nat) (G : Glm) (A : Advection)
    (velocity : Field) (deltaT targetT : ℚ) (method : ADVECTION_METHOD) :
    List (List Particle) → LoopVars → Except Halt (List (List Particle) × LoopVars)
  | [], v => pure ([], v)
  | s :: rest, v => do
    let (s1, v1) ← AdvectTillTime.body fl fuel G A velocity deltaT targetT method s v
    let (rest1, v2) ← AdvectTillTime.loop fl fuel G A velocity deltaT targetT method rest v1
    pure (s1 :: rest1, v2)

/-- The method `Advection::AdvectTillTime` (lines 149-238) with rounded
operations: the returned status and the state after the call. Every `while`
loop of the call may run for `fuel` iterations. -/
def AdvectTillTime (fl : ℚ → ℚ) (c : Codes) (fuel : Nat) (G : Glm) (A : Advection)
    (velocity : Field) (deltaT targetT : ℚ) (method : ADVECTION_METHOD) :
    Except Halt (Int × Advection) :=
  let ready := CheckReady c A
  if ready ≠ 0 then pure (ready, A)
  else do
    let (streams, v) ←
      AdvectTillTime.loop fl fuel G A velocity deltaT targetT method A._streams
        ⟨false, 0, A._separatorCount⟩
    pure (if v.happened then c.ADVECT_HAPPENED else 0,
      { A with _streams := streams, _separatorCount := v.separatorCount })

end rounded

/-- The value `denominator` of `_calcAdjustFactor` (line 336): the product of the
lengths of the segments `p2 -> p1` and `p1 -> p0`, as computed with rounded
operations. -/
def rounded.segmentProduct (fl : ℚ → ℚ) (G : Glm) (p2 p1 p0 : Particle) : ℚ :=
  fl (G.length (Vec3.subR fl p1.location p2.location) *
    G.length (Vec3.subR fl p0.location p1.location))

/-- The value `cosine` of `_calcAdjustFactor` (line 341): the dot product of the two
segments over `denominator`, as computed with rounded operations. -/
def rounded.turnCosine (fl : ℚ → ℚ) (G : Glm) (p2 p1 p0 : Particle) : ℚ :=
  fl (Vec3.dotR fl (Vec3.subR fl p1.location p2.location)
    (Vec3.subR fl p0.location p1.location) / rounded.segmentProduct fl G p2 p1 p0)

/-- The cosine of the angle between the segments `p2 -> p1` and `p1 -> p0`, as a real
number: the dot product of the two vectors over the product of their lengths. -/
def TurnCosineIs (x : ℝ) (p2 p1 p0 : Particle) : Prop :=
  x = ((Vec3.dot (p1.location.sub p2.location) (p0.location.sub p1.location) : ℚ) : ℝ) /
    (Real.sqrt ((Vec3.dot (p1.location.sub p2.location) (p1.location.sub p2.location) : ℚ) : ℝ) *
      Real.sqrt ((Vec3.dot (p0.location.sub p1.location) (p0.location.sub p1.location) : ℚ) : ℝ))

/-- In the words of the specification: the turning angle between the segments
`p2 -> p1` and `p1 -> p0`, in degrees, is at most `d`. -/
def TurnAtMost (d : ℝ) (p2 p1 p0 : Particle) : Prop :=
  ∃ x : ℝ, TurnCosineIs x p2 p1 p0 ∧ Real.arccos x * 180 / Real.pi ≤ d

/-- In the words of the specification: the turning angle between the segments
`p2 -> p1` and `p1 -> p0`, in degrees, is at least `d`. -/
def TurnAtLeast (d : ℝ) (p2 p1 p0 : Particle) : Prop :=
  ∃ x : ℝ, TurnCosineIs x p2 p1 p0 ∧ d ≤ Real.arccos x * 180 / Real.pi

/-- The binary32 number that `glm::cos( glm::radians( 3.0f ) )` evaluates to in the
constructor (line 10): `0x3F7FA62F`, the `float` just below the cosine of 3 degrees. -/
def lowerAngleCos32 : ℚ := 16754223 / 16777216

/-- The binary32 number that `glm::cos( glm::radians( 15.0f ) )` evaluates to in the
constructor (line 11): `0x3F7746EA`, the `float` just below the cosine of 15
degrees. -/
def upperAngleCos32 : ℚ := 16205546 / 16777216

/-- The correctly rounded square root of binary32, `std::sqrt` on `float`: the root of
a positive `x` lies in the binade of `2 ^ ⌊e / 2⌋`, `e` being the exponent of `x`,
and is rounded to 24 bits, to nearest, ties to even. -/
def sqrt32 (x : ℚ) : ℚ :=
  if x ≤ 0 then 0
  else
    let u : ℚ := 2 ^ (⌊(Int.log 2 x : ℚ) / 2⌋ - 23)
    let y : ℚ := x / (u * u)
    let s : Nat := Nat.sqrt ⌊y⌋₊
    (if y < ((s : ℚ) + 1 / 2) ^ 2 then (s : ℚ)
      else if ((s : ℚ) + 1 / 2) ^ 2 < y then (s : ℚ) + 1
      else if s % 2 = 0 then (s : ℚ) else (s : ℚ) + 1) * u


/-! ## Example data -/

/-- Status codes with distinct non-zero values. -/
def exampleCodes : Codes := ⟨1, -3, -4⟩

/-- A stand-in for `glm::length` in examples that never reach it. -/
def exampleGlm : Glm := ⟨fun _ => 0⟩

/-- A freshly constructed `Advection` without periodic axis. -/
def exampleFresh : Advection :=
  ⟨[], [], ⟨false, false, false⟩, ⟨(0, 0), (0, 0), (0, 0)⟩, 99 / 100, 96 / 100⟩

/-- A non-special particle on the X axis at `x`, with time `t`. -/
def exampleParticle (x t : ℚ) : Particle := ⟨⟨x, 0, 0⟩, t, 0, false, []⟩

/-- The constant velocity field `v = (1,0,0)` whose domain is everything. -/
def exampleConstField : Field := ⟨fun _ _ => true, fun _ _ => (0, ⟨1, 0, 0⟩), fun _ _ => (0, 1)⟩

/-- An `Advection` periodic along X over `[0,10]`, with one stream whose only
particle is at `x = 10.5`. -/
def examplePeriodic : Advection :=
  ⟨[[exampleParticle (21 / 2) 0]], [0], ⟨true, false, false⟩, ⟨(0, 10), (0, 0), (0, 0)⟩,
    99 / 100, 96 / 100⟩

/-- The constant velocity field `v = (1,0,0)` whose domain is `0 ≤ x < 10`. -/
def exampleBoxField : Field :=
  ⟨fun _ p => decide (0 ≤ p.x ∧ p.x < 10), fun _ _ => (0, ⟨1, 0, 0⟩), fun _ _ => (0, 1)⟩

/-- An `Advection` periodic along X over `[0,10]` with two streams, whose last
particles are at `x = 5` and at `x = 10.5`. -/
def exampleTwoStreams : Advection :=
  ⟨[[exampleParticle 5 0], [exampleParticle (21 / 2) 0]], [0, 0], ⟨true, false, false⟩,
    ⟨(0, 10), (0, 0), (0, 0)⟩, 99 / 100, 96 / 100⟩

/-- The constant velocity field `v = (1,0,0)` whose domain is `0 ≤ x ≤ 1`. -/
def exampleUnitField : Field :=
  ⟨fun _ p => decide (0 ≤ p.x ∧ p.x ≤ 1), fun _ _ => (0, ⟨1, 0, 0⟩), fun _ _ => (0, 1)⟩

/-- A field whose domain is everything and whose velocity sampling always fails
with status `-1`. -/
def exampleFailField : Field := ⟨fun _ _ => true, fun _ _ => (-1, ⟨0, 0, 0⟩), fun _ _ => (0, 1)⟩

/-- A field whose domain is everything and whose velocity sampling succeeds at
time 0 only, failing with status `-1` at any other time. -/
def exampleLateFailField : Field :=
  ⟨fun _ _ => true, fun t _ => (if t = 0 then 0 else -1, ⟨1, 0, 0⟩), fun _ _ => (0, 1)⟩

/-- A field whose domain is everything and whose scalar sampling always fails
with status `-1`. -/
def exampleFailScalar : Field :=
  ⟨fun _ _ => true, fun _ _ => (0, ⟨0, 0, 0⟩), fun _ _ => (-1, 0)⟩

/-- The state of `examplePeriodic` after one Euler step on `exampleBoxField`:
a separator, the relocated particle and the new particle. -/
def exampleWrapped : Advection :=
  { examplePeriodic with
    _streams := [[separator, exampleParticle (1 / 2) 0, exampleParticle (3 / 2) 1]],
    _separatorCount := [1] }


/-- The number written by a string of decimal digits. -/
def exampleDigits (str : List Char) : Nat :=
  str.foldl (fun acc ch => 10 * acc + (ch.toNat - 48)) 0

/-- A parser that stands for `std::stof` on plain decimal literals: leading
spaces and tabs, a sign, digits, a point, digits; what follows is ignored, and
a text without any digit is rejected. -/
def exampleStof (str : List Char) : Option ℚ :=
  let body := str.dropWhile isBlankChar
  let negative := body.head? == some '-'
  let unsigned := if body.head? == some '-' || body.head? == some '+' then body.tail else body
  let whole := unsigned.takeWhile Char.isDigit
  let fraction :=
    match unsigned.dropWhile Char.isDigit with
    | '.' :: after => after.takeWhile Char.isDigit
    | _ => []
  if whole.isEmpty && fraction.isEmpty then none
  else
    some ((if negative then -1 else 1) *
      ((exampleDigits whole : ℚ) + (exampleDigits fraction : ℚ) / 10 ^ fraction.length))

/-- A rendering that stands for `%f` on the non-negative integers: the digits of
the integer part of the absolute value, a point and six zeros, after a minus
sign for a negative number. -/
def examplePrintf (x : ℚ) : List Char :=
  (if x < 0 then ['-'] else []) ++ (Nat.repr (x.num.natAbs / x.den)).toList ++
    ['.', '0', '0', '0', '0', '0', '0']

/-- The text library of the examples. -/
def exampleText : TextLib := ⟨exampleStof, examplePrintf⟩


/-- An `Advection` with two streams of three non-special particles each. -/
def exampleTwoByThree : Advection :=
  { exampleFresh with
    _streams := [[exampleParticle 0 0, exampleParticle 1 1, exampleParticle 2 2],
      [exampleParticle 1 0, exampleParticle 2 1, exampleParticle 0 2]],
    _separatorCount := [0, 0] }

/-- An `Advection` whose only stream holds a separator and nothing else. -/
def exampleSeparatorOnly : Advection :=
  { exampleFresh with _streams := [[separator]], _separatorCount := [0] }

/-- A stand-in for `glm::length`: the integer square root of the squared length,
taken on the common denominator; it is the exact length of every vector whose
length is rational. -/
def exampleEuclid : Glm :=
  ⟨fun a =>
    let q := a.x * a.x + a.y * a.y + a.z * a.z
    (Nat.sqrt (q.num.natAbs * q.den) : ℚ) / q.den⟩

/-- A non-special particle at `(x, y, 0)` with time `t`. -/
def examplePlanar (x y t : ℚ) : Particle := ⟨⟨x, y, 0⟩, t, 0, false, []⟩

/-- An `Advection` with one stream of three non-special particles that goes
from the origin to `(1, 0, 0)` and back to the origin, the last step having
taken the time `1/20`. -/
def exampleTurn : Advection :=
  { exampleFresh with
    _streams := [[examplePlanar 0 0 0, examplePlanar 1 0 1, examplePlanar 0 0 (21 / 20)]],
    _separatorCount := [0] }

/-- The function `glm::length` in binary32: `sqrt( dot( v, v ) )`, each operation
rounded. -/
def exampleLength32 : Glm := ⟨fun v => sqrt32 (Vec3.dotR binary32 v v)⟩

/-- The `Advection` that the constructor builds, with the two cosines that the
library computes in binary32. -/
def exampleConstructed : Advection := Advection.ctor lowerAngleCos32 upperAngleCos32
/-! ## Seeding and readiness -/

theorem pushBackAt_append {α : Type} (done : List (List α)) (s : List α) (rest : List (List α))
    (p : α) : pushBackAt (done ++ s :: rest) done.length p = done ++ (s ++ [p]) :: rest := by
  have h : (done ++ s :: rest)[done.length]? = some s := by
    rw [List.getElem?_append_right (Nat.le_refl _)]
    simp
  simp [pushBackAt, h]

theorem fill_replicate (seeds : List Particle) :
    ∀ (done : List (List Particle)),
      UseSeedParticles.fill seeds done.length (done ++ List.replicate seeds.length []) =
        done ++ seeds.map (fun p => [p]) := by
  induction seeds with
  | nil => intro done; simp [UseSeedParticles.fill]
  | cons p rest ih =>
    intro done
    have h := ih (done ++ [[p]])
    simp only [List.length_append, List.length_singleton, List.append_assoc,
      List.singleton_append] at h
    simp only [UseSeedParticles.fill, List.length_cons, List.replicate_succ, pushBackAt_append,
      List.nil_append, List.map_cons]
    exact h

theorem map_const_zero (l : List Nat) : l.map (fun _ => 0) = List.replicate l.length 0 := by
  induction l with
  | nil => rfl
  | cons a t ih => simp [List.replicate_succ, ih]

/-- C1. After `UseSeedParticles( seeds )`, whatever the previous state, the number of
streams is `seeds.size()`, stream `i` is exactly `[seeds[i]]`, and there is one
separator count per stream, each zero. -/
theorem UseSeedParticles_resets (A : Advection) (seeds : List Particle) :
    GetNumberOfStreams (UseSeedParticles A seeds) = seeds.length ∧
    (UseSeedParticles A seeds)._streams = seeds.map (fun p => [p]) ∧
    (∀ (i : Nat) (h : i < seeds.length),
      GetStreamAt (UseSeedParticles A seeds) i = some [seeds[i]]) ∧
    (UseSeedParticles A seeds)._separatorCount = List.replicate seeds.length 0 := by
  have hs : (UseSeedParticles A seeds)._streams = seeds.map (fun p => [p]) := by
    have h := fill_replicate seeds []
    simpa [UseSeedParticles, vectorResize] using h
  refine ⟨?_, hs, ?_, ?_⟩
  · simp [GetNumberOfStreams, hs]
  · intro i h
    simp [GetStreamAt, hs, h]
  · simp [UseSeedParticles, vectorResize, map_const_zero]
    omega


theorem CheckReady_go_zero (c : Codes) (streams : List (List Particle))
    (h : ∀ s ∈ streams, s ≠ []) : CheckReady.go c streams = 0 := by
  induction streams with
  | nil => rfl
  | cons s rest ih =>
    have hs : s ≠ [] := h s (List.mem_cons_self _ _)
    have hlen : ¬ s.length < 1 := by
      have := List.length_pos.mpr hs
      omega
    simp only [CheckReady.go, hlen, if_false]
    exact ih (fun t ht => h t (List.mem_cons_of_mem _ ht))

theorem CheckReady_go_code (c : Codes) (streams : List (List Particle))
    (h : ∃ s ∈ streams, s = []) : CheckReady.go c streams = c.NO_SEED_PARTICLE_YET := by
  induction streams with
  | nil => simp at h
  | cons s rest ih =>
    by_cases hs : s = []
    · simp [CheckReady.go, hs]
    · have hlen : ¬ s.length < 1 := by
        have := List.length_pos.mpr hs
        omega
      simp only [CheckReady.go, hlen, if_false]
      apply ih
      obtain ⟨t, ht, hte⟩ := h
      rcases List.mem_cons.mp ht with rfl | ht
      · exact absurd hte hs
      · exact ⟨t, ht, hte⟩

/-- The readiness check passes exactly on the states without an empty stream, when
the error code is not the neutral code. -/
theorem CheckReady_eq_zero_iff (c : Codes) (A : Advection) (hc : c.NO_SEED_PARTICLE_YET ≠ 0) :
    CheckReady c A = 0 ↔ ∀ s ∈ A._streams, s ≠ [] := by
  constructor
  · intro h s hs he
    have := CheckReady_go_code c A._streams ⟨s, hs, he⟩
    rw [CheckReady] at h
    rw [h] at this
    exact hc this.symm
  · intro h
    exact CheckReady_go_zero c A._streams h

/-- C10. `CheckReady` returns `NO_SEED_PARTICLE_YET` exactly when some stream is empty,
and 0 otherwise, in particular when there is no stream at all. The method is
`const`: it is a function of the state and has no state to return. -/
theorem CheckReady_spec (c : Codes) (A : Advection) (hc : c.NO_SEED_PARTICLE_YET ≠ 0) :
    (CheckReady c A = c.NO_SEED_PARTICLE_YET ↔ ∃ s ∈ A._streams, s = []) ∧
    ((¬ ∃ s ∈ A._streams, s = []) → CheckReady c A = 0) ∧
    (A._streams = [] → CheckReady c A = 0) := by
  have hz : (¬ ∃ s ∈ A._streams, s = []) → CheckReady c A = 0 := by
    intro h
    apply CheckReady_go_zero
    intro s hs he
    exact h ⟨s, hs, he⟩
  refine ⟨⟨?_, CheckReady_go_code c A._streams⟩, hz, ?_⟩
  · intro h
    by_contra hne
    rw [hz hne] at h
    exact hc h.symm
  · intro h
    apply hz
    simp [h]

/-- Witness of C10: a state with an empty second stream is reported as not ready. -/
theorem CheckReady_spec_witness :
    exampleCodes.NO_SEED_PARTICLE_YET ≠ 0 ∧
    CheckReady exampleCodes { exampleFresh with _streams := [[exampleParticle 0 0], []] } = -3 :=
  ⟨by decide,
   ((CheckReady_spec exampleCodes { exampleFresh with _streams := [[exampleParticle 0 0], []] }
      (by decide)).1).2 ⟨[], by simp, rfl⟩⟩


/-! ## Single-step integration: the loop body -/

theorem wrap_of_inside (fuel : Nat) (A : Advection) (velocity : Field) (s : List Particle)
    (p0 : Particle) (v : LoopVars)
    (hin : velocity.InsideVolumeVelocity p0.time p0.location = true) :
    AdvectOneStep.wrap fuel A velocity s p0 v = .ok (some (s, v)) := by
  simp [AdvectOneStep.wrap, hin, pure, Except.pure]

theorem wrap_of_outside (fuel : Nat) (A : Advection) (velocity : Field) (s : List Particle)
    (p0 : Particle) (v : LoopVars) (loc : Vec3) (ch : Bool)
    (hout : velocity.InsideVolumeVelocity p0.time p0.location = false)
    (hw : wrapLocation fuel A p0.location = .ok (loc, ch)) :
    AdvectOneStep.wrap fuel A velocity s p0 v =
      .ok (if ch && velocity.InsideVolumeVelocity p0.time loc then
        some (s.dropLast ++ [separator, { p0 with location := loc }],
          { v with separatorCount := incrementAt v.separatorCount v.streamIdx })
        else none) := by
  simp only [AdvectOneStep.wrap, hout, hw, bind, Except.bind, pure, Except.pure]
  cases ch <;> cases velocity.InsideVolumeVelocity p0.time loc <;> simp

theorem wrap_of_outside_error (fuel : Nat) (A : Advection) (velocity : Field) (s : List Particle)
    (p0 : Particle) (v : LoopVars) (e : Halt)
    (hout : velocity.InsideVolumeVelocity p0.time p0.location = false)
    (hw : wrapLocation fuel A p0.location = .error e) :
    AdvectOneStep.wrap fuel A velocity s p0 v = .error e := by
  simp only [AdvectOneStep.wrap, hout, hw, bind, Except.bind, pure, Except.pure]
  simp

theorem integrate_of_fail (G : Glm) (A : Advection) (velocity : Field) (deltaT : ℚ)
    (method : ADVECTION_METHOD) (s : List Particle) (past0 : Particle) (v : LoopVars)
    (rv : Int) (p1 : Particle) (hrv : rv ≠ 0)
    (ha : advect method velocity past0 (AdvectOneStep.stepSize G A deltaT s past0)
      Particle.default = .ok (rv, p1)) :
    AdvectOneStep.integrate G A velocity deltaT method s past0 v = .ok (s, v) := by
  simp [AdvectOneStep.integrate, ha, bind, Except.bind, pure, Except.pure, hrv]

theorem integrate_of_ok (G : Glm) (A : Advection) (velocity : Field) (deltaT : ℚ)
    (method : ADVECTION_METHOD) (s : List Particle) (past0 : Particle) (v : LoopVars)
    (p1 : Particle)
    (ha : advect method velocity past0 (AdvectOneStep.stepSize G A deltaT s past0)
      Particle.default = .ok (0, p1)) :
    AdvectOneStep.integrate G A velocity deltaT method s past0 v =
      .ok (s ++ [p1], { v with happened := true, streamIdx := v.streamIdx + 1 }) := by
  simp [AdvectOneStep.integrate, ha, bind, Except.bind, pure, Except.pure]

theorem integrate_of_error (G : Glm) (A : Advection) (velocity : Field) (deltaT : ℚ)
    (method : ADVECTION_METHOD) (s : List Particle) (past0 : Particle) (v : LoopVars)
    (e : Halt)
    (ha : advect method velocity past0 (AdvectOneStep.stepSize G A deltaT s past0)
      Particle.default = .error e) :
    AdvectOneStep.integrate G A velocity deltaT method s past0 v = .error e := by
  simp [AdvectOneStep.integrate, ha, bind, Except.bind]

theorem body_of_inside (fuel : Nat) (G : Glm) (A : Advection) (velocity : Field) (deltaT : ℚ)
    (method : ADVECTION_METHOD) (s : List Particle) (p0 : Particle) (v : LoopVars)
    (hlast : s.getLast? = some p0)
    (hin : velocity.InsideVolumeVelocity p0.time p0.location = true) :
    AdvectOneStep.body fuel G A velocity deltaT method s v =
      AdvectOneStep.integrate G A velocity deltaT method s p0 v := by
  simp [AdvectOneStep.body, hlast, wrap_of_inside fuel A velocity s p0 v hin, bind, Except.bind]

theorem body_of_skip (fuel : Nat) (G : Glm) (A : Advection) (velocity : Field) (deltaT : ℚ)
    (method : ADVECTION_METHOD) (s : List Particle) (p0 : Particle) (v : LoopVars)
    (loc : Vec3) (ch : Bool) (hlast : s.getLast? = some p0)
    (hout : velocity.InsideVolumeVelocity p0.time p0.location = false)
    (hw : wrapLocation fuel A p0.location = .ok (loc, ch))
    (hno : ch = false ∨ velocity.InsideVolumeVelocity p0.time loc = false) :
    AdvectOneStep.body fuel G A velocity deltaT method s v = .ok (s, v) := by
  have hc : (ch && velocity.InsideVolumeVelocity p0.time loc) = false := by
    rcases hno with h | h <;> simp [h]
  simp [AdvectOneStep.body, hlast, wrap_of_outside fuel A velocity s p0 v loc ch hout hw, hc,
    bind, Except.bind, pure, Except.pure]

theorem body_of_wrap (fuel : Nat) (G : Glm) (A : Advection) (velocity : Field) (deltaT : ℚ)
    (method : ADVECTION_METHOD) (s : List Particle) (p0 : Particle) (v : LoopVars)
    (loc : Vec3) (hlast : s.getLast? = some p0)
    (hout : velocity.InsideVolumeVelocity p0.time p0.location = false)
    (hw : wrapLocation fuel A p0.location = .ok (loc, true))
    (hin : velocity.InsideVolumeVelocity p0.time loc = true) :
    AdvectOneStep.body fuel G A velocity deltaT method s v =
      AdvectOneStep.integrate G A velocity deltaT method
        (s.dropLast ++ [separator, { p0 with location := loc }]) { p0 with location := loc }
        { v with separatorCount := incrementAt v.separatorCount v.streamIdx } := by
  simp [AdvectOneStep.body, hlast, wrap_of_outside fuel A velocity s p0 v loc true hout hw, hin,
    bind, Except.bind, pure, Except.pure, List.getLast?_append]

theorem body_of_wrap_error (fuel : Nat) (G : Glm) (A : Advection) (velocity : Field)
    (deltaT : ℚ) (method : ADVECTION_METHOD) (s : List Particle) (p0 : Particle) (v : LoopVars)
    (e : Halt) (hlast : s.getLast? = some p0)
    (hout : velocity.InsideVolumeVelocity p0.time p0.location = false)
    (hw : wrapLocation fuel A p0.location = .error e) :
    AdvectOneStep.body fuel G A velocity deltaT method s v = .error e := by
  simp [AdvectOneStep.body, hlast, wrap_of_outside_error fuel A velocity s p0 v e hout hw,
    bind, Except.bind]


theorem advectEuler_cases (velocity : Field) (p0 : Particle) (dt : ℚ) (q : Particle) :
    ((velocity.GetVelocity p0.time p0.location).1 = 0 ∧
      _advectEuler velocity p0 dt q = .ok (0, { q with
        location := p0.location.add (Vec3.smul dt (velocity.GetVelocity p0.time p0.location).2),
        time := p0.time + dt })) ∨
    ((velocity.GetVelocity p0.time p0.location).1 ≠ 0 ∧
      _advectEuler velocity p0 dt q = .error .assertFailed) := by
  by_cases h : (velocity.GetVelocity p0.time p0.location).1 = 0
  · left
    refine ⟨h, ?_⟩
    simp [_advectEuler, h]
  · right
    refine ⟨h, ?_⟩
    simp [_advectEuler, h]

theorem advectRK4_special (velocity : Field) (p0 : Particle) (dt : ℚ) (q p1 : Particle)
    (rv : Int) (h : _advectRK4 velocity p0 dt q = .ok (rv, p1)) :
    p1.isSpecial = q.isSpecial := by
  unfold _advectRK4 at h
  simp only at h
  split at h
  · cases h
  · split at h
    · cases h; rfl
    · split at h
      · cases h; rfl
      · split at h
        · cases h; rfl
        · cases h; rfl

theorem advect_special (method : ADVECTION_METHOD) (velocity : Field) (p0 : Particle) (dt : ℚ)
    (q p1 : Particle) (rv : Int) (h : advect method velocity p0 dt q = .ok (rv, p1)) :
    p1.isSpecial = q.isSpecial := by
  cases method with
  | EULER =>
    rcases advectEuler_cases velocity p0 dt q with ⟨_, h2⟩ | ⟨_, h2⟩
    · simp only [advect] at h
      rw [h2] at h
      cases h
      rfl
    · simp only [advect] at h
      rw [h2] at h
      cases h
  | RK4 => exact advectRK4_special velocity p0 dt q p1 rv h

theorem integrate_cases (G : Glm) (A : Advection) (velocity : Field) (deltaT : ℚ)
    (method : ADVECTION_METHOD) (s : List Particle) (past0 : Particle) (v : LoopVars)
    (s1 : List Particle) (v1 : LoopVars)
    (h : AdvectOneStep.integrate G A velocity deltaT method s past0 v = .ok (s1, v1)) :
    (s1 = s ∧ v1 = v ∧ ∃ rv p1, rv ≠ 0 ∧
      advect method velocity past0 (AdvectOneStep.stepSize G A deltaT s past0)
        Particle.default = .ok (rv, p1)) ∨
    (∃ p1, advect method velocity past0 (AdvectOneStep.stepSize G A deltaT s past0)
        Particle.default = .ok (0, p1) ∧ s1 = s ++ [p1] ∧
      v1 = { v with happened := true, streamIdx := v.streamIdx + 1 }) := by
  cases ha : advect method velocity past0 (AdvectOneStep.stepSize G A deltaT s past0)
      Particle.default with
  | error e =>
    rw [integrate_of_error G A velocity deltaT method s past0 v e ha] at h
    cases h
  | ok r =>
    obtain ⟨rv, p1⟩ := r
    by_cases hrv : rv = 0
    · subst hrv
      rw [integrate_of_ok G A velocity deltaT method s past0 v p1 ha] at h
      cases h
      exact Or.inr ⟨p1, rfl, rfl, rfl⟩
    · rw [integrate_of_fail G A velocity deltaT method s past0 v rv p1 hrv ha] at h
      cases h
      exact Or.inl ⟨rfl, rfl, rv, p1, hrv, rfl⟩

/-- The possible results of the loop body of `AdvectOneStep` on a non-empty stream:
integration from the last particle when it is inside the domain, a skip when it is
outside and cannot be brought back, integration from the relocated particle after
the insertion of a separator otherwise. -/
theorem body_cases (fuel : Nat) (G : Glm) (A : Advection) (velocity : Field) (deltaT : ℚ)
    (method : ADVECTION_METHOD) (s : List Particle) (p0 : Particle) (v : LoopVars)
    (s1 : List Particle) (v1 : LoopVars) (hlast : s.getLast? = some p0)
    (h : AdvectOneStep.body fuel G A velocity deltaT method s v = .ok (s1, v1)) :
    (velocity.InsideVolumeVelocity p0.time p0.location = true ∧
      AdvectOneStep.integrate G A velocity deltaT method s p0 v = .ok (s1, v1)) ∨
    (velocity.InsideVolumeVelocity p0.time p0.location = false ∧ s1 = s ∧ v1 = v ∧
      ∃ loc ch, wrapLocation fuel A p0.location = .ok (loc, ch) ∧
        (ch = false ∨ velocity.InsideVolumeVelocity p0.time loc = false)) ∨
    (velocity.InsideVolumeVelocity p0.time p0.location = false ∧
      ∃ loc, wrapLocation fuel A p0.location = .ok (loc, true) ∧
        velocity.InsideVolumeVelocity p0.time loc = true ∧
        AdvectOneStep.integrate G A velocity deltaT method
          (s.dropLast ++ [separator, { p0 with location := loc }]) { p0 with location := loc }
          { v with separatorCount := incrementAt v.separatorCount v.streamIdx } =
          .ok (s1, v1)) := by
  cases hin : velocity.InsideVolumeVelocity p0.time p0.location with
  | true =>
    left
    rw [body_of_inside fuel G A velocity deltaT method s p0 v hlast hin] at h
    exact ⟨rfl, h⟩
  | false =>
    right
    cases hw : wrapLocation fuel A p0.location with
    | error e =>
      rw [body_of_wrap_error fuel G A velocity deltaT method s p0 v e hlast hin hw] at h
      cases h
    | ok r =>
      obtain ⟨loc, ch⟩ := r
      by_cases hno : ch = false ∨ velocity.InsideVolumeVelocity p0.time loc = false
      · left
        rw [body_of_skip fuel G A velocity deltaT method s p0 v loc ch hlast hin hw hno] at h
        cases h
        exact ⟨rfl, rfl, rfl, loc, ch, rfl, hno⟩
      · right
        have hch : ch = true := by
          cases ch
          · exact absurd (Or.inl rfl) hno
          · rfl
        have hl : velocity.InsideVolumeVelocity p0.time loc = true := by
          cases hv : velocity.InsideVolumeVelocity p0.time loc
          · exact absurd (Or.inr hv) hno
          · rfl
        subst hch
        rw [body_of_wrap fuel G A velocity deltaT method s p0 v loc hlast hin hw hl] at h
        exact ⟨rfl, loc, rfl, hl, h⟩


/-! ## Single-step integration: counting particles -/

theorem physicalCount_push (s : List Particle) (p1 : Particle) (h : p1.isSpecial = false) :
    physicalCount (s ++ [p1]) = physicalCount s + 1 := by
  simp [physicalCount, List.countP_append, Particle.IsSpecial, h]

theorem physicalCount_wrap (s : List Particle) (p0 : Particle) (loc : Vec3)
    (hlast : s.getLast? = some p0) :
    physicalCount (s.dropLast ++ [separator, { p0 with location := loc }]) = physicalCount s := by
  have hs : s.dropLast ++ [p0] = s := List.dropLast_append_getLast? p0 (by simp [hlast])
  conv_rhs => rw [← hs]
  simp [physicalCount, List.countP_append, Particle.IsSpecial, separator, Particle.SetSpecial,
    Particle.default, List.countP_cons]

theorem length_wrap (s : List Particle) (p0 q : Particle) (hlast : s.getLast? = some p0) :
    (s.dropLast ++ [separator, q]).length = s.length + 1 := by
  have hne : s ≠ [] := by
    intro h
    simp [h] at hlast
  have := List.length_pos.mpr hne
  simp only [List.length_append, List.length_dropLast, List.length_cons, List.length_nil]
  omega

theorem integrate_effect (G : Glm) (A : Advection) (velocity : Field) (deltaT : ℚ)
    (method : ADVECTION_METHOD) (s : List Particle) (past0 : Particle) (v : LoopVars)
    (s1 : List Particle) (v1 : LoopVars)
    (h : AdvectOneStep.integrate G A velocity deltaT method s past0 v = .ok (s1, v1)) :
    ∃ a : Bool, s1.length = s.length + a.toNat ∧
      physicalCount s1 = physicalCount s + a.toNat ∧
      v1 = ⟨v.happened || a, v.streamIdx + a.toNat, v.separatorCount⟩ := by
  rcases integrate_cases G A velocity deltaT method s past0 v s1 v1 h with
    ⟨hs, hv, _⟩ | ⟨p1, ha, hs, hv⟩
  · refine ⟨false, ?_, ?_, ?_⟩ <;> simp [hs, hv]
  · have hsp : p1.isSpecial = false := by
      have := advect_special method velocity past0 _ Particle.default p1 0 ha
      simpa [Particle.default] using this
    refine ⟨true, ?_, ?_, ?_⟩
    · simp [hs]
    · simp [hs, physicalCount_push s p1 hsp]
    · simp [hv]

/-- The effect of one iteration of the loop of `AdvectOneStep` on the stream and on
the loop variables: `w` tells whether a separator was inserted, `a` whether a
particle was appended. -/
theorem body_effect (fuel : Nat) (G : Glm) (A : Advection) (velocity : Field) (deltaT : ℚ)
    (method : ADVECTION_METHOD) (s : List Particle) (v : LoopVars)
    (s1 : List Particle) (v1 : LoopVars)
    (h : AdvectOneStep.body fuel G A velocity deltaT method s v = .ok (s1, v1)) :
    ∃ w a : Bool, s1.length = s.length + w.toNat + a.toNat ∧
      physicalCount s1 = physicalCount s + a.toNat ∧
      v1 = ⟨v.happened || a, v.streamIdx + a.toNat,
        if w then incrementAt v.separatorCount v.streamIdx else v.separatorCount⟩ := by
  cases hlast : s.getLast? with
  | none =>
    simp [AdvectOneStep.body, hlast, pure, Except.pure] at h
    obtain ⟨hs, hv⟩ := h
    refine ⟨false, false, ?_, ?_, ?_⟩ <;> simp [← hs, ← hv]
  | some p0 =>
    rcases body_cases fuel G A velocity deltaT method s p0 v s1 v1 hlast h with
      ⟨_, hi⟩ | ⟨_, hs, hv, _⟩ | ⟨_, loc, _, _, hi⟩
    · obtain ⟨a, h1, h2, h3⟩ := integrate_effect G A velocity deltaT method s p0 v s1 v1 hi
      exact ⟨false, a, by simpa using h1, h2, by simpa using h3⟩
    · refine ⟨false, false, ?_, ?_, ?_⟩ <;> simp [hs, hv]
    · obtain ⟨a, h1, h2, h3⟩ := integrate_effect G A velocity deltaT method _ _ _ s1 v1 hi
      refine ⟨true, a, ?_, ?_, ?_⟩
      · rw [h1, length_wrap s p0 _ hlast]
        simp
      · rw [h2, physicalCount_wrap s p0 loc hlast]
      · simpa using h3

theorem loop_cons_ok (fuel : Nat) (G : Glm) (A : Advection) (velocity : Field) (deltaT : ℚ)
    (method : ADVECTION_METHOD) (s : List Particle) (rest : List (List Particle))
    (v : LoopVars) (r : List (List Particle)) (v2 : LoopVars)
    (h : AdvectOneStep.loop fuel G A velocity deltaT method (s :: rest) v = .ok (r, v2)) :
    ∃ s1 v1 rest1, AdvectOneStep.body fuel G A velocity deltaT method s v = .ok (s1, v1) ∧
      AdvectOneStep.loop fuel G A velocity deltaT method rest v1 = .ok (rest1, v2) ∧
      r = s1 :: rest1 := by
  simp only [AdvectOneStep.loop, bind, Except.bind, pure, Except.pure] at h
  cases hb : AdvectOneStep.body fuel G A velocity deltaT method s v with
  | error e => simp [hb] at h
  | ok b =>
    obtain ⟨s1, v1⟩ := b
    simp only [hb] at h
    cases hl : AdvectOneStep.loop fuel G A velocity deltaT method rest v1 with
    | error e => simp [hl] at h
    | ok l =>
      obtain ⟨rest1, v2'⟩ := l
      simp only [hl, Except.ok.injEq, Prod.mk.injEq] at h
      obtain ⟨h1, h2⟩ := h
      subst h2
      exact ⟨s1, v1, rest1, rfl, hl, h1.symm⟩

/-- The loop of `AdvectOneStep` keeps the number of streams and treats the stream at
each position with the loop body. -/
theorem loop_at (fuel : Nat) (G : Glm) (A : Advection) (velocity : Field) (deltaT : ℚ)
    (method : ADVECTION_METHOD) (streams : List (List Particle)) :
    ∀ (v : LoopVars) (r : List (List Particle)) (v2 : LoopVars),
      AdvectOneStep.loop fuel G A velocity deltaT method streams v = .ok (r, v2) →
      r.length = streams.length ∧
      ∀ (i : Nat) (s : List Particle), streams[i]? = some s →
        ∃ s1 vi vj, r[i]? = some s1 ∧
          AdvectOneStep.body fuel G A velocity deltaT method s vi = .ok (s1, vj) := by
  induction streams with
  | nil =>
    intro v r v2 h
    simp only [AdvectOneStep.loop, pure, Except.pure, Except.ok.injEq, Prod.mk.injEq] at h
    simp [← h.1]
  | cons s0 rest ih =>
    intro v r v2 h
    obtain ⟨s1, v1, rest1, hb, hl, hr⟩ :=
      loop_cons_ok fuel G A velocity deltaT method s0 rest v r v2 h
    obtain ⟨hlen, hat⟩ := ih v1 rest1 v2 hl
    subst hr
    refine ⟨by simp [hlen], ?_⟩
    intro i s hs
    cases i with
    | zero =>
      simp only [List.getElem?_cons_zero, Option.some.injEq] at hs
      subst hs
      exact ⟨s1, v, v1, by simp, hb⟩
    | succ k =>
      simp only [List.getElem?_cons_succ] at hs
      obtain ⟨s2, vi, vj, h1, h2⟩ := hat k s hs
      exact ⟨s2, vi, vj, by simpa using h1, h2⟩

/-! ## Single-step integration: the whole call -/

theorem AdvectOneStep_not_ready (c : Codes) (fuel : Nat) (G : Glm) (A : Advection)
    (velocity : Field) (deltaT : ℚ) (method : ADVECTION_METHOD) (h : CheckReady c A ≠ 0) :
    AdvectOneStep c fuel G A velocity deltaT method = .ok (CheckReady c A, A) := by
  simp [AdvectOneStep, h, pure, Except.pure]

theorem AdvectOneStep_ready (c : Codes) (fuel : Nat) (G : Glm) (A : Advection)
    (velocity : Field) (deltaT : ℚ) (method : ADVECTION_METHOD) (rv : Int) (A1 : Advection)
    (hready : CheckReady c A = 0)
    (h : AdvectOneStep c fuel G A velocity deltaT method = .ok (rv, A1)) :
    ∃ r v, AdvectOneStep.loop fuel G A velocity deltaT method A._streams
        ⟨false, 0, A._separatorCount⟩ = .ok (r, v) ∧
      rv = (if v.happened then c.ADVECT_HAPPENED else 0) ∧
      A1 = { A with _streams := r, _separatorCount := v.separatorCount } := by
  simp only [AdvectOneStep, hready, ne_eq, not_true_eq_false, if_false, bind, Except.bind,
    pure, Except.pure] at h
  cases hl : AdvectOneStep.loop fuel G A velocity deltaT method A._streams
      ⟨false, 0, A._separatorCount⟩ with
  | error e => simp [hl] at h
  | ok l =>
    obtain ⟨r, v⟩ := l
    simp only [hl, Except.ok.injEq, Prod.mk.injEq] at h
    exact ⟨r, v, rfl, h.1.symm, h.2.symm⟩

theorem AdvectOneStep_example_euler :
    AdvectOneStep exampleCodes 0 exampleGlm
      (UseSeedParticles exampleFresh [exampleParticle 0 0]) exampleConstField 1 .EULER =
      .ok (1, { exampleFresh with
        _streams := [[exampleParticle 0 0, exampleParticle 1 1]], _separatorCount := [0] }) := by
  norm_num [AdvectOneStep, CheckReady, CheckReady.go, UseSeedParticles, UseSeedParticles.fill,
    vectorResize, pushBackAt, exampleFresh, exampleParticle, exampleConstField, exampleCodes,
    AdvectOneStep.loop, AdvectOneStep.body, AdvectOneStep.wrap, AdvectOneStep.integrate,
    AdvectOneStep.stepSize, advect, _advectEuler, Particle.default, Vec3.add, Vec3.smul,
    bind, Except.bind, pure, Except.pure]

theorem loop_happened (fuel : Nat) (G : Glm) (A : Advection) (velocity : Field) (deltaT : ℚ)
    (method : ADVECTION_METHOD) (streams : List (List Particle)) :
    ∀ (v : LoopVars) (r : List (List Particle)) (v2 : LoopVars),
      AdvectOneStep.loop fuel G A velocity deltaT method streams v = .ok (r, v2) →
      (v2.happened = true ↔ v.happened = true ∨
        ∃ (i : Nat) (s s1 : List Particle), streams[i]? = some s ∧ r[i]? = some s1 ∧
          physicalCount s < physicalCount s1) := by
  induction streams with
  | nil =>
    intro v r v2 h
    simp only [AdvectOneStep.loop, pure, Except.pure, Except.ok.injEq, Prod.mk.injEq] at h
    simp [← h.2]
  | cons s0 rest ih =>
    intro v r v2 h
    obtain ⟨s1, v1, rest1, hb, hl, hr⟩ :=
      loop_cons_ok fuel G A velocity deltaT method s0 rest v r v2 h
    obtain ⟨w, a, _, hcount, hv1⟩ := body_effect fuel G A velocity deltaT method s0 v s1 v1 hb
    have hrest := ih v1 rest1 v2 hl
    subst hr
    rw [hrest]
    have hv1h : v1.happened = (v.happened || a) := by rw [hv1]
    rw [hv1h]
    constructor
    · rintro (h1 | ⟨i, s, s2, h1, h2, h3⟩)
      · cases hv : v.happened with
        | true => exact Or.inl rfl
        | false =>
          right
          have ha : a = true := by simpa [hv] using h1
          refine ⟨0, s0, s1, by simp, by simp, ?_⟩
          rw [hcount, ha]
          simp
      · exact Or.inr ⟨i + 1, s, s2, by simpa using h1, by simpa using h2, h3⟩
    · rintro (h1 | ⟨i, s, s2, h1, h2, h3⟩)
      · left
        simp [h1]
      · cases i with
        | zero =>
          left
          simp only [List.getElem?_cons_zero, Option.some.injEq] at h1 h2
          subst h1 h2
          have ha : a = true := by
            cases a
            · simp [hcount] at h3
            · rfl
          simp [ha]
        | succ k =>
          right
          exact ⟨k, s, s2, by simpa using h1, by simpa using h2, h3⟩

theorem loop_returns (fuel : Nat) (G : Glm) (A : Advection) (velocity : Field) (deltaT : ℚ)
    (method : ADVECTION_METHOD) (streams : List (List Particle))
    (hb : ∀ s ∈ streams, ∀ v : LoopVars, ∃ r,
      AdvectOneStep.body fuel G A velocity deltaT method s v = .ok r) :
    ∀ v : LoopVars, ∃ r, AdvectOneStep.loop fuel G A velocity deltaT method streams v = .ok r := by
  induction streams with
  | nil =>
    intro v
    exact ⟨([], v), rfl⟩
  | cons s0 rest ih =>
    intro v
    obtain ⟨r0, h0⟩ := hb s0 (List.mem_cons_self _ _) v
    obtain ⟨r1, h1⟩ := ih (fun s hs => hb s (List.mem_cons_of_mem _ hs)) r0.2
    refine ⟨(r0.1 :: r1.1, r1.2), ?_⟩
    simp only [AdvectOneStep.loop, h0, h1, bind, Except.bind, pure, Except.pure]

/-- C3. `AdvectOneStep` returns `ADVECT_HAPPENED` exactly when some stream received a
new integrated particle (its number of non-separator particles grew) and the neutral
code 0 when none did; when `CheckReady` fails it returns that error and the state is
untouched. The call returns whenever the iteration of the loop on each stream does. -/
theorem AdvectOneStep_status (c : Codes) (fuel : Nat) (G : Glm) (A : Advection)
    (velocity : Field) (deltaT : ℚ) (method : ADVECTION_METHOD)
    (hc : c.ADVECT_HAPPENED ≠ 0) :
    (CheckReady c A ≠ 0 →
      AdvectOneStep c fuel G A velocity deltaT method = .ok (CheckReady c A, A)) ∧
    (CheckReady c A = 0 → ∀ (rv : Int) (A1 : Advection),
      AdvectOneStep c fuel G A velocity deltaT method = .ok (rv, A1) →
      (rv = c.ADVECT_HAPPENED ↔
        ∃ (i : Nat) (s s1 : List Particle), A._streams[i]? = some s ∧ A1._streams[i]? = some s1 ∧
          physicalCount s < physicalCount s1) ∧
      ((¬ ∃ (i : Nat) (s s1 : List Particle), A._streams[i]? = some s ∧ A1._streams[i]? = some s1 ∧
          physicalCount s < physicalCount s1) → rv = 0)) ∧
    ((∀ s ∈ A._streams, ∀ v : LoopVars, ∃ r,
        AdvectOneStep.body fuel G A velocity deltaT method s v = .ok r) →
      ∃ (rv : Int) (A1 : Advection),
        AdvectOneStep c fuel G A velocity deltaT method = .ok (rv, A1)) := by
  refine ⟨AdvectOneStep_not_ready c fuel G A velocity deltaT method, ?_, ?_⟩
  · intro hready rv A1 hcall
    obtain ⟨r, v, hl, hrv, hA⟩ :=
      AdvectOneStep_ready c fuel G A velocity deltaT method rv A1 hready hcall
    have hh := loop_happened fuel G A velocity deltaT method A._streams _ r v hl
    simp only [Bool.false_eq_true, false_or] at hh
    have hstreams : A1._streams = r := by rw [hA]
    rw [hstreams, ← hh, hrv]
    cases hv : v.happened with
    | true => simp
    | false => simpa using hc.symm
  · intro hb
    by_cases hready : CheckReady c A = 0
    · obtain ⟨r, hl⟩ := loop_returns fuel G A velocity deltaT method A._streams hb
        ⟨false, 0, A._separatorCount⟩
      refine ⟨if r.2.happened then c.ADVECT_HAPPENED else 0,
        { A with _streams := r.1, _separatorCount := r.2.separatorCount }, ?_⟩
      simp only [AdvectOneStep, hready, ne_eq, not_true_eq_false, if_false, hl, bind,
        Except.bind, pure, Except.pure]
    · exact ⟨_, _, AdvectOneStep_not_ready c fuel G A velocity deltaT method hready⟩

/-- Witness of C3: the Euler step on the constant field returns `ADVECT_HAPPENED`, and
the stream that advanced is found. -/
theorem AdvectOneStep_status_witness :
    exampleCodes.ADVECT_HAPPENED ≠ 0 ∧
    ∃ (i : Nat) (s s1 : List Particle),
      (UseSeedParticles exampleFresh [exampleParticle 0 0])._streams[i]? = some s ∧
      ({ exampleFresh with _streams := [[exampleParticle 0 0, exampleParticle 1 1]],
                           _separatorCount := [0] } : Advection)._streams[i]? = some s1 ∧
      physicalCount s < physicalCount s1 :=
  ⟨by decide,
   ((AdvectOneStep_status exampleCodes 0 exampleGlm
      (UseSeedParticles exampleFresh [exampleParticle 0 0]) exampleConstField 1 .EULER
      (by decide)).2.1 rfl 1 _ AdvectOneStep_example_euler).1.mp rfl⟩

/-! ## Single-step integration: the periodic correction -/

theorem incrementAt_length (l : List Nat) (i : Nat) : (incrementAt l i).length = l.length := by
  unfold incrementAt
  split <;> simp

theorem incrementAt_getElem?_ne (l : List Nat) (i j : Nat) (h : i ≠ j) :
    (incrementAt l i)[j]? = l[j]? := by
  unfold incrementAt
  split
  · simp [List.getElem?_set, h]
  · rfl

theorem incrementAt_getElem?_self (l : List Nat) (i : Nat) :
    (incrementAt l i)[i]? = (l[i]?).map (· + 1) := by
  unfold incrementAt
  split
  · next n hn =>
    have hlt : i < l.length := by
      by_contra hge
      rw [List.getElem?_eq_none (by omega)] at hn
      cases hn
    simp [hn, List.getElem?_set, hlt]
  · next hn => simp [hn]

theorem body_wrap_result (fuel : Nat) (G : Glm) (A : Advection) (velocity : Field)
    (deltaT : ℚ) (method : ADVECTION_METHOD) (s : List Particle) (p0 : Particle) (v : LoopVars)
    (loc : Vec3) (s1 : List Particle) (v1 : LoopVars) (hlast : s.getLast? = some p0)
    (hout : velocity.InsideVolumeVelocity p0.time p0.location = false)
    (hw : wrapLocation fuel A p0.location = .ok (loc, true))
    (hin : velocity.InsideVolumeVelocity p0.time loc = true)
    (h : AdvectOneStep.body fuel G A velocity deltaT method s v = .ok (s1, v1)) :
    AdvectOneStep.integrate G A velocity deltaT method
      (s.dropLast ++ [separator, { p0 with location := loc }]) { p0 with location := loc }
      { v with separatorCount := incrementAt v.separatorCount v.streamIdx } = .ok (s1, v1) := by
  rw [body_of_wrap fuel G A velocity deltaT method s p0 v loc hlast hout hw hin] at h
  exact h

/-- The loop of `AdvectOneStep` never moves `streamIdx` backwards and never touches a
counter below the current `streamIdx`. -/
theorem loop_frame_below (fuel : Nat) (G : Glm) (A : Advection) (velocity : Field)
    (deltaT : ℚ) (method : ADVECTION_METHOD) (streams : List (List Particle)) :
    ∀ (v : LoopVars) (r : List (List Particle)) (v2 : LoopVars),
      AdvectOneStep.loop fuel G A velocity deltaT method streams v = .ok (r, v2) →
      v.streamIdx ≤ v2.streamIdx ∧
      ∀ j : Nat, j < v.streamIdx → v2.separatorCount[j]? = v.separatorCount[j]? := by
  induction streams with
  | nil =>
    intro v r v2 h
    simp only [AdvectOneStep.loop, pure, Except.pure, Except.ok.injEq, Prod.mk.injEq] at h
    simp [← h.2]
  | cons s0 rest ih =>
    intro v r v2 h
    obtain ⟨s1, v1, rest1, hb, hl, _⟩ :=
      loop_cons_ok fuel G A velocity deltaT method s0 rest v r v2 h
    obtain ⟨w, a, _, _, hv1⟩ := body_effect fuel G A velocity deltaT method s0 v s1 v1 hb
    obtain ⟨hle, hfr⟩ := ih v1 rest1 v2 hl
    have hidx : v1.streamIdx = v.streamIdx + a.toNat := by rw [hv1]
    have hsep : ∀ j : Nat, j < v.streamIdx → v1.separatorCount[j]? = v.separatorCount[j]? := by
      intro j hj
      rw [hv1]
      cases w
      · simp
      · simp only [if_true]
        exact incrementAt_getElem?_ne _ _ _ (by omega)
    refine ⟨by omega, ?_⟩
    intro j hj
    rw [hfr j (by omega), hsep j hj]

/-- When every stream up to position `i` receives a particle, `streamIdx` equals the
position of the stream being processed, and the separator inserted into stream `i`
is counted at `i`. -/
theorem loop_counter_sync (fuel : Nat) (G : Glm) (A : Advection) (velocity : Field)
    (deltaT : ℚ) (method : ADVECTION_METHOD) (streams : List (List Particle)) :
    ∀ (v : LoopVars) (r : List (List Particle)) (v2 : LoopVars) (i : Nat) (s : List Particle)
      (p0 : Particle) (loc : Vec3),
      AdvectOneStep.loop fuel G A velocity deltaT method streams v = .ok (r, v2) →
      streams[i]? = some s → s.getLast? = some p0 →
      velocity.InsideVolumeVelocity p0.time p0.location = false →
      wrapLocation fuel A p0.location = .ok (loc, true) →
      velocity.InsideVolumeVelocity p0.time loc = true →
      (∀ (j : Nat) (sj sj1 : List Particle), j ≤ i → streams[j]? = some sj → r[j]? = some sj1 →
        physicalCount sj < physicalCount sj1) →
      v2.separatorCount[v.streamIdx + i]? = (v.separatorCount[v.streamIdx + i]?).map (· + 1) := by
  induction streams with
  | nil =>
    intro v r v2 i s p0 loc _ hs
    simp at hs
  | cons s0 rest ih =>
    intro v r v2 i s p0 loc h hs hlast hout hw hin hadv
    obtain ⟨s1, v1, rest1, hb, hl, hr⟩ :=
      loop_cons_ok fuel G A velocity deltaT method s0 rest v r v2 h
    subst hr
    have hgrow : physicalCount s0 < physicalCount s1 :=
      hadv 0 s0 s1 (Nat.zero_le _) (by simp) (by simp)
    obtain ⟨hle, hfr⟩ := loop_frame_below fuel G A velocity deltaT method rest v1 rest1 v2 hl
    cases i with
    | zero =>
      simp only [List.getElem?_cons_zero, Option.some.injEq] at hs
      subst hs
      have hi := body_wrap_result fuel G A velocity deltaT method s0 p0 v loc s1 v1 hlast hout
        hw hin hb
      obtain ⟨a, _, hcount, hv1⟩ := integrate_effect G A velocity deltaT method _ _ _ s1 v1 hi
      rw [physicalCount_wrap s0 p0 loc hlast] at hcount
      have ha : a = true := by
        cases a
        · simp [hcount] at hgrow
        · rfl
      subst ha
      have hidx : v1.streamIdx = v.streamIdx + 1 := by rw [hv1]; rfl
      have hsep : v1.separatorCount = incrementAt v.separatorCount v.streamIdx := by rw [hv1]
      rw [Nat.add_zero, hfr v.streamIdx (by omega), hsep]
      exact incrementAt_getElem?_self _ _
    | succ k =>
      obtain ⟨w, a, _, hcount, hv1⟩ := body_effect fuel G A velocity deltaT method s0 v s1 v1 hb
      have ha : a = true := by
        cases a
        · simp [hcount] at hgrow
        · rfl
      subst ha
      have hidx : v1.streamIdx = v.streamIdx + 1 := by rw [hv1]; rfl
      have hsep : v1.separatorCount[v.streamIdx + (k + 1)]? =
          v.separatorCount[v.streamIdx + (k + 1)]? := by
        rw [hv1]
        cases w
        · simp
        · simp only [if_true]
          exact incrementAt_getElem?_ne _ _ _ (by omega)
      have hrec := ih v1 rest1 v2 k s p0 loc hl (by simpa using hs) hlast hout hw hin
        (fun j sj sj1 hj h1 h2 =>
          hadv (j + 1) sj sj1 (by omega) (by simpa using h1) (by simpa using h2))
      have hk : v1.streamIdx + k = v.streamIdx + (k + 1) := by omega
      rw [hk] at hrec
      rw [hrec, hsep]

theorem wrapLocation_example :
    wrapLocation 1 examplePeriodic ⟨21 / 2, 0, 0⟩ = .ok (⟨1 / 2, 0, 0⟩, true) := by
  norm_num [wrapLocation, wrapAxis, examplePeriodic, Axes.get, Vec3.get, Vec3.set,
    _applyPeriodic, _applyPeriodic.down, bind, Except.bind, pure, Except.pure]

theorem AdvectOneStep_example_wrap :
    AdvectOneStep exampleCodes 1 exampleGlm examplePeriodic exampleBoxField 1 .EULER =
      .ok (1, { examplePeriodic with
        _streams := [[separator, exampleParticle (1 / 2) 0, exampleParticle (3 / 2) 1]],
        _separatorCount := [1] }) := by
  norm_num [AdvectOneStep, CheckReady, CheckReady.go, examplePeriodic, exampleParticle,
    exampleBoxField, exampleCodes, AdvectOneStep.loop, AdvectOneStep.body, AdvectOneStep.wrap,
    AdvectOneStep.integrate, AdvectOneStep.stepSize, advect, _advectEuler, Particle.default,
    Vec3.add, Vec3.smul, wrapLocation, wrapAxis, Axes.get, Vec3.get, Vec3.set,
    _applyPeriodic, _applyPeriodic.down, incrementAt, separator, Particle.SetSpecial,
    Particle.IsSpecial, bind, Except.bind, pure, Except.pure]

/-- Counterexample to C4 as stated: X periodic over `[0,10]`, last particle at
`x = 10.5` outside the domain, its wrapped location `x = 0.5` inside. After the call
the last two entries of the stream are the relocated particle and the newly integrated
one, not the separator and the relocated particle. -/
theorem AdvectOneStep_wrap_counterexample :
    exampleBoxField.InsideVolumeVelocity 0 ⟨21 / 2, 0, 0⟩ = false ∧
    wrapLocation 1 examplePeriodic ⟨21 / 2, 0, 0⟩ = .ok (⟨1 / 2, 0, 0⟩, true) ∧
    exampleBoxField.InsideVolumeVelocity 0 ⟨1 / 2, 0, 0⟩ = true ∧
    AdvectOneStep exampleCodes 1 exampleGlm examplePeriodic exampleBoxField 1 .EULER =
      .ok (1, { examplePeriodic with
        _streams := [[separator, exampleParticle (1 / 2) 0, exampleParticle (3 / 2) 1]],
        _separatorCount := [1] }) ∧
    [separator, exampleParticle (1 / 2) 0, exampleParticle (3 / 2) 1].drop (3 - 2) ≠
      [separator, exampleParticle (1 / 2) 0] := by
  refine ⟨?_, wrapLocation_example, ?_, AdvectOneStep_example_wrap, ?_⟩
  · norm_num [exampleBoxField]
  · norm_num [exampleBoxField]
  · simp [separator, exampleParticle, Particle.SetSpecial, Particle.default]

/-- C4, amended. For a stream whose last particle is outside the domain while its
periodic-wrapped location is inside, after a call of `AdvectOneStep` that returns the
stream is: its former particles without the last, a separator, the former last
particle at the wrapped location, and then the newly integrated particle when the
integration from the relocated particle succeeded (the separator and the relocated
particle are the last two entries when it failed). When this stream and every stream
before it received a particle in the call, the separator count of the stream is one
more than before. -/
theorem AdvectOneStep_wrap_inserts (c : Codes) (fuel : Nat) (G : Glm) (A : Advection)
    (velocity : Field) (deltaT : ℚ) (method : ADVECTION_METHOD) (i : Nat) (s : List Particle)
    (p0 : Particle) (loc : Vec3) (rv : Int) (A1 : Advection)
    (hs : A._streams[i]? = some s) (hlast : s.getLast? = some p0)
    (hout : velocity.InsideVolumeVelocity p0.time p0.location = false)
    (hw : wrapLocation fuel A p0.location = .ok (loc, true))
    (hin : velocity.InsideVolumeVelocity p0.time loc = true)
    (hready : CheckReady c A = 0)
    (hcall : AdvectOneStep c fuel G A velocity deltaT method = .ok (rv, A1)) :
    (∃ s1, A1._streams[i]? = some s1 ∧
      ((s1 = s.dropLast ++ [separator, { p0 with location := loc }] ∧
        ∃ (st : Int) (p1 : Particle), st ≠ 0 ∧
          advect method velocity { p0 with location := loc }
            (AdvectOneStep.stepSize G A deltaT
              (s.dropLast ++ [separator, { p0 with location := loc }])
              { p0 with location := loc }) Particle.default = .ok (st, p1)) ∨
       (∃ p1 : Particle,
          advect method velocity { p0 with location := loc }
            (AdvectOneStep.stepSize G A deltaT
              (s.dropLast ++ [separator, { p0 with location := loc }])
              { p0 with location := loc }) Particle.default = .ok (0, p1) ∧
          s1 = s.dropLast ++ [separator, { p0 with location := loc }] ++ [p1]))) ∧
    ((∀ (j : Nat) (sj sj1 : List Particle), j ≤ i → A._streams[j]? = some sj →
        A1._streams[j]? = some sj1 → physicalCount sj < physicalCount sj1) →
      A1._separatorCount[i]? = (A._separatorCount[i]?).map (· + 1)) := by
  obtain ⟨r, v, hl, _, hA⟩ :=
    AdvectOneStep_ready c fuel G A velocity deltaT method rv A1 hready hcall
  have hstreams : A1._streams = r := by rw [hA]
  have hcount : A1._separatorCount = v.separatorCount := by rw [hA]
  constructor
  · obtain ⟨_, hat⟩ := loop_at fuel G A velocity deltaT method A._streams _ r v hl
    obtain ⟨s1, vi, vj, h1, h2⟩ := hat i s hs
    refine ⟨s1, by rw [hstreams]; exact h1, ?_⟩
    have hi := body_wrap_result fuel G A velocity deltaT method s p0 vi loc s1 vj hlast hout
      hw hin h2
    rcases integrate_cases G A velocity deltaT method _ _ _ s1 vj hi with
      ⟨hs1, _, st, p1, hst, ha⟩ | ⟨p1, ha, hs1, _⟩
    · exact Or.inl ⟨hs1, st, p1, hst, ha⟩
    · exact Or.inr ⟨p1, ha, hs1⟩
  · intro hadv
    rw [hstreams] at hadv
    have h := loop_counter_sync fuel G A velocity deltaT method A._streams _ r v i s p0 loc hl
      hs hlast hout hw hin hadv
    simpa [hcount] using h

/-- Witness of C4, amended: X periodic over `[0,10]`, last particle at `x = 10.5`; the
stream becomes separator, particle at `x = 0.5`, new particle, and its separator count
goes from 0 to 1. -/
theorem AdvectOneStep_wrap_inserts_witness :
    (∃ s1, ({ examplePeriodic with
        _streams := [[separator, exampleParticle (1 / 2) 0, exampleParticle (3 / 2) 1]],
        _separatorCount := [1] } : Advection)._streams[0]? = some s1 ∧
      s1.take 2 = [separator, exampleParticle (1 / 2) 0]) ∧
    ({ examplePeriodic with
        _streams := [[separator, exampleParticle (1 / 2) 0, exampleParticle (3 / 2) 1]],
        _separatorCount := [1] } : Advection)._separatorCount[0]? =
      (examplePeriodic._separatorCount[0]?).map (· + 1) := by
  have h := AdvectOneStep_wrap_inserts exampleCodes 1 exampleGlm examplePeriodic
    exampleBoxField 1 .EULER 0 [exampleParticle (21 / 2) 0] (exampleParticle (21 / 2) 0)
    ⟨1 / 2, 0, 0⟩ 1 _ rfl rfl (by norm_num [exampleBoxField, exampleParticle])
    wrapLocation_example (by norm_num [exampleBoxField, exampleParticle]) rfl
    AdvectOneStep_example_wrap
  refine ⟨?_, h.2 ?_⟩
  · obtain ⟨s1, hs1, _⟩ := h.1
    refine ⟨s1, hs1, ?_⟩
    simp only [List.getElem?_cons_zero, Option.some.injEq] at hs1
    rw [← hs1]
    rfl
  · intro j sj sj1 hj h1 h2
    have hj0 : j = 0 := by omega
    subst hj0
    simp only [examplePeriodic, List.getElem?_cons_zero, Option.some.injEq] at h1 h2
    rw [← h1, ← h2]
    decide

/-- C5, evaluation at the failing input. Two streams, X periodic over `[0,10]`, domain
`0 ≤ x ≤ 1`. Stream 0 ends at `x = 5`: outside the domain, and still outside after the
periodic correction, so it is skipped and keeps its particles. Stream 1 ends at
`x = 10.5` and is brought back to `x = 0.5`. The call counts the separator inserted
into stream 1 at index 0: the separator count of the skipped stream goes from 0 to 1
and that of stream 1 stays 0. -/
theorem AdvectOneStep_skip_miscount :
    exampleUnitField.InsideVolumeVelocity 0 ⟨5, 0, 0⟩ = false ∧
    wrapLocation 1 exampleTwoStreams ⟨5, 0, 0⟩ = .ok (⟨5, 0, 0⟩, true) ∧
    AdvectOneStep exampleCodes 1 exampleGlm exampleTwoStreams exampleUnitField 1 .EULER =
      .ok (1, { exampleTwoStreams with
        _streams := [[exampleParticle 5 0],
          [separator, exampleParticle (1 / 2) 0, exampleParticle (3 / 2) 1]],
        _separatorCount := [1, 0] }) ∧
    exampleTwoStreams._separatorCount = [0, 0] := by
  refine ⟨?_, ?_, ?_, rfl⟩
  · norm_num [exampleUnitField]
  · norm_num [wrapLocation, wrapAxis, exampleTwoStreams, Axes.get, Vec3.get, Vec3.set,
      _applyPeriodic, bind, Except.bind, pure, Except.pure]
  · norm_num [AdvectOneStep, CheckReady, CheckReady.go, exampleTwoStreams, exampleParticle,
      exampleUnitField, exampleCodes, AdvectOneStep.loop, AdvectOneStep.body,
      AdvectOneStep.wrap, AdvectOneStep.integrate, AdvectOneStep.stepSize, advect,
      _advectEuler, Particle.default, Vec3.add, Vec3.smul, wrapLocation, wrapAxis, Axes.get,
      Vec3.get, Vec3.set, _applyPeriodic, _applyPeriodic.down, incrementAt, separator,
      Particle.SetSpecial, Particle.IsSpecial, bind, Except.bind, pure, Except.pure]

/-! ## The integrators -/

/-- With exact arithmetic, on a velocity field that is constant in space and time and
whose sampling succeeds, the RK4 step returns what the Euler step returns, for every
base particle and every `dt`. -/
theorem advectRK4_exact_of_const (velocity : Field) (vel : Vec3)
    (hconst : ∀ (t : ℚ) (x : Vec3), velocity.GetVelocity t x = (0, vel))
    (p0 : Particle) (dt : ℚ) (q : Particle) :
    _advectRK4 velocity p0 dt q = _advectEuler velocity p0 dt q ∧
    _advectEuler velocity p0 dt q =
      .ok (0, { q with location := p0.location.add (Vec3.smul dt vel), time := p0.time + dt }) := by
  have hloc : p0.location.add
      (Vec3.smul (dt / 6) ((vel.add (Vec3.smul 2 (vel.add vel))).add vel)) =
      p0.location.add (Vec3.smul dt vel) := by
    simp only [Vec3.add, Vec3.smul, Vec3.mk.injEq]
    refine ⟨?_, ?_, ?_⟩ <;> ring
  constructor
  · simp only [_advectRK4, _advectEuler, hconst, ne_eq, not_true_eq_false, if_false, hloc]
  · simp only [_advectEuler, hconst, ne_eq, not_true_eq_false, if_false]

/-- With exact arithmetic: the field `v = (1,0,0)`, the seed at the origin, `dt = 1`. -/
theorem advectRK4_exact_of_const_example :
    _advectRK4 exampleConstField (exampleParticle 0 0) 1 Particle.default =
      _advectEuler exampleConstField (exampleParticle 0 0) 1 Particle.default :=
  (advectRK4_exact_of_const exampleConstField ⟨1, 0, 0⟩ (fun _ _ => rfl)
    (exampleParticle 0 0) 1 Particle.default).1

theorem advectRK4_propagates (velocity : Field) (p0 : Particle) (dt : ℚ) (q : Particle)
    (k1 : Vec3) (r2 r3 r4 : Int × Vec3)
    (hk1 : velocity.GetVelocity p0.time p0.location = (0, k1))
    (h2 : velocity.GetVelocity (p0.time + dt * (1 / 2))
      (p0.location.add (Vec3.smul (dt * (1 / 2)) k1)) = r2)
    (h3 : velocity.GetVelocity (p0.time + dt * (1 / 2))
      (p0.location.add (Vec3.smul (dt * (1 / 2)) r2.2)) = r3)
    (h4 : velocity.GetVelocity (p0.time + dt) (p0.location.add (Vec3.smul dt r3.2)) = r4)
    (hfail : r2.1 ≠ 0 ∨ r3.1 ≠ 0 ∨ r4.1 ≠ 0) :
    _advectRK4 velocity p0 dt q =
      .ok (if r2.1 ≠ 0 then r2.1 else if r3.1 ≠ 0 then r3.1 else r4.1, q) ∧
    (if r2.1 ≠ 0 then r2.1 else if r3.1 ≠ 0 then r3.1 else r4.1) ≠ 0 := by
  subst h2 h3 h4
  by_cases c2 : (velocity.GetVelocity (p0.time + dt * (1 / 2))
      (p0.location.add (Vec3.smul (dt * (1 / 2)) k1))).1 = 0
  · by_cases c3 : (velocity.GetVelocity (p0.time + dt * (1 / 2))
        (p0.location.add (Vec3.smul (dt * (1 / 2)) (velocity.GetVelocity (p0.time + dt * (1 / 2))
          (p0.location.add (Vec3.smul (dt * (1 / 2)) k1))).2))).1 = 0
    · have c4 := hfail
      simp only [c2, c3, ne_eq, not_true_eq_false, false_or] at c4
      simp only [_advectRK4, hk1, c2, c3, c4, ne_eq, not_true_eq_false, not_false_eq_true,
        if_false, if_true, and_self]
    · simp only [_advectRK4, hk1, c2, c3, ne_eq, not_true_eq_false, not_false_eq_true,
        if_false, if_true, and_self]
  · simp only [_advectRK4, hk1, c2, ne_eq, not_true_eq_false, not_false_eq_true,
      if_false, if_true, and_self]

theorem loop_of_body_ok (fuel : Nat) (G : Glm) (A : Advection) (velocity : Field)
    (deltaT : ℚ) (method : ADVECTION_METHOD) (s sb : List Particle)
    (rest : List (List Particle)) (v v1 : LoopVars)
    (hb : AdvectOneStep.body fuel G A velocity deltaT method s v = .ok (sb, v1)) :
    AdvectOneStep.loop fuel G A velocity deltaT method (s :: rest) v =
      (AdvectOneStep.loop fuel G A velocity deltaT method rest v1).map
        (fun r => (sb :: r.1, r.2)) := by
  simp only [AdvectOneStep.loop, hb, bind, Except.bind, pure, Except.pure]
  cases AdvectOneStep.loop fuel G A velocity deltaT method rest v1 <;> rfl

/-- C7. With RK4, when the sample for `k2`, `k3` or `k4` fails, `_advectRK4` returns
the status of the first failing sample, which is not 0. In `AdvectOneStep` the stream
then receives no particle: with `sb` the stream after the periodic correction and `pb`
its last particle (the stream itself when its last particle is inside the domain), the
iteration returns `sb` without raising `happened` nor moving `streamIdx`, an in-domain
stream is left exactly as it was together with the loop variables, the loop goes on
with the next stream, and any call that returns holds `sb` at that position. -/
theorem AdvectOneStep_rk4_failure (c : Codes) (fuel : Nat) (G : Glm) (A : Advection)
    (velocity : Field) (deltaT : ℚ) (i : Nat) (s : List Particle) (p0 : Particle)
    (sb : List Particle) (pb : Particle) (dt : ℚ) (k1 : Vec3) (r2 r3 r4 : Int × Vec3)
    (hs : A._streams[i]? = some s) (hlast : s.getLast? = some p0)
    (hbase : (velocity.InsideVolumeVelocity p0.time p0.location = true ∧ sb = s ∧ pb = p0) ∨
      (velocity.InsideVolumeVelocity p0.time p0.location = false ∧
        ∃ loc : Vec3, wrapLocation fuel A p0.location = .ok (loc, true) ∧
          velocity.InsideVolumeVelocity p0.time loc = true ∧
          sb = s.dropLast ++ [separator, { p0 with location := loc }] ∧
          pb = { p0 with location := loc }))
    (hdt : dt = AdvectOneStep.stepSize G A deltaT sb pb)
    (hk1 : velocity.GetVelocity pb.time pb.location = (0, k1))
    (h2 : velocity.GetVelocity (pb.time + dt * (1 / 2))
      (pb.location.add (Vec3.smul (dt * (1 / 2)) k1)) = r2)
    (h3 : velocity.GetVelocity (pb.time + dt * (1 / 2))
      (pb.location.add (Vec3.smul (dt * (1 / 2)) r2.2)) = r3)
    (h4 : velocity.GetVelocity (pb.time + dt) (pb.location.add (Vec3.smul dt r3.2)) = r4)
    (hfail : r2.1 ≠ 0 ∨ r3.1 ≠ 0 ∨ r4.1 ≠ 0) :
    _advectRK4 velocity pb dt Particle.default =
      .ok (if r2.1 ≠ 0 then r2.1 else if r3.1 ≠ 0 then r3.1 else r4.1, Particle.default) ∧
    (if r2.1 ≠ 0 then r2.1 else if r3.1 ≠ 0 then r3.1 else r4.1) ≠ 0 ∧
    physicalCount sb = physicalCount s ∧
    (velocity.InsideVolumeVelocity p0.time p0.location = true → sb = s) ∧
    (∀ v : LoopVars, ∃ v1 : LoopVars,
      AdvectOneStep.body fuel G A velocity deltaT .RK4 s v = .ok (sb, v1) ∧
      v1.happened = v.happened ∧ v1.streamIdx = v.streamIdx ∧
      (velocity.InsideVolumeVelocity p0.time p0.location = true → v1 = v) ∧
      ∀ rest : List (List Particle),
        AdvectOneStep.loop fuel G A velocity deltaT .RK4 (s :: rest) v =
          (AdvectOneStep.loop fuel G A velocity deltaT .RK4 rest v1).map
            (fun r => (sb :: r.1, r.2))) ∧
    (∀ (rv : Int) (A1 : Advection), CheckReady c A = 0 →
      AdvectOneStep c fuel G A velocity deltaT .RK4 = .ok (rv, A1) →
      A1._streams[i]? = some sb) := by
  obtain ⟨hrk, hne⟩ :=
    advectRK4_propagates velocity pb dt Particle.default k1 r2 r3 r4 hk1 h2 h3 h4 hfail
  have hadv : advect .RK4 velocity pb (AdvectOneStep.stepSize G A deltaT sb pb)
      Particle.default =
      .ok (if r2.1 ≠ 0 then r2.1 else if r3.1 ≠ 0 then r3.1 else r4.1, Particle.default) := by
    rw [← hdt]
    exact hrk
  have hbody : ∀ v : LoopVars, ∃ v1 : LoopVars,
      AdvectOneStep.body fuel G A velocity deltaT .RK4 s v = .ok (sb, v1) ∧
      v1.happened = v.happened ∧ v1.streamIdx = v.streamIdx ∧
      (velocity.InsideVolumeVelocity p0.time p0.location = true → v1 = v) := by
    intro v
    rcases hbase with ⟨hin, hsb, hpb⟩ | ⟨hout, loc, hw, hin, hsb, hpb⟩
    · subst hsb hpb
      refine ⟨v, ?_, rfl, rfl, fun _ => rfl⟩
      rw [body_of_inside fuel G A velocity deltaT .RK4 sb pb v hlast hin]
      exact integrate_of_fail G A velocity deltaT .RK4 sb pb v _ Particle.default hne hadv
    · subst hsb hpb
      refine ⟨{ v with separatorCount := incrementAt v.separatorCount v.streamIdx }, ?_, rfl,
        rfl, ?_⟩
      · rw [body_of_wrap fuel G A velocity deltaT .RK4 s p0 v loc hlast hout hw hin]
        exact integrate_of_fail G A velocity deltaT .RK4 _ _ _ _ Particle.default hne hadv
      · intro h
        rw [hout] at h
        cases h
  refine ⟨hrk, hne, ?_, ?_, ?_, ?_⟩
  · rcases hbase with ⟨_, hsb, _⟩ | ⟨_, loc, _, _, hsb, _⟩
    · rw [hsb]
    · rw [hsb]
      exact physicalCount_wrap s p0 loc hlast
  · intro hin
    rcases hbase with ⟨_, hsb, _⟩ | ⟨hout, _⟩
    · exact hsb
    · rw [hout] at hin
      cases hin
  · intro v
    obtain ⟨v1, hb, h1, h2, h3⟩ := hbody v
    exact ⟨v1, hb, h1, h2, h3, fun rest =>
      loop_of_body_ok fuel G A velocity deltaT .RK4 s sb rest v v1 hb⟩
  · intro rv A1 hready hcall
    obtain ⟨r, v, hl, _, hA⟩ :=
      AdvectOneStep_ready c fuel G A velocity deltaT .RK4 rv A1 hready hcall
    obtain ⟨_, hat⟩ := loop_at fuel G A velocity deltaT .RK4 A._streams _ r v hl
    obtain ⟨s1, vi, vj, h1, hb⟩ := hat i s hs
    obtain ⟨v1, hb1, _⟩ := hbody vi
    rw [hb1] at hb
    simp only [Except.ok.injEq, Prod.mk.injEq] at hb
    rw [hA]
    simp only
    rw [h1, ← hb.1]

/-- Witness of C7: a field whose sampling fails at every time but 0; the sample for
`k2`, taken at time `1/2`, fails with status `-1`, and the stream of the single seed
is left as it was. -/
theorem AdvectOneStep_rk4_failure_witness :
    _advectRK4 exampleLateFailField (exampleParticle 0 0) 1 Particle.default =
      .ok (-1, Particle.default) ∧
    ∀ v : LoopVars, ∃ v1 : LoopVars,
      AdvectOneStep.body 0 exampleGlm (UseSeedParticles exampleFresh [exampleParticle 0 0])
        exampleLateFailField 1 .RK4 [exampleParticle 0 0] v =
        .ok ([exampleParticle 0 0], v1) ∧ v1 = v := by
  have h := AdvectOneStep_rk4_failure exampleCodes 0 exampleGlm
    (UseSeedParticles exampleFresh [exampleParticle 0 0]) exampleLateFailField 1 0
    [exampleParticle 0 0] (exampleParticle 0 0) [exampleParticle 0 0] (exampleParticle 0 0)
    1 ⟨1, 0, 0⟩ (-1, ⟨1, 0, 0⟩) (-1, ⟨1, 0, 0⟩) (-1, ⟨1, 0, 0⟩) rfl rfl
    (Or.inl ⟨rfl, rfl, rfl⟩) rfl
    (by norm_num [exampleLateFailField, exampleParticle])
    (by norm_num [exampleLateFailField, exampleParticle])
    (by norm_num [exampleLateFailField, exampleParticle])
    (by norm_num [exampleLateFailField, exampleParticle])
    (Or.inl (by decide))
  refine ⟨h.1, ?_⟩
  intro v
  obtain ⟨v1, hb, _, _, hv, _⟩ := h.2.2.2.2.1 v
  exact ⟨v1, hb, hv rfl⟩

theorem loop_error_of_body_error (fuel : Nat) (G : Glm) (A : Advection) (velocity : Field)
    (deltaT : ℚ) (method : ADVECTION_METHOD) (streams : List (List Particle)) (i : Nat)
    (s : List Particle) (hs : streams[i]? = some s)
    (hb : ∀ (v : LoopVars) (s1 : List Particle) (v1 : LoopVars),
      AdvectOneStep.body fuel G A velocity deltaT method s v ≠ .ok (s1, v1))
    (v : LoopVars) (r : List (List Particle)) (v2 : LoopVars) :
    AdvectOneStep.loop fuel G A velocity deltaT method streams v ≠ .ok (r, v2) := by
  intro hl
  obtain ⟨_, hat⟩ := loop_at fuel G A velocity deltaT method streams v r v2 hl
  obtain ⟨s1, vi, vj, _, h⟩ := hat i s hs
  exact hb vi s1 vj h

/-- Counterexample to C8 as stated: on a field whose velocity sample fails,
`_advectEuler` returns no failure status: the assertion on the sample stops it, and
with it the whole call of `AdvectOneStep`. -/
theorem advectEuler_counterexample :
    (exampleFailField.GetVelocity 0 ⟨0, 0, 0⟩).1 ≠ 0 ∧
    (¬ ∃ (st : Int) (p1 : Particle), st ≠ 0 ∧
      _advectEuler exampleFailField (exampleParticle 0 0) 1 Particle.default = .ok (st, p1)) ∧
    AdvectOneStep exampleCodes 0 exampleGlm (UseSeedParticles exampleFresh [exampleParticle 0 0])
      exampleFailField 1 .EULER = .error .assertFailed := by
  refine ⟨by decide, ?_, ?_⟩
  · rintro ⟨st, p1, _, h⟩
    simp [_advectEuler, exampleFailField] at h
  · norm_num [AdvectOneStep, CheckReady, CheckReady.go, UseSeedParticles,
      UseSeedParticles.fill, vectorResize, pushBackAt, exampleFresh, exampleParticle,
      exampleFailField, exampleCodes, AdvectOneStep.loop, AdvectOneStep.body,
      AdvectOneStep.wrap, AdvectOneStep.integrate, AdvectOneStep.stepSize, advect,
      _advectEuler, Particle.default, bind, Except.bind, pure, Except.pure]

/-- C8, amended. With the Euler method the step succeeds exactly when its single
velocity sample at `(t0, x0)` succeeds: `_advectEuler` then returns 0 with the new
particle, and a stream whose last particle is inside the domain receives it. When the
sample fails `_advectEuler` returns no status: its assertion stops the call, so the
only status it ever returns is 0, and no call of `AdvectOneStep` treating such a stream
returns. -/
theorem advectEuler_status (velocity : Field) (p0 : Particle) (dt : ℚ) (q : Particle) :
    ((velocity.GetVelocity p0.time p0.location).1 = 0 →
      _advectEuler velocity p0 dt q = .ok (0, { q with
        location := p0.location.add (Vec3.smul dt (velocity.GetVelocity p0.time p0.location).2),
        time := p0.time + dt })) ∧
    ((velocity.GetVelocity p0.time p0.location).1 ≠ 0 →
      _advectEuler velocity p0 dt q = .error .assertFailed) ∧
    (∀ (st : Int) (p1 : Particle), _advectEuler velocity p0 dt q = .ok (st, p1) → st = 0) ∧
    (∀ (c : Codes) (fuel : Nat) (G : Glm) (A : Advection) (deltaT : ℚ) (i : Nat)
      (s : List Particle), A._streams[i]? = some s → s.getLast? = some p0 →
      velocity.InsideVolumeVelocity p0.time p0.location = true →
      ((velocity.GetVelocity p0.time p0.location).1 = 0 →
        ∀ v : LoopVars,
          AdvectOneStep.body fuel G A velocity deltaT .EULER s v =
            .ok (s ++ [{ Particle.default with
                location := p0.location.add (Vec3.smul (AdvectOneStep.stepSize G A deltaT s p0)
                  (velocity.GetVelocity p0.time p0.location).2),
                time := p0.time + AdvectOneStep.stepSize G A deltaT s p0 }],
              { v with happened := true, streamIdx := v.streamIdx + 1 })) ∧
      ((velocity.GetVelocity p0.time p0.location).1 ≠ 0 →
        (∀ v : LoopVars,
          AdvectOneStep.body fuel G A velocity deltaT .EULER s v = .error .assertFailed) ∧
        ∀ (rv : Int) (A1 : Advection), CheckReady c A = 0 →
          AdvectOneStep c fuel G A velocity deltaT .EULER ≠ .ok (rv, A1))) := by
  have hcases := fun d => advectEuler_cases velocity p0 d q
  refine ⟨?_, ?_, ?_, ?_⟩
  · intro h
    rcases hcases dt with ⟨_, h2⟩ | ⟨h1, _⟩
    · exact h2
    · exact absurd h h1
  · intro h
    rcases hcases dt with ⟨h1, _⟩ | ⟨_, h2⟩
    · exact absurd h1 h
    · exact h2
  · intro st p1 h
    rcases hcases dt with ⟨_, h2⟩ | ⟨_, h2⟩
    · rw [h2] at h
      cases h
      rfl
    · rw [h2] at h
      cases h
  · intro c fuel G A deltaT i s hs hlast hin
    constructor
    · intro hok v
      rcases advectEuler_cases velocity p0 (AdvectOneStep.stepSize G A deltaT s p0)
        Particle.default with ⟨_, h2⟩ | ⟨h1, _⟩
      · rw [body_of_inside fuel G A velocity deltaT .EULER s p0 v hlast hin]
        exact integrate_of_ok G A velocity deltaT .EULER s p0 v _ h2
      · exact absurd hok h1
    · intro hfail
      have hbody : ∀ v : LoopVars,
          AdvectOneStep.body fuel G A velocity deltaT .EULER s v = .error .assertFailed := by
        intro v
        rcases advectEuler_cases velocity p0 (AdvectOneStep.stepSize G A deltaT s p0)
          Particle.default with ⟨h1, _⟩ | ⟨_, h2⟩
        · exact absurd h1 hfail
        · rw [body_of_inside fuel G A velocity deltaT .EULER s p0 v hlast hin]
          exact integrate_of_error G A velocity deltaT .EULER s p0 v _ h2
      refine ⟨hbody, ?_⟩
      intro rv A1 hready hcall
      obtain ⟨r, v, hl, _, _⟩ :=
        AdvectOneStep_ready c fuel G A velocity deltaT .EULER rv A1 hready hcall
      refine loop_error_of_body_error fuel G A velocity deltaT .EULER A._streams i s hs ?_ _ r
        v hl
      intro v0 s1 v1 h
      rw [hbody v0] at h
      cases h

/-- Witness of C8, amended: on the constant field the Euler step from the origin with
`dt = 1` returns status 0. -/
theorem advectEuler_status_witness :
    _advectEuler exampleConstField (exampleParticle 0 0) 1 Particle.default =
      .ok (0, { Particle.default with
        location := (exampleParticle 0 0).location.add (Vec3.smul 1
          (exampleConstField.GetVelocity (exampleParticle 0 0).time
            (exampleParticle 0 0).location).2),
        time := (exampleParticle 0 0).time + 1 }) :=
  (advectEuler_status exampleConstField (exampleParticle 0 0) 1 Particle.default).1 rfl

/-! ## Run-to-time integration -/

theorem tillWrap_of_inside (fuel : Nat) (A : Advection) (velocity : Field) (s : List Particle)
    (p0 : Particle) (v : LoopVars)
    (hin : velocity.InsideVolumeVelocity p0.time p0.location = true) :
    AdvectTillTime.wrap fuel A velocity s p0 v = .ok (some (s, p0, v)) := by
  simp [AdvectTillTime.wrap, hin, pure, Except.pure]

theorem tillWrap_of_outside (fuel : Nat) (A : Advection) (velocity : Field) (s : List Particle)
    (p0 : Particle) (v : LoopVars) (loc : Vec3) (ch : Bool) (hlast : s.getLast? = some p0)
    (hout : velocity.InsideVolumeVelocity p0.time p0.location = false)
    (hw : wrapLocation fuel A p0.location = .ok (loc, ch)) :
    AdvectTillTime.wrap fuel A velocity s p0 v =
      .ok (if ch && velocity.InsideVolumeVelocity p0.time loc then
        some (s.dropLast ++ [separator, { p0 with location := loc }],
          { p0 with location := loc },
          { v with separatorCount := incrementAt v.separatorCount v.streamIdx })
        else none) := by
  simp only [AdvectTillTime.wrap, hout, hlast, hw, bind, Except.bind, pure, Except.pure]
  cases ch <;> cases velocity.InsideVolumeVelocity p0.time loc <;> simp

theorem tillWrap_of_outside_error (fuel : Nat) (A : Advection) (velocity : Field)
    (s : List Particle) (p0 : Particle) (v : LoopVars) (e : Halt)
    (hlast : s.getLast? = some p0)
    (hout : velocity.InsideVolumeVelocity p0.time p0.location = false)
    (hw : wrapLocation fuel A p0.location = .error e) :
    AdvectTillTime.wrap fuel A velocity s p0 v = .error e := by
  simp only [AdvectTillTime.wrap, hout, hlast, hw, bind, Except.bind, pure, Except.pure]
  simp

/-- The possible results of the periodic correction at the head of an iteration of the
`while` loop of `AdvectTillTime`: a `break`, with the reason for it, or a stream whose
last particle `q0` is inside the domain and has the time of `p0`. -/
theorem tillWrap_cases (fuel : Nat) (G : Glm) (A : Advection) (velocity : Field)
    (deltaT targetT : ℚ) (method : ADVECTION_METHOD) (s : List Particle) (p0 : Particle)
    (v : LoopVars) (r : Option (List Particle × Particle × LoopVars))
    (hlast : s.getLast? = some p0) (ht : p0.time < targetT)
    (h : AdvectTillTime.wrap fuel A velocity s p0 v = .ok r) :
    (r = none ∧ velocity.InsideVolumeVelocity p0.time p0.location = false ∧
      ∃ (loc : Vec3) (ch : Bool), wrapLocation fuel A p0.location = .ok (loc, ch) ∧
        (ch = false ∨ velocity.InsideVolumeVelocity p0.time loc = false)) ∨
    (∃ (s1 : List Particle) (q0 : Particle) (v1 : LoopVars) (w : Bool),
      r = some (s1, q0, v1) ∧ s1.getLast? = some q0 ∧ q0.time = p0.time ∧
      velocity.InsideVolumeVelocity q0.time q0.location = true ∧
      physicalCount s1 = physicalCount s ∧
      v1 = { v with separatorCount :=
        if w then incrementAt v.separatorCount v.streamIdx else v.separatorCount } ∧
      ∀ s2, TillTimeHistory fuel G A velocity deltaT targetT method s1 s2 →
        TillTimeHistory fuel G A velocity deltaT targetT method s s2) := by
  cases hin : velocity.InsideVolumeVelocity p0.time p0.location with
  | true =>
    right
    rw [tillWrap_of_inside fuel A velocity s p0 v hin] at h
    cases h
    exact ⟨s, p0, v, false, rfl, hlast, rfl, hin, rfl, rfl, fun _ hh => hh⟩
  | false =>
    cases hw : wrapLocation fuel A p0.location with
    | error e =>
      rw [tillWrap_of_outside_error fuel A velocity s p0 v e hlast hin hw] at h
      cases h
    | ok lc =>
      obtain ⟨loc, ch⟩ := lc
      rw [tillWrap_of_outside fuel A velocity s p0 v loc ch hlast hin hw] at h
      cases h
      by_cases hno : ch = false ∨ velocity.InsideVolumeVelocity p0.time loc = false
      · left
        have hc : (ch && velocity.InsideVolumeVelocity p0.time loc) = false := by
          rcases hno with h1 | h1 <;> simp [h1]
        exact ⟨by simp [hc], rfl, loc, ch, rfl, hno⟩
      · right
        have hch : ch = true := by
          cases ch
          · exact absurd (Or.inl rfl) hno
          · rfl
        have hl : velocity.InsideVolumeVelocity p0.time loc = true := by
          cases hv : velocity.InsideVolumeVelocity p0.time loc
          · exact absurd (Or.inr hv) hno
          · rfl
        subst hch
        refine ⟨s.dropLast ++ [separator, { p0 with location := loc }],
          { p0 with location := loc },
          { v with separatorCount := incrementAt v.separatorCount v.streamIdx }, true,
          by simp [hl], by simp [List.getLast?_append], rfl, hl,
          physicalCount_wrap s p0 loc hlast, rfl, ?_⟩
        intro s2 hh
        exact TillTimeHistory.wrap s s2 p0 loc hlast ht hin hw hl hh

theorem whileLoop_done (fuel : Nat) (G : Glm) (A : Advection) (velocity : Field)
    (deltaT targetT : ℚ) (method : ADVECTION_METHOD) (n : Nat) (s : List Particle)
    (p0 : Particle) (v : LoopVars) (ht : ¬ p0.time < targetT) :
    AdvectTillTime.whileLoop fuel G A velocity deltaT targetT method n s p0 v = .ok (s, v) := by
  cases n <;> simp [AdvectTillTime.whileLoop, ht, pure, Except.pure]

theorem whileLoop_zero_lt (fuel : Nat) (G : Glm) (A : Advection) (velocity : Field)
    (deltaT targetT : ℚ) (method : ADVECTION_METHOD) (s : List Particle)
    (p0 : Particle) (v : LoopVars) (ht : p0.time < targetT) :
    AdvectTillTime.whileLoop fuel G A velocity deltaT targetT method 0 s p0 v =
      .error .outOfFuel := by
  simp [AdvectTillTime.whileLoop, ht]

theorem whileLoop_succ_lt (fuel : Nat) (G : Glm) (A : Advection) (velocity : Field)
    (deltaT targetT : ℚ) (method : ADVECTION_METHOD) (n : Nat) (s : List Particle)
    (p0 : Particle) (v : LoopVars) (ht : p0.time < targetT) :
    AdvectTillTime.whileLoop fuel G A velocity deltaT targetT method (n + 1) s p0 v =
      (AdvectTillTime.wrap fuel A velocity s p0 v).bind fun r =>
        match r with
        | none => .ok (s, v)
        | some (s1, q0, v1) =>
          (advect method velocity q0 (AdvectTillTime.stepSize G A deltaT s1 q0)
            Particle.default).bind fun a =>
            if a.1 ≠ 0 then .ok (s1, v1)
            else AdvectTillTime.whileLoop fuel G A velocity deltaT targetT method n
              (s1 ++ [a.2]) a.2 { v1 with happened := true } := by
  simp only [AdvectTillTime.whileLoop, ht, if_true, bind, pure, Except.pure]

/-- The result of the `while` loop of `AdvectTillTime` on a stream `s` whose last
particle is `p0`: the stream went through a history of corrections and of steps taken
below `targetT`, it stops below `targetT` only for one of the reasons of
`StoppedEarly`, and `happened` is raised exactly when the stream gained a particle. -/
theorem whileLoop_spec (fuel : Nat) (G : Glm) (A : Advection) (velocity : Field)
    (deltaT targetT : ℚ) (method : ADVECTION_METHOD) (n : Nat) :
    ∀ (s : List Particle) (p0 : Particle) (v : LoopVars) (s1 : List Particle) (v1 : LoopVars),
      s.getLast? = some p0 →
      AdvectTillTime.whileLoop fuel G A velocity deltaT targetT method n s p0 v = .ok (s1, v1) →
      TillTimeHistory fuel G A velocity deltaT targetT method s s1 ∧
      (∀ p : Particle, s1.getLast? = some p → p.time < targetT →
        StoppedEarly fuel G A velocity deltaT method s1 p) ∧
      physicalCount s ≤ physicalCount s1 ∧
      (v1.happened = true ↔ v.happened = true ∨ physicalCount s < physicalCount s1) ∧
      v1.streamIdx = v.streamIdx := by
  induction n with
  | zero =>
    intro s p0 v s1 v1 hlast h
    by_cases ht : p0.time < targetT
    · rw [whileLoop_zero_lt fuel G A velocity deltaT targetT method s p0 v ht] at h
      cases h
    · rw [whileLoop_done fuel G A velocity deltaT targetT method 0 s p0 v ht] at h
      cases h
      refine ⟨TillTimeHistory.stop s, ?_, Nat.le_refl _, by simp, rfl⟩
      intro p hp hpt
      rw [hlast] at hp
      cases hp
      exact absurd hpt ht
  | succ n ih =>
    intro s p0 v s1 v1 hlast h
    by_cases ht : p0.time < targetT
    · rw [whileLoop_succ_lt fuel G A velocity deltaT targetT method n s p0 v ht] at h
      cases hwr : AdvectTillTime.wrap fuel A velocity s p0 v with
      | error e =>
        rw [hwr] at h
        cases h
      | ok r =>
        rw [hwr] at h
        simp only [Except.bind] at h
        rcases tillWrap_cases fuel G A velocity deltaT targetT method s p0 v r hlast ht hwr with
          ⟨hr, hout, loc, ch, hw, hno⟩ | ⟨s2, q0, v2, w, hr, hlast2, hqt, hqin, hcnt, hv2, hhist⟩
        · subst hr
          simp only [Except.ok.injEq, Prod.mk.injEq] at h
          obtain ⟨hs, hv⟩ := h
          subst hs hv
          refine ⟨TillTimeHistory.stop s, ?_, Nat.le_refl _, by simp, rfl⟩
          intro p hp _
          rw [hlast] at hp
          cases hp
          exact Or.inl ⟨hout, loc, ch, hw, hno⟩
        · subst hr
          simp only at h
          have hqlt : q0.time < targetT := by rw [hqt]; exact ht
          cases ha : advect method velocity q0 (AdvectTillTime.stepSize G A deltaT s2 q0)
              Particle.default with
          | error e =>
            rw [ha] at h
            cases h
          | ok a =>
            obtain ⟨st, p1⟩ := a
            rw [ha] at h
            simp only [Except.bind] at h
            by_cases hst : st = 0
            · subst hst
              simp only [ne_eq, not_true_eq_false, if_false] at h
              have hp1 : p1.isSpecial = false := by
                have := advect_special method velocity q0 _ Particle.default p1 0 ha
                simpa [Particle.default] using this
              obtain ⟨h1, h2, h3, h4, h5⟩ :=
                ih (s2 ++ [p1]) p1 { v2 with happened := true } s1 v1
                  (by simp [List.getLast?_append]) h
              rw [physicalCount_push s2 p1 hp1, hcnt] at h3 h4
              refine ⟨hhist s1 (TillTimeHistory.step s2 s1 q0 p1 hlast2 hqlt hqin ha h1), h2,
                by omega, ?_, ?_⟩
              · constructor
                · intro _
                  right
                  omega
                · intro _
                  exact h4.mpr (Or.inl rfl)
              · rw [h5, hv2]
            · simp only [ne_eq, hst, not_false_eq_true, if_true, Except.ok.injEq,
                Prod.mk.injEq] at h
              obtain ⟨hs, hv⟩ := h
              subst hs hv
              refine ⟨hhist s2 (TillTimeHistory.stop s2), ?_, by omega, ?_, ?_⟩
              · intro p hp _
                rw [hlast2] at hp
                cases hp
                exact Or.inr ⟨hqin, st, p1, hst, ha⟩
              · rw [hcnt, hv2]
                simp
              · rw [hv2]
    · rw [whileLoop_done fuel G A velocity deltaT targetT method (n + 1) s p0 v ht] at h
      cases h
      refine ⟨TillTimeHistory.stop s, ?_, Nat.le_refl _, by simp, rfl⟩
      intro p hp hpt
      rw [hlast] at hp
      cases hp
      exact absurd hpt ht

theorem history_frame (fuel : Nat) (G : Glm) (A : Advection) (velocity : Field)
    (deltaT targetT : ℚ) (method : ADVECTION_METHOD) (s s1 : List Particle)
    (h : TillTimeHistory fuel G A velocity deltaT targetT method s s1) :
    s.length ≤ s1.length ∧ ∀ k : Nat, k + 1 < s.length → s1[k]? = s[k]? := by
  induction h with
  | stop s => exact ⟨Nat.le_refl _, fun _ _ => rfl⟩
  | wrap s s1 p0 loc hlast _ _ _ _ _ ih =>
    have hlen := length_wrap s p0 { p0 with location := loc } hlast
    refine ⟨by omega, ?_⟩
    intro k hk
    rw [ih.2 k (by omega)]
    rw [List.getElem?_append_left (by simp; omega)]
    rw [List.getElem?_dropLast, if_pos (by omega)]
  | step s s1 p0 p1 _ _ _ _ _ ih =>
    refine ⟨by have := ih.1; simp at this; omega, ?_⟩
    intro k hk
    rw [ih.2 k (by simp; omega)]
    exact List.getElem?_append_left (by omega)

/-- Along a history of `AdvectTillTime`, every particle from the former last one on
that is neither a separator nor the final particle has a time below `targetT`. -/
theorem history_below (fuel : Nat) (G : Glm) (A : Advection) (velocity : Field)
    (deltaT targetT : ℚ) (method : ADVECTION_METHOD) (s s1 : List Particle)
    (h : TillTimeHistory fuel G A velocity deltaT targetT method s s1) :
    ∀ (k : Nat) (p : Particle), s.length ≤ k + 1 → k + 1 < s1.length → s1[k]? = some p →
      p.isSpecial = false → p.time < targetT := by
  induction h with
  | stop s =>
    intro k p h1 h2
    omega
  | wrap s s1 p0 loc hlast ht _ _ _ hh ih =>
    intro k p h1 h2 hk hp
    have hlen := length_wrap s p0 { p0 with location := loc } hlast
    by_cases hge : (s.dropLast ++ [separator, { p0 with location := loc }]).length ≤ k + 1
    · exact ih k p hge h2 hk hp
    · have hfr := (history_frame fuel G A velocity deltaT targetT method _ s1 hh).2 k (by omega)
      rw [hfr, List.getElem?_append_right (by simp; omega)] at hk
      have hidx : k - s.dropLast.length = 0 := by simp; omega
      rw [hidx] at hk
      simp only [List.getElem?_cons_zero, Option.some.injEq] at hk
      rw [← hk] at hp
      simp [separator, Particle.SetSpecial] at hp
  | step s s1 p0 p1 hlast ht _ _ hh ih =>
    intro k p h1 h2 hk hp
    by_cases hge : (s ++ [p1]).length ≤ k + 1
    · exact ih k p hge h2 hk hp
    · have hlen : (s ++ [p1]).length = s.length + 1 := by simp
      have hfr := (history_frame fuel G A velocity deltaT targetT method _ s1 hh).2 k (by omega)
      rw [hfr, List.getElem?_append_left (by omega)] at hk
      have hk1 : k = s.length - 1 := by omega
      rw [hk1, ← List.getLast?_eq_getElem?, hlast] at hk
      cases hk
      exact ht

theorem tillBody_spec (fuel : Nat) (G : Glm) (A : Advection) (velocity : Field)
    (deltaT targetT : ℚ) (method : ADVECTION_METHOD) (s : List Particle) (v : LoopVars)
    (s1 : List Particle) (v1 : LoopVars)
    (h : AdvectTillTime.body fuel G A velocity deltaT targetT method s v = .ok (s1, v1)) :
    TillTimeHistory fuel G A velocity deltaT targetT method s s1 ∧
    (∀ p : Particle, s1.getLast? = some p → p.time < targetT →
      StoppedEarly fuel G A velocity deltaT method s1 p) ∧
    physicalCount s ≤ physicalCount s1 ∧
    (v1.happened = true ↔ v.happened = true ∨ physicalCount s < physicalCount s1) := by
  cases hlast : s.getLast? with
  | none =>
    simp only [AdvectTillTime.body, hlast, pure, Except.pure, Except.ok.injEq,
      Prod.mk.injEq] at h
    obtain ⟨hs, hv⟩ := h
    subst hs hv
    refine ⟨TillTimeHistory.stop s, ?_, Nat.le_refl _, by simp⟩
    intro p hp
    rw [hlast] at hp
    cases hp
  | some p0 =>
    simp only [AdvectTillTime.body, hlast, bind, Except.bind, pure, Except.pure] at h
    cases hw : AdvectTillTime.whileLoop fuel G A velocity deltaT targetT method fuel s p0 v with
    | error e =>
      rw [hw] at h
      cases h
    | ok r =>
      obtain ⟨s2, v2⟩ := r
      rw [hw] at h
      simp only [Except.ok.injEq, Prod.mk.injEq] at h
      obtain ⟨hs, hv⟩ := h
      subst hs hv
      obtain ⟨h1, h2, h3, h4, _⟩ :=
        whileLoop_spec fuel G A velocity deltaT targetT method fuel s p0 v s2 v2 hlast hw
      exact ⟨h1, h2, h3, h4⟩

theorem tillLoop_cons_ok (fuel : Nat) (G : Glm) (A : Advection) (velocity : Field)
    (deltaT targetT : ℚ) (method : ADVECTION_METHOD) (s : List Particle)
    (rest : List (List Particle)) (v : LoopVars) (r : List (List Particle)) (v2 : LoopVars)
    (h : AdvectTillTime.loop fuel G A velocity deltaT targetT method (s :: rest) v =
      .ok (r, v2)) :
    ∃ s1 v1 rest1,
      AdvectTillTime.body fuel G A velocity deltaT targetT method s v = .ok (s1, v1) ∧
      AdvectTillTime.loop fuel G A velocity deltaT targetT method rest v1 = .ok (rest1, v2) ∧
      r = s1 :: rest1 := by
  simp only [AdvectTillTime.loop, bind, Except.bind, pure, Except.pure] at h
  cases hb : AdvectTillTime.body fuel G A velocity deltaT targetT method s v with
  | error e => simp [hb] at h
  | ok b =>
    obtain ⟨s1, v1⟩ := b
    simp only [hb] at h
    cases hl : AdvectTillTime.loop fuel G A velocity deltaT targetT method rest v1 with
    | error e => simp [hl] at h
    | ok l =>
      obtain ⟨rest1, v3⟩ := l
      simp only [hl, Except.ok.injEq, Prod.mk.injEq] at h
      obtain ⟨h1, h2⟩ := h
      subst h2
      exact ⟨s1, v1, rest1, rfl, hl, h1.symm⟩

/-- The loop of `AdvectTillTime` over the streams treats the stream at each position
on its own, and raises `happened` exactly when some stream gained a particle. -/
theorem tillLoop_spec (fuel : Nat) (G : Glm) (A : Advection) (velocity : Field)
    (deltaT targetT : ℚ) (method : ADVECTION_METHOD) (streams : List (List Particle)) :
    ∀ (v : LoopVars) (r : List (List Particle)) (v2 : LoopVars),
      AdvectTillTime.loop fuel G A velocity deltaT targetT method streams v = .ok (r, v2) →
      (∀ (i : Nat) (s : List Particle), streams[i]? = some s →
        ∃ s1, r[i]? = some s1 ∧
          TillTimeHistory fuel G A velocity deltaT targetT method s s1 ∧
          (∀ p : Particle, s1.getLast? = some p → p.time < targetT →
            StoppedEarly fuel G A velocity deltaT method s1 p)) ∧
      (v2.happened = true ↔ v.happened = true ∨
        ∃ (i : Nat) (s s1 : List Particle), streams[i]? = some s ∧ r[i]? = some s1 ∧
          physicalCount s < physicalCount s1) := by
  induction streams with
  | nil =>
    intro v r v2 h
    simp only [AdvectTillTime.loop, pure, Except.pure, Except.ok.injEq, Prod.mk.injEq] at h
    simp [← h.2]
  | cons s0 rest ih =>
    intro v r v2 h
    obtain ⟨s1, v1, rest1, hb, hl, hr⟩ :=
      tillLoop_cons_ok fuel G A velocity deltaT targetT method s0 rest v r v2 h
    obtain ⟨hhist, hfin, _, hhap⟩ :=
      tillBody_spec fuel G A velocity deltaT targetT method s0 v s1 v1 hb
    obtain ⟨hat, hrest⟩ := ih v1 rest1 v2 hl
    subst hr
    constructor
    · intro i s hs
      cases i with
      | zero =>
        simp only [List.getElem?_cons_zero, Option.some.injEq] at hs
        subst hs
        exact ⟨s1, by simp, hhist, hfin⟩
      | succ k =>
        simp only [List.getElem?_cons_succ] at hs
        obtain ⟨s2, h1, h2⟩ := hat k s hs
        exact ⟨s2, by simpa using h1, h2⟩
    · rw [hrest, hhap]
      constructor
      · rintro ((h1 | h1) | ⟨i, s, s2, h1, h2, h3⟩)
        · exact Or.inl h1
        · exact Or.inr ⟨0, s0, s1, by simp, by simp, h1⟩
        · exact Or.inr ⟨i + 1, s, s2, by simpa using h1, by simpa using h2, h3⟩
      · rintro (h1 | ⟨i, s, s2, h1, h2, h3⟩)
        · exact Or.inl (Or.inl h1)
        · cases i with
          | zero =>
            simp only [List.getElem?_cons_zero, Option.some.injEq] at h1 h2
            subst h1 h2
            exact Or.inl (Or.inr h3)
          | succ k =>
            exact Or.inr ⟨k, s, s2, by simpa using h1, by simpa using h2, h3⟩

theorem AdvectTillTime_ready (c : Codes) (fuel : Nat) (G : Glm) (A : Advection)
    (velocity : Field) (deltaT targetT : ℚ) (method : ADVECTION_METHOD) (rv : Int)
    (A1 : Advection) (hready : CheckReady c A = 0)
    (h : AdvectTillTime c fuel G A velocity deltaT targetT method = .ok (rv, A1)) :
    ∃ r v, AdvectTillTime.loop fuel G A velocity deltaT targetT method A._streams
        ⟨false, 0, A._separatorCount⟩ = .ok (r, v) ∧
      rv = (if v.happened then c.ADVECT_HAPPENED else 0) ∧
      A1 = { A with _streams := r, _separatorCount := v.separatorCount } := by
  simp only [AdvectTillTime, hready, ne_eq, not_true_eq_false, if_false, bind, Except.bind,
    pure, Except.pure] at h
  cases hl : AdvectTillTime.loop fuel G A velocity deltaT targetT method A._streams
      ⟨false, 0, A._separatorCount⟩ with
  | error e => simp [hl] at h
  | ok l =>
    obtain ⟨r, v⟩ := l
    simp only [hl, Except.ok.injEq, Prod.mk.injEq] at h
    exact ⟨r, v, rfl, h.1.symm, h.2.symm⟩

/-- C9. After a call of `AdvectTillTime` that passed `CheckReady` and returned, every
stream went through a history of periodic corrections and of integration steps, each
step taken from a particle whose time is below `targetT`; hence every particle from
the former last one on that is neither a separator nor the final particle has a time
below `targetT`. If the last particle of a stream is still below `targetT`, it is
outside the domain and the periodic correction does not bring it back, or the
integration step from it failed. The call returns `ADVECT_HAPPENED` exactly when some
stream gained a particle, and 0 otherwise. -/
theorem AdvectTillTime_spec (c : Codes) (fuel : Nat) (G : Glm) (A : Advection)
    (velocity : Field) (deltaT targetT : ℚ) (method : ADVECTION_METHOD) (rv : Int)
    (A1 : Advection) (hc : c.ADVECT_HAPPENED ≠ 0) (hready : CheckReady c A = 0)
    (hcall : AdvectTillTime c fuel G A velocity deltaT targetT method = .ok (rv, A1)) :
    (∀ (i : Nat) (s : List Particle), A._streams[i]? = some s →
      ∃ s1, A1._streams[i]? = some s1 ∧
        TillTimeHistory fuel G A velocity deltaT targetT method s s1 ∧
        (∀ (k : Nat) (p : Particle), s.length ≤ k + 1 → k + 1 < s1.length →
          s1[k]? = some p → p.isSpecial = false → p.time < targetT) ∧
        (∀ p : Particle, s1.getLast? = some p → p.time < targetT →
          StoppedEarly fuel G A velocity deltaT method s1 p)) ∧
    (rv = c.ADVECT_HAPPENED ↔
      ∃ (i : Nat) (s s1 : List Particle), A._streams[i]? = some s ∧
        A1._streams[i]? = some s1 ∧ physicalCount s < physicalCount s1) ∧
    ((¬ ∃ (i : Nat) (s s1 : List Particle), A._streams[i]? = some s ∧
        A1._streams[i]? = some s1 ∧ physicalCount s < physicalCount s1) → rv = 0) := by
  obtain ⟨r, v, hl, hrv, hA⟩ :=
    AdvectTillTime_ready c fuel G A velocity deltaT targetT method rv A1 hready hcall
  obtain ⟨hat, hh⟩ := tillLoop_spec fuel G A velocity deltaT targetT method A._streams _ r v hl
  simp only [Bool.false_eq_true, false_or] at hh
  have hstreams : A1._streams = r := by rw [hA]
  rw [hstreams, ← hh, hrv]
  refine ⟨?_, ?_⟩
  · intro i s hs
    obtain ⟨s1, h1, h2, h3⟩ := hat i s hs
    exact ⟨s1, h1, h2,
      history_below fuel G A velocity deltaT targetT method s s1 h2, h3⟩
  · cases hv : v.happened with
    | true => simp
    | false => simpa using hc.symm

theorem AdvectTillTime_example :
    AdvectTillTime exampleCodes 3 exampleGlm
      (UseSeedParticles exampleFresh [exampleParticle 0 0]) exampleConstField 1 (3 / 2) .EULER =
      .ok (1, { exampleFresh with
        _streams := [[exampleParticle 0 0, exampleParticle 1 1, exampleParticle 2 2]],
        _separatorCount := [0] }) := by
  norm_num [AdvectTillTime, CheckReady, CheckReady.go, UseSeedParticles, UseSeedParticles.fill,
    vectorResize, pushBackAt, exampleFresh, exampleParticle, exampleConstField, exampleCodes,
    AdvectTillTime.loop, AdvectTillTime.body, AdvectTillTime.whileLoop, AdvectTillTime.wrap,
    AdvectTillTime.stepSize, advect, _advectEuler, Particle.default, Vec3.add, Vec3.smul,
    bind, Except.bind, pure, Except.pure]

/-- Witness of C9: from the seed at the origin at time 0, on the constant field with
`deltaT = 1` and `targetT = 3/2`, the call returns `ADVECT_HAPPENED` with the stream
at times 0, 1, 2: the particles that are not final are below `3/2`, and the stream
gained particles. -/
theorem AdvectTillTime_spec_witness :
    (∃ s1, ({ exampleFresh with
        _streams := [[exampleParticle 0 0, exampleParticle 1 1, exampleParticle 2 2]],
        _separatorCount := [0] } : Advection)._streams[0]? = some s1 ∧
      ∀ (k : Nat) (p : Particle), [exampleParticle 0 0].length ≤ k + 1 → k + 1 < s1.length →
        s1[k]? = some p → p.isSpecial = false → p.time < 3 / 2) ∧
    ∃ (i : Nat) (s s1 : List Particle),
      (UseSeedParticles exampleFresh [exampleParticle 0 0])._streams[i]? = some s ∧
      ({ exampleFresh with
        _streams := [[exampleParticle 0 0, exampleParticle 1 1, exampleParticle 2 2]],
        _separatorCount := [0] } : Advection)._streams[i]? = some s1 ∧
      physicalCount s < physicalCount s1 := by
  have h := AdvectTillTime_spec exampleCodes 3 exampleGlm
    (UseSeedParticles exampleFresh [exampleParticle 0 0]) exampleConstField 1 (3 / 2) .EULER 1 _
    (by decide) rfl AdvectTillTime_example
  refine ⟨?_, h.2.1.mp rfl⟩
  obtain ⟨s1, h1, _, h3, _⟩ := h.1 0 [exampleParticle 0 0] rfl
  exact ⟨s1, h1, h3⟩

/-! ## Introspection -/

theorem sizeSub_of_le (a b : Nat) (hb : b ≤ a) (ha : a < 2 ^ 64) : sizeSub a b = a - b := by
  unfold sizeSub
  have hb2 : b % 2 ^ 64 = b := Nat.mod_eq_of_lt (by omega)
  rw [hb2]
  have h : a + 2 ^ 64 - b = (a - b) + 2 ^ 64 := by omega
  rw [h, Nat.add_mod_right]
  exact Nat.mod_eq_of_lt (by omega)

/-- The loop of `GetMaxNumOfSteps` returns the largest of its starting value and of the
differences it computes, one per stream. -/
theorem GetMaxNumOfSteps_go_spec (counts : List Nat) (streams : List (List Particle)) :
    ∀ (m idx : Nat),
      m ≤ GetMaxNumOfSteps.go counts streams m idx ∧
      (∀ (j : Nat) (s : List Particle), streams[j]? = some s →
        sizeSub s.length (counts.getD (idx + j) 0) ≤ GetMaxNumOfSteps.go counts streams m idx) ∧
      (GetMaxNumOfSteps.go counts streams m idx = m ∨
        ∃ (j : Nat) (s : List Particle), streams[j]? = some s ∧
          GetMaxNumOfSteps.go counts streams m idx =
            sizeSub s.length (counts.getD (idx + j) 0)) := by
  induction streams with
  | nil =>
    intro m idx
    simp [GetMaxNumOfSteps.go]
  | cons s0 rest ih =>
    intro m idx
    obtain ⟨h1, h2, h3⟩ :=
      ih (if m > sizeSub s0.length (counts.getD idx 0) then m
        else sizeSub s0.length (counts.getD idx 0)) (idx + 1)
    have hm1 : m ≤ (if m > sizeSub s0.length (counts.getD idx 0) then m
        else sizeSub s0.length (counts.getD idx 0)) ∧
        sizeSub s0.length (counts.getD idx 0) ≤
          (if m > sizeSub s0.length (counts.getD idx 0) then m
            else sizeSub s0.length (counts.getD idx 0)) := by
      split <;> omega
    simp only [GetMaxNumOfSteps.go]
    refine ⟨?_, ?_, ?_⟩
    · omega
    · intro j s hs
      cases j with
      | zero =>
        simp only [List.getElem?_cons_zero, Option.some.injEq] at hs
        subst hs
        simp only [Nat.add_zero]
        omega
      | succ k =>
        simp only [List.getElem?_cons_succ] at hs
        have := h2 k s hs
        have hk : idx + 1 + k = idx + (k + 1) := by omega
        rw [hk] at this
        exact this
    · rcases h3 with h3 | ⟨j, s, hs, h3⟩
      · by_cases hm : m > sizeSub s0.length (counts.getD idx 0)
        · left
          rw [h3, if_pos hm]
        · right
          refine ⟨0, s0, by simp, ?_⟩
          rw [h3, if_neg hm]
          simp
      · right
        refine ⟨j + 1, s, by simpa using hs, ?_⟩
        rw [h3]
        have hk : idx + 1 + j = idx + (j + 1) := by omega
        rw [hk]

/-- When each stream has its own separator counter, not larger than the size of
the stream, `GetMaxNumOfSteps` returns the maximum over all streams of the number of
particles of the stream minus its separator count: it bounds every such difference,
it is one of them when there is a stream, it is 0 when there is none, and with a
single stream it is the size of that stream minus its separator count. -/
theorem GetMaxNumOfSteps_of_counted (A : Advection)
    (hlen : A._separatorCount.length = A._streams.length)
    (hle : ∀ (i : Nat) (s : List Particle) (n : Nat), A._streams[i]? = some s →
      A._separatorCount[i]? = some n → n ≤ s.length ∧ s.length < 2 ^ 64) :
    (∀ (i : Nat) (s : List Particle) (n : Nat), A._streams[i]? = some s →
      A._separatorCount[i]? = some n → s.length - n ≤ GetMaxNumOfSteps A) ∧
    (A._streams = [] → GetMaxNumOfSteps A = 0) ∧
    (A._streams ≠ [] → ∃ (i : Nat) (s : List Particle) (n : Nat), A._streams[i]? = some s ∧
      A._separatorCount[i]? = some n ∧ GetMaxNumOfSteps A = s.length - n) ∧
    (∀ (s : List Particle) (n : Nat), A._streams = [s] → A._separatorCount = [n] →
      GetMaxNumOfSteps A = s.length - n) := by
  obtain ⟨_, h2, h3⟩ := GetMaxNumOfSteps_go_spec A._separatorCount A._streams 0 0
  have hcount : ∀ (i : Nat) (s : List Particle), A._streams[i]? = some s →
      ∃ n, A._separatorCount[i]? = some n ∧
        sizeSub s.length (A._separatorCount.getD (0 + i) 0) = s.length - n := by
    intro i s hs
    have hi : i < A._separatorCount.length := by
      rw [hlen]
      by_contra hge
      rw [List.getElem?_eq_none (by omega)] at hs
      cases hs
    refine ⟨A._separatorCount[i], List.getElem?_eq_getElem hi, ?_⟩
    have hn := hle i s _ hs (List.getElem?_eq_getElem hi)
    rw [Nat.zero_add, List.getD_eq_getElem?_getD, List.getElem?_eq_getElem hi]
    exact sizeSub_of_le _ _ hn.1 hn.2
  have hexists : A._streams ≠ [] → ∃ (i : Nat) (s : List Particle) (n : Nat),
      A._streams[i]? = some s ∧ A._separatorCount[i]? = some n ∧
      GetMaxNumOfSteps A = s.length - n := by
    intro hne
    rcases h3 with h3 | ⟨j, s, hs, h3⟩
    · obtain ⟨s0, rest, hst⟩ := List.exists_cons_of_ne_nil hne
      have hs0 : A._streams[0]? = some s0 := by simp [hst]
      obtain ⟨n, hn, hsub⟩ := hcount 0 s0 hs0
      refine ⟨0, s0, n, hs0, hn, ?_⟩
      have hle0 := h2 0 s0 hs0
      rw [hsub] at hle0
      unfold GetMaxNumOfSteps
      omega
    · obtain ⟨n, hn, hsub⟩ := hcount j s hs
      exact ⟨j, s, n, hs, hn, by unfold GetMaxNumOfSteps; rw [h3, hsub]⟩
  refine ⟨?_, ?_, hexists, ?_⟩
  · intro i s n hs hn
    obtain ⟨n1, hn1, hsub⟩ := hcount i s hs
    rw [hn] at hn1
    cases hn1
    have := h2 i s hs
    rw [hsub] at this
    exact this
  · intro hnil
    simp [GetMaxNumOfSteps, hnil, GetMaxNumOfSteps.go]
  · intro s n hs hn
    obtain ⟨i, s1, n1, hs1, hn1, hres⟩ := hexists (by simp [hs])
    rw [hs] at hs1
    rw [hn] at hn1
    cases i with
    | zero =>
      simp only [List.getElem?_cons_zero, Option.some.injEq] at hs1 hn1
      rw [hres, ← hs1, ← hn1]
    | succ k => simp at hs1

/-- One stream of three particles, one of them a separator, gives 2. -/
theorem GetMaxNumOfSteps_example :
    GetMaxNumOfSteps { examplePeriodic with
        _streams := [[separator, exampleParticle (1 / 2) 0, exampleParticle (3 / 2) 1]],
        _separatorCount := [1] } =
      [separator, exampleParticle (1 / 2) 0, exampleParticle (3 / 2) 1].length - 1 :=
  (GetMaxNumOfSteps_of_counted { examplePeriodic with
      _streams := [[separator, exampleParticle (1 / 2) 0, exampleParticle (3 / 2) 1]],
      _separatorCount := [1] } rfl
    (by
      intro i s n hs hn
      cases i with
      | zero =>
        simp only [List.getElem?_cons_zero, Option.some.injEq] at hs hn
        subst hs hn
        exact ⟨by decide, by decide⟩
      | succ k => simp at hs)).2.2.2 _ 1 rfl rfl

/-! ## Scalar evaluation -/

theorem visitAt_spec (f : Particle → Except Halt Particle) (i : Nat) (s s1 : List Particle)
    (h : visitAt f i s = .ok s1) :
    s1.length = s.length ∧
    (∀ k : Nat, k ≠ i → s1[k]? = s[k]?) ∧
    (∀ p : Particle, s[i]? = some p → ∃ p1, f p = .ok p1 ∧ s1[i]? = some p1) := by
  unfold visitAt at h
  cases hp : s[i]? with
  | none =>
    simp only [hp, pure, Except.pure, Except.ok.injEq] at h
    subst h
    exact ⟨rfl, fun _ _ => rfl, fun p hp1 => by simp at hp1⟩
  | some p =>
    simp only [hp, bind, Except.bind, pure, Except.pure] at h
    cases hf : f p with
    | error e =>
      rw [hf] at h
      cases h
    | ok p1 =>
      rw [hf] at h
      simp only [Except.ok.injEq] at h
      subst h
      have hi : i < s.length := by
        by_contra hge
        rw [List.getElem?_eq_none (by omega)] at hp
        cases hp
      refine ⟨by simp, ?_, ?_⟩
      · intro k hk
        simp [List.getElem?_set, Ne.symm hk]
      · intro q hq
        cases hq
        exact ⟨p1, hf, by simp [List.getElem?_set, hi]⟩

theorem visitStreams_spec (f : Particle → Except Halt Particle) (i : Nat)
    (streams : List (List Particle)) :
    ∀ r : List (List Particle), visitStreams f i streams = .ok r →
      r.length = streams.length ∧
      ∀ (j : Nat) (s : List Particle), streams[j]? = some s →
        ∃ s1, r[j]? = some s1 ∧ visitAt f i s = .ok s1 := by
  induction streams with
  | nil =>
    intro r h
    simp only [visitStreams, pure, Except.pure, Except.ok.injEq] at h
    subst h
    simp
  | cons s0 rest ih =>
    intro r h
    simp only [visitStreams, bind, Except.bind, pure, Except.pure] at h
    cases h0 : visitAt f i s0 with
    | error e =>
      rw [h0] at h
      cases h
    | ok s1 =>
      rw [h0] at h
      simp only at h
      cases h1 : visitStreams f i rest with
      | error e =>
        rw [h1] at h
        cases h
      | ok rest1 =>
        rw [h1] at h
        simp only [Except.ok.injEq] at h
        subst h
        obtain ⟨hlen, hat⟩ := ih rest1 h1
        refine ⟨by simp [hlen], ?_⟩
        intro j s hs
        cases j with
        | zero =>
          simp only [List.getElem?_cons_zero, Option.some.injEq] at hs
          subst hs
          exact ⟨s1, by simp, h0⟩
        | succ k =>
          simp only [List.getElem?_cons_succ] at hs
          obtain ⟨s2, h2, h3⟩ := hat k s hs
          exact ⟨s2, by simpa using h2, h3⟩

/-- The result of `n` iterations of the outer loop from index `i`: each stream keeps
its size, the particles at the positions `i, ..., i + n - 1` are replaced by their
treatment, which returned, and the other particles are untouched. -/
theorem visitSteps_spec (f : Particle → Except Halt Particle) (n : Nat) :
    ∀ (i : Nat) (streams r : List (List Particle)), visitSteps f n i streams = .ok r →
      r.length = streams.length ∧
      ∀ (j : Nat) (s : List Particle), streams[j]? = some s →
        ∃ s1, r[j]? = some s1 ∧ s1.length = s.length ∧
          ∀ (k : Nat) (p : Particle), s[k]? = some p →
            ((k < i ∨ i + n ≤ k) → s1[k]? = some p) ∧
            (i ≤ k → k < i + n → ∃ p1, f p = .ok p1 ∧ s1[k]? = some p1) := by
  induction n with
  | zero =>
    intro i streams r h
    simp only [visitSteps, pure, Except.pure, Except.ok.injEq] at h
    subst h
    refine ⟨rfl, ?_⟩
    intro j s hs
    refine ⟨s, hs, rfl, ?_⟩
    intro k p hp
    exact ⟨fun _ => hp, fun h1 h2 => by omega⟩
  | succ n ih =>
    intro i streams r h
    simp only [visitSteps, bind, Except.bind] at h
    cases hm : visitStreams f i streams with
    | error e =>
      rw [hm] at h
      cases h
    | ok mid =>
      rw [hm] at h
      simp only at h
      obtain ⟨hlen1, hat1⟩ := visitStreams_spec f i streams mid hm
      obtain ⟨hlen2, hat2⟩ := ih (i + 1) mid r h
      refine ⟨by rw [hlen2, hlen1], ?_⟩
      intro j s hs
      obtain ⟨sm, hsm, hvis⟩ := hat1 j s hs
      obtain ⟨hl1, hne, hat⟩ := visitAt_spec f i s sm hvis
      obtain ⟨s1, hs1, hl2, hrest⟩ := hat2 j sm hsm
      refine ⟨s1, hs1, by rw [hl2, hl1], ?_⟩
      intro k p hp
      by_cases hki : k = i
      · subst hki
        obtain ⟨p1, hf, hp1⟩ := hat p hp
        have := (hrest k p1 hp1).1 (Or.inl (by omega))
        exact ⟨fun hh => by omega, fun _ _ => ⟨p1, hf, this⟩⟩
      · have hpm : sm[k]? = some p := by rw [hne k hki]; exact hp
        obtain ⟨h1, h2⟩ := hrest k p hpm
        constructor
        · intro hh
          exact h1 (by omega)
        · intro hik hkn
          exact h2 (by omega) (by omega)

theorem mostSteps_go_ge (streams : List (List Particle)) :
    ∀ m : Nat, m ≤ mostSteps.go streams m ∧
      ∀ s ∈ streams, s.length ≤ mostSteps.go streams m := by
  induction streams with
  | nil =>
    intro m
    simp [mostSteps.go]
  | cons s0 rest ih =>
    intro m
    obtain ⟨h1, h2⟩ := ih (if s0.length > m then s0.length else m)
    have hm : m ≤ (if s0.length > m then s0.length else m) ∧
        s0.length ≤ (if s0.length > m then s0.length else m) := by
      split <;> omega
    simp only [mostSteps.go]
    refine ⟨by omega, ?_⟩
    intro s hs
    rcases List.mem_cons.mp hs with rfl | hs
    · omega
    · exact h2 s hs

/-- The two nested loops of `CalculateParticleValues` and of
`CalculateParticleProperties` replace every particle of every stream by its
treatment. -/
theorem visitAll_spec (f : Particle → Except Halt Particle) (streams r : List (List Particle))
    (h : visitSteps f (mostSteps streams) 0 streams = .ok r) :
    r.length = streams.length ∧
    ∀ (j : Nat) (s : List Particle), streams[j]? = some s →
      ∃ s1, r[j]? = some s1 ∧ s1.length = s.length ∧
        ∀ (k : Nat) (p : Particle), s[k]? = some p → ∃ p1, f p = .ok p1 ∧ s1[k]? = some p1 := by
  obtain ⟨hlen, hat⟩ := visitSteps_spec f (mostSteps streams) 0 streams r h
  refine ⟨hlen, ?_⟩
  intro j s hs
  obtain ⟨s1, hs1, hl, hk⟩ := hat j s hs
  refine ⟨s1, hs1, hl, ?_⟩
  intro k p hp
  have hmem : s ∈ streams := List.getElem?_mem hs
  have hkl : k < s.length := by
    by_contra hge
    rw [List.getElem?_eq_none (by omega)] at hp
    cases hp
  have := (mostSteps_go_ge streams 0).2 s hmem
  exact (hk k p hp).2 (Nat.zero_le _) (by unfold mostSteps; omega)

theorem set_of_getElem? (s : List Particle) (i : Nat) (p : Particle) (h : s[i]? = some p) :
    s.set i p = s := by
  apply List.ext_getElem?
  intro k
  rw [List.getElem?_set]
  by_cases hik : i = k
  · subst hik
    have hi : i < s.length := by
      by_contra hge
      rw [List.getElem?_eq_none (by omega)] at h
      cases h
    simp [hi, h]
  · simp [hik]

theorem visitSteps_returns (f : Particle → Except Halt Particle)
    (hf : ∀ p : Particle, ∃ p1, f p = .ok p1) (n : Nat) :
    ∀ (i : Nat) (streams : List (List Particle)), ∃ r, visitSteps f n i streams = .ok r := by
  have hat : ∀ (i : Nat) (s : List Particle), ∃ s1, visitAt f i s = .ok s1 := by
    intro i s
    unfold visitAt
    cases hp : s[i]? with
    | none => exact ⟨s, rfl⟩
    | some p =>
      obtain ⟨p1, hp1⟩ := hf p
      exact ⟨s.set i p1, by simp [hp1, bind, Except.bind, pure, Except.pure]⟩
  have hstreams : ∀ (i : Nat) (streams : List (List Particle)),
      ∃ r, visitStreams f i streams = .ok r := by
    intro i streams
    induction streams with
    | nil => exact ⟨[], rfl⟩
    | cons s0 rest ih =>
      obtain ⟨s1, h1⟩ := hat i s0
      obtain ⟨r1, h2⟩ := ih
      exact ⟨s1 :: r1, by simp [visitStreams, h1, h2, bind, Except.bind, pure, Except.pure]⟩
  induction n with
  | zero =>
    intro i streams
    exact ⟨streams, rfl⟩
  | succ n ih =>
    intro i streams
    obtain ⟨mid, hm⟩ := hstreams i streams
    obtain ⟨r, hr⟩ := ih (i + 1) mid
    exact ⟨r, by simp [visitSteps, hm, hr, bind, Except.bind]⟩

theorem visitSteps_unchanged (f : Particle → Except Halt Particle) (n : Nat) :
    ∀ (i : Nat) (streams : List (List Particle)),
      (∀ s ∈ streams, ∀ p ∈ s, f p = .ok p) → visitSteps f n i streams = .ok streams := by
  have hat : ∀ (i : Nat) (s : List Particle), (∀ p ∈ s, f p = .ok p) →
      visitAt f i s = .ok s := by
    intro i s hs
    unfold visitAt
    cases hp : s[i]? with
    | none => rfl
    | some p =>
      simp only [hs p (List.getElem?_mem hp), bind, Except.bind, pure, Except.pure,
        set_of_getElem? s i p hp]
  have hstreams : ∀ (i : Nat) (streams : List (List Particle)),
      (∀ s ∈ streams, ∀ p ∈ s, f p = .ok p) → visitStreams f i streams = .ok streams := by
    intro i streams
    induction streams with
    | nil => intro _; rfl
    | cons s0 rest ih =>
      intro h
      simp only [visitStreams, hat i s0 (h s0 (List.mem_cons_self _ _)),
        ih (fun s hs => h s (List.mem_cons_of_mem _ hs)), bind, Except.bind, pure,
        Except.pure]
  induction n with
  | zero =>
    intro i streams _
    rfl
  | succ n ih =>
    intro i streams h
    simp only [visitSteps, hstreams i streams h, bind, Except.bind]
    exact ih (i + 1) streams h

theorem CalculateParticleValues_ok (scalar : Field) (skipNonZero : Bool) (A : Advection)
    (rv : Int) (A1 : Advection)
    (h : CalculateParticleValues scalar skipNonZero A = .ok (rv, A1)) :
    rv = 0 ∧ A1 = { A with _streams := A1._streams } ∧
    visitSteps (CalculateParticleValues.visit scalar skipNonZero) (mostSteps A._streams) 0
      A._streams = .ok A1._streams := by
  simp only [CalculateParticleValues, bind, Except.bind, pure, Except.pure] at h
  cases hv : visitSteps (CalculateParticleValues.visit scalar skipNonZero)
      (mostSteps A._streams) 0 A._streams with
  | error e =>
    rw [hv] at h
    cases h
  | ok r =>
    rw [hv] at h
    simp only [Except.ok.injEq, Prod.mk.injEq] at h
    obtain ⟨h1, h2⟩ := h
    subst h2
    exact ⟨h1.symm, rfl, rfl⟩

/-- The treatment of one particle by `CalculateParticleValues`, when it returns. -/
theorem CalculateParticleValues_visit_spec (scalar : Field) (skipNonZero : Bool)
    (p p1 : Particle) (h : CalculateParticleValues.visit scalar skipNonZero p = .ok p1) :
    p1.location = p.location ∧ p1.time = p.time ∧ p1.isSpecial = p.isSpecial ∧
    p1.properties = p.properties ∧
    (p.isSpecial = true → p1 = p) ∧
    (p.isSpecial = false → skipNonZero = true → p.value ≠ 0 → p1 = p) ∧
    (p.isSpecial = false → (skipNonZero = false ∨ p.value = 0) →
      (scalar.GetScalar p.time p.location).1 = 0 ∧
      p1.value = (scalar.GetScalar p.time p.location).2) := by
  unfold CalculateParticleValues.visit at h
  by_cases hsp : p.isSpecial = true
  · simp only [Particle.IsSpecial, hsp, if_true, pure, Except.pure, Except.ok.injEq] at h
    subst h
    refine ⟨rfl, rfl, rfl, rfl, fun _ => rfl, fun _ _ _ => rfl, ?_⟩
    intro hh
    rw [hsp] at hh
    cases hh
  · have hsp2 : p.isSpecial = false := by
      cases hh : p.isSpecial
      · rfl
      · exact absurd hh hsp
    simp only [Particle.IsSpecial, hsp2, Bool.false_eq_true, if_false] at h
    by_cases hskip : (skipNonZero && decide (p.value ≠ 0)) = true
    · simp only [hskip, if_true, pure, Except.pure, Except.ok.injEq] at h
      subst h
      refine ⟨rfl, rfl, rfl, rfl, fun _ => rfl, fun _ _ _ => rfl, ?_⟩
      intro _ hh
      simp only [Bool.and_eq_true, decide_eq_true_eq] at hskip
      rcases hh with hh | hh
      · rw [hh] at hskip
        exact absurd hskip.1 (by decide)
      · exact absurd hh hskip.2
    · simp only [hskip, Bool.false_eq_true, if_false] at h
      by_cases hrv : (scalar.GetScalar p.time p.location).1 = 0
      · simp only [hrv, ne_eq, not_true_eq_false, if_false, pure, Except.pure,
          Except.ok.injEq] at h
        subst h
        refine ⟨rfl, rfl, hsp2.symm, rfl, ?_, ?_, fun _ _ => ⟨hrv, rfl⟩⟩
        · intro hh
          rw [hsp2] at hh
          cases hh
        · intro _ h1 h2
          exact absurd (by simp [h1, h2]) hskip
      · simp only [ne_eq, hrv, not_false_eq_true, if_true] at h
        cases h

/-- C14. A call of `CalculateParticleValues` that returns gives status 0 and changes
nothing but the streams, which keep their number and their sizes; every particle keeps
its location, time, special flag and properties; a special particle and, when
`skipNonZero` is set, a particle with a non-zero value are unchanged; every other
particle was sampled with success and holds the scalar sampled at its own time and
location. The call returns whenever no sample fails. -/
theorem CalculateParticleValues_spec (scalar : Field) (skipNonZero : Bool) (A : Advection) :
    (∀ (rv : Int) (A1 : Advection),
      CalculateParticleValues scalar skipNonZero A = .ok (rv, A1) →
      rv = 0 ∧ A1 = { A with _streams := A1._streams } ∧
      A1._separatorCount = A._separatorCount ∧
      A1._streams.length = A._streams.length ∧
      ∀ (j : Nat) (s : List Particle), A._streams[j]? = some s →
        ∃ s1, A1._streams[j]? = some s1 ∧ s1.length = s.length ∧
          ∀ (k : Nat) (p : Particle), s[k]? = some p →
            ∃ p1, s1[k]? = some p1 ∧
              p1.location = p.location ∧ p1.time = p.time ∧ p1.isSpecial = p.isSpecial ∧
              p1.properties = p.properties ∧
              (p.isSpecial = true → p1 = p) ∧
              (p.isSpecial = false → skipNonZero = true → p.value ≠ 0 → p1 = p) ∧
              (p.isSpecial = false → (skipNonZero = false ∨ p.value = 0) →
                (scalar.GetScalar p.time p.location).1 = 0 ∧
                p1.value = (scalar.GetScalar p.time p.location).2)) ∧
    ((∀ (t : ℚ) (x : Vec3), (scalar.GetScalar t x).1 = 0) →
      ∃ A1 : Advection, CalculateParticleValues scalar skipNonZero A = .ok (0, A1)) := by
  constructor
  · intro rv A1 h
    obtain ⟨hrv, hA, hvis⟩ := CalculateParticleValues_ok scalar skipNonZero A rv A1 h
    obtain ⟨hlen, hat⟩ := visitAll_spec _ A._streams A1._streams hvis
    refine ⟨hrv, hA, by rw [hA], hlen, ?_⟩
    intro j s hs
    obtain ⟨s1, hs1, hl, hk⟩ := hat j s hs
    refine ⟨s1, hs1, hl, ?_⟩
    intro k p hp
    obtain ⟨p1, hf, hp1⟩ := hk k p hp
    exact ⟨p1, hp1, CalculateParticleValues_visit_spec scalar skipNonZero p p1 hf⟩
  · intro hok
    have hf : ∀ p : Particle, ∃ p1, CalculateParticleValues.visit scalar skipNonZero p =
        .ok p1 := by
      intro p
      unfold CalculateParticleValues.visit
      split
      · exact ⟨p, rfl⟩
      · split
        · exact ⟨p, rfl⟩
        · exact ⟨{ p with value := (scalar.GetScalar p.time p.location).2 }, by
            simp [hok p.time p.location, pure, Except.pure]⟩
    obtain ⟨r, hr⟩ := visitSteps_returns _ hf (mostSteps A._streams) 0 A._streams
    exact ⟨{ A with _streams := r }, by
      simp [CalculateParticleValues, hr, bind, Except.bind, pure, Except.pure]⟩

/-- Witness of C14: with a scalar field whose sampling never fails the call returns. -/
theorem CalculateParticleValues_spec_witness :
    ∃ A1 : Advection, CalculateParticleValues exampleConstField true
      { exampleFresh with _streams := [[exampleParticle 0 0, exampleParticle 1 1]],
                          _separatorCount := [0] } = .ok (0, A1) :=
  (CalculateParticleValues_spec exampleConstField true
    { exampleFresh with _streams := [[exampleParticle 0 0, exampleParticle 1 1]],
                        _separatorCount := [0] }).2 (fun _ _ => rfl)

theorem visited_origin (f : Particle → Except Halt Particle) (streams r : List (List Particle))
    (h : visitSteps f (mostSteps streams) 0 streams = .ok r)
    (s1 : List Particle) (hs1 : s1 ∈ r) (p1 : Particle) (hp1 : p1 ∈ s1) :
    ∃ p : Particle, f p = .ok p1 := by
  obtain ⟨hlen, hat⟩ := visitAll_spec f streams r h
  obtain ⟨j, hj⟩ := List.getElem?_of_mem hs1
  obtain ⟨k, hk⟩ := List.getElem?_of_mem hp1
  have hjl : j < streams.length := by
    rw [← hlen]
    by_contra hge
    rw [List.getElem?_eq_none (by omega)] at hj
    cases hj
  obtain ⟨s2, hs2, hl, hpt⟩ := hat j streams[j] (List.getElem?_eq_getElem hjl)
  rw [hj] at hs2
  cases hs2
  have hkl : k < (streams[j]).length := by
    rw [← hl]
    by_contra hge
    rw [List.getElem?_eq_none (by omega)] at hk
    cases hk
  obtain ⟨p2, hf, hp2⟩ := hpt k (streams[j])[k] (List.getElem?_eq_getElem hkl)
  rw [hk] at hp2
  cases hp2
  exact ⟨_, hf⟩

/-- C15. After a call of `CalculateParticleValues` with a scalar field that returns
only non-zero values, a second call with `skipNonZero = true` returns 0 and leaves the
whole state exactly as it was, whatever field the second call is given. -/
theorem CalculateParticleValues_idempotent (scalar : Field) (skipNonZero : Bool)
    (A : Advection) (rv : Int) (A1 : Advection)
    (hnz : ∀ (t : ℚ) (x : Vec3), (scalar.GetScalar t x).2 ≠ 0)
    (h1 : CalculateParticleValues scalar skipNonZero A = .ok (rv, A1)) :
    ∀ scalar2 : Field, CalculateParticleValues scalar2 true A1 = .ok (0, A1) := by
  intro scalar2
  obtain ⟨_, _, hvis⟩ := CalculateParticleValues_ok scalar skipNonZero A rv A1 h1
  have hkeep : ∀ s ∈ A1._streams, ∀ p ∈ s,
      CalculateParticleValues.visit scalar2 true p = .ok p := by
    intro s1 hs1 p1 hp1
    obtain ⟨p, hf⟩ := visited_origin _ A._streams A1._streams hvis s1 hs1 p1 hp1
    obtain ⟨_, _, hsp, _, h2, h3, h4⟩ :=
      CalculateParticleValues_visit_spec scalar skipNonZero p p1 hf
    unfold CalculateParticleValues.visit
    by_cases hspec : p1.isSpecial = true
    · simp [Particle.IsSpecial, hspec, pure, Except.pure]
    · have hp1s : p1.isSpecial = false := by
        cases hh : p1.isSpecial
        · rfl
        · exact absurd hh hspec
      have hps : p.isSpecial = false := by rw [← hsp]; exact hp1s
      have hval : p1.value ≠ 0 := by
        by_cases hcase : skipNonZero = true ∧ p.value ≠ 0
        · rw [h3 hps hcase.1 hcase.2]
          exact hcase.2
        · have hel : skipNonZero = false ∨ p.value = 0 := by
            by_cases hs : skipNonZero = true
            · right
              by_contra hv
              exact hcase ⟨hs, hv⟩
            · left
              cases hh : skipNonZero
              · rfl
              · exact absurd hh hs
          rw [(h4 hps hel).2]
          exact hnz _ _
      simp [Particle.IsSpecial, hp1s, hval, pure, Except.pure]
  have hun := visitSteps_unchanged (CalculateParticleValues.visit scalar2 true)
    (mostSteps A1._streams) 0 A1._streams hkeep
  simp only [CalculateParticleValues, hun, bind, Except.bind, pure, Except.pure]

theorem CalculateParticleValues_example :
    CalculateParticleValues exampleConstField true
      { exampleFresh with _streams := [[exampleParticle 0 0, exampleParticle 1 1]],
                          _separatorCount := [0] } =
      .ok (0, { exampleFresh with
        _streams := [[⟨⟨0, 0, 0⟩, 0, 1, false, []⟩, ⟨⟨1, 0, 0⟩, 1, 1, false, []⟩]],
        _separatorCount := [0] }) := by
  norm_num [CalculateParticleValues, mostSteps, mostSteps.go, visitSteps, visitStreams, visitAt,
    CalculateParticleValues.visit, exampleFresh, exampleParticle, exampleConstField,
    Particle.IsSpecial, bind, Except.bind, pure, Except.pure]

/-- Witness of C15: two particles coloured with the value 1; a second call, given a
field whose scalar sampling always fails, changes nothing. -/
theorem CalculateParticleValues_idempotent_witness :
    CalculateParticleValues exampleFailScalar true
      { exampleFresh with
        _streams := [[⟨⟨0, 0, 0⟩, 0, 1, false, []⟩, ⟨⟨1, 0, 0⟩, 1, 1, false, []⟩]],
        _separatorCount := [0] } =
      .ok (0, { exampleFresh with
        _streams := [[⟨⟨0, 0, 0⟩, 0, 1, false, []⟩, ⟨⟨1, 0, 0⟩, 1, 1, false, []⟩]],
        _separatorCount := [0] }) :=
  CalculateParticleValues_idempotent exampleConstField true _ 0 _
    (fun _ _ => by norm_num [exampleConstField]) CalculateParticleValues_example
    exampleFailScalar

/-- C16, evaluation at the failing input. The stream holds a separator and two
particles. `CalculateParticleProperties` samples the scalar at the separator as well
and attaches the value to it, while `CalculateParticleValues` with
`skipNonZero = false` leaves the separator as it is: the two methods do not visit the
same particles. -/
theorem CalculateParticleProperties_visits_separator :
    CalculateParticleProperties exampleConstField exampleWrapped =
      .ok (0, { exampleWrapped with
        _streams := [[{ separator with properties := [1] },
          { exampleParticle (1 / 2) 0 with properties := [1] },
          { exampleParticle (3 / 2) 1 with properties := [1] }]] }) ∧
    CalculateParticleValues exampleConstField false exampleWrapped =
      .ok (0, { exampleWrapped with
        _streams := [[separator,
          { exampleParticle (1 / 2) 0 with value := 1 },
          { exampleParticle (3 / 2) 1 with value := 1 }]] }) := by
  constructor
  · norm_num [CalculateParticleProperties, mostSteps, mostSteps.go, visitSteps, visitStreams,
      visitAt, CalculateParticleProperties.visit, exampleWrapped, examplePeriodic,
      exampleParticle, exampleConstField, separator, Particle.SetSpecial, Particle.default,
      Particle.AttachProperty, bind, Except.bind, pure, Except.pure]
  · norm_num [CalculateParticleValues, mostSteps, mostSteps.go, visitSteps, visitStreams,
      visitAt, CalculateParticleValues.visit, exampleWrapped, examplePeriodic,
      exampleParticle, exampleConstField, separator, Particle.SetSpecial, Particle.default,
      Particle.IsSpecial, bind, Except.bind, pure, Except.pure]

/-! ## Invariants of the reachable states -/

theorem UseSeedParticles_streams (A : Advection) (seeds : List Particle) :
    (UseSeedParticles A seeds)._streams = seeds.map (fun p => [p]) := by
  have h := fill_replicate seeds []
  simpa [UseSeedParticles, vectorResize] using h

theorem UseSeedParticles_counts (A : Advection) (seeds : List Particle) :
    (UseSeedParticles A seeds)._separatorCount = List.replicate seeds.length 0 := by
  simp [UseSeedParticles, vectorResize, map_const_zero]
  omega

theorem loop_shape (fuel : Nat) (G : Glm) (A : Advection) (velocity : Field) (deltaT : ℚ)
    (method : ADVECTION_METHOD) (streams : List (List Particle)) :
    ∀ (v : LoopVars) (r : List (List Particle)) (v2 : LoopVars),
      AdvectOneStep.loop fuel G A velocity deltaT method streams v = .ok (r, v2) →
      r.length = streams.length ∧
      v2.separatorCount.length = v.separatorCount.length ∧
      ∀ (j : Nat) (s : List Particle), streams[j]? = some s →
        ∃ s1, r[j]? = some s1 ∧ s.length ≤ s1.length := by
  induction streams with
  | nil =>
    intro v r v2 h
    simp only [AdvectOneStep.loop, pure, Except.pure, Except.ok.injEq, Prod.mk.injEq] at h
    simp [← h.1, ← h.2]
  | cons s0 rest ih =>
    intro v r v2 h
    obtain ⟨s1, v1, rest1, hb, hl, hr⟩ :=
      loop_cons_ok fuel G A velocity deltaT method s0 rest v r v2 h
    obtain ⟨w, a, hlen, _, hv1⟩ := body_effect fuel G A velocity deltaT method s0 v s1 v1 hb
    obtain ⟨h1, h2, h3⟩ := ih v1 rest1 v2 hl
    subst hr
    have hc : v1.separatorCount.length = v.separatorCount.length := by
      rw [hv1]
      cases w
      · rfl
      · exact incrementAt_length _ _
    refine ⟨by simp [h1], by rw [h2, hc], ?_⟩
    intro j s hs
    cases j with
    | zero =>
      simp only [List.getElem?_cons_zero, Option.some.injEq] at hs
      subst hs
      exact ⟨s1, by simp, by omega⟩
    | succ k =>
      simp only [List.getElem?_cons_succ] at hs
      obtain ⟨s2, h4, h5⟩ := h3 k s hs
      exact ⟨s2, by simpa using h4, h5⟩

theorem whileLoop_counts (fuel : Nat) (G : Glm) (A : Advection) (velocity : Field)
    (deltaT targetT : ℚ) (method : ADVECTION_METHOD) (n : Nat) :
    ∀ (s : List Particle) (p0 : Particle) (v : LoopVars) (s1 : List Particle) (v1 : LoopVars),
      s.getLast? = some p0 →
      AdvectTillTime.whileLoop fuel G A velocity deltaT targetT method n s p0 v = .ok (s1, v1) →
      v1.separatorCount.length = v.separatorCount.length := by
  induction n with
  | zero =>
    intro s p0 v s1 v1 _ h
    by_cases ht : p0.time < targetT
    · rw [whileLoop_zero_lt fuel G A velocity deltaT targetT method s p0 v ht] at h
      cases h
    · rw [whileLoop_done fuel G A velocity deltaT targetT method 0 s p0 v ht] at h
      cases h
      rfl
  | succ n ih =>
    intro s p0 v s1 v1 hlast h
    by_cases ht : p0.time < targetT
    · rw [whileLoop_succ_lt fuel G A velocity deltaT targetT method n s p0 v ht] at h
      cases hwr : AdvectTillTime.wrap fuel A velocity s p0 v with
      | error e =>
        rw [hwr] at h
        cases h
      | ok r =>
        rw [hwr] at h
        simp only [Except.bind] at h
        rcases tillWrap_cases fuel G A velocity deltaT targetT method s p0 v r hlast ht hwr with
          ⟨hr, _⟩ | ⟨s2, q0, v2, w, hr, hlast2, _, _, _, hv2, _⟩
        · subst hr
          simp only [Except.ok.injEq, Prod.mk.injEq] at h
          rw [← h.2]
        · subst hr
          simp only at h
          have hc2 : v2.separatorCount.length = v.separatorCount.length := by
            rw [hv2]
            cases w
            · rfl
            · exact incrementAt_length _ _
          cases ha : advect method velocity q0 (AdvectTillTime.stepSize G A deltaT s2 q0)
              Particle.default with
          | error e =>
            rw [ha] at h
            cases h
          | ok a =>
            obtain ⟨st, p1⟩ := a
            rw [ha] at h
            simp only [Except.bind] at h
            by_cases hst : st = 0
            · subst hst
              simp only [ne_eq, not_true_eq_false, if_false] at h
              have := ih (s2 ++ [p1]) p1 { v2 with happened := true } s1 v1
                (by simp [List.getLast?_append]) h
              rw [this]
              exact hc2
            · simp only [ne_eq, hst, not_false_eq_true, if_true, Except.ok.injEq,
                Prod.mk.injEq] at h
              rw [← h.2]
              exact hc2
    · rw [whileLoop_done fuel G A velocity deltaT targetT method (n + 1) s p0 v ht] at h
      cases h
      rfl

theorem tillBody_counts (fuel : Nat) (G : Glm) (A : Advection) (velocity : Field)
    (deltaT targetT : ℚ) (method : ADVECTION_METHOD) (s : List Particle) (v : LoopVars)
    (s1 : List Particle) (v1 : LoopVars)
    (h : AdvectTillTime.body fuel G A velocity deltaT targetT method s v = .ok (s1, v1)) :
    v1.separatorCount.length = v.separatorCount.length := by
  cases hlast : s.getLast? with
  | none =>
    simp only [AdvectTillTime.body, hlast, pure, Except.pure, Except.ok.injEq,
      Prod.mk.injEq] at h
    rw [← h.2]
  | some p0 =>
    simp only [AdvectTillTime.body, hlast, bind, Except.bind, pure, Except.pure] at h
    cases hw : AdvectTillTime.whileLoop fuel G A velocity deltaT targetT method fuel s p0 v with
    | error e =>
      rw [hw] at h
      cases h
    | ok r =>
      obtain ⟨s2, v2⟩ := r
      rw [hw] at h
      simp only [Except.ok.injEq, Prod.mk.injEq] at h
      rw [← h.2]
      exact whileLoop_counts fuel G A velocity deltaT targetT method fuel s p0 v s2 v2 hlast hw

theorem tillLoop_shape (fuel : Nat) (G : Glm) (A : Advection) (velocity : Field)
    (deltaT targetT : ℚ) (method : ADVECTION_METHOD) (streams : List (List Particle)) :
    ∀ (v : LoopVars) (r : List (List Particle)) (v2 : LoopVars),
      AdvectTillTime.loop fuel G A velocity deltaT targetT method streams v = .ok (r, v2) →
      r.length = streams.length ∧
      v2.separatorCount.length = v.separatorCount.length ∧
      ∀ (j : Nat) (s : List Particle), streams[j]? = some s →
        ∃ s1, r[j]? = some s1 ∧ s.length ≤ s1.length := by
  induction streams with
  | nil =>
    intro v r v2 h
    simp only [AdvectTillTime.loop, pure, Except.pure, Except.ok.injEq, Prod.mk.injEq] at h
    simp [← h.1, ← h.2]
  | cons s0 rest ih =>
    intro v r v2 h
    obtain ⟨s1, v1, rest1, hb, hl, hr⟩ :=
      tillLoop_cons_ok fuel G A velocity deltaT targetT method s0 rest v r v2 h
    obtain ⟨hhist, _, _, _⟩ := tillBody_spec fuel G A velocity deltaT targetT method s0 v s1 v1 hb
    have hc := tillBody_counts fuel G A velocity deltaT targetT method s0 v s1 v1 hb
    have hlen := (history_frame fuel G A velocity deltaT targetT method s0 s1 hhist).1
    obtain ⟨h1, h2, h3⟩ := ih v1 rest1 v2 hl
    subst hr
    refine ⟨by simp [h1], by rw [h2, hc], ?_⟩
    intro j s hs
    cases j with
    | zero =>
      simp only [List.getElem?_cons_zero, Option.some.injEq] at hs
      subst hs
      exact ⟨s1, by simp, hlen⟩
    | succ k =>
      simp only [List.getElem?_cons_succ] at hs
      obtain ⟨s2, h4, h5⟩ := h3 k s hs
      exact ⟨s2, by simpa using h4, h5⟩

theorem nonempty_of_pointwise (streams r : List (List Particle))
    (hlen : r.length = streams.length)
    (hat : ∀ (j : Nat) (s : List Particle), streams[j]? = some s →
      ∃ s1, r[j]? = some s1 ∧ s.length ≤ s1.length)
    (hne : ∀ s ∈ streams, 1 ≤ s.length) :
    ∀ s1 ∈ r, 1 ≤ s1.length := by
  intro s1 hs1
  obtain ⟨j, hj⟩ := List.getElem?_of_mem hs1
  have hjl : j < streams.length := by
    rw [← hlen]
    by_contra hge
    rw [List.getElem?_eq_none (by omega)] at hj
    cases hj
  obtain ⟨s2, hs2, hle⟩ := hat j streams[j] (List.getElem?_eq_getElem hjl)
  rw [hj] at hs2
  cases hs2
  have := hne streams[j] (List.getElem_mem hjl)
  omega

theorem AdvectOneStep_shape (c : Codes) (fuel : Nat) (G : Glm) (A : Advection)
    (velocity : Field) (deltaT : ℚ) (method : ADVECTION_METHOD) (rv : Int) (A1 : Advection)
    (h : AdvectOneStep c fuel G A velocity deltaT method = .ok (rv, A1))
    (hlen : A._streams.length = A._separatorCount.length)
    (hne : ∀ s ∈ A._streams, 1 ≤ s.length) :
    A1._streams.length = A1._separatorCount.length ∧ ∀ s ∈ A1._streams, 1 ≤ s.length := by
  by_cases hready : CheckReady c A = 0
  · obtain ⟨r, v, hl, _, hA⟩ :=
      AdvectOneStep_ready c fuel G A velocity deltaT method rv A1 hready h
    obtain ⟨h1, h2, h3⟩ := loop_shape fuel G A velocity deltaT method A._streams _ r v hl
    subst hA
    exact ⟨by simp only; rw [h1, h2, hlen], nonempty_of_pointwise A._streams r h1 h3 hne⟩
  · rw [AdvectOneStep_not_ready c fuel G A velocity deltaT method hready] at h
    cases h
    exact ⟨hlen, hne⟩

theorem AdvectTillTime_not_ready (c : Codes) (fuel : Nat) (G : Glm) (A : Advection)
    (velocity : Field) (deltaT targetT : ℚ) (method : ADVECTION_METHOD)
    (h : CheckReady c A ≠ 0) :
    AdvectTillTime c fuel G A velocity deltaT targetT method = .ok (CheckReady c A, A) := by
  simp [AdvectTillTime, h, pure, Except.pure]

theorem AdvectTillTime_shape (c : Codes) (fuel : Nat) (G : Glm) (A : Advection)
    (velocity : Field) (deltaT targetT : ℚ) (method : ADVECTION_METHOD) (rv : Int)
    (A1 : Advection)
    (h : AdvectTillTime c fuel G A velocity deltaT targetT method = .ok (rv, A1))
    (hlen : A._streams.length = A._separatorCount.length)
    (hne : ∀ s ∈ A._streams, 1 ≤ s.length) :
    A1._streams.length = A1._separatorCount.length ∧ ∀ s ∈ A1._streams, 1 ≤ s.length := by
  by_cases hready : CheckReady c A = 0
  · obtain ⟨r, v, hl, _, hA⟩ :=
      AdvectTillTime_ready c fuel G A velocity deltaT targetT method rv A1 hready h
    obtain ⟨h1, h2, h3⟩ :=
      tillLoop_shape fuel G A velocity deltaT targetT method A._streams _ r v hl
    subst hA
    exact ⟨by simp only; rw [h1, h2, hlen], nonempty_of_pointwise A._streams r h1 h3 hne⟩
  · rw [AdvectTillTime_not_ready c fuel G A velocity deltaT targetT method hready] at h
    cases h
    exact ⟨hlen, hne⟩

theorem visitAll_shape (f : Particle → Except Halt Particle) (streams r : List (List Particle))
    (h : visitSteps f (mostSteps streams) 0 streams = .ok r)
    (hne : ∀ s ∈ streams, 1 ≤ s.length) :
    r.length = streams.length ∧ ∀ s ∈ r, 1 ≤ s.length := by
  obtain ⟨hlen, hat⟩ := visitAll_spec f streams r h
  refine ⟨hlen, nonempty_of_pointwise streams r hlen ?_ hne⟩
  intro j s hs
  obtain ⟨s1, hs1, hl, _⟩ := hat j s hs
  exact ⟨s1, hs1, by omega⟩

theorem CalculateParticleProperties_ok (scalar : Field) (A : Advection)
    (rv : Int) (A1 : Advection)
    (h : CalculateParticleProperties scalar A = .ok (rv, A1)) :
    rv = 0 ∧ A1 = { A with _streams := A1._streams } ∧
    visitSteps (CalculateParticleProperties.visit scalar) (mostSteps A._streams) 0
      A._streams = .ok A1._streams := by
  simp only [CalculateParticleProperties, bind, Except.bind, pure, Except.pure] at h
  cases hv : visitSteps (CalculateParticleProperties.visit scalar)
      (mostSteps A._streams) 0 A._streams with
  | error e =>
    rw [hv] at h
    cases h
  | ok r =>
    rw [hv] at h
    simp only [Except.ok.injEq, Prod.mk.injEq] at h
    obtain ⟨h1, h2⟩ := h
    subst h2
    exact ⟨h1.symm, rfl, rfl⟩

/-- C11. In every state reachable from a freshly constructed `Advection` by calls of
`UseSeedParticles`, `AdvectOneStep`, `AdvectTillTime`, `CalculateParticleValues`,
`CalculateParticleProperties`, `ResetParticleValues`, `ClearParticleProperties` and of
the periodicity setters, there are as many streams as separator counters and every
stream holds at least one particle. -/
theorem Reachable_invariant (c : Codes) (G : Glm) (A : Advection) (h : Reachable c G A) :
    A._streams.length = A._separatorCount.length ∧ ∀ s ∈ A._streams, 1 ≤ s.length := by
  induction h with
  | fresh lo up => simp [Advection.ctor]
  | useSeedParticles A seeds _ _ =>
    rw [UseSeedParticles_streams, UseSeedParticles_counts]
    refine ⟨by simp, ?_⟩
    intro s hs
    obtain ⟨p, _, hp⟩ := List.mem_map.mp hs
    rw [← hp]
    simp
  | advectOneStep A A1 fuel velocity deltaT method rv _ hcall ih =>
    exact AdvectOneStep_shape c fuel G A velocity deltaT method rv A1 hcall ih.1 ih.2
  | advectTillTime A A1 fuel velocity deltaT targetT method rv _ hcall ih =>
    exact AdvectTillTime_shape c fuel G A velocity deltaT targetT method rv A1 hcall ih.1 ih.2
  | calculateParticleValues A A1 scalar skipNonZero rv _ hcall ih =>
    obtain ⟨_, hA, hvis⟩ := CalculateParticleValues_ok scalar skipNonZero A rv A1 hcall
    obtain ⟨h1, h2⟩ := visitAll_shape _ A._streams A1._streams hvis ih.2
    have hc : A1._separatorCount = A._separatorCount := by rw [hA]
    exact ⟨by rw [h1, hc, ih.1], h2⟩
  | calculateParticleProperties A A1 scalar rv _ hcall ih =>
    obtain ⟨_, hA, hvis⟩ := CalculateParticleProperties_ok scalar A rv A1 hcall
    obtain ⟨h1, h2⟩ := visitAll_shape _ A._streams A1._streams hvis ih.2
    have hc : A1._separatorCount = A._separatorCount := by rw [hA]
    exact ⟨by rw [h1, hc, ih.1], h2⟩
  | resetParticleValues A _ ih =>
    refine ⟨by simpa [ResetParticleValues] using ih.1, ?_⟩
    intro s hs
    simp only [ResetParticleValues, List.mem_map] at hs
    obtain ⟨s0, hs0, rfl⟩ := hs
    simpa using ih.2 s0 hs0
  | clearParticleProperties A _ ih =>
    refine ⟨by simpa [ClearParticleProperties] using ih.1, ?_⟩
    intro s hs
    simp only [ClearParticleProperties, List.mem_map] at hs
    obtain ⟨s0, hs0, rfl⟩ := hs
    simpa using ih.2 s0 hs0
  | setPeriodicity A i isPeri min max _ ih => exact ih

/-- Witness of C11: the state after seeding one particle and one Euler step is
reachable, and has one stream of two particles with one counter. -/
theorem Reachable_invariant_witness :
    ({ exampleFresh with
        _streams := [[exampleParticle 0 0, exampleParticle 1 1]],
        _separatorCount := [0] } : Advection)._streams.length = 1 ∧
    ∀ s ∈ ({ exampleFresh with
        _streams := [[exampleParticle 0 0, exampleParticle 1 1]],
        _separatorCount := [0] } : Advection)._streams, 1 ≤ s.length :=
  Reachable_invariant exampleCodes exampleGlm _
    (Reachable.advectOneStep _ _ 0 exampleConstField 1 .EULER 1
      (Reachable.useSeedParticles _ [exampleParticle 0 0] (Reachable.fresh (99 / 100) (96 / 100)))
      AdvectOneStep_example_euler)

theorem AdvectOneStep_example_two :
    AdvectOneStep exampleCodes 1 exampleGlm exampleTwoStreams exampleUnitField 1 .EULER =
      .ok (1, { exampleTwoStreams with
        _streams := [[exampleParticle 5 0],
          [separator, exampleParticle (1 / 2) 0, exampleParticle (3 / 2) 1]],
        _separatorCount := [1, 0] }) := by
  norm_num [AdvectOneStep, CheckReady, CheckReady.go, exampleTwoStreams, exampleParticle,
    exampleUnitField, exampleCodes, AdvectOneStep.loop, AdvectOneStep.body,
    AdvectOneStep.wrap, AdvectOneStep.integrate, AdvectOneStep.stepSize, advect,
    _advectEuler, Particle.default, Vec3.add, Vec3.smul, wrapLocation, wrapAxis, Axes.get,
    Vec3.get, Vec3.set, _applyPeriodic, _applyPeriodic.down, incrementAt, separator,
    Particle.SetSpecial, Particle.IsSpecial, bind, Except.bind, pure, Except.pure]

theorem exampleTwoStreams_seeded :
    UseSeedParticles examplePeriodic [exampleParticle 5 0, exampleParticle (21 / 2) 0] =
      exampleTwoStreams := by
  simp [UseSeedParticles, UseSeedParticles.fill, vectorResize, pushBackAt, examplePeriodic,
    exampleTwoStreams]

/-- C12, evaluation at the failing input. The state obtained from `UseSeedParticles`
with the two non-special seeds at `x = 5` and `x = 10.5` (X periodic over `[0,10]`) by
one call of `AdvectOneStep` on the field of domain `0 ≤ x ≤ 1` is reachable, and its
separator counts are `[1, 0]` while its streams hold 0 and 1 special particles. -/
theorem Advected_miscount :
    Advected exampleCodes exampleGlm { exampleTwoStreams with
        _streams := [[exampleParticle 5 0],
          [separator, exampleParticle (1 / 2) 0, exampleParticle (3 / 2) 1]],
        _separatorCount := [1, 0] } ∧
    ({ exampleTwoStreams with
        _streams := [[exampleParticle 5 0],
          [separator, exampleParticle (1 / 2) 0, exampleParticle (3 / 2) 1]],
        _separatorCount := [1, 0] } : Advection)._separatorCount = [1, 0] ∧
    ({ exampleTwoStreams with
        _streams := [[exampleParticle 5 0],
          [separator, exampleParticle (1 / 2) 0, exampleParticle (3 / 2) 1]],
        _separatorCount := [1, 0] } : Advection)._streams.map
          (fun s => s.countP fun p => p.IsSpecial) = [0, 1] := by
  refine ⟨?_, rfl, by decide⟩
  have hseed : Advected exampleCodes exampleGlm exampleTwoStreams := by
    rw [← exampleTwoStreams_seeded]
    apply Advected.seeded
    intro p hp
    simp only [List.mem_cons, List.mem_singleton, List.not_mem_nil, or_false] at hp
    rcases hp with rfl | rfl <;> rfl
  exact Advected.advectOneStep _ _ 1 exampleUnitField 1 .EULER 1 hseed AdvectOneStep_example_two

/-! ## Text import -/

theorem lines_of_error (stof : List Char → Option ℚ) (lines : List (List Char)) :
    ∀ newSeeds : List Particle,
      (∃ line ∈ lines, InputStreamsGnuplot.line stof line = .fileError) →
      InputStreamsGnuplot.lines stof lines newSeeds = none := by
  induction lines with
  | nil =>
    intro _ h
    simp at h
  | cons l rest ih =>
    intro newSeeds h
    cases hl : InputStreamsGnuplot.line stof l with
    | fileError => simp [InputStreamsGnuplot.lines, hl]
    | skipped =>
      simp only [InputStreamsGnuplot.lines, hl]
      apply ih
      obtain ⟨line, hmem, hline⟩ := h
      rcases List.mem_cons.mp hmem with rfl | hmem
      · rw [hl] at hline
        cases hline
      · exact ⟨line, hmem, hline⟩
    | seed p =>
      simp only [InputStreamsGnuplot.lines, hl]
      apply ih
      obtain ⟨line, hmem, hline⟩ := h
      rcases List.mem_cons.mp hmem with rfl | hmem
      · rw [hl] at hline
        cases hline
      · exact ⟨line, hmem, hline⟩

theorem lines_of_ok (stof : List Char → Option ℚ) (lines : List (List Char)) :
    ∀ newSeeds : List Particle,
      (∀ line ∈ lines, InputStreamsGnuplot.line stof line ≠ .fileError) →
      InputStreamsGnuplot.lines stof lines newSeeds =
        some (newSeeds ++ lines.filterMap (InputStreamsGnuplot.seedOf stof)) := by
  induction lines with
  | nil =>
    intro newSeeds _
    simp [InputStreamsGnuplot.lines]
  | cons l rest ih =>
    intro newSeeds h
    have hrest : ∀ line ∈ rest, InputStreamsGnuplot.line stof line ≠ .fileError :=
      fun line hm => h line (List.mem_cons_of_mem _ hm)
    cases hl : InputStreamsGnuplot.line stof l with
    | fileError => exact absurd hl (h l (List.mem_cons_self _ _))
    | skipped =>
      simp only [InputStreamsGnuplot.lines, hl]
      rw [ih newSeeds hrest]
      simp [List.filterMap_cons, InputStreamsGnuplot.seedOf, hl]
    | seed p =>
      simp only [InputStreamsGnuplot.lines, hl]
      rw [ih (newSeeds ++ [p]) hrest]
      simp [List.filterMap_cons, InputStreamsGnuplot.seedOf, hl]

theorem values_nil (stof : List Char → Option ℚ) (n : Nat) :
    InputStreamsGnuplot.values stof n [] = some [] := by
  cases n <;> simp [InputStreamsGnuplot.values, splitComma]

/-- The text up to the first comma of a line closed by a comma is the first field of
the line, and the loop that reads the values goes on with the other fields. -/
theorem splitComma_tokens (text : List Char) :
    ∃ (str : List Char) (strs : List (List Char)) (after : List Char),
      commaTokens text = str :: strs ∧
      splitComma (text ++ [',']) = some (str, after) ∧
      ∀ (stof : List Char → Option ℚ) (n : Nat),
        InputStreamsGnuplot.values stof n after = parseAll stof (strs.take n) := by
  induction text with
  | nil =>
    refine ⟨[], [], [], rfl, by simp [splitComma], ?_⟩
    intro stof n
    rw [values_nil]
    simp [parseAll]
  | cons ch rest ih =>
    obtain ⟨str, strs, after, h1, h2, h3⟩ := ih
    by_cases hc : ch = ','
    · refine ⟨[], str :: strs, rest ++ [','], by simp [commaTokens, hc, h1],
        by simp [splitComma, hc], ?_⟩
      intro stof n
      cases n with
      | zero => simp [InputStreamsGnuplot.values, parseAll]
      | succ m =>
        simp only [InputStreamsGnuplot.values, h2, List.take_succ_cons, parseAll, h3 stof m]
    · refine ⟨ch :: str, strs, after, by simp [commaTokens, hc, h1], ?_, h3⟩
      simp [splitComma, hc, h2]

theorem values_tokens (stof : List Char → Option ℚ) (text : List Char) (n : Nat) :
    InputStreamsGnuplot.values stof n (text ++ [',']) =
      parseAll stof ((commaTokens text).take n) := by
  obtain ⟨str, strs, after, h1, h2, h3⟩ := splitComma_tokens text
  cases n with
  | zero => simp [InputStreamsGnuplot.values, parseAll]
  | succ m =>
    simp only [InputStreamsGnuplot.values, h2, h1, List.take_succ_cons, parseAll, h3 stof m]

theorem parseAll_length (stof : List Char → Option ℚ) (strs : List (List Char)) :
    ∀ vals : List ℚ, parseAll stof strs = some vals → vals.length = strs.length := by
  induction strs with
  | nil =>
    intro vals h
    simp only [parseAll, Option.some.injEq] at h
    simp [← h]
  | cons str rest ih =>
    intro vals h
    simp only [parseAll] at h
    cases hs : stof str with
    | none => simp [hs] at h
    | some v =>
      cases hr : parseAll stof rest with
      | none => simp [hs, hr] at h
      | some vs =>
        simp only [hs, hr, Option.some.injEq] at h
        rw [← h]
        simp [ih vs hr]

theorem parseAll_none (stof : List Char → Option ℚ) (strs : List (List Char))
    (h : ∃ str ∈ strs, stof str = none) : parseAll stof strs = none := by
  induction strs with
  | nil => simp at h
  | cons str rest ih =>
    simp only [parseAll]
    cases hs : stof str with
    | none => rfl
    | some v =>
      obtain ⟨t, ht, hnone⟩ := h
      rcases List.mem_cons.mp ht with rfl | ht
      · rw [hs] at hnone
        cases hnone
      · simp [ih ⟨t, ht, hnone⟩]

theorem parseAll_some (stof : List Char → Option ℚ) (strs : List (List Char))
    (h : ∀ str ∈ strs, (stof str).isSome = true) :
    parseAll stof strs = some (strs.map fun str => (stof str).getD 0) := by
  induction strs with
  | nil => rfl
  | cons str rest ih =>
    have h0 := h str (List.mem_cons_self _ _)
    obtain ⟨v, hv⟩ := Option.isSome_iff_exists.mp h0
    simp [parseAll, hv, ih (fun t ht => h t (List.mem_cons_of_mem _ ht))]

theorem dropWhile_of_not_blank (line : List Char) (h : isBlankLine line = false) :
    ∃ (first : Char) (rest : List Char), line.dropWhile isBlankChar = first :: rest ∧
      isBlankChar first = false := by
  induction line with
  | nil => simp [isBlankLine] at h
  | cons ch rest ih =>
    by_cases hc : isBlankChar ch = true
    · have hrest : isBlankLine rest = false := by
        simp only [isBlankLine, List.all_cons, hc, Bool.true_and] at h
        exact h
      obtain ⟨first, tl, h1, h2⟩ := ih hrest
      exact ⟨first, tl, by simp [List.dropWhile_cons, hc, h1], h2⟩
    · have hc2 : isBlankChar ch = false := by
        cases hh : isBlankChar ch
        · rfl
        · exact absurd hh hc
      exact ⟨ch, rest, by simp [List.dropWhile_cons, hc2], hc2⟩

theorem line_of_empty (stof : List Char → Option ℚ) :
    InputStreamsGnuplot.line stof [] = .skipped := by
  simp [InputStreamsGnuplot.line, trimLeading]

theorem line_of_comment (stof : List Char → Option ℚ) (line : List Char)
    (h : isCommentLine line = true) : InputStreamsGnuplot.line stof line = .skipped := by
  simp only [isCommentLine, beq_iff_eq] at h
  cases hd : line.dropWhile isBlankChar with
  | nil => simp [hd] at h
  | cons first rest =>
    simp only [hd, List.head?_cons, Option.some.injEq] at h
    subst h
    simp [InputStreamsGnuplot.line, trimLeading, hd]

/-- The result of the loop body of the import on a data line, in terms of the
comma-separated fields of the line after the removal of its leading blanks. -/
theorem line_of_data (stof : List Char → Option ℚ) (line : List Char)
    (h : isDataLine line = true) :
    InputStreamsGnuplot.line stof line =
      match parseAll stof ((commaTokens (trimLeading line)).take 4) with
      | none => .fileError
      | some values =>
        if values.length < 3 then .fileError
        else if values.length = 3 then .seed (Particle.ofArray values 0)
        else .seed (Particle.ofArray values (values.getD 3 0)) := by
  simp only [isDataLine, Bool.and_eq_true, Bool.not_eq_true'] at h
  obtain ⟨hb, hcm⟩ := h
  obtain ⟨first, rest, hd, hf⟩ := dropWhile_of_not_blank line hb
  have htrim : trimLeading line = first :: rest := by simp [trimLeading, hd]
  have hne : first ≠ '#' := by
    intro he
    simp [isCommentLine, hd, he] at hcm
  have hhead : ¬ ((first :: rest).head? = some '#') := by simpa using hne
  rw [← values_tokens]
  simp only [InputStreamsGnuplot.line, htrim, List.isEmpty_cons, Bool.false_eq_true, if_false,
    hhead]

theorem line_of_wellFormed (stof : List Char → Option ℚ) (line : List Char)
    (h : isDataLine line = true) (hw : wellFormedLine stof line) :
    InputStreamsGnuplot.line stof line = .seed (seedOfFields stof line) := by
  rw [line_of_data stof line h]
  obtain ⟨hlen, hparse⟩ := hw
  rw [parseAll_some stof _ hparse]
  have hl : (((commaTokens (trimLeading line)).take 4).map fun str => (stof str).getD 0).length =
      min 4 (commaTokens (trimLeading line)).length := by simp
  simp only
  by_cases h3 : (commaTokens (trimLeading line)).length = 3
  · have h33 : (((commaTokens (trimLeading line)).take 4).map
        fun str => (stof str).getD 0).length = 3 := by rw [hl, h3]; rfl
    have hget : (((commaTokens (trimLeading line)).take 4).map
        fun str => (stof str).getD 0).getD 3 0 = 0 := by
      rw [List.getD_eq_getElem?_getD, List.getElem?_eq_none (by omega)]
      rfl
    simp only [h33, Nat.lt_irrefl, if_false, if_true, seedOfFields, hget]
  · have h4 : (((commaTokens (trimLeading line)).take 4).map
        fun str => (stof str).getD 0).length = 4 := by rw [hl]; omega
    simp only [h4, seedOfFields]
    simp

theorem line_of_malformed (stof : List Char → Option ℚ) (line : List Char)
    (h : isDataLine line = true)
    (hbad : (commaTokens (trimLeading line)).length < 3 ∨
      ∃ str ∈ (commaTokens (trimLeading line)).take 4, stof str = none) :
    InputStreamsGnuplot.line stof line = .fileError := by
  rw [line_of_data stof line h]
  cases hp : parseAll stof ((commaTokens (trimLeading line)).take 4) with
  | none => rfl
  | some values =>
    rcases hbad with hlen | hnone
    · have := parseAll_length stof _ values hp
      have hv : values.length < 3 := by
        rw [this, List.length_take]
        omega
      simp [hv]
    · rw [parseAll_none stof _ hnone] at hp
      cases hp

/-- When every line is empty, a comment, or a data line with at least 3 fields whose
first four are parsable, the import succeeds: it returns 0, and the state is
`UseSeedParticles` of the particles of the data lines, in file order, when there is
one, and is untouched otherwise. -/
theorem InputStreamsGnuplot_wellFormed (c : Codes) (T : TextLib) (text : List Char)
    (A : Advection)
    (h : ∀ line ∈ getLines text, line = [] ∨ isCommentLine line = true ∨
      (isDataLine line = true ∧ wellFormedLine T.stof line)) :
    InputStreamsGnuplot c T (some text) A =
      (0, if ((getLines text).filter isDataLine).isEmpty then A
        else UseSeedParticles A (((getLines text).filter isDataLine).map (seedOfFields T.stof))) := by
  have hok : ∀ line ∈ getLines text, InputStreamsGnuplot.line T.stof line ≠ .fileError := by
    intro line hm
    rcases h line hm with rfl | hc | ⟨hd, hw⟩
    · rw [line_of_empty]
      exact fun hh => by cases hh
    · rw [line_of_comment T.stof line hc]
      exact fun hh => by cases hh
    · rw [line_of_wellFormed T.stof line hd hw]
      exact fun hh => by cases hh
  have hseeds : ∀ lines : List (List Char),
      (∀ line ∈ lines, line = [] ∨ isCommentLine line = true ∨
        (isDataLine line = true ∧ wellFormedLine T.stof line)) →
      lines.filterMap (InputStreamsGnuplot.seedOf T.stof) =
        (lines.filter isDataLine).map (seedOfFields T.stof) := by
    intro lines
    induction lines with
    | nil => intro _; rfl
    | cons l rest ih =>
      intro hl
      have hrest := ih (fun line hm => hl line (List.mem_cons_of_mem _ hm))
      rcases hl l (List.mem_cons_self _ _) with rfl | hc | ⟨hd, hw⟩
      · simp [List.filterMap_cons, InputStreamsGnuplot.seedOf, line_of_empty, hrest,
          List.filter_cons, isDataLine, isBlankLine]
      · have hnd : isDataLine l = false := by simp [isDataLine, hc]
        simp [List.filterMap_cons, InputStreamsGnuplot.seedOf, line_of_comment T.stof l hc,
          hrest, List.filter_cons, hnd]
      · simp [List.filterMap_cons, InputStreamsGnuplot.seedOf,
          line_of_wellFormed T.stof l hd hw, hrest, List.filter_cons, hd]
  simp only [InputStreamsGnuplot, lines_of_ok T.stof (getLines text) [] hok, List.nil_append,
    hseeds (getLines text) h]
  cases hmap : ((getLines text).filter isDataLine).map (seedOfFields T.stof) with
  | nil =>
    have : (getLines text).filter isDataLine = [] := by simpa using hmap
    simp [this]
  | cons p ps =>
    have : (getLines text).filter isDataLine ≠ [] := by
      intro hh
      simp [hh] at hmap
    simp [this]

/-- C17, evaluation at the failing input. The text holds the data line `1,2,3` and
then a line made of one space. That line is blank, so every data line of the text holds
3 parsable values; yet the import returns `FILE_ERROR` and leaves the state as it was,
instead of returning 0 with the state seeded by the particle `(1,2,3)` at time 0. -/
theorem InputStreamsGnuplot_blank_after_data :
    getLines "1,2,3\n \n".toList = ["1,2,3".toList, " ".toList] ∧
    isBlankLine " ".toList = true ∧ isDataLine " ".toList = false ∧
    isDataLine "1,2,3".toList = true ∧ wellFormedLine exampleStof "1,2,3".toList ∧
    InputStreamsGnuplot exampleCodes exampleText (some "1,2,3\n \n".toList) exampleFresh =
      (exampleCodes.FILE_ERROR, exampleFresh) ∧
    exampleCodes.FILE_ERROR ≠ 0 := by
  refine ⟨by decide, by decide, by decide, by decide, ?_, rfl, by decide⟩
  unfold wellFormedLine
  decide

/-- Example: the data line `1,2,3,4,abc` contains the
unparsable token `abc`, as its fifth field; the import returns 0, not `FILE_ERROR`,
and replaces the streams by the single seed of the line. -/
theorem InputStreamsGnuplot_fifth_token_example :
    "abc".toList ∈ commaTokens "1,2,3,4,abc".toList ∧ exampleStof "abc".toList = none ∧
    isDataLine "1,2,3,4,abc".toList = true ∧
    (InputStreamsGnuplot exampleCodes exampleText (some "1,2,3,4,abc".toList)
      exampleFresh).1 = 0 ∧
    exampleCodes.FILE_ERROR ≠ 0 ∧
    (InputStreamsGnuplot exampleCodes exampleText (some "1,2,3,4,abc".toList)
      exampleFresh).2._streams.length = 1 ∧
    exampleFresh._streams.length = 0 := by
  refine ⟨by decide, by decide, by decide, by decide, by decide, by decide, by decide⟩

/-- When `std::stof` throws no other exception than `std::invalid_argument` and the text
contains a data line with fewer than 3 fields, or with an unparsable token among its
first four fields, the import returns `FILE_ERROR` and leaves the state unmodified,
whatever the other lines are. -/
theorem InputStreamsGnuplot_malformed (c : Codes) (T : TextLib) (text : List Char)
    (A : Advection) (line : List Char) (hmem : line ∈ getLines text)
    (hdata : isDataLine line = true)
    (hbad : (commaTokens (trimLeading line)).length < 3 ∨
      ∃ str ∈ (commaTokens (trimLeading line)).take 4, T.stof str = none) :
    InputStreamsGnuplot c T (some text) A = (c.FILE_ERROR, A) := by
  have hline := line_of_malformed T.stof line hdata hbad
  simp only [InputStreamsGnuplot,
    lines_of_error T.stof (getLines text) [] ⟨line, hmem, hline⟩]

/-- Example: the line `1.0, abc, 3.0`, whose second field is not parsable, is rejected
and the state is left as it was. -/
theorem InputStreamsGnuplot_malformed_example :
    InputStreamsGnuplot exampleCodes exampleText (some "1.0, abc, 3.0".toList) exampleTwoStreams =
      (exampleCodes.FILE_ERROR, exampleTwoStreams) :=
  InputStreamsGnuplot_malformed exampleCodes exampleText "1.0, abc, 3.0".toList exampleTwoStreams
    "1.0, abc, 3.0".toList (by decide) (by decide)
    (Or.inr ⟨" abc".toList, by decide, by decide⟩)

/-- C19, evaluation at the failing input. A text made of one line that holds a single
space is not imported like the same text without that line: the blank line is not
skipped, the import returns `FILE_ERROR`, while the empty text gives 0. -/
theorem InputStreamsGnuplot_blank_line_rejected :
    getLines " \n".toList = [" ".toList] ∧ isBlankLine " ".toList = true ∧
    InputStreamsGnuplot.line exampleStof " ".toList = .fileError ∧
    InputStreamsGnuplot exampleCodes exampleText (some " \n".toList) exampleTwoStreams =
      (exampleCodes.FILE_ERROR, exampleTwoStreams) ∧
    InputStreamsGnuplot exampleCodes exampleText (some []) exampleTwoStreams =
      (0, exampleTwoStreams) ∧
    exampleCodes.FILE_ERROR ≠ 0 := by
  refine ⟨by decide, by decide, by decide, rfl, rfl, by decide⟩

/-! ## Text export and round trip -/

theorem getLines_go_line (l : List Char) (hl : '\n' ∉ l) :
    ∀ (cur rest : List Char),
      getLines.go cur (l ++ '\n' :: rest) = (cur ++ l) :: getLines.go [] rest := by
  induction l with
  | nil =>
    intro cur rest
    simp [getLines.go]
  | cons ch tl ih =>
    intro cur rest
    have hch : ch ≠ '\n' := fun h => hl (by simp [h])
    have htl : '\n' ∉ tl := fun h => hl (List.mem_cons_of_mem _ h)
    have h := ih htl (cur ++ [ch]) rest
    simp only [List.cons_append, getLines.go, hch, if_false]
    simpa using h

theorem commaTokens_ne_nil (text : List Char) : commaTokens text ≠ [] := by
  cases text with
  | nil => simp [commaTokens]
  | cons ch rest =>
    simp only [commaTokens]
    split
    · simp
    · split <;> simp

theorem commaTokens_field (a : List Char) (ha : ',' ∉ a) :
    ∀ rest : List Char, commaTokens (a ++ ',' :: rest) = a :: commaTokens rest := by
  induction a with
  | nil =>
    intro rest
    simp [commaTokens]
  | cons ch tl ih =>
    intro rest
    have hch : ch ≠ ',' := fun h => ha (by simp [h])
    have htl : ',' ∉ tl := fun h => ha (List.mem_cons_of_mem _ h)
    have h := ih htl rest
    simp only [List.cons_append, commaTokens, hch, if_false]
    simp only [List.append_eq, h]

theorem commaTokens_last (a : List Char) (ha : ',' ∉ a) : commaTokens a = [a] := by
  induction a with
  | nil => rfl
  | cons ch tl ih =>
    have hch : ch ≠ ',' := fun h => ha (by simp [h])
    have htl : ',' ∉ tl := fun h => ha (List.mem_cons_of_mem _ h)
    simp only [commaTokens, hch, if_false, ih htl]

theorem printable_spec (T : TextLib) (x : ℚ) (h : printable T x = true) :
    ',' ∉ T.printf_f x ∧ '\n' ∉ T.printf_f x ∧
    (T.stof (T.printf_f x)).isSome = true ∧ (T.stof (' ' :: T.printf_f x)).isSome = true ∧
    ∃ (first : Char) (rest : List Char), T.printf_f x = first :: rest ∧
      isBlankChar first = false ∧ first ≠ '#' := by
  unfold printable at h
  cases hf : T.printf_f x with
  | nil => simp [hf] at h
  | cons first rest =>
    simp only [hf, Bool.and_eq_true, Bool.not_eq_true', bne_iff_ne, ne_eq] at h
    obtain ⟨⟨⟨⟨h1, h2⟩, h3⟩, h4⟩, h5, h6⟩ := h
    refine ⟨?_, ?_, h3, h4, first, rest, rfl, h5, h6⟩
    · intro hm
      have : (first :: rest).contains ',' = true := List.elem_iff.mpr hm
      rw [this] at h1
      cases h1
    · intro hm
      have : (first :: rest).contains '\n' = true := List.elem_iff.mpr hm
      rw [this] at h2
      cases h2

theorem printableParticle_spec (T : TextLib) (p : Particle)
    (h : printableParticle T p = true) :
    printable T p.location.x = true ∧ printable T p.location.y = true ∧
    printable T p.location.z = true ∧ printable T p.time = true ∧
    printable T p.value = true := by
  simp only [printableParticle, Bool.and_eq_true] at h
  exact ⟨h.1.1.1.1, h.1.1.1.2, h.1.1.2, h.1.2, h.2⟩

theorem exportedLine_no_newline (T : TextLib) (p : Particle)
    (h : printableParticle T p = true) : '\n' ∉ exportedLine T p := by
  obtain ⟨hx, hy, hz, ht, hv⟩ := printableParticle_spec T p h
  have h1 := (printable_spec T _ hx).2.1
  have h2 := (printable_spec T _ hy).2.1
  have h3 := (printable_spec T _ hz).2.1
  have h4 := (printable_spec T _ ht).2.1
  have h5 := (printable_spec T _ hv).2.1
  simp only [exportedLine, List.mem_append, List.mem_cons, List.mem_singleton,
    List.not_mem_nil, not_or]
  refine ⟨⟨⟨⟨⟨⟨⟨⟨h1, ?_⟩, h2⟩, ?_⟩, h3⟩, ?_⟩, h4⟩, ?_⟩, h5⟩ <;> decide

theorem exportedLine_tokens (T : TextLib) (p : Particle)
    (h : printableParticle T p = true) :
    commaTokens (exportedLine T p) =
      [T.printf_f p.location.x, ' ' :: T.printf_f p.location.y,
        ' ' :: T.printf_f p.location.z, ' ' :: T.printf_f p.time,
        ' ' :: T.printf_f p.value] := by
  obtain ⟨hx, hy, hz, ht, hv⟩ := printableParticle_spec T p h
  have h1 := (printable_spec T _ hx).1
  have h2 : ',' ∉ ' ' :: T.printf_f p.location.y := by
    simp only [List.mem_cons, not_or]
    exact ⟨by decide, (printable_spec T _ hy).1⟩
  have h3 : ',' ∉ ' ' :: T.printf_f p.location.z := by
    simp only [List.mem_cons, not_or]
    exact ⟨by decide, (printable_spec T _ hz).1⟩
  have h4 : ',' ∉ ' ' :: T.printf_f p.time := by
    simp only [List.mem_cons, not_or]
    exact ⟨by decide, (printable_spec T _ ht).1⟩
  have h5 : ',' ∉ ' ' :: T.printf_f p.value := by
    simp only [List.mem_cons, not_or]
    exact ⟨by decide, (printable_spec T _ hv).1⟩
  have hshape : exportedLine T p =
      T.printf_f p.location.x ++ ',' :: ((' ' :: T.printf_f p.location.y) ++ ',' ::
        ((' ' :: T.printf_f p.location.z) ++ ',' :: ((' ' :: T.printf_f p.time) ++ ',' ::
          (' ' :: T.printf_f p.value)))) := by
    simp [exportedLine]
  rw [hshape, commaTokens_field _ h1, commaTokens_field _ h2, commaTokens_field _ h3,
    commaTokens_field _ h4, commaTokens_last _ h5]

theorem exportedLine_trim (T : TextLib) (p : Particle)
    (h : printableParticle T p = true) :
    trimLeading (exportedLine T p) = exportedLine T p ∧
    isDataLine (exportedLine T p) = true := by
  obtain ⟨hx, _⟩ := printableParticle_spec T p h
  obtain ⟨_, _, _, _, first, rest, hf, hb, hne⟩ := printable_spec T _ hx
  have hshape : ∃ tl, exportedLine T p = first :: tl := by
    refine ⟨rest ++ [',', ' '] ++ T.printf_f p.location.y ++ [',', ' '] ++
      T.printf_f p.location.z ++ [',', ' '] ++ T.printf_f p.time ++ [',', ' '] ++
      T.printf_f p.value, ?_⟩
    simp only [exportedLine, hf, List.cons_append]
  obtain ⟨tl, htl⟩ := hshape
  have hd : (first :: tl).dropWhile isBlankChar = first :: tl := by
    simp [List.dropWhile_cons, hb]
  refine ⟨by simp [trimLeading, htl, hd], ?_⟩
  have hne2 : (first == '#') = false := by simpa using hne
  simp [isDataLine, isBlankLine, isCommentLine, htl, hd, hb, hne2]

theorem exportedLine_seed (T : TextLib) (p : Particle)
    (h : printableParticle T p = true) :
    wellFormedLine T.stof (exportedLine T p) ∧
    seedOfFields T.stof (exportedLine T p) = reimported T p := by
  obtain ⟨hx, hy, hz, ht, _⟩ := printableParticle_spec T p h
  have htrim := (exportedLine_trim T p h).1
  have htok := exportedLine_tokens T p h
  constructor
  · unfold wellFormedLine
    rw [htrim, htok]
    refine ⟨by simp, ?_⟩
    intro str hstr
    simp only [List.take_succ_cons, List.take_zero, List.mem_cons, List.mem_singleton,
      List.not_mem_nil, or_false] at hstr
    rcases hstr with rfl | rfl | rfl | rfl
    · exact (printable_spec T _ hx).2.2.1
    · exact (printable_spec T _ hy).2.2.2.1
    · exact (printable_spec T _ hz).2.2.2.1
    · exact (printable_spec T _ ht).2.2.2.1
  · unfold seedOfFields
    rw [htrim, htok]
    simp [Particle.ofArray, reimported]

theorem particle_text (T : TextLib) (p : Particle) :
    OutputStreamsGnuplot.particle T p =
      if p.IsSpecial then [] else exportedLine T p ++ ['\n'] := by
  unfold OutputStreamsGnuplot.particle exportedLine
  cases p.IsSpecial <;> simp

theorem getLines_particles (T : TextLib) (s : List Particle)
    (hs : ∀ p ∈ s, p.IsSpecial = false → printableParticle T p = true) :
    ∀ rest : List Char,
      getLines.go [] (OutputStreamsGnuplot.particles T s ++ rest) =
        (s.filter fun p => !p.IsSpecial).map (exportedLine T) ++ getLines.go [] rest := by
  induction s with
  | nil =>
    intro rest
    simp [OutputStreamsGnuplot.particles]
  | cons p tl ih =>
    intro rest
    have htl := ih (fun q hq => hs q (List.mem_cons_of_mem _ hq)) rest
    cases hsp : p.IsSpecial with
    | true =>
      simp only [OutputStreamsGnuplot.particles, particle_text, hsp, if_true, List.nil_append,
        htl]
      simp [List.filter_cons, hsp]
    | false =>
      have hnl := exportedLine_no_newline T p (hs p (List.mem_cons_self _ _) hsp)
      have hgo := getLines_go_line (exportedLine T p) hnl []
        (OutputStreamsGnuplot.particles T tl ++ rest)
      simp only [OutputStreamsGnuplot.particles, particle_text, hsp, Bool.false_eq_true,
        if_false, List.append_assoc, List.singleton_append, List.cons_append, List.nil_append]
      rw [hgo, htl]
      simp [List.filter_cons, hsp]

theorem getLines_streams (T : TextLib) (streams : List (List Particle))
    (hs : ∀ s ∈ streams, ∀ p ∈ s, p.IsSpecial = false → printableParticle T p = true) :
    getLines.go [] (OutputStreamsGnuplot.streams T streams) = exportedLines T streams := by
  induction streams with
  | nil => simp [OutputStreamsGnuplot.streams, exportedLines, getLines.go]
  | cons s rest ih =>
    have hrest := ih (fun t ht => hs t (List.mem_cons_of_mem _ ht))
    have hpart := getLines_particles T s (hs s (List.mem_cons_self _ _))
      ('\n' :: '\n' :: OutputStreamsGnuplot.streams T rest)
    simp only [OutputStreamsGnuplot.streams, exportedLines, List.append_assoc,
      List.cons_append, List.nil_append]
    rw [hpart]
    simp [getLines.go, hrest]

theorem header_no_newline : '\n' ∉ OutputStreamsGnuplot.header := by decide

theorem header_comment : isCommentLine OutputStreamsGnuplot.header = true := by decide

theorem getLines_text (T : TextLib) (A : Advection)
    (hs : ∀ s ∈ A._streams, ∀ p ∈ s, p.IsSpecial = false → printableParticle T p = true) :
    getLines (OutputStreamsGnuplot.text T A) =
      OutputStreamsGnuplot.header :: exportedLines T A._streams := by
  have h := getLines_go_line OutputStreamsGnuplot.header header_no_newline []
    (OutputStreamsGnuplot.streams T A._streams)
  simp only [getLines, OutputStreamsGnuplot.text, List.append_assoc, List.singleton_append]
  rw [h, getLines_streams T A._streams hs]
  simp

theorem exportedLines_lines (T : TextLib) (streams : List (List Particle))
    (hs : ∀ s ∈ streams, ∀ p ∈ s, p.IsSpecial = false → printableParticle T p = true) :
    (∀ line ∈ exportedLines T streams, line = [] ∨ isCommentLine line = true ∨
      (isDataLine line = true ∧ wellFormedLine T.stof line)) ∧
    ((exportedLines T streams).filter isDataLine).map (seedOfFields T.stof) =
      (streams.flatten.filter fun p => !p.IsSpecial).map (reimported T) := by
  induction streams with
  | nil => simp [exportedLines]
  | cons s rest ih =>
    obtain ⟨h1, h2⟩ := ih (fun t ht => hs t (List.mem_cons_of_mem _ ht))
    have hs0 := hs s (List.mem_cons_self _ _)
    have hmine : ∀ line ∈ (s.filter fun p => !p.IsSpecial).map (exportedLine T),
        isDataLine line = true ∧ wellFormedLine T.stof line := by
      intro line hl
      obtain ⟨p, hp, rfl⟩ := List.mem_map.mp hl
      obtain ⟨hps, hsp⟩ := List.mem_filter.mp hp
      have hpr := hs0 p hps (by simpa using hsp)
      exact ⟨(exportedLine_trim T p hpr).2, (exportedLine_seed T p hpr).1⟩
    have hfilter : ((s.filter fun p => !p.IsSpecial).map (exportedLine T)).filter isDataLine =
        (s.filter fun p => !p.IsSpecial).map (exportedLine T) := by
      apply List.filter_eq_self.mpr
      intro line hl
      exact (hmine line hl).1
    have hseed : ((s.filter fun p => !p.IsSpecial).map (exportedLine T)).map
        (seedOfFields T.stof) = (s.filter fun p => !p.IsSpecial).map (reimported T) := by
      rw [List.map_map]
      apply List.map_congr_left
      intro p hp
      obtain ⟨hps, hsp⟩ := List.mem_filter.mp hp
      exact (exportedLine_seed T p (hs0 p hps (by simpa using hsp))).2
    constructor
    · intro line hl
      simp only [exportedLines, List.append_assoc, List.mem_append, List.mem_cons,
        List.mem_singleton, List.not_mem_nil, or_false] at hl
      rcases hl with hl | (hl | hl) | hl
      · exact Or.inr (Or.inr (hmine line hl))
      · exact Or.inl hl
      · exact Or.inl hl
      · exact h1 line hl
    · have hempty : isDataLine [] = false := by decide
      simp only [exportedLines, List.append_assoc, List.filter_append, List.map_append,
        hfilter, hseed, List.flatten_cons, h2]
      simp [List.filter_cons, hempty]

theorem exported_printable (T : TextLib) (A : Advection)
    (hprint : ∀ p ∈ exported A, printableParticle T p = true) :
    ∀ s ∈ A._streams, ∀ p ∈ s, p.IsSpecial = false → printableParticle T p = true := by
  intro s hs p hp hsp
  apply hprint p
  unfold exported
  apply List.mem_filter.mpr
  exact ⟨List.mem_flatten.mpr ⟨s, hs, hp⟩, by simp [hsp]⟩

theorem InputStreamsGnuplot_exported (c : Codes) (T : TextLib) (A B : Advection)
    (hprint : ∀ p ∈ exported A, printableParticle T p = true) :
    InputStreamsGnuplot c T (some (OutputStreamsGnuplot.text T A)) B =
      (0, if (exported A).isEmpty then B
        else UseSeedParticles B ((exported A).map (reimported T))) := by
  have hs := exported_printable T A hprint
  have hlines := getLines_text T A hs
  obtain ⟨h1, h2⟩ := exportedLines_lines T A._streams hs
  have hall : ∀ line ∈ getLines (OutputStreamsGnuplot.text T A), line = [] ∨
      isCommentLine line = true ∨ (isDataLine line = true ∧ wellFormedLine T.stof line) := by
    intro line hl
    rw [hlines] at hl
    rcases List.mem_cons.mp hl with rfl | hl
    · exact Or.inr (Or.inl header_comment)
    · exact h1 line hl
  have hheader : isDataLine OutputStreamsGnuplot.header = false := by decide
  have hfilter : (getLines (OutputStreamsGnuplot.text T A)).filter isDataLine =
      (exportedLines T A._streams).filter isDataLine := by
    rw [hlines, List.filter_cons, hheader]
    simp
  have hmap : ((exportedLines T A._streams).filter isDataLine).map (seedOfFields T.stof) =
      (exported A).map (reimported T) := h2
  have hempty : ((exportedLines T A._streams).filter isDataLine).isEmpty =
      (exported A).isEmpty := by
    have hlen := congrArg List.length hmap
    simp only [List.length_map] at hlen
    cases hx : (exportedLines T A._streams).filter isDataLine with
    | nil =>
      rw [hx] at hlen
      have : exported A = [] := List.length_eq_zero.mp hlen.symm
      simp [this]
    | cons a l =>
      rw [hx] at hlen
      cases hy : exported A with
      | nil => rw [hy] at hlen; simp at hlen
      | cons b m => rfl
  rw [InputStreamsGnuplot_wellFormed c T _ B hall, hfilter, hmap, hempty]

/-- Counterexample to C20 as stated: a state whose only stream holds a separator
exports no particle, and importing the written text into that state succeeds
and leaves its stream where it was, so the state holds one stream for zero
exported particles; likewise the text written by a state without streams,
imported into a state that has a seeded stream, leaves that stream in place. -/
theorem round_trip_counterexample :
    exported exampleSeparatorOnly = [] ∧
    OutputStreamsGnuplot exampleCodes exampleText exampleSeparatorOnly "streams.txt".toList
        false true [] =
      (0, some (OutputStreamsGnuplot.text exampleText exampleSeparatorOnly)) ∧
    InputStreamsGnuplot exampleCodes exampleText
        (some (OutputStreamsGnuplot.text exampleText exampleSeparatorOnly))
        exampleSeparatorOnly = (0, exampleSeparatorOnly) ∧
    exampleSeparatorOnly._streams.length = 1 ∧
    exported exampleFresh = [] ∧
    InputStreamsGnuplot exampleCodes exampleText
        (some (OutputStreamsGnuplot.text exampleText exampleFresh)) examplePeriodic =
      (0, examplePeriodic) ∧
    examplePeriodic._streams.length = 1 := by
  refine ⟨by decide, rfl, rfl, rfl, by decide, rfl, rfl⟩

/-- C20, amended. When every exported number is rendered as a plain number that
`stof` reads back, writing the streams of `A` to a named file that opens
succeeds, and importing the written text into any state `B` returns 0. If at
least one non-special particle was exported, the streams of `B` become one
single-particle stream per exported non-special particle, in export order, each
holding the particle read back from its line; if none was exported, `B` is left
as it was. -/
theorem round_trip_spec (c : Codes) (T : TextLib) (A B : Advection) (filename old : List Char)
    (hname : filename ≠ [])
    (hprint : ∀ p ∈ exported A, printableParticle T p = true) :
    OutputStreamsGnuplot c T A filename false true old =
      (0, some (OutputStreamsGnuplot.text T A)) ∧
    (InputStreamsGnuplot c T (some (OutputStreamsGnuplot.text T A)) B).1 = 0 ∧
    (exported A ≠ [] →
      (InputStreamsGnuplot c T (some (OutputStreamsGnuplot.text T A)) B).2._streams =
          (exported A).map (fun p => [reimported T p]) ∧
        (InputStreamsGnuplot c T (some (OutputStreamsGnuplot.text T A)) B).2._streams.length =
          (A._streams.map physicalCount).sum) ∧
    (exported A = [] →
      (InputStreamsGnuplot c T (some (OutputStreamsGnuplot.text T A)) B).2 = B) := by
  have himport := InputStreamsGnuplot_exported c T A B hprint
  have hcount : (exported A).length = (A._streams.map physicalCount).sum := by
    unfold exported
    generalize A._streams = streams
    induction streams with
    | nil => rfl
    | cons s rest ih =>
      simp only [List.flatten_cons, List.filter_append, List.length_append, List.map_cons,
        List.sum_cons, ih, physicalCount, List.countP_eq_length_filter]
  refine ⟨?_, ?_, ?_, ?_⟩
  · cases filename with
    | nil => exact absurd rfl hname
    | cons ch rest => simp [OutputStreamsGnuplot]
  · rw [himport]
  · intro hne
    have hemp : (exported A).isEmpty = false := by
      cases hx : exported A with
      | nil => exact absurd hx hne
      | cons a l => rfl
    rw [himport, hemp]
    simp only [Bool.false_eq_true, if_false, UseSeedParticles_streams, List.map_map,
      List.length_map, hcount]
    exact ⟨rfl, trivial⟩
  · intro he
    rw [himport, he]
    rfl

/-- Witness of C20, amended: two streams of three non-special particles each are
written and read back as six streams. -/
theorem round_trip_spec_witness :
    "streams.txt".toList ≠ [] ∧
    (∀ p ∈ exported exampleTwoByThree, printableParticle exampleText p = true) ∧
    exampleTwoByThree._streams.map physicalCount = [3, 3] ∧
    OutputStreamsGnuplot exampleCodes exampleText exampleTwoByThree "streams.txt".toList
        false true [] =
      (0, some (OutputStreamsGnuplot.text exampleText exampleTwoByThree)) ∧
    (InputStreamsGnuplot exampleCodes exampleText
        (some (OutputStreamsGnuplot.text exampleText exampleTwoByThree))
        exampleTwoByThree).1 = 0 ∧
    (InputStreamsGnuplot exampleCodes exampleText
        (some (OutputStreamsGnuplot.text exampleText exampleTwoByThree))
        exampleTwoByThree).2._streams.length = 6 := by
  have hname : "streams.txt".toList ≠ [] := by decide
  have hprint : ∀ p ∈ exported exampleTwoByThree, printableParticle exampleText p = true := by
    decide
  have hne : exported exampleTwoByThree ≠ [] := by decide
  have h := round_trip_spec exampleCodes exampleText exampleTwoByThree exampleTwoByThree
    "streams.txt".toList [] hname hprint
  exact ⟨hname, hprint, by decide, h.1, h.2.1, by rw [(h.2.2.1 hne).2]; decide⟩

/-! ## Step formulas -/

theorem calcAdjustFactor_values (G : Glm) (A : Advection) (p2 p1 p0 : Particle) :
    _calcAdjustFactor G A p2 p1 p0 = 1 / 2 ∨ _calcAdjustFactor G A p2 p1 p0 = 1 ∨
      _calcAdjustFactor G A p2 p1 p0 = 5 / 4 := by
  unfold _calcAdjustFactor
  simp only
  split
  · exact Or.inr (Or.inl rfl)
  · split
    · exact Or.inr (Or.inr rfl)
    · split
      · exact Or.inl rfl
      · exact Or.inr (Or.inl rfl)

theorem calcAdjustFactor_pos (G : Glm) (A : Advection) (p2 p1 p0 : Particle) :
    1 / 2 ≤ _calcAdjustFactor G A p2 p1 p0 ∧ _calcAdjustFactor G A p2 p1 p0 ≤ 5 / 4 := by
  rcases calcAdjustFactor_values G A p2 p1 p0 with h | h | h <;> rw [h] <;> norm_num

theorem stepSize_range (G : Glm) (A : Advection) (deltaT : ℚ) (s : List Particle)
    (past0 : Particle) :
    (0 < deltaT → deltaT / 20 ≤ AdvectOneStep.stepSize G A deltaT s past0 ∧
      AdvectOneStep.stepSize G A deltaT s past0 ≤ deltaT * 50) ∧
    (deltaT < 0 → deltaT * 50 ≤ AdvectOneStep.stepSize G A deltaT s past0 ∧
      AdvectOneStep.stepSize G A deltaT s past0 ≤ deltaT / 20) := by
  unfold AdvectOneStep.stepSize
  simp only [glmClamp]
  constructor
  · intro hd
    split
    · split
      · split
        · split
          · refine ⟨le_min (le_max_right _ _) (by linarith), min_le_right _ _⟩
          · rename_i hx
            have hx2 := not_lt.mp hx
            refine ⟨le_min (le_max_of_le_right (by linarith)) (le_refl _), ?_⟩
            exact le_trans (min_le_right _ _) (by linarith)
        · constructor <;> linarith
      · constructor <;> linarith
    · constructor <;> linarith
  · intro hd
    split
    · split
      · split
        · split
          · refine ⟨?_, le_trans (min_le_right _ _) (by linarith)⟩
            exact le_min (le_max_of_le_right (by linarith)) (le_refl _)
          · refine ⟨le_min (le_max_right _ _) (by linarith), min_le_right _ _⟩
        · constructor <;> linarith
      · constructor <;> linarith
    · constructor <;> linarith

theorem tillStepSize_example :
    AdvectTillTime.stepSize exampleEuclid exampleFresh 1
      [examplePlanar 0 0 0, examplePlanar 1 0 1, examplePlanar 0 0 (21 / 20)]
      (examplePlanar 0 0 (21 / 20)) = 1 / 40 := by
  norm_num [AdvectTillTime.stepSize, _calcAdjustFactor, exampleEuclid, exampleFresh,
    examplePlanar, Particle.IsSpecial, Vec3.sub, Vec3.dot]

theorem tillStepSize_short (G : Glm) (A : Advection) (deltaT : ℚ) (s : List Particle)
    (p0 : Particle) (h : s.length < 3) :
    AdvectTillTime.stepSize G A deltaT s p0 = deltaT := by
  have : ¬ s.length > 2 := by omega
  simp [AdvectTillTime.stepSize, this]

/-- The step of `AdvectTillTime` for a positive `deltaT` lies between `deltaT/40` and
`deltaT*125/2`: the elapsed time is clamped to `[deltaT/20, deltaT*50]` before the
multiplication by the adjustment factor. -/
theorem tillStepSize_range (G : Glm) (A : Advection) (deltaT : ℚ) (s : List Particle)
    (p0 : Particle) (hd : 0 < deltaT) :
    deltaT / 40 ≤ AdvectTillTime.stepSize G A deltaT s p0 ∧
      AdvectTillTime.stepSize G A deltaT s p0 ≤ deltaT * 125 / 2 := by
  unfold AdvectTillTime.stepSize
  simp only
  split
  · split
    · split
      · rename_i past1 past2 _ _ _
        obtain ⟨hf1, hf2⟩ := calcAdjustFactor_pos G A past2 past1 p0
        generalize _calcAdjustFactor G A past2 past1 p0 = f at hf1 hf2
        generalize p0.time - past1.time = e
        have hlow : deltaT / 20 ≤
            (if (if e < deltaT * 50 then e else deltaT * 50) > deltaT / 20 then
              (if e < deltaT * 50 then e else deltaT * 50) else deltaT / 20) := by
          split_ifs <;> linarith
        have hhigh : (if (if e < deltaT * 50 then e else deltaT * 50) > deltaT / 20 then
              (if e < deltaT * 50 then e else deltaT * 50) else deltaT / 20) ≤ deltaT * 50 := by
          split_ifs <;> linarith
        generalize (if (if e < deltaT * 50 then e else deltaT * 50) > deltaT / 20 then
              (if e < deltaT * 50 then e else deltaT * 50) else deltaT / 20) = d at hlow hhigh
        have hd0 : 0 ≤ d := by linarith
        constructor
        · nlinarith
        · nlinarith
      · constructor <;> linarith
    · constructor <;> linarith
  · constructor <;> linarith

/-- C23, evaluation at the failing input. The stream goes from the origin to
`(1, 0, 0)` and back, the last step having taken `1/20`, and `deltaT = 1`. The factor
of the turn is `1/2`. `AdvectOneStep` integrates with the step `1/20`;
`AdvectTillTime` integrates with the step `1/40`, which is below `deltaT/20`: the new
particle of `AdvectTillTime` is at time `21/20 + 1/40`, that of `AdvectOneStep` at
time `21/20 + 1/20`. -/
theorem AdvectTillTime_stepSize_differs :
    AdvectOneStep.stepSize exampleEuclid exampleTurn 1
        [examplePlanar 0 0 0, examplePlanar 1 0 1, examplePlanar 0 0 (21 / 20)]
        (examplePlanar 0 0 (21 / 20)) = 1 / 20 ∧
    AdvectTillTime.stepSize exampleEuclid exampleTurn 1
        [examplePlanar 0 0 0, examplePlanar 1 0 1, examplePlanar 0 0 (21 / 20)]
        (examplePlanar 0 0 (21 / 20)) = 1 / 40 ∧
    AdvectOneStep exampleCodes 1 exampleEuclid exampleTurn exampleConstField 1 .EULER =
      .ok (1, { exampleTurn with
        _streams := [[examplePlanar 0 0 0, examplePlanar 1 0 1, examplePlanar 0 0 (21 / 20),
          examplePlanar (1 / 20) 0 (11 / 10)]] }) ∧
    AdvectTillTime exampleCodes 1 exampleEuclid exampleTurn exampleConstField 1 (53 / 50)
        .EULER =
      .ok (1, { exampleTurn with
        _streams := [[examplePlanar 0 0 0, examplePlanar 1 0 1, examplePlanar 0 0 (21 / 20),
          examplePlanar (1 / 40) 0 (43 / 40)]] }) := by
  refine ⟨?_, ?_, ?_, ?_⟩
  · norm_num [AdvectOneStep.stepSize, _calcAdjustFactor, glmClamp, exampleEuclid, exampleTurn,
      exampleFresh, examplePlanar, Particle.IsSpecial, Vec3.sub, Vec3.dot]
  · norm_num [AdvectTillTime.stepSize, _calcAdjustFactor, exampleEuclid, exampleTurn,
      exampleFresh, examplePlanar, Particle.IsSpecial, Vec3.sub, Vec3.dot]
  · norm_num [AdvectOneStep, CheckReady, CheckReady.go, exampleTurn, AdvectOneStep.loop,
      AdvectOneStep.body, AdvectOneStep.wrap, AdvectOneStep.integrate, bind, Except.bind, pure,
      Except.pure, exampleConstField, AdvectOneStep.stepSize, _calcAdjustFactor, glmClamp,
      exampleEuclid, exampleFresh, examplePlanar, Particle.IsSpecial, Vec3.sub, Vec3.dot,
      advect, _advectEuler, exampleCodes, Particle.default, Vec3.add, Vec3.smul]
  · norm_num [AdvectTillTime, CheckReady, CheckReady.go, exampleTurn, AdvectTillTime.loop,
      AdvectTillTime.body, AdvectTillTime.whileLoop, AdvectTillTime.wrap, bind, Except.bind,
      pure, Except.pure, exampleConstField, AdvectTillTime.stepSize, _calcAdjustFactor,
      exampleEuclid, exampleFresh, examplePlanar, Particle.IsSpecial, Vec3.sub, Vec3.dot,
      advect, _advectEuler, exampleCodes, Particle.default, Vec3.add, Vec3.smul]

/-! ## The adjustment factor and the periodic correction -/

theorem calcAdjustFactor_eq (G : Glm) (A : Advection) (p2 p1 p0 : Particle) :
    _calcAdjustFactor G A p2 p1 p0 =
      if segmentProduct G p2 p1 p0 < 1 / 10000000 then 1
      else if turnCosine G p2 p1 p0 > A._lowerAngleCos then 5 / 4
      else if turnCosine G p2 p1 p0 < A._upperAngleCos then 1 / 2
      else 1 := rfl

/-- With exact arithmetic, `_calcAdjustFactor` returns 1 when the product of the lengths
of the two segments is below `1e-7`. Otherwise, the stored cosine of the upper angle
being at most that of the lower angle, it returns `5/4` when the cosine of the turning
angle is above the stored cosine of the lower angle, `1/2` when it is below the stored
cosine of the upper angle, and 1 when it lies between the two stored cosines, bounds
included. The result is always one of `1/2`, 1 and `5/4`. -/
theorem calcAdjustFactor_exact (G : Glm) (A : Advection) (p2 p1 p0 : Particle)
    (hord : A._upperAngleCos ≤ A._lowerAngleCos) :
    (segmentProduct G p2 p1 p0 < 1 / 10000000 → _calcAdjustFactor G A p2 p1 p0 = 1) ∧
    (¬ segmentProduct G p2 p1 p0 < 1 / 10000000 →
      (turnCosine G p2 p1 p0 > A._lowerAngleCos → _calcAdjustFactor G A p2 p1 p0 = 5 / 4) ∧
      (turnCosine G p2 p1 p0 < A._upperAngleCos → _calcAdjustFactor G A p2 p1 p0 = 1 / 2) ∧
      (A._upperAngleCos ≤ turnCosine G p2 p1 p0 → turnCosine G p2 p1 p0 ≤ A._lowerAngleCos →
        _calcAdjustFactor G A p2 p1 p0 = 1)) ∧
    (_calcAdjustFactor G A p2 p1 p0 = 1 / 2 ∨ _calcAdjustFactor G A p2 p1 p0 = 1 ∨
      _calcAdjustFactor G A p2 p1 p0 = 5 / 4) := by
  refine ⟨?_, ?_, calcAdjustFactor_values G A p2 p1 p0⟩
  · intro hd
    rw [calcAdjustFactor_eq, if_pos hd]
  · intro hd
    refine ⟨?_, ?_, ?_⟩
    · intro hc
      rw [calcAdjustFactor_eq, if_neg hd, if_pos hc]
    · intro hc
      have hnot : ¬ turnCosine G p2 p1 p0 > A._lowerAngleCos := not_lt.mpr (by linarith)
      rw [calcAdjustFactor_eq, if_neg hd, if_neg hnot, if_pos hc]
    · intro h1 h2
      rw [calcAdjustFactor_eq, if_neg hd, if_neg (not_lt.mpr h2), if_neg (not_lt.mpr h1)]

theorem applyPeriodic_up (span min : ℚ) (n : Nat) :
    ∀ (pval : ℚ) (fuel : Nat), min - pval ≤ n * span → n ≤ fuel →
      ∃ (r : ℚ) (k : Nat), _applyPeriodic.up span min fuel pval = .ok r ∧
        r = pval + k * span ∧ min ≤ r ∧ (min ≤ pval → r = pval) ∧
        (pval < min → r < min + span) := by
  induction n with
  | zero =>
    intro pval fuel h _
    have hge : ¬ pval < min := by
      simp only [Nat.cast_zero, zero_mul] at h
      exact not_lt.mpr (by linarith)
    refine ⟨pval, 0, ?_, by simp, not_lt.mp hge, fun _ => rfl, fun hh => absurd hh hge⟩
    cases fuel <;> simp [_applyPeriodic.up, hge]
  | succ n ih =>
    intro pval fuel h hf
    by_cases hlt : pval < min
    · obtain ⟨f, rfl⟩ : ∃ f, fuel = f + 1 := ⟨fuel - 1, by omega⟩
      have hnext : min - (pval + span) ≤ n * span := by
        push_cast at h
        linarith
      obtain ⟨r, k, h1, h2, h3, h4, h5⟩ := ih (pval + span) f hnext (by omega)
      refine ⟨r, k + 1, ?_, ?_, h3, fun hh => absurd hlt (not_lt.mpr hh), fun _ => ?_⟩
      · simp only [_applyPeriodic.up, hlt, if_true]
        exact h1
      · rw [h2]
        push_cast
        ring
      · by_cases hin : min ≤ pval + span
        · rw [h4 hin]
          linarith
        · have := h5 (not_le.mp hin)
          exact this
    · refine ⟨pval, 0, ?_, by simp, not_lt.mp hlt, fun _ => rfl, fun hh => absurd hh hlt⟩
      cases fuel <;> simp [_applyPeriodic.up, hlt]

theorem applyPeriodic_down (span max : ℚ) (n : Nat) :
    ∀ (pval : ℚ) (fuel : Nat), pval - max ≤ n * span → n ≤ fuel →
      ∃ (r : ℚ) (k : Nat), _applyPeriodic.down span max fuel pval = .ok r ∧
        r = pval - k * span ∧ r ≤ max ∧ (pval ≤ max → r = pval) ∧
        (max < pval → max - span < r) := by
  induction n with
  | zero =>
    intro pval fuel h _
    have hge : ¬ pval > max := by
      simp only [Nat.cast_zero, zero_mul] at h
      exact not_lt.mpr (by linarith)
    refine ⟨pval, 0, ?_, by simp, not_lt.mp hge, fun _ => rfl, fun hh => absurd hh hge⟩
    cases fuel <;> simp [_applyPeriodic.down, hge]
  | succ n ih =>
    intro pval fuel h hf
    by_cases hlt : pval > max
    · obtain ⟨f, rfl⟩ : ∃ f, fuel = f + 1 := ⟨fuel - 1, by omega⟩
      have hnext : (pval - span) - max ≤ n * span := by
        push_cast at h
        linarith
      obtain ⟨r, k, h1, h2, h3, h4, h5⟩ := ih (pval - span) f hnext (by omega)
      refine ⟨r, k + 1, ?_, ?_, h3, fun hh => absurd hlt (not_lt.mpr hh), fun _ => ?_⟩
      · simp only [_applyPeriodic.down, hlt, if_true]
        exact h1
      · rw [h2]
        push_cast
        ring
      · by_cases hin : pval - span ≤ max
        · rw [h4 hin]
          linarith
        · have := h5 (not_le.mp hin)
          exact this
    · refine ⟨pval, 0, ?_, by simp, not_lt.mp hlt, fun _ => rfl, fun hh => absurd hh hlt⟩
      cases fuel <;> simp [_applyPeriodic.down, hlt]

/-- With `min < max`, `_applyPeriodic` returns once it has enough fuel, and the value
it returns does not depend on the fuel: it lies in `[min, max]`, differs from `val` by
an integer multiple of the span, and is `val` itself when `val` is in `[min, max]`.
A value brought up from below `min` is below `max`, a value brought down from above
`max` is above `min`. -/
theorem applyPeriodic_returns (val min max : ℚ) (h : min < max) :
    ∃ (fuel0 : Nat) (r : ℚ) (k : Int), (∀ fuel : Nat, fuel0 ≤ fuel →
        _applyPeriodic fuel val min max = .ok r) ∧
      min ≤ r ∧ r ≤ max ∧ r = val + k * (max - min) ∧
      (min ≤ val → val ≤ max → r = val) ∧ (val < min → r < max) ∧ (max < val → min < r) := by
  have hspan : 0 < max - min := by linarith
  by_cases hin : val ≥ min ∧ val ≤ max
  · refine ⟨0, val, 0, ?_, hin.1, hin.2, by simp, fun _ _ => rfl,
      fun hh => absurd hin.1 (not_le.mpr hh), fun hh => absurd hin.2 (not_le.mpr hh)⟩
    intro fuel _
    simp [_applyPeriodic, hin]
  · by_cases hlt : val < min
    · obtain ⟨n, hn⟩ := exists_nat_ge ((min - val) / (max - min))
      have hn2 : min - val ≤ n * (max - min) := by
        rw [div_le_iff₀ hspan] at hn
        exact hn
      obtain ⟨r, k, _, h2, h3, _, h5⟩ := applyPeriodic_up (max - min) min n val n hn2 (le_refl _)
      refine ⟨n, r, k, ?_, h3, by have := h5 hlt; linarith, by rw [h2]; push_cast; ring,
        fun hh _ => absurd hlt (not_lt.mpr hh), fun _ => by have := h5 hlt; linarith,
        fun hh => absurd hh (not_lt.mpr (by linarith))⟩
      intro fuel hf
      obtain ⟨r1, k1, g1, g2, g3, _, g5⟩ := applyPeriodic_up (max - min) min n val fuel hn2 hf
      have hr : r1 = r := by
        have hk : ((k1 : ℚ) - k) * (max - min) = r1 - r := by rw [g2, h2]; ring
        have hb1 := h5 hlt
        have hb2 := g5 hlt
        have habs : |((k1 : ℚ) - k) * (max - min)| < max - min := by
          rw [hk, abs_lt]
          constructor <;> linarith
        rw [abs_mul, abs_of_pos hspan] at habs
        have hlt1 : |((k1 : ℚ) - k)| < 1 := by
          by_contra hge
          have := mul_le_mul_of_nonneg_right (not_lt.mp hge) (le_of_lt hspan)
          linarith
        have hint : |((k1 : ℤ) - (k : ℤ))| < 1 := by
          have : (|((k1 : ℤ) - (k : ℤ))| : ℚ) < 1 := by
            push_cast
            exact hlt1
          exact_mod_cast this
        have hz : (k1 : ℤ) - (k : ℤ) = 0 := by
          have := Int.abs_lt_one_iff.mp hint
          exact this
        have hkk : (k1 : ℚ) = k := by
          have : ((k1 : ℤ) : ℚ) = ((k : ℤ) : ℚ) := by
            have h0 := sub_eq_zero.mp hz
            rw [h0]
          exact_mod_cast this
        rw [g2, h2, hkk]
      simp only [_applyPeriodic, hin, if_false, hlt, if_true]
      rw [g1, hr]
    · have hgt : max < val := by
        rcases not_and_or.mp hin with h1 | h1
        · exact absurd (not_le.mp h1) hlt
        · exact not_le.mp h1
      obtain ⟨n, hn⟩ := exists_nat_ge ((val - max) / (max - min))
      have hn2 : val - max ≤ n * (max - min) := by
        rw [div_le_iff₀ hspan] at hn
        exact hn
      obtain ⟨r, k, _, h2, h3, _, h5⟩ :=
        applyPeriodic_down (max - min) max n val n hn2 (le_refl _)
      refine ⟨n, r, -(k : Int), ?_, by have := h5 hgt; linarith, h3,
        by rw [h2]; push_cast; ring,
        fun _ hh => absurd hgt (not_lt.mpr hh), fun hh => absurd hh hlt,
        fun _ => by have := h5 hgt; linarith⟩
      intro fuel hf
      obtain ⟨r1, k1, g1, g2, g3, _, g5⟩ :=
        applyPeriodic_down (max - min) max n val fuel hn2 hf
      have hr : r1 = r := by
        have hk : ((k : ℚ) - k1) * (max - min) = r1 - r := by rw [g2, h2]; ring
        have hb1 := h5 hgt
        have hb2 := g5 hgt
        have habs : |((k : ℚ) - k1) * (max - min)| < max - min := by
          rw [hk, abs_lt]
          constructor <;> linarith
        rw [abs_mul, abs_of_pos hspan] at habs
        have hlt1 : |((k : ℚ) - k1)| < 1 := by
          by_contra hge
          have := mul_le_mul_of_nonneg_right (not_lt.mp hge) (le_of_lt hspan)
          linarith
        have hint : |((k : ℤ) - (k1 : ℤ))| < 1 := by
          have : (|((k : ℤ) - (k1 : ℤ))| : ℚ) < 1 := by
            push_cast
            exact hlt1
          exact_mod_cast this
        have hz : (k : ℤ) - (k1 : ℤ) = 0 := Int.abs_lt_one_iff.mp hint
        have hkk : (k : ℚ) = k1 := by
          have : ((k : ℤ) : ℚ) = ((k1 : ℤ) : ℚ) := by
            have h0 := sub_eq_zero.mp hz
            rw [h0]
          exact_mod_cast this
        rw [g2, h2, hkk]
      simp only [_applyPeriodic, hin, if_false, hlt]
      rw [g1, hr]

/-- With exact arithmetic and bounds `min < max`, `_applyPeriodic( val, min, max )` returns
(its loops end, whatever the fuel beyond some bound) a value of the closed range
`[min, max]` that differs from `val` by an integer multiple of the span `max - min`;
a `val` already in `[min, max]`, the bound `max` included, is returned unchanged. The
result is below `max` unless `val` is `max` plus a non-negative multiple of the
span. -/
theorem applyPeriodic_exact (val min max : ℚ) (h : min < max) :
    ∃ (fuel0 : Nat) (r : ℚ), (∀ fuel : Nat, fuel0 ≤ fuel →
        _applyPeriodic fuel val min max = .ok r) ∧
      min ≤ r ∧ r ≤ max ∧ (∃ k : Int, r = val + k * (max - min)) ∧
      (min ≤ val → val ≤ max → r = val) ∧
      (r < max ∨ ∃ j : Int, 0 ≤ j ∧ val = max + j * (max - min)) := by
  obtain ⟨fuel0, r, k, h1, h2, h3, h4, h5, h6, h7⟩ := applyPeriodic_returns val min max h
  refine ⟨fuel0, r, h1, h2, h3, ⟨k, h4⟩, h5, ?_⟩
  by_cases hr : r < max
  · exact Or.inl hr
  · right
    have hrm : r = max := le_antisymm h3 (not_lt.mp hr)
    have hval : ¬ val < min := fun hh => hr (h6 hh)
    refine ⟨-k, ?_, ?_⟩
    · by_contra hneg
      have hk : 1 ≤ k := by omega
      have hk2 : (1 : ℚ) ≤ k := by exact_mod_cast hk
      have hspan : 0 < max - min := by linarith
      have : max - min ≤ k * (max - min) := by
        have := mul_le_mul_of_nonneg_right hk2 (le_of_lt hspan)
        linarith
      have hv : val ≤ min := by
        rw [hrm] at h4
        linarith
      have hv2 : min ≤ val := not_lt.mp hval
      have hveq : val = min := le_antisymm hv hv2
      have := h5 hv2 (by linarith)
      rw [hrm] at this
      linarith
    · rw [hrm] at h4
      push_cast
      linarith

/-! ## The stream counter of the single-step loop -/

theorem loop_append (fuel : Nat) (G : Glm) (A : Advection) (velocity : Field) (deltaT : ℚ)
    (method : ADVECTION_METHOD) (pre : List (List Particle)) :
    ∀ (rest : List (List Particle)) (v : LoopVars),
      AdvectOneStep.loop fuel G A velocity deltaT method (pre ++ rest) v =
        (AdvectOneStep.loop fuel G A velocity deltaT method pre v).bind fun a =>
          (AdvectOneStep.loop fuel G A velocity deltaT method rest a.2).bind fun b =>
            .ok (a.1 ++ b.1, b.2) := by
  induction pre with
  | nil =>
    intro rest v
    simp only [List.nil_append, AdvectOneStep.loop, pure, Except.pure, Except.bind]
    cases AdvectOneStep.loop fuel G A velocity deltaT method rest v <;> rfl
  | cons s0 pre ih =>
    intro rest v
    simp only [List.cons_append, AdvectOneStep.loop, bind, pure, Except.pure]
    cases hb : AdvectOneStep.body fuel G A velocity deltaT method s0 v with
    | error e => rfl
    | ok b =>
      simp only [Except.bind, List.append_eq]
      rw [ih rest b.2]
      cases AdvectOneStep.loop fuel G A velocity deltaT method pre b.2 with
      | error e => rfl
      | ok a =>
        simp only [Except.bind]
        cases AdvectOneStep.loop fuel G A velocity deltaT method rest a.2 with
        | error e => rfl
        | ok l => rfl

theorem loop_idx_le (fuel : Nat) (G : Glm) (A : Advection) (velocity : Field) (deltaT : ℚ)
    (method : ADVECTION_METHOD) (streams : List (List Particle)) :
    ∀ (v : LoopVars) (r : List (List Particle)) (v2 : LoopVars),
      AdvectOneStep.loop fuel G A velocity deltaT method streams v = .ok (r, v2) →
      v2.streamIdx ≤ v.streamIdx + streams.length := by
  induction streams with
  | nil =>
    intro v r v2 h
    simp only [AdvectOneStep.loop, pure, Except.pure, Except.ok.injEq, Prod.mk.injEq] at h
    simp [← h.2]
  | cons s0 rest ih =>
    intro v r v2 h
    obtain ⟨s1, v1, rest1, hb, hl, _⟩ :=
      loop_cons_ok fuel G A velocity deltaT method s0 rest v r v2 h
    obtain ⟨w, a, _, _, hv1⟩ := body_effect fuel G A velocity deltaT method s0 v s1 v1 hb
    have h2 := ih v1 rest1 v2 hl
    have h3 : v1.streamIdx = v.streamIdx + a.toNat := by rw [hv1]
    have h4 : a.toNat ≤ 1 := by cases a <;> simp
    simp only [List.length_cons]
    omega

/-- C30. In `AdvectOneStep`, when there are as many separator counters as streams, the
stream `s` at the position `pre.length` is processed with loop variables `v` (those
left by the iterations on the streams `pre` before it) whose `streamIdx` is at most
that position, hence below the number of counters: `_separatorCount[streamIdx]`
exists. The rest of the loop is the iteration on `s` from `v`, followed by the
iterations on the streams after it. -/
theorem AdvectOneStep_streamIdx_bound (fuel : Nat) (G : Glm) (A : Advection) (velocity : Field)
    (deltaT : ℚ) (method : ADVECTION_METHOD) (pre : List (List Particle)) (s : List Particle)
    (post pre1 : List (List Particle)) (v : LoopVars)
    (hlen : A._streams.length = A._separatorCount.length)
    (hsplit : A._streams = pre ++ s :: post)
    (hpre : AdvectOneStep.loop fuel G A velocity deltaT method pre
      ⟨false, 0, A._separatorCount⟩ = .ok (pre1, v)) :
    v.streamIdx ≤ pre.length ∧ v.streamIdx < v.separatorCount.length ∧
    (∃ n : Nat, v.separatorCount[v.streamIdx]? = some n) ∧
    AdvectOneStep.loop fuel G A velocity deltaT method A._streams
        ⟨false, 0, A._separatorCount⟩ =
      (AdvectOneStep.body fuel G A velocity deltaT method s v).bind fun b =>
        (AdvectOneStep.loop fuel G A velocity deltaT method post b.2).bind fun l =>
          .ok (pre1 ++ b.1 :: l.1, l.2) := by
  have hidx := loop_idx_le fuel G A velocity deltaT method pre _ pre1 v hpre
  have hcnt := (loop_shape fuel G A velocity deltaT method pre _ pre1 v hpre).2.1
  simp only [Nat.zero_add] at hidx hcnt
  have hpos : pre.length < A._streams.length := by
    rw [hsplit]
    simp
  have hlt : v.streamIdx < v.separatorCount.length := by
    rw [hcnt, ← hlen]
    omega
  refine ⟨hidx, hlt, ⟨v.separatorCount[v.streamIdx], List.getElem?_eq_getElem hlt⟩, ?_⟩
  rw [hsplit, loop_append, hpre]
  simp only [Except.bind, AdvectOneStep.loop, bind, pure, Except.pure]
  cases AdvectOneStep.body fuel G A velocity deltaT method s v with
  | error e => rfl
  | ok b =>
    simp only [Except.bind]
    cases AdvectOneStep.loop fuel G A velocity deltaT method post b.2 with
    | error e => rfl
    | ok l => rfl

/-- Witness of C30: the first of the two streams is skipped, so the second stream, at
position 1, is processed with `streamIdx = 0`. -/
theorem AdvectOneStep_streamIdx_bound_witness :
    exampleTwoStreams._streams.length = exampleTwoStreams._separatorCount.length ∧
    AdvectOneStep.loop 1 exampleGlm exampleTwoStreams exampleUnitField 1 .EULER
      [[exampleParticle 5 0]] ⟨false, 0, exampleTwoStreams._separatorCount⟩ =
        .ok ([[exampleParticle 5 0]], ⟨false, 0, [0, 0]⟩) ∧
    (⟨false, 0, [0, 0]⟩ : LoopVars).streamIdx ≤ [[exampleParticle 5 0]].length ∧
    (⟨false, 0, [0, 0]⟩ : LoopVars).streamIdx <
      (⟨false, 0, [0, 0]⟩ : LoopVars).separatorCount.length := by
  have hlen : exampleTwoStreams._streams.length = exampleTwoStreams._separatorCount.length := rfl
  have hpre : AdvectOneStep.loop 1 exampleGlm exampleTwoStreams exampleUnitField 1 .EULER
      [[exampleParticle 5 0]] ⟨false, 0, exampleTwoStreams._separatorCount⟩ =
        .ok ([[exampleParticle 5 0]], ⟨false, 0, [0, 0]⟩) := by
    norm_num [exampleTwoStreams, exampleParticle, exampleUnitField, AdvectOneStep.loop,
      AdvectOneStep.body, AdvectOneStep.wrap, wrapLocation, wrapAxis, Axes.get,
      Vec3.get, Vec3.set, _applyPeriodic, bind, Except.bind, pure, Except.pure]
  have h := AdvectOneStep_streamIdx_bound 1 exampleGlm exampleTwoStreams exampleUnitField 1
    .EULER [[exampleParticle 5 0]] [exampleParticle (21 / 2) 0] [] [[exampleParticle 5 0]]
    ⟨false, 0, [0, 0]⟩ hlen rfl hpre
  exact ⟨hlen, hpre, h.1, h.2.1⟩

/-! ## Invariants of the streams under integration -/

theorem advect_time (method : ADVECTION_METHOD) (velocity : Field) (p0 : Particle) (dt : ℚ)
    (q p1 : Particle) (h : advect method velocity p0 dt q = .ok (0, p1)) :
    p1.time = p0.time + dt ∧ p1.isSpecial = q.isSpecial := by
  refine ⟨?_, advect_special method velocity p0 dt q p1 0 h⟩
  cases method with
  | EULER =>
    rcases advectEuler_cases velocity p0 dt q with ⟨_, h2⟩ | ⟨_, h2⟩
    · simp only [advect] at h
      rw [h2] at h
      cases h
      rfl
    · simp only [advect] at h
      rw [h2] at h
      cases h
  | RK4 =>
    simp only [advect, _advectRK4] at h
    split at h
    · cases h
    · split at h
      · rename_i hne
        simp only [Except.ok.injEq, Prod.mk.injEq] at h
        exact absurd h.1 hne
      · split at h
        · rename_i hne
          simp only [Except.ok.injEq, Prod.mk.injEq] at h
          exact absurd h.1 hne
        · split at h
          · rename_i hne
            simp only [Except.ok.injEq, Prod.mk.injEq] at h
            exact absurd h.1 hne
          · simp only [Except.ok.injEq, Prod.mk.injEq] at h
            rw [← h.2]

theorem body_preserves (P : List Particle → Prop) (fuel : Nat) (G : Glm) (A : Advection)
    (velocity : Field) (deltaT : ℚ) (method : ADVECTION_METHOD)
    (hpush : ∀ (s : List Particle) (p0 p1 : Particle), s.getLast? = some p0 → P s →
      advect method velocity p0 (AdvectOneStep.stepSize G A deltaT s p0) Particle.default =
        .ok (0, p1) → P (s ++ [p1]))
    (hwrap : ∀ (s : List Particle) (p0 : Particle) (loc : Vec3), s.getLast? = some p0 → P s →
      P (s.dropLast ++ [separator, { p0 with location := loc }]))
    (s : List Particle) (v : LoopVars) (s1 : List Particle) (v1 : LoopVars)
    (h : AdvectOneStep.body fuel G A velocity deltaT method s v = .ok (s1, v1)) (hP : P s) :
    P s1 := by
  cases hlast : s.getLast? with
  | none =>
    simp only [AdvectOneStep.body, hlast, pure, Except.pure, Except.ok.injEq,
      Prod.mk.injEq] at h
    rw [← h.1]
    exact hP
  | some p0 =>
    rcases body_cases fuel G A velocity deltaT method s p0 v s1 v1 hlast h with
      ⟨_, hi⟩ | ⟨_, hs, _⟩ | ⟨_, loc, _, _, hi⟩
    · rcases integrate_cases G A velocity deltaT method s p0 v s1 v1 hi with
        ⟨hs, _⟩ | ⟨p1, ha, hs, _⟩
      · rw [hs]
        exact hP
      · rw [hs]
        exact hpush s p0 p1 hlast hP ha
    · rw [hs]
      exact hP
    · have hw := hwrap s p0 loc hlast hP
      rcases integrate_cases G A velocity deltaT method _ _ _ s1 v1 hi with
        ⟨hs, _⟩ | ⟨p1, ha, hs, _⟩
      · rw [hs]
        exact hw
      · rw [hs]
        exact hpush _ _ p1 (by simp [List.getLast?_append]) hw ha

theorem oneStep_preserves (P : List Particle → Prop) (c : Codes) (fuel : Nat) (G : Glm)
    (A : Advection) (velocity : Field) (deltaT : ℚ) (method : ADVECTION_METHOD)
    (hpush : ∀ (s : List Particle) (p0 p1 : Particle), s.getLast? = some p0 → P s →
      advect method velocity p0 (AdvectOneStep.stepSize G A deltaT s p0) Particle.default =
        .ok (0, p1) → P (s ++ [p1]))
    (hwrap : ∀ (s : List Particle) (p0 : Particle) (loc : Vec3), s.getLast? = some p0 → P s →
      P (s.dropLast ++ [separator, { p0 with location := loc }]))
    (rv : Int) (A1 : Advection)
    (h : AdvectOneStep c fuel G A velocity deltaT method = .ok (rv, A1))
    (hP : ∀ s ∈ A._streams, P s) : ∀ s ∈ A1._streams, P s := by
  by_cases hready : CheckReady c A = 0
  · obtain ⟨r, v, hl, _, hA⟩ :=
      AdvectOneStep_ready c fuel G A velocity deltaT method rv A1 hready h
    obtain ⟨hlen, hat⟩ := loop_at fuel G A velocity deltaT method A._streams _ r v hl
    intro s1 hs1
    have hr : A1._streams = r := by rw [hA]
    rw [hr] at hs1
    obtain ⟨i, hi⟩ := List.getElem?_of_mem hs1
    have hlt : i < A._streams.length := by
      rw [← hlen]
      by_contra hge
      rw [List.getElem?_eq_none (by omega)] at hi
      cases hi
    obtain ⟨s2, vi, vj, h1, h2⟩ := hat i _ (List.getElem?_eq_getElem hlt)
    rw [hi] at h1
    cases h1
    exact body_preserves P fuel G A velocity deltaT method hpush hwrap _ vi s1 vj h2
      (hP _ (List.getElem_mem hlt))
  · rw [AdvectOneStep_not_ready c fuel G A velocity deltaT method hready] at h
    cases h
    exact hP

theorem history_preserves (P : List Particle → Prop) (fuel : Nat) (G : Glm) (A : Advection)
    (velocity : Field) (deltaT targetT : ℚ) (method : ADVECTION_METHOD)
    (hpush : ∀ (s : List Particle) (p0 p1 : Particle), s.getLast? = some p0 → P s →
      advect method velocity p0 (AdvectTillTime.stepSize G A deltaT s p0) Particle.default =
        .ok (0, p1) → P (s ++ [p1]))
    (hwrap : ∀ (s : List Particle) (p0 : Particle) (loc : Vec3), s.getLast? = some p0 → P s →
      P (s.dropLast ++ [separator, { p0 with location := loc }]))
    (s s1 : List Particle)
    (h : TillTimeHistory fuel G A velocity deltaT targetT method s s1) (hP : P s) : P s1 := by
  induction h with
  | stop s => exact hP
  | wrap s s1 p0 loc hlast _ _ _ _ _ ih => exact ih (hwrap s p0 loc hlast hP)
  | step s s1 p0 p1 hlast _ _ ha _ ih => exact ih (hpush s p0 p1 hlast hP ha)

theorem tillTime_preserves (P : List Particle → Prop) (c : Codes) (fuel : Nat) (G : Glm)
    (A : Advection) (velocity : Field) (deltaT targetT : ℚ) (method : ADVECTION_METHOD)
    (hpush : ∀ (s : List Particle) (p0 p1 : Particle), s.getLast? = some p0 → P s →
      advect method velocity p0 (AdvectTillTime.stepSize G A deltaT s p0) Particle.default =
        .ok (0, p1) → P (s ++ [p1]))
    (hwrap : ∀ (s : List Particle) (p0 : Particle) (loc : Vec3), s.getLast? = some p0 → P s →
      P (s.dropLast ++ [separator, { p0 with location := loc }]))
    (rv : Int) (A1 : Advection)
    (h : AdvectTillTime c fuel G A velocity deltaT targetT method = .ok (rv, A1))
    (hP : ∀ s ∈ A._streams, P s) : ∀ s ∈ A1._streams, P s := by
  by_cases hready : CheckReady c A = 0
  · obtain ⟨r, v, hl, _, hA⟩ :=
      AdvectTillTime_ready c fuel G A velocity deltaT targetT method rv A1 hready h
    obtain ⟨hat, _⟩ := tillLoop_spec fuel G A velocity deltaT targetT method A._streams _ r v hl
    obtain ⟨hlen, _⟩ := tillLoop_shape fuel G A velocity deltaT targetT method A._streams _ r v hl
    intro s1 hs1
    have hr : A1._streams = r := by rw [hA]
    rw [hr] at hs1
    obtain ⟨i, hi⟩ := List.getElem?_of_mem hs1
    have hlt : i < A._streams.length := by
      rw [← hlen]
      by_contra hge
      rw [List.getElem?_eq_none (by omega)] at hi
      cases hi
    obtain ⟨s2, h1, h2, _⟩ := hat i _ (List.getElem?_eq_getElem hlt)
    rw [hi] at h1
    cases h1
    exact history_preserves P fuel G A velocity deltaT targetT method hpush hwrap _ s1 h2
      (hP _ (List.getElem_mem hlt))
  · rw [AdvectTillTime_not_ready c fuel G A velocity deltaT targetT method hready] at h
    cases h
    exact hP

theorem wrap_last (fuel : Nat) (A : Advection) (velocity : Field) (s : List Particle)
    (p0 : Particle) (v : LoopVars) (s1 : List Particle) (v1 : LoopVars)
    (hlast : s.getLast? = some p0)
    (h : AdvectOneStep.wrap fuel A velocity s p0 v = .ok (some (s1, v1))) :
    ∃ past0 : Particle, s1.getLast? = some past0 ∧ past0.isSpecial = p0.isSpecial ∧
      past0.time = p0.time := by
  cases hin : velocity.InsideVolumeVelocity p0.time p0.location with
  | true =>
    rw [wrap_of_inside fuel A velocity s p0 v hin] at h
    simp only [Except.ok.injEq, Option.some.injEq, Prod.mk.injEq] at h
    rw [← h.1]
    exact ⟨p0, hlast, rfl, rfl⟩
  | false =>
    cases hw : wrapLocation fuel A p0.location with
    | error e =>
      rw [wrap_of_outside_error fuel A velocity s p0 v e hin hw] at h
      cases h
    | ok lc =>
      obtain ⟨loc, ch⟩ := lc
      rw [wrap_of_outside fuel A velocity s p0 v loc ch hin hw] at h
      split at h
      · simp only [Except.ok.injEq, Option.some.injEq, Prod.mk.injEq] at h
        rw [← h.1]
        exact ⟨{ p0 with location := loc }, by simp [List.getLast?_append], rfl, rfl⟩
      · cases h

theorem tillWrap_last (fuel : Nat) (A : Advection) (velocity : Field) (s : List Particle)
    (p0 : Particle) (v : LoopVars) (s1 : List Particle) (q0 : Particle) (v1 : LoopVars)
    (hlast : s.getLast? = some p0)
    (h : AdvectTillTime.wrap fuel A velocity s p0 v = .ok (some (s1, q0, v1))) :
    s1.getLast? = some q0 ∧ q0.isSpecial = p0.isSpecial ∧ q0.time = p0.time := by
  cases hin : velocity.InsideVolumeVelocity p0.time p0.location with
  | true =>
    rw [tillWrap_of_inside fuel A velocity s p0 v hin] at h
    simp only [Except.ok.injEq, Option.some.injEq, Prod.mk.injEq] at h
    rw [← h.1, ← h.2.1]
    exact ⟨hlast, rfl, rfl⟩
  | false =>
    cases hw : wrapLocation fuel A p0.location with
    | error e =>
      rw [tillWrap_of_outside_error fuel A velocity s p0 v e hlast hin hw] at h
      cases h
    | ok lc =>
      obtain ⟨loc, ch⟩ := lc
      rw [tillWrap_of_outside fuel A velocity s p0 v loc ch hlast hin hw] at h
      split at h
      · simp only [Except.ok.injEq, Option.some.injEq, Prod.mk.injEq] at h
        rw [← h.1, ← h.2.1]
        exact ⟨by simp [List.getLast?_append], rfl, rfl⟩
      · cases h

theorem last_push (s : List Particle) (p0 p1 : Particle)
    (hp : ∃ p : Particle, s.getLast? = some p ∧ p.isSpecial = false)
    (h1 : p1.isSpecial = false) (_h0 : s.getLast? = some p0) :
    ∃ p : Particle, (s ++ [p1]).getLast? = some p ∧ p.isSpecial = false := by
  obtain ⟨_, _, _⟩ := hp
  exact ⟨p1, by simp [List.getLast?_append], h1⟩

theorem last_wrap (s : List Particle) (p0 : Particle) (loc : Vec3)
    (hlast : s.getLast? = some p0)
    (hp : ∃ p : Particle, s.getLast? = some p ∧ p.isSpecial = false) :
    ∃ p : Particle, (s.dropLast ++ [separator, { p0 with location := loc }]).getLast? = some p ∧
      p.isSpecial = false := by
  obtain ⟨p, h1, h2⟩ := hp
  rw [hlast] at h1
  cases h1
  exact ⟨{ p0 with location := loc }, by simp [List.getLast?_append], h2⟩

theorem Advected_last (c : Codes) (G : Glm) (A : Advection) (h : Advected c G A) :
    ∀ s ∈ A._streams, ∃ p : Particle, s.getLast? = some p ∧ p.isSpecial = false := by
  induction h with
  | seeded A seeds hseeds =>
    intro s hs
    rw [UseSeedParticles_streams] at hs
    obtain ⟨p, hp, rfl⟩ := List.mem_map.mp hs
    exact ⟨p, rfl, hseeds p hp⟩
  | advectOneStep A A1 fuel velocity deltaT method rv _ hcall ih =>
    refine oneStep_preserves _ c fuel G A velocity deltaT method ?_ ?_ rv A1 hcall ih
    · intro s p0 p1 hlast hP ha
      exact last_push s p0 p1 hP (advect_time method velocity p0 _ _ p1 ha).2 hlast
    · intro s p0 loc hlast hP
      exact last_wrap s p0 loc hlast hP
  | advectTillTime A A1 fuel velocity deltaT targetT method rv _ hcall ih =>
    refine tillTime_preserves _ c fuel G A velocity deltaT targetT method ?_ ?_ rv A1 hcall ih
    · intro s p0 p1 hlast hP ha
      exact last_push s p0 p1 hP (advect_time method velocity p0 _ _ p1 ha).2 hlast
    · intro s p0 loc hlast hP
      exact last_wrap s p0 loc hlast hP

/-- C27. In every state reachable from `UseSeedParticles` with non-special seeds by
calls of `AdvectOneStep` and of `AdvectTillTime`, the last particle of every stream is
not special. Hence the particle from which the next call of `AdvectOneStep` or of
`AdvectTillTime` integrates, which is the last particle of the stream after the
periodic correction, is not a separator. -/
theorem Advected_last_not_special (c : Codes) (G : Glm) (A : Advection)
    (h : Advected c G A) :
    (∀ s ∈ A._streams, ∃ p : Particle, s.getLast? = some p ∧ p.isSpecial = false) ∧
    (∀ s ∈ A._streams, ∀ (fuel : Nat) (velocity : Field) (p0 : Particle) (v : LoopVars)
      (s1 : List Particle) (v1 : LoopVars), s.getLast? = some p0 →
      AdvectOneStep.wrap fuel A velocity s p0 v = .ok (some (s1, v1)) →
      ∃ past0 : Particle, s1.getLast? = some past0 ∧ past0.isSpecial = false) ∧
    (∀ s ∈ A._streams, ∀ (fuel : Nat) (velocity : Field) (p0 : Particle) (v : LoopVars)
      (s1 : List Particle) (q0 : Particle) (v1 : LoopVars), s.getLast? = some p0 →
      AdvectTillTime.wrap fuel A velocity s p0 v = .ok (some (s1, q0, v1)) →
      s1.getLast? = some q0 ∧ q0.isSpecial = false) := by
  have hlast := Advected_last c G A h
  refine ⟨hlast, ?_, ?_⟩
  · intro s hs fuel velocity p0 v s1 v1 hp0 hw
    obtain ⟨p, h1, h2⟩ := hlast s hs
    rw [hp0] at h1
    cases h1
    obtain ⟨past0, g1, g2, _⟩ := wrap_last fuel A velocity s p0 v s1 v1 hp0 hw
    exact ⟨past0, g1, by rw [g2, h2]⟩
  · intro s hs fuel velocity p0 v s1 q0 v1 hp0 hw
    obtain ⟨p, h1, h2⟩ := hlast s hs
    rw [hp0] at h1
    cases h1
    obtain ⟨g1, g2, _⟩ := tillWrap_last fuel A velocity s p0 v s1 q0 v1 hp0 hw
    exact ⟨g1, by rw [g2, h2]⟩

theorem Advected_example :
    Advected exampleCodes exampleGlm { exampleTwoStreams with
      _streams := [[exampleParticle 5 0],
        [separator, exampleParticle (1 / 2) 0, exampleParticle (3 / 2) 1]],
      _separatorCount := [1, 0] } := by
  have hseed : Advected exampleCodes exampleGlm exampleTwoStreams := by
    rw [← exampleTwoStreams_seeded]
    apply Advected.seeded
    intro p hp
    simp only [List.mem_cons, List.mem_singleton, List.not_mem_nil, or_false] at hp
    rcases hp with rfl | rfl <;> rfl
  exact Advected.advectOneStep _ _ 1 exampleUnitField 1 .EULER 1 hseed AdvectOneStep_example_two

/-- Witness of C27: after the seeding of two streams and one call of `AdvectOneStep`
that inserts a separator into the second stream, the second stream ends with a
particle that is not special. -/
theorem Advected_last_not_special_witness :
    Advected exampleCodes exampleGlm { exampleTwoStreams with
      _streams := [[exampleParticle 5 0],
        [separator, exampleParticle (1 / 2) 0, exampleParticle (3 / 2) 1]],
      _separatorCount := [1, 0] } ∧
    ∃ p : Particle,
      [separator, exampleParticle (1 / 2) 0, exampleParticle (3 / 2) 1].getLast? = some p ∧
        p.isSpecial = false :=
  ⟨Advected_example,
    (Advected_last_not_special exampleCodes exampleGlm _ Advected_example).1
      [separator, exampleParticle (1 / 2) 0, exampleParticle (3 / 2) 1]
      (List.mem_cons_of_mem _ (List.mem_singleton.mpr rfl))⟩

theorem chain_adjacent (s : List Particle) (hs : List.Chain' TimeOrdered s) :
    ∀ (k : Nat) (a b : Particle), s[k]? = some a → s[k + 1]? = some b → TimeOrdered a b := by
  induction s with
  | nil =>
    intro k a b ha
    simp at ha
  | cons x t ih =>
    intro k a b ha hb
    cases k with
    | zero =>
      simp only [List.getElem?_cons_zero, Option.some.injEq] at ha
      simp only [Nat.zero_add, List.getElem?_cons_succ] at hb
      cases t with
      | nil => simp at hb
      | cons y t2 =>
        simp only [List.getElem?_cons_zero, Option.some.injEq] at hb
        subst ha hb
        exact (List.chain'_cons.mp hs).1
    | succ k2 =>
      simp only [List.getElem?_cons_succ] at ha hb
      exact ih hs.tail k2 a b ha hb

theorem chain_runs (s : List Particle) (hs : List.Chain' TimeOrdered s) (i : Nat) (a : Particle)
    (ha : s[i]? = some a) :
    ∀ (d : Nat) (b : Particle), s[i + 1 + d]? = some b →
      (∀ (k : Nat) (p : Particle), i ≤ k → k ≤ i + 1 + d → s[k]? = some p →
        p.isSpecial = false) →
      a.time < b.time := by
  intro d
  induction d with
  | zero =>
    intro b hb hall
    exact chain_adjacent s hs i a b ha hb (hall i a (le_refl _) (by omega) ha)
      (hall (i + 1) b (by omega) (le_refl _) hb)
  | succ d ih =>
    intro b hb hall
    have hlt : i + 1 + d < s.length := by
      by_contra hge
      rw [List.getElem?_eq_none (by omega)] at hb
      cases hb
    have hc : s[i + 1 + d]? = some s[i + 1 + d] := List.getElem?_eq_getElem hlt
    have h1 := ih _ hc (fun k p h1 h2 h3 => hall k p h1 (by omega) h3)
    have h2 := chain_adjacent s hs (i + 1 + d) _ b hc hb
      (hall _ _ (by omega) (by omega) hc) (hall _ b (by omega) (le_refl _) hb)
    exact lt_trans h1 h2

theorem chain_push (s : List Particle) (p0 p1 : Particle) (hlast : s.getLast? = some p0)
    (hs : List.Chain' TimeOrdered s) (ht : p0.time < p1.time) :
    List.Chain' TimeOrdered (s ++ [p1]) := by
  apply List.Chain'.append hs (List.chain'_singleton p1)
  intro x hx y hy
  rw [hlast] at hx
  simp only [Option.mem_def, Option.some.injEq] at hx
  simp only [List.head?_cons, Option.mem_def, Option.some.injEq] at hy
  subst hx hy
  exact fun _ _ => ht

theorem chain_wrap (s : List Particle) (q : Particle) (hs : List.Chain' TimeOrdered s) :
    List.Chain' TimeOrdered (s.dropLast ++ [separator, q]) := by
  have hsep : separator.isSpecial = true := rfl
  have hpre : s.dropLast <+: s := List.dropLast_prefix s
  have hdrop : List.Chain' TimeOrdered s.dropLast := List.Chain'.prefix hs hpre
  apply List.Chain'.append hdrop
  · apply List.chain'_pair.mpr
    intro h
    rw [hsep] at h
    cases h
  · intro x _ y hy
    simp only [List.head?_cons, Option.mem_def, Option.some.injEq] at hy
    subst hy
    intro _ h
    rw [hsep] at h
    cases h

theorem AdvectedForward_chain (c : Codes) (G : Glm) (A : Advection)
    (h : AdvectedForward c G A) : ∀ s ∈ A._streams, List.Chain' TimeOrdered s := by
  induction h with
  | seeded A seeds =>
    intro s hs
    rw [UseSeedParticles_streams] at hs
    obtain ⟨p, _, rfl⟩ := List.mem_map.mp hs
    exact List.chain'_singleton p
  | advectOneStep A A1 fuel velocity deltaT method rv _ hd hcall ih =>
    refine oneStep_preserves _ c fuel G A velocity deltaT method ?_ ?_ rv A1 hcall ih
    · intro s p0 p1 hlast hP ha
      have ht := (advect_time method velocity p0 _ _ p1 ha).1
      have hpos := ((stepSize_range G A deltaT s p0).1 hd).1
      exact chain_push s p0 p1 hlast hP (by rw [ht]; linarith)
    · intro s p0 loc _ hP
      exact chain_wrap s _ hP
  | advectTillTime A A1 fuel velocity deltaT targetT method rv _ hd hcall ih =>
    refine tillTime_preserves _ c fuel G A velocity deltaT targetT method ?_ ?_ rv A1 hcall ih
    · intro s p0 p1 hlast hP ha
      have ht := (advect_time method velocity p0 _ _ p1 ha).1
      have hpos := (tillStepSize_range G A deltaT s p0 hd).1
      exact chain_push s p0 p1 hlast hP (by rw [ht]; linarith)
    · intro s p0 loc _ hP
      exact chain_wrap s _ hP

/-- With exact arithmetic, in every state reachable from `UseSeedParticles` by calls of
`AdvectOneStep` and of `AdvectTillTime` made with `deltaT > 0`, within every stream, whenever the
particles at the positions `i` to `j` are all non-special, the particle at `i` is
strictly earlier than the particle at `j`: the times increase strictly along each run
of consecutive non-special particles. -/
theorem AdvectedForward_times_exact (c : Codes) (G : Glm) (A : Advection)
    (h : AdvectedForward c G A) :
    ∀ s ∈ A._streams, ∀ (i j : Nat) (a b : Particle), i < j → s[i]? = some a →
      s[j]? = some b →
      (∀ (k : Nat) (p : Particle), i ≤ k → k ≤ j → s[k]? = some p → p.isSpecial = false) →
      a.time < b.time := by
  intro s hs i j a b hij ha hb hall
  have hchain := AdvectedForward_chain c G A h s hs
  obtain ⟨d, rfl⟩ : ∃ d, j = i + 1 + d := ⟨j - i - 1, by omega⟩
  exact chain_runs s hchain i a ha d b hb hall

/-- Example: with exact arithmetic, the stream seeded at time 0 and advected to the times 1 and 2 by
`AdvectTillTime` with `deltaT = 1` holds three non-special particles, and its first
particle is earlier than its third one. -/
theorem AdvectedForward_times_exact_example :
    AdvectedForward exampleCodes exampleGlm { exampleFresh with
      _streams := [[exampleParticle 0 0, exampleParticle 1 1, exampleParticle 2 2]],
      _separatorCount := [0] } ∧
    (exampleParticle 0 0).time < (exampleParticle 2 2).time := by
  have hA : AdvectedForward exampleCodes exampleGlm { exampleFresh with
      _streams := [[exampleParticle 0 0, exampleParticle 1 1, exampleParticle 2 2]],
      _separatorCount := [0] } :=
    AdvectedForward.advectTillTime _ _ 3 exampleConstField 1 (3 / 2) .EULER 1
      (AdvectedForward.seeded exampleFresh [exampleParticle 0 0]) (by norm_num)
      AdvectTillTime_example
  refine ⟨hA, AdvectedForward_times_exact exampleCodes exampleGlm _ hA
    [exampleParticle 0 0, exampleParticle 1 1, exampleParticle 2 2]
    (List.mem_singleton.mpr rfl) 0 2 (exampleParticle 0 0) (exampleParticle 2 2)
    (by decide) rfl rfl ?_⟩
  intro k p _ hk hp
  have hk3 : k = 0 ∨ k = 1 ∨ k = 2 := by omega
  rcases hk3 with rfl | rfl | rfl <;>
    · simp only [List.getElem?_cons_zero, List.getElem?_cons_succ, Option.some.injEq] at hp
      rw [← hp]
      rfl

/-! ## Termination of the run-to-time integration -/

theorem wrapAxis_returns (A : Advection) (i : Fin 3) (acc : Vec3 × Bool)
    (hper : A._isPeriodic.get i = true →
      (A._periodicBounds.get i).1 < (A._periodicBounds.get i).2) :
    ∃ (fuel0 : Nat) (r : Vec3 × Bool), ∀ fuel : Nat, fuel0 ≤ fuel →
      wrapAxis fuel A i acc = .ok r := by
  cases hp : A._isPeriodic.get i with
  | false =>
    refine ⟨0, acc, ?_⟩
    intro fuel _
    simp [wrapAxis, hp, pure, Except.pure]
  | true =>
    obtain ⟨fuel0, r, _, h1, _⟩ := applyPeriodic_returns (acc.1.get i)
      (A._periodicBounds.get i).1 (A._periodicBounds.get i).2 (hper hp)
    refine ⟨fuel0, (acc.1.set i r, true), ?_⟩
    intro fuel hf
    simp [wrapAxis, hp, h1 fuel hf, bind, Except.bind, pure, Except.pure]

theorem wrapLocation_returns (A : Advection) (loc : Vec3)
    (hper : ∀ i : Fin 3, A._isPeriodic.get i = true →
      (A._periodicBounds.get i).1 < (A._periodicBounds.get i).2) :
    ∃ (fuel0 : Nat) (r : Vec3 × Bool), ∀ fuel : Nat, fuel0 ≤ fuel →
      wrapLocation fuel A loc = .ok r := by
  obtain ⟨f0, r0, h0⟩ := wrapAxis_returns A 0 (loc, false) (hper 0)
  obtain ⟨f1, r1, h1⟩ := wrapAxis_returns A 1 r0 (hper 1)
  obtain ⟨f2, r2, h2⟩ := wrapAxis_returns A 2 r1 (hper 2)
  refine ⟨max f0 (max f1 f2), r2, ?_⟩
  intro fuel hf
  have g0 : f0 ≤ fuel := le_trans (le_max_left _ _) hf
  have g1 : f1 ≤ fuel := le_trans (le_trans (le_max_left _ _) (le_max_right _ _)) hf
  have g2 : f2 ≤ fuel := le_trans (le_trans (le_max_right _ _) (le_max_right _ _)) hf
  simp [wrapLocation, h0 fuel g0, h1 fuel g1, h2 fuel g2, bind, Except.bind]

theorem tillWrap_returns (A : Advection) (velocity : Field) (s : List Particle) (p0 : Particle)
    (v : LoopVars) (hlast : s.getLast? = some p0)
    (hper : ∀ i : Fin 3, A._isPeriodic.get i = true →
      (A._periodicBounds.get i).1 < (A._periodicBounds.get i).2) :
    ∃ (fuel0 : Nat) (r : Option (List Particle × Particle × LoopVars)),
      ∀ fuel : Nat, fuel0 ≤ fuel → AdvectTillTime.wrap fuel A velocity s p0 v = .ok r := by
  cases hin : velocity.InsideVolumeVelocity p0.time p0.location with
  | true =>
    exact ⟨0, _, fun fuel _ => tillWrap_of_inside fuel A velocity s p0 v hin⟩
  | false =>
    obtain ⟨f0, r, h⟩ := wrapLocation_returns A p0.location hper
    exact ⟨f0, _, fun fuel hf =>
      tillWrap_of_outside fuel A velocity s p0 v r.1 r.2 hlast hin (h fuel hf)⟩

theorem advect_error (method : ADVECTION_METHOD) (velocity : Field) (p0 : Particle) (dt : ℚ)
    (q : Particle) (e : Halt) (h : advect method velocity p0 dt q = .error e) :
    e = .assertFailed ∧ (velocity.GetVelocity p0.time p0.location).1 ≠ 0 := by
  cases method with
  | EULER =>
    rcases advectEuler_cases velocity p0 dt q with ⟨_, h2⟩ | ⟨h1, h2⟩
    · simp only [advect] at h
      rw [h2] at h
      cases h
    · simp only [advect] at h
      rw [h2] at h
      cases h
      exact ⟨rfl, h1⟩
  | RK4 =>
    simp only [advect, _advectRK4] at h
    split at h
    · rename_i hne
      cases h
      exact ⟨rfl, hne⟩
    · split at h
      · cases h
      · split at h
        · cases h
        · split at h
          · cases h
          · cases h

theorem ceil_step (deltaT targetT t0 t1 : ℚ) (hd : 0 < deltaT) (h0 : t0 < targetT)
    (h1 : t0 + deltaT / 40 ≤ t1) :
    ⌈40 * (targetT - t1) / deltaT⌉₊ + 1 ≤ ⌈40 * (targetT - t0) / deltaT⌉₊ := by
  have hx : 0 < 40 * (targetT - t0) / deltaT := by
    apply div_pos _ hd
    linarith
  have hm : 0 < ⌈40 * (targetT - t0) / deltaT⌉₊ := Nat.ceil_pos.mpr hx
  have hle : 40 * (targetT - t0) / deltaT ≤ ⌈40 * (targetT - t0) / deltaT⌉₊ := Nat.le_ceil _
  have hy : 40 * (targetT - t1) / deltaT ≤ 40 * (targetT - t0) / deltaT - 1 := by
    rw [div_le_iff₀ hd, sub_mul, div_mul_cancel₀ _ (ne_of_gt hd)]
    linarith
  have hc : ⌈40 * (targetT - t1) / deltaT⌉₊ ≤ ⌈40 * (targetT - t0) / deltaT⌉₊ - 1 := by
    apply Nat.ceil_le.mpr
    rw [Nat.cast_sub hm]
    push_cast
    linarith
  omega

theorem whileLoop_terminates (G : Glm) (A : Advection) (velocity : Field)
    (deltaT targetT : ℚ) (method : ADVECTION_METHOD) (hd : 0 < deltaT)
    (hper : ∀ i : Fin 3, A._isPeriodic.get i = true →
      (A._periodicBounds.get i).1 < (A._periodicBounds.get i).2) (N : Nat) :
    ∀ (s : List Particle) (p0 : Particle) (v : LoopVars), s.getLast? = some p0 →
      ⌈40 * (targetT - p0.time) / deltaT⌉₊ ≤ N →
      ∃ (fuel0 : Nat) (r : Except Halt (List Particle × LoopVars)),
        Finishes (∀ (t : ℚ) (x : Vec3), velocity.InsideVolumeVelocity t x = true →
          (velocity.GetVelocity t x).1 = 0) r ∧
        ∀ (fuel n : Nat), fuel0 ≤ fuel → N ≤ n →
          AdvectTillTime.whileLoop fuel G A velocity deltaT targetT method n s p0 v = r := by
  induction N with
  | zero =>
    intro s p0 v _ hN
    have ht : ¬ p0.time < targetT := by
      intro hlt
      have hx : 0 < 40 * (targetT - p0.time) / deltaT := by
        apply div_pos _ hd
        linarith
      have := Nat.ceil_pos.mpr hx
      omega
    refine ⟨0, .ok (s, v), ⟨fun h => (by cases h), fun _ => ⟨_, rfl⟩⟩, ?_⟩
    intro fuel n _ _
    exact whileLoop_done fuel G A velocity deltaT targetT method n s p0 v ht
  | succ N ih =>
    intro s p0 v hlast hN
    by_cases ht : p0.time < targetT
    · obtain ⟨f1, rw, hwrap⟩ := tillWrap_returns A velocity s p0 v hlast hper
      rcases tillWrap_cases f1 G A velocity deltaT targetT method s p0 v rw hlast ht
        (hwrap f1 (le_refl _)) with ⟨hr, _⟩ | ⟨s1, q0, v1, w, hr, hlast1, hqt, hqin, _⟩
      · subst hr
        refine ⟨f1, .ok (s, v), ⟨fun h => (by cases h), fun _ => ⟨_, rfl⟩⟩, ?_⟩
        intro fuel n hf hn
        obtain ⟨n2, rfl⟩ : ∃ n2, n = n2 + 1 := ⟨n - 1, by omega⟩
        rw [whileLoop_succ_lt fuel G A velocity deltaT targetT method n2 s p0 v ht,
          hwrap fuel hf]
        rfl
      · subst hr
        cases ha : advect method velocity q0 (AdvectTillTime.stepSize G A deltaT s1 q0)
            Particle.default with
        | error e =>
          obtain ⟨he, hne⟩ := advect_error method velocity q0 _ _ e ha
          refine ⟨f1, .error e, ⟨?_, ?_⟩, ?_⟩
          · rw [he]
            intro h
            cases h
          · intro hs
            exact absurd (hs q0.time q0.location hqin) hne
          · intro fuel n hf hn
            obtain ⟨n2, rfl⟩ : ∃ n2, n = n2 + 1 := ⟨n - 1, by omega⟩
            rw [whileLoop_succ_lt fuel G A velocity deltaT targetT method n2 s p0 v ht,
              hwrap fuel hf]
            simp only [Except.bind, ha]
        | ok a =>
          obtain ⟨st, p1⟩ := a
          by_cases hst : st = 0
          · subst hst
            have hp1 := (advect_time method velocity q0 _ _ p1 ha).1
            have hstep := (tillStepSize_range G A deltaT s1 q0 hd).1
            have hc := ceil_step deltaT targetT p0.time p1.time hd ht
              (by rw [hp1, hqt]; linarith)
            obtain ⟨f2, r, hfin, hloop⟩ := ih (s1 ++ [p1]) p1 { v1 with happened := true }
              (by simp [List.getLast?_append]) (by omega)
            refine ⟨max f1 f2, r, hfin, ?_⟩
            intro fuel n hf hn
            obtain ⟨n2, rfl⟩ : ∃ n2, n = n2 + 1 := ⟨n - 1, by omega⟩
            rw [whileLoop_succ_lt fuel G A velocity deltaT targetT method n2 s p0 v ht,
              hwrap fuel (le_trans (le_max_left _ _) hf)]
            simp only [Except.bind, ha, ne_eq, not_true_eq_false, if_false]
            exact hloop fuel n2 (le_trans (le_max_right _ _) hf) (by omega)
          · refine ⟨f1, .ok (s1, v1), ⟨fun h => (by cases h), fun _ => ⟨_, rfl⟩⟩, ?_⟩
            intro fuel n hf hn
            obtain ⟨n2, rfl⟩ : ∃ n2, n = n2 + 1 := ⟨n - 1, by omega⟩
            rw [whileLoop_succ_lt fuel G A velocity deltaT targetT method n2 s p0 v ht,
              hwrap fuel hf]
            simp only [Except.bind, ha, ne_eq, hst, not_false_eq_true, if_true]
    · refine ⟨0, .ok (s, v), ⟨fun h => (by cases h), fun _ => ⟨_, rfl⟩⟩, ?_⟩
      intro fuel n _ _
      exact whileLoop_done fuel G A velocity deltaT targetT method n s p0 v ht

theorem Finishes_bind {α β : Type} (noAssert : Prop) (r : Except Halt α)
    (f : α → Except Halt β) (hr : Finishes noAssert r)
    (hf : ∀ a : α, r = .ok a → Finishes noAssert (f a)) : Finishes noAssert (r.bind f) := by
  cases r with
  | error e =>
    refine ⟨fun h => hr.1 (by simpa [Except.bind] using h), fun hn => ?_⟩
    obtain ⟨a, ha⟩ := hr.2 hn
    cases ha
  | ok a => exact hf a rfl

theorem Finishes_ok {α : Type} (noAssert : Prop) (a : α) :
    Finishes noAssert (Except.ok a : Except Halt α) :=
  ⟨fun h => (by cases h), fun _ => ⟨a, rfl⟩⟩

theorem tillBody_terminates (G : Glm) (A : Advection) (velocity : Field)
    (deltaT targetT : ℚ) (method : ADVECTION_METHOD) (hd : 0 < deltaT)
    (hper : ∀ i : Fin 3, A._isPeriodic.get i = true →
      (A._periodicBounds.get i).1 < (A._periodicBounds.get i).2)
    (s : List Particle) (v : LoopVars) :
    ∃ (fuel0 : Nat) (r : Except Halt (List Particle × LoopVars)),
      Finishes (∀ (t : ℚ) (x : Vec3), velocity.InsideVolumeVelocity t x = true →
        (velocity.GetVelocity t x).1 = 0) r ∧
      ∀ fuel : Nat, fuel0 ≤ fuel →
        AdvectTillTime.body fuel G A velocity deltaT targetT method s v = r := by
  cases hlast : s.getLast? with
  | none =>
    refine ⟨0, .ok (s, v), Finishes_ok _ _, ?_⟩
    intro fuel _
    simp [AdvectTillTime.body, hlast, pure, Except.pure]
  | some p0 =>
    obtain ⟨f0, r, hfin, hloop⟩ := whileLoop_terminates G A velocity deltaT targetT method hd
      hper ⌈40 * (targetT - p0.time) / deltaT⌉₊ s p0 v hlast (le_refl _)
    refine ⟨max f0 ⌈40 * (targetT - p0.time) / deltaT⌉₊,
      r.bind fun a => .ok (a.1, { a.2 with streamIdx := a.2.streamIdx + 1 }),
      Finishes_bind _ r _ hfin (fun a _ => Finishes_ok _ _), ?_⟩
    intro fuel hf
    simp only [AdvectTillTime.body, hlast, bind, pure, Except.pure]
    rw [hloop fuel fuel (le_trans (le_max_left _ _) hf) (le_trans (le_max_right _ _) hf)]

theorem tillLoop_terminates (G : Glm) (A : Advection) (velocity : Field)
    (deltaT targetT : ℚ) (method : ADVECTION_METHOD) (hd : 0 < deltaT)
    (hper : ∀ i : Fin 3, A._isPeriodic.get i = true →
      (A._periodicBounds.get i).1 < (A._periodicBounds.get i).2)
    (streams : List (List Particle)) :
    ∀ v : LoopVars, ∃ (fuel0 : Nat) (r : Except Halt (List (List Particle) × LoopVars)),
      Finishes (∀ (t : ℚ) (x : Vec3), velocity.InsideVolumeVelocity t x = true →
        (velocity.GetVelocity t x).1 = 0) r ∧
      ∀ fuel : Nat, fuel0 ≤ fuel →
        AdvectTillTime.loop fuel G A velocity deltaT targetT method streams v = r := by
  induction streams with
  | nil =>
    intro v
    refine ⟨0, .ok ([], v), Finishes_ok _ _, ?_⟩
    intro fuel _
    simp [AdvectTillTime.loop, pure, Except.pure]
  | cons s rest ih =>
    intro v
    obtain ⟨f0, rb, hfin, hbody⟩ :=
      tillBody_terminates G A velocity deltaT targetT method hd hper s v
    cases rb with
    | error e =>
      refine ⟨f0, .error e, ⟨fun h => hfin.1 (by cases h; rfl), fun hn => ?_⟩, ?_⟩
      · obtain ⟨a, ha⟩ := hfin.2 hn
        cases ha
      · intro fuel hf
        simp only [AdvectTillTime.loop, bind, Except.bind, hbody fuel hf]
    | ok b =>
      obtain ⟨f1, rl, hfin1, hrest⟩ := ih b.2
      refine ⟨max f0 f1, rl.bind fun l => .ok (b.1 :: l.1, l.2),
        Finishes_bind _ rl _ hfin1 (fun a _ => Finishes_ok _ _), ?_⟩
      intro fuel hf
      simp only [AdvectTillTime.loop, bind, Except.bind, pure, Except.pure,
        hbody fuel (le_trans (le_max_left _ _) hf), hrest fuel (le_trans (le_max_right _ _) hf)]

theorem AdvectTillTime_finishes (c : Codes) (G : Glm) (A : Advection) (velocity : Field)
    (deltaT targetT : ℚ) (method : ADVECTION_METHOD) (hd : 0 < deltaT)
    (hper : ∀ i : Fin 3, A._isPeriodic.get i = true →
      (A._periodicBounds.get i).1 < (A._periodicBounds.get i).2) :
    ∃ (fuel0 : Nat) (r : Except Halt (Int × Advection)),
      Finishes (∀ (t : ℚ) (x : Vec3), velocity.InsideVolumeVelocity t x = true →
        (velocity.GetVelocity t x).1 = 0) r ∧
      ∀ fuel : Nat, fuel0 ≤ fuel →
        AdvectTillTime c fuel G A velocity deltaT targetT method = r := by
  by_cases hready : CheckReady c A = 0
  · obtain ⟨f0, rl, hfin, hloop⟩ := tillLoop_terminates G A velocity deltaT targetT method hd
      hper A._streams ⟨false, 0, A._separatorCount⟩
    refine ⟨f0, rl.bind fun l => .ok (if l.2.happened then c.ADVECT_HAPPENED else 0,
      { A with _streams := l.1, _separatorCount := l.2.separatorCount }),
      Finishes_bind _ rl _ hfin (fun a _ => Finishes_ok _ _), ?_⟩
    intro fuel hf
    simp only [AdvectTillTime, hready, ne_eq, not_true_eq_false, if_false, bind, pure,
      Except.pure, hloop fuel hf]
  · refine ⟨0, .ok (CheckReady c A, A), Finishes_ok _ _, ?_⟩
    intro fuel _
    exact AdvectTillTime_not_ready c fuel G A velocity deltaT targetT method hready

theorem history_count (fuel : Nat) (G : Glm) (A : Advection) (velocity : Field)
    (deltaT targetT : ℚ) (method : ADVECTION_METHOD) (hd : 0 < deltaT) (s s1 : List Particle)
    (h : TillTimeHistory fuel G A velocity deltaT targetT method s s1) :
    ∀ p0 : Particle, s.getLast? = some p0 →
      physicalCount s1 ≤ physicalCount s + ⌈40 * (targetT - p0.time) / deltaT⌉₊ := by
  induction h with
  | stop s =>
    intro p0 _
    omega
  | wrap s s1 p0 loc hlast _ _ _ _ _ ih =>
    intro q hq
    rw [hlast] at hq
    cases hq
    have h1 := ih { p0 with location := loc } (by simp [List.getLast?_append])
    rw [physicalCount_wrap s p0 loc hlast] at h1
    exact h1
  | step s s1 p0 p1 hlast ht _ ha _ ih =>
    intro q hq
    rw [hlast] at hq
    cases hq
    obtain ⟨hp1, hsp⟩ := advect_time method velocity p0 _ _ p1 ha
    have hstep := (tillStepSize_range G A deltaT s p0 hd).1
    have hc := ceil_step deltaT targetT p0.time p1.time hd ht (by rw [hp1]; linarith)
    have h1 := ih p1 (by simp [List.getLast?_append])
    rw [physicalCount_push s p1 (by simpa [Particle.default] using hsp)] at h1
    omega

/-- With exact arithmetic, for `deltaT > 0` and a periodicity whose enabled axes have
`min < max`, `AdvectTillTime` terminates: beyond some bound on the iterations allowed to its
loops, the call gives one and the same result, which is never a loop cut short, and
which is a returned status and state when the velocity can be sampled wherever the
field reports the point inside its domain (otherwise an assertion may stop the call).
Every integration step of the call appends a particle whose time exceeds that of the
particle it starts from by at least `deltaT/40`, and a stream whose last particle is
at time `t0` gains at most `ceil(40 * (targetT - t0) / deltaT)` particles. -/
theorem AdvectTillTime_terminates_exact (c : Codes) (G : Glm) (A : Advection) (velocity : Field)
    (deltaT targetT : ℚ) (method : ADVECTION_METHOD) (hd : 0 < deltaT)
    (hper : ∀ i : Fin 3, A._isPeriodic.get i = true →
      (A._periodicBounds.get i).1 < (A._periodicBounds.get i).2) :
    (∃ (fuel0 : Nat) (r : Except Halt (Int × Advection)),
      Finishes (∀ (t : ℚ) (x : Vec3), velocity.InsideVolumeVelocity t x = true →
        (velocity.GetVelocity t x).1 = 0) r ∧
      ∀ fuel : Nat, fuel0 ≤ fuel →
        AdvectTillTime c fuel G A velocity deltaT targetT method = r) ∧
    (∀ (s : List Particle) (q0 p1 : Particle),
      advect method velocity q0 (AdvectTillTime.stepSize G A deltaT s q0) Particle.default =
        .ok (0, p1) → q0.time + deltaT / 40 ≤ p1.time) ∧
    (∀ (fuel : Nat) (rv : Int) (A1 : Advection),
      AdvectTillTime c fuel G A velocity deltaT targetT method = .ok (rv, A1) →
      ∀ (i : Nat) (s : List Particle) (p : Particle), A._streams[i]? = some s →
        s.getLast? = some p →
        ∃ s1 : List Particle, A1._streams[i]? = some s1 ∧
          physicalCount s1 ≤ physicalCount s + ⌈40 * (targetT - p.time) / deltaT⌉₊) := by
  refine ⟨AdvectTillTime_finishes c G A velocity deltaT targetT method hd hper, ?_, ?_⟩
  · intro s q0 p1 ha
    rw [(advect_time method velocity q0 _ _ p1 ha).1]
    have := (tillStepSize_range G A deltaT s q0 hd).1
    linarith
  · intro fuel rv A1 hcall i s p hs hp
    by_cases hready : CheckReady c A = 0
    · obtain ⟨r, v, hl, _, hA⟩ :=
        AdvectTillTime_ready c fuel G A velocity deltaT targetT method rv A1 hready hcall
      obtain ⟨hat, _⟩ :=
        tillLoop_spec fuel G A velocity deltaT targetT method A._streams _ r v hl
      obtain ⟨s1, h1, h2, _⟩ := hat i s hs
      have hr : A1._streams = r := by rw [hA]
      exact ⟨s1, by rw [hr]; exact h1,
        history_count fuel G A velocity deltaT targetT method hd s s1 h2 p hp⟩
    · rw [AdvectTillTime_not_ready c fuel G A velocity deltaT targetT method hready] at hcall
      cases hcall
      exact ⟨s, hs, by omega⟩

/-- Example: with exact arithmetic, from the seed at the origin at time 0, on the constant field with
`deltaT = 1` and `targetT = 3/2`, the call finishes, and the stream, which gains the
particles at times 1 and 2, gains no more than `40 * (3/2 - 0) / 1 = 60` particles. -/
theorem AdvectTillTime_terminates_exact_example :
    (0 : ℚ) < 1 ∧
    (∀ i : Fin 3, (UseSeedParticles exampleFresh [exampleParticle 0 0])._isPeriodic.get i = true →
      ((UseSeedParticles exampleFresh [exampleParticle 0 0])._periodicBounds.get i).1 <
        ((UseSeedParticles exampleFresh [exampleParticle 0 0])._periodicBounds.get i).2) ∧
    (∃ (fuel0 : Nat) (r : Except Halt (Int × Advection)),
      Finishes (∀ (t : ℚ) (x : Vec3), exampleConstField.InsideVolumeVelocity t x = true →
        (exampleConstField.GetVelocity t x).1 = 0) r ∧
      ∀ fuel : Nat, fuel0 ≤ fuel →
        AdvectTillTime exampleCodes fuel exampleGlm
          (UseSeedParticles exampleFresh [exampleParticle 0 0]) exampleConstField 1 (3 / 2)
          .EULER = r) ∧
    ∃ s1 : List Particle, ({ exampleFresh with
        _streams := [[exampleParticle 0 0, exampleParticle 1 1, exampleParticle 2 2]],
        _separatorCount := [0] } : Advection)._streams[0]? = some s1 ∧
      physicalCount s1 ≤ physicalCount [exampleParticle 0 0] +
        ⌈40 * (3 / 2 - (exampleParticle 0 0).time) / (1 : ℚ)⌉₊ := by
  have hd : (0 : ℚ) < 1 := by norm_num
  have hper : ∀ i : Fin 3,
      (UseSeedParticles exampleFresh [exampleParticle 0 0])._isPeriodic.get i = true →
      ((UseSeedParticles exampleFresh [exampleParticle 0 0])._periodicBounds.get i).1 <
        ((UseSeedParticles exampleFresh [exampleParticle 0 0])._periodicBounds.get i).2 := by
    intro i hi
    fin_cases i <;> simp [UseSeedParticles, exampleFresh, Axes.get] at hi
  have h := AdvectTillTime_terminates_exact exampleCodes exampleGlm
    (UseSeedParticles exampleFresh [exampleParticle 0 0]) exampleConstField 1 (3 / 2) .EULER
    hd hper
  exact ⟨hd, hper, h.1, h.2.2 3 1 _ AdvectTillTime_example 0 [exampleParticle 0 0]
    (exampleParticle 0 0) rfl rfl⟩

/-! ## Repeating the run-to-time integration -/

theorem whileLoop_fuel_pos (fuel : Nat) (G : Glm) (A : Advection) (velocity : Field)
    (deltaT targetT : ℚ) (method : ADVECTION_METHOD) (n : Nat) (s : List Particle)
    (p0 : Particle) (v : LoopVars) (s1 : List Particle) (v1 : LoopVars) (p : Particle)
    (hlast : s.getLast? = some p0)
    (h : AdvectTillTime.whileLoop fuel G A velocity deltaT targetT method n s p0 v =
      .ok (s1, v1))
    (hp : s1.getLast? = some p) (ht : p.time < targetT) : 0 < n := by
  cases n with
  | zero =>
    by_cases h0 : p0.time < targetT
    · rw [whileLoop_zero_lt fuel G A velocity deltaT targetT method s p0 v h0] at h
      cases h
    · rw [whileLoop_done fuel G A velocity deltaT targetT method 0 s p0 v h0] at h
      cases h
      rw [hlast] at hp
      cases hp
      exact absurd ht h0
  | succ n => omega

theorem whileLoop_again (fuel : Nat) (G : Glm) (A : Advection) (velocity : Field)
    (deltaT targetT : ℚ) (method : ADVECTION_METHOD) (n : Nat) (s : List Particle)
    (p : Particle) (v : LoopVars) (hlast : s.getLast? = some p)
    (h : ¬ p.time < targetT ∨ (StoppedEarly fuel G A velocity deltaT method s p ∧ 0 < n)) :
    AdvectTillTime.whileLoop fuel G A velocity deltaT targetT method n s p v = .ok (s, v) := by
  by_cases ht : p.time < targetT
  · rcases h with h | ⟨hstop, hn⟩
    · exact absurd ht h
    · obtain ⟨n2, rfl⟩ : ∃ n2, n = n2 + 1 := ⟨n - 1, by omega⟩
      rw [whileLoop_succ_lt fuel G A velocity deltaT targetT method n2 s p v ht]
      rcases hstop with ⟨hout, loc, ch, hw, hno⟩ | ⟨hin, st, p1, hst, ha⟩
      · rw [tillWrap_of_outside fuel A velocity s p v loc ch hlast hout hw]
        have hc : (ch && velocity.InsideVolumeVelocity p.time loc) = false := by
          rcases hno with h1 | h1 <;> simp [h1]
        simp [hc, Except.bind]
      · rw [tillWrap_of_inside fuel A velocity s p v hin]
        simp [Except.bind, ha, hst]
  · exact whileLoop_done fuel G A velocity deltaT targetT method n s p v ht

theorem tillBody_final (fuel : Nat) (G : Glm) (A : Advection) (velocity : Field)
    (deltaT targetT : ℚ) (method : ADVECTION_METHOD) (s : List Particle) (v : LoopVars)
    (s1 : List Particle) (v1 : LoopVars)
    (h : AdvectTillTime.body fuel G A velocity deltaT targetT method s v = .ok (s1, v1)) :
    ∀ p : Particle, s1.getLast? = some p →
      ¬ p.time < targetT ∨ (StoppedEarly fuel G A velocity deltaT method s1 p ∧ 0 < fuel) := by
  intro p hp
  by_cases ht : p.time < targetT
  · right
    obtain ⟨_, hfin, _⟩ := tillBody_spec fuel G A velocity deltaT targetT method s v s1 v1 h
    refine ⟨hfin p hp ht, ?_⟩
    cases hlast : s.getLast? with
    | none =>
      simp only [AdvectTillTime.body, hlast, pure, Except.pure, Except.ok.injEq,
        Prod.mk.injEq] at h
      rw [← h.1, hlast] at hp
      cases hp
    | some p0 =>
      simp only [AdvectTillTime.body, hlast, bind, Except.bind, pure, Except.pure] at h
      cases hw : AdvectTillTime.whileLoop fuel G A velocity deltaT targetT method fuel s p0 v with
      | error e =>
        rw [hw] at h
        cases h
      | ok r =>
        obtain ⟨s2, v2⟩ := r
        rw [hw] at h
        simp only [Except.ok.injEq, Prod.mk.injEq] at h
        obtain ⟨hs, _⟩ := h
        subst hs
        exact whileLoop_fuel_pos fuel G A velocity deltaT targetT method fuel s p0 v s2 v2 p
          hlast hw hp ht
  · exact Or.inl ht

theorem tillBody_again (fuel : Nat) (G : Glm) (A : Advection) (velocity : Field)
    (deltaT targetT : ℚ) (method : ADVECTION_METHOD) (s : List Particle) (v : LoopVars)
    (h : ∀ p : Particle, s.getLast? = some p →
      ¬ p.time < targetT ∨ (StoppedEarly fuel G A velocity deltaT method s p ∧ 0 < fuel)) :
    ∃ v1 : LoopVars,
      AdvectTillTime.body fuel G A velocity deltaT targetT method s v = .ok (s, v1) ∧
      v1.happened = v.happened ∧ v1.separatorCount = v.separatorCount := by
  cases hlast : s.getLast? with
  | none =>
    refine ⟨v, ?_, rfl, rfl⟩
    simp [AdvectTillTime.body, hlast, pure, Except.pure]
  | some p =>
    refine ⟨{ v with streamIdx := v.streamIdx + 1 }, ?_, rfl, rfl⟩
    simp only [AdvectTillTime.body, hlast, bind, Except.bind, pure, Except.pure]
    rw [whileLoop_again fuel G A velocity deltaT targetT method fuel s p v hlast (h p hlast)]

theorem tillLoop_again (fuel : Nat) (G : Glm) (A : Advection) (velocity : Field)
    (deltaT targetT : ℚ) (method : ADVECTION_METHOD) (streams : List (List Particle)) :
    ∀ v : LoopVars, (∀ s ∈ streams, ∀ p : Particle, s.getLast? = some p →
      ¬ p.time < targetT ∨ (StoppedEarly fuel G A velocity deltaT method s p ∧ 0 < fuel)) →
    ∃ v2 : LoopVars,
      AdvectTillTime.loop fuel G A velocity deltaT targetT method streams v =
        .ok (streams, v2) ∧
      v2.happened = v.happened ∧ v2.separatorCount = v.separatorCount := by
  induction streams with
  | nil =>
    intro v _
    exact ⟨v, rfl, rfl, rfl⟩
  | cons s rest ih =>
    intro v h
    obtain ⟨v1, hb, h1, h2⟩ := tillBody_again fuel G A velocity deltaT targetT method s v
      (h s (List.mem_cons_self _ _))
    obtain ⟨v2, hl, h3, h4⟩ := ih v1 (fun t ht => h t (List.mem_cons_of_mem _ ht))
    refine ⟨v2, ?_, by rw [h3, h1], by rw [h4, h2]⟩
    simp only [AdvectTillTime.loop, bind, Except.bind, pure, Except.pure, hb, hl]

theorem tillLoop_final (fuel : Nat) (G : Glm) (A : Advection) (velocity : Field)
    (deltaT targetT : ℚ) (method : ADVECTION_METHOD) (streams : List (List Particle)) :
    ∀ (v : LoopVars) (r : List (List Particle)) (v2 : LoopVars),
      AdvectTillTime.loop fuel G A velocity deltaT targetT method streams v = .ok (r, v2) →
      ((∀ s ∈ streams, s ≠ []) → ∀ s1 ∈ r, s1 ≠ []) ∧
      ∀ s1 ∈ r, ∀ p : Particle, s1.getLast? = some p →
        ¬ p.time < targetT ∨
          (StoppedEarly fuel G A velocity deltaT method s1 p ∧ 0 < fuel) := by
  induction streams with
  | nil =>
    intro v r v2 h
    simp only [AdvectTillTime.loop, pure, Except.pure, Except.ok.injEq, Prod.mk.injEq] at h
    rw [← h.1]
    simp
  | cons s0 rest ih =>
    intro v r v2 h
    obtain ⟨s1, v1, rest1, hb, hl, hr⟩ :=
      tillLoop_cons_ok fuel G A velocity deltaT targetT method s0 rest v r v2 h
    obtain ⟨g1, g2⟩ := ih v1 rest1 v2 hl
    have hfin := tillBody_final fuel G A velocity deltaT targetT method s0 v s1 v1 hb
    obtain ⟨hhist, _⟩ := tillBody_spec fuel G A velocity deltaT targetT method s0 v s1 v1 hb
    have hlen := (history_frame fuel G A velocity deltaT targetT method s0 s1 hhist).1
    subst hr
    constructor
    · intro hne t ht
      rcases List.mem_cons.mp ht with rfl | ht
      · intro he
        have h0 := List.length_pos.mpr (hne s0 (List.mem_cons_self _ _))
        have h1 : t.length = 0 := by rw [he]; rfl
        omega
      · exact g1 (fun u hu => hne u (List.mem_cons_of_mem _ hu)) t ht
    · intro t ht
      rcases List.mem_cons.mp ht with rfl | ht
      · exact hfin
      · exact g2 t ht

theorem CheckReady_go_neutral (c : Codes) (streams : List (List Particle))
    (hc : c.NO_SEED_PARTICLE_YET = 0) : CheckReady.go c streams = 0 := by
  induction streams with
  | nil => rfl
  | cons s rest ih =>
    simp only [CheckReady.go]
    split
    · exact hc
    · exact ih

theorem StoppedEarly_frame (fuel : Nat) (G : Glm) (A : Advection) (velocity : Field)
    (deltaT : ℚ) (method : ADVECTION_METHOD) (s : List Particle) (p : Particle)
    (r : List (List Particle)) (counts : List Nat) :
    StoppedEarly fuel G { A with _streams := r, _separatorCount := counts } velocity deltaT
      method s p ↔ StoppedEarly fuel G A velocity deltaT method s p := Iff.rfl

theorem AdvectTillTime_repeat (c : Codes) (fuel : Nat) (G : Glm) (A : Advection)
    (velocity : Field) (deltaT targetT : ℚ) (method : ADVECTION_METHOD) (rv : Int)
    (A1 : Advection) (hready : CheckReady c A = 0)
    (hcall : AdvectTillTime c fuel G A velocity deltaT targetT method = .ok (rv, A1)) :
    AdvectTillTime c fuel G A1 velocity deltaT targetT method = .ok (0, A1) ∧
    ∀ s ∈ A1._streams, ∀ p : Particle, s.getLast? = some p →
      ¬ p.time < targetT ∨ StoppedEarly fuel G A1 velocity deltaT method s p := by
  obtain ⟨r, v, hl, _, hA⟩ :=
    AdvectTillTime_ready c fuel G A velocity deltaT targetT method rv A1 hready hcall
  obtain ⟨hne, hfin⟩ :=
    tillLoop_final fuel G A velocity deltaT targetT method A._streams _ r v hl
  subst hA
  have hfin1 : ∀ s ∈ r, ∀ p : Particle, s.getLast? = some p →
      ¬ p.time < targetT ∨
        (StoppedEarly fuel G { A with _streams := r, _separatorCount := v.separatorCount }
          velocity deltaT method s p ∧ 0 < fuel) := by
    intro s hs p hp
    rcases hfin s hs p hp with h | ⟨h1, h2⟩
    · exact Or.inl h
    · exact Or.inr ⟨(StoppedEarly_frame fuel G A velocity deltaT method s p r
        v.separatorCount).mpr h1, h2⟩
  have hready1 : CheckReady c { A with _streams := r, _separatorCount := v.separatorCount } =
      0 := by
    by_cases hc : c.NO_SEED_PARTICLE_YET = 0
    · exact CheckReady_go_neutral c r hc
    · exact CheckReady_go_zero c r (hne ((CheckReady_eq_zero_iff c A hc).mp hready))
  obtain ⟨v2, hl2, hh, hcnt⟩ := tillLoop_again fuel G
    { A with _streams := r, _separatorCount := v.separatorCount } velocity deltaT targetT method
    r ⟨false, 0, v.separatorCount⟩ hfin1
  constructor
  · simp only [AdvectTillTime, hready1, ne_eq, not_true_eq_false, if_false, bind, Except.bind,
      pure, Except.pure, hl2]
    simp only at hh hcnt
    simp [hh, hcnt]
  · intro s hs p hp
    rcases hfin1 s hs p hp with h | ⟨h1, _⟩
    · exact Or.inl h
    · exact Or.inr h1

/-- C29. After a call of `AdvectTillTime` that passed `CheckReady` and returned, a
second call with the same field, `deltaT`, `targetT` and method returns 0 and leaves
the whole state, streams and separator counts included, as the first call left it:
the last particle of every stream has reached `targetT`, or the stream stops again
for the reason that stopped it in the first call. -/
theorem AdvectTillTime_idempotent (c : Codes) (fuel : Nat) (G : Glm) (A : Advection)
    (velocity : Field) (deltaT targetT : ℚ) (method : ADVECTION_METHOD) (rv : Int)
    (A1 : Advection) (hready : CheckReady c A = 0)
    (hcall : AdvectTillTime c fuel G A velocity deltaT targetT method = .ok (rv, A1)) :
    AdvectTillTime c fuel G A1 velocity deltaT targetT method = .ok (0, A1) ∧
    ∀ s ∈ A1._streams, ∀ p : Particle, s.getLast? = some p →
      targetT ≤ p.time ∨ StoppedEarly fuel G A1 velocity deltaT method s p := by
  obtain ⟨h1, h2⟩ :=
    AdvectTillTime_repeat c fuel G A velocity deltaT targetT method rv A1 hready hcall
  refine ⟨h1, ?_⟩
  intro s hs p hp
  rcases h2 s hs p hp with h | h
  · exact Or.inl (not_lt.mp h)
  · exact Or.inr h

/-- Witness of C29: after the call that advects the seed at time 0 to the times 1 and
2 with `targetT = 3/2`, the same call again returns 0 and changes nothing. -/
theorem AdvectTillTime_idempotent_witness :
    CheckReady exampleCodes (UseSeedParticles exampleFresh [exampleParticle 0 0]) = 0 ∧
    AdvectTillTime exampleCodes 3 exampleGlm
      (UseSeedParticles exampleFresh [exampleParticle 0 0]) exampleConstField 1 (3 / 2) .EULER =
      .ok (1, { exampleFresh with
        _streams := [[exampleParticle 0 0, exampleParticle 1 1, exampleParticle 2 2]],
        _separatorCount := [0] }) ∧
    AdvectTillTime exampleCodes 3 exampleGlm
      { exampleFresh with
        _streams := [[exampleParticle 0 0, exampleParticle 1 1, exampleParticle 2 2]],
        _separatorCount := [0] } exampleConstField 1 (3 / 2) .EULER =
      .ok (0, { exampleFresh with
        _streams := [[exampleParticle 0 0, exampleParticle 1 1, exampleParticle 2 2]],
        _separatorCount := [0] }) :=
  ⟨rfl, AdvectTillTime_example,
    (AdvectTillTime_idempotent exampleCodes 3 exampleGlm
      (UseSeedParticles exampleFresh [exampleParticle 0 0]) exampleConstField 1 (3 / 2) .EULER
      1 _ rfl AdvectTillTime_example).1⟩

/-! ## The step count on a state with a miscounted separator -/

theorem AdvectOneStep_example_far :
    AdvectOneStep exampleCodes 1 exampleGlm exampleTwoStreams exampleUnitField 10 .EULER =
      .ok (1, { exampleTwoStreams with
        _streams := [[exampleParticle 5 0],
          [separator, exampleParticle (1 / 2) 0, exampleParticle (21 / 2) 10]],
        _separatorCount := [1, 0] }) := by
  norm_num [AdvectOneStep, CheckReady, CheckReady.go, exampleTwoStreams, exampleParticle,
    exampleUnitField, exampleCodes, AdvectOneStep.loop, AdvectOneStep.body,
    AdvectOneStep.wrap, AdvectOneStep.integrate, AdvectOneStep.stepSize, advect,
    _advectEuler, Particle.default, Vec3.add, Vec3.smul, wrapLocation, wrapAxis, Axes.get,
    Vec3.get, Vec3.set, _applyPeriodic, _applyPeriodic.down, incrementAt, separator,
    Particle.SetSpecial, Particle.IsSpecial, bind, Except.bind, pure, Except.pure]

theorem AdvectOneStep_example_far_again :
    AdvectOneStep exampleCodes 1 exampleGlm { exampleTwoStreams with
        _streams := [[exampleParticle 5 0],
          [separator, exampleParticle (1 / 2) 0, exampleParticle (21 / 2) 10]],
        _separatorCount := [1, 0] } exampleUnitField 10 .EULER =
      .ok (1, { exampleTwoStreams with
        _streams := [[exampleParticle 5 0],
          [separator, exampleParticle (1 / 2) 0, separator, exampleParticle (1 / 2) 10,
            exampleParticle (21 / 2) 20]],
        _separatorCount := [2, 0] }) := by
  norm_num [AdvectOneStep, CheckReady, CheckReady.go, exampleTwoStreams, exampleParticle,
    exampleUnitField, exampleCodes, AdvectOneStep.loop, AdvectOneStep.body,
    AdvectOneStep.wrap, AdvectOneStep.integrate, AdvectOneStep.stepSize, advect,
    _advectEuler, Particle.default, Vec3.add, Vec3.smul, wrapLocation, wrapAxis, Axes.get,
    Vec3.get, Vec3.set, _applyPeriodic, _applyPeriodic.down, incrementAt, separator,
    Particle.SetSpecial, Particle.IsSpecial, bind, Except.bind, pure, Except.pure]

/-- C13, evaluation at the failing input. From `UseSeedParticles` with the two seeds
at `x = 5` and `x = 10.5` (X periodic over `[0,10]`), two calls of `AdvectOneStep` with
`deltaT = 10` on the field of domain `0 ≤ x ≤ 1` reach a state whose streams hold 1 and
5 particles while the separator counts are `[2, 0]`: both separators of the second
stream were counted for the first one. There `GetMaxNumOfSteps` computes `1 - 2` on
`size_t` and returns `2^64 - 1`, while the number of particles minus the separator
count is at most 5 for every stream. -/
theorem GetMaxNumOfSteps_wraps :
    Advected exampleCodes exampleGlm { exampleTwoStreams with
      _streams := [[exampleParticle 5 0],
        [separator, exampleParticle (1 / 2) 0, separator, exampleParticle (1 / 2) 10,
          exampleParticle (21 / 2) 20]],
      _separatorCount := [2, 0] } ∧
    ({ exampleTwoStreams with
      _streams := [[exampleParticle 5 0],
        [separator, exampleParticle (1 / 2) 0, separator, exampleParticle (1 / 2) 10,
          exampleParticle (21 / 2) 20]],
      _separatorCount := [2, 0] } : Advection)._streams.map List.length = [1, 5] ∧
    GetMaxNumOfSteps { exampleTwoStreams with
      _streams := [[exampleParticle 5 0],
        [separator, exampleParticle (1 / 2) 0, separator, exampleParticle (1 / 2) 10,
          exampleParticle (21 / 2) 20]],
      _separatorCount := [2, 0] } = 2 ^ 64 - 1 := by
  refine ⟨?_, rfl, by decide⟩
  have hseed : Advected exampleCodes exampleGlm exampleTwoStreams := by
    rw [← exampleTwoStreams_seeded]
    apply Advected.seeded
    intro p hp
    simp only [List.mem_cons, List.mem_singleton, List.not_mem_nil, or_false] at hp
    rcases hp with rfl | rfl <;> rfl
  exact Advected.advectOneStep _ _ 1 exampleUnitField 10 .EULER 1
    (Advected.advectOneStep _ _ 1 exampleUnitField 10 .EULER 1 hseed AdvectOneStep_example_far)
    AdvectOneStep_example_far_again

/-! ## Binary32 rounding -/

theorem roundHalfEven_near (y : ℚ) (n : Int) (h1 : (n : ℚ) - 1 / 2 < y) (h2 : y < n + 1 / 2) :
    roundHalfEven y = n := by
  unfold roundHalfEven
  by_cases hn : (n : ℚ) ≤ y
  · have hf : ⌊y⌋ = n := Int.floor_eq_iff.mpr ⟨hn, by linarith⟩
    rw [hf, if_pos (by linarith)]
  · have hf : ⌊y⌋ = n - 1 :=
      Int.floor_eq_iff.mpr ⟨by push_cast; linarith, by push_cast; linarith⟩
    rw [hf]
    push_cast
    rw [if_neg (by linarith), if_pos (by linarith)]
    ring

theorem roundHalfEven_tie_even (y : ℚ) (n : Int) (h : y = n + 1 / 2) (he : n % 2 = 0) :
    roundHalfEven y = n := by
  unfold roundHalfEven
  have hf : ⌊y⌋ = n := Int.floor_eq_iff.mpr ⟨by linarith, by linarith⟩
  rw [hf, if_neg (by linarith), if_neg (by linarith), if_pos he]

theorem roundHalfEven_tie_odd (y : ℚ) (n : Int) (h : y = n + 1 / 2) (he : n % 2 = 1) :
    roundHalfEven y = n + 1 := by
  unfold roundHalfEven
  have hf : ⌊y⌋ = n := Int.floor_eq_iff.mpr ⟨by linarith, by linarith⟩
  rw [hf, if_neg (by linarith), if_neg (by linarith), if_neg (by omega)]

theorem log_of_binade (x : ℚ) (e : Int) (h1 : (2 : ℚ) ^ e ≤ |x|) (h2 : |x| < 2 ^ (e + 1)) :
    Int.log 2 |x| = e := by
  have hpos : 0 < |x| := lt_of_lt_of_le (zpow_pos (by norm_num) e) h1
  have ha : e ≤ Int.log 2 |x| :=
    (Int.zpow_le_iff_le_log (by norm_num) hpos).mp (by exact_mod_cast h1)
  have hb : Int.log 2 |x| < e + 1 :=
    (Int.lt_zpow_iff_log_lt (by norm_num) hpos).mp (by exact_mod_cast h2)
  omega

/-- In the binade of exponent `e`, the rounding is the rounding to the nearest multiple
of `2 ^ (e - 23)`. -/
theorem binary32_of_binade (x : ℚ) (e : Int) (he : -126 ≤ e) (h1 : (2 : ℚ) ^ e ≤ |x|)
    (h2 : |x| < 2 ^ (e + 1)) :
    binary32 x = roundHalfEven (x / 2 ^ (e - 23)) * 2 ^ (e - 23) := by
  unfold binary32
  rw [log_of_binade x e h1 h2, max_eq_left he]

theorem binary32_zero : binary32 0 = 0 := by
  simp [binary32, roundHalfEven]

/-- A number with at most 24 significant bits in its binade is a binary32 value. -/
theorem binary32_exact (x : ℚ) (e : Int) (n : Int) (he : -126 ≤ e) (h1 : (2 : ℚ) ^ e ≤ |x|)
    (h2 : |x| < 2 ^ (e + 1)) (hx : x = n * 2 ^ (e - 23)) : binary32 x = x := by
  rw [binary32_of_binade x e he h1 h2]
  have hq : (2 : ℚ) ^ (e - 23) ≠ 0 := zpow_ne_zero _ (by norm_num)
  have hy : x / 2 ^ (e - 23) = n := by
    rw [hx]
    field_simp
  rw [hy, roundHalfEven_near (n : ℚ) n (by linarith) (by linarith), ← hx]

theorem binary32_twentieth : binary32 (1 / 20) = 13421773 / 268435456 := by
  rw [binary32_of_binade (1 / 20) (-5) (by norm_num) (by norm_num [abs_of_pos])
    (by norm_num [abs_of_pos]),
    roundHalfEven_near _ 13421773 (by norm_num) (by norm_num)]
  norm_num

theorem binary32_fortieth : binary32 (1 / 40) = 13421773 / 536870912 := by
  rw [binary32_of_binade (1 / 40) (-6) (by norm_num) (by norm_num [abs_of_pos])
    (by norm_num [abs_of_pos]),
    roundHalfEven_near _ 13421773 (by norm_num) (by norm_num)]
  norm_num

/-- At `2 ^ 24` the binary32 values are 2 apart: an increment of at most 1 is
absorbed. -/
theorem binary32_absorbs (d : ℚ) (h0 : 0 ≤ d) (h1 : d ≤ 1) :
    binary32 (16777216 + d) = 16777216 := by
  have habs : |16777216 + d| = 16777216 + d := abs_of_pos (by linarith)
  rw [binary32_of_binade (16777216 + d) 24 (by norm_num) (by rw [habs]; norm_num; linarith)
    (by rw [habs]; norm_num; linarith)]
  have hq : (16777216 + d) / 2 ^ ((24 : Int) - 23) = 8388608 + d / 2 := by
    norm_num
    ring
  rw [hq]
  by_cases hd : d = 1
  · rw [roundHalfEven_tie_even _ 8388608 (by rw [hd]; norm_num) (by decide)]
    norm_num
  · have hlt : d < 1 := lt_of_le_of_ne h1 hd
    rw [roundHalfEven_near _ 8388608 (by push_cast; linarith) (by push_cast; linarith)]
    norm_num

theorem binary32_nat (k : Nat) (h0 : 0 < k) (hk : k < 16777216) : binary32 k = k := by
  have hk0 : (0 : ℚ) < k := by exact_mod_cast h0
  have habs : |(k : ℚ)| = k := abs_of_pos hk0
  have hpos : 0 < |(k : ℚ)| := by rw [habs]; exact hk0
  have he0 : (0 : Int) ≤ Int.log 2 |(k : ℚ)| :=
    (Int.zpow_le_iff_le_log (by norm_num) hpos).mp (by
      rw [habs]
      norm_num
      exact_mod_cast h0)
  have he24 : Int.log 2 |(k : ℚ)| < 24 :=
    (Int.lt_zpow_iff_log_lt (by norm_num) hpos).mp (by
      rw [habs]
      norm_num
      exact_mod_cast hk)
  unfold binary32
  rw [max_eq_left (by omega)]
  generalize Int.log 2 |(k : ℚ)| = e at he0 he24
  obtain ⟨m, hm⟩ : ∃ m : Nat, 23 - e = m := ⟨(23 - e).toNat, by omega⟩
  have he : e - 23 = -(m : Int) := by omega
  rw [he, zpow_neg, zpow_natCast]
  have hy : (k : ℚ) / (2 ^ m)⁻¹ = ((k * 2 ^ m : Nat) : Int) := by
    push_cast
    field_simp
  rw [hy, roundHalfEven_near _ ((k * 2 ^ m : Nat) : Int) (by linarith) (by linarith)]
  push_cast
  field_simp

/-! ## The integrators in binary32 -/

theorem rounded_advectEuler_id (velocity : Field) (p0 : Particle) (dt : ℚ) (q : Particle) :
    rounded._advectEuler id velocity p0 dt q = _advectEuler velocity p0 dt q := rfl

theorem rounded_advectRK4_id (velocity : Field) (p0 : Particle) (dt : ℚ) (q : Particle) :
    rounded._advectRK4 id velocity p0 dt q = _advectRK4 velocity p0 dt q := by
  have h6 : ∀ a : Vec3, Vec3.smulR id (dt / 6) a = Vec3.smul (dt / 6) a := fun _ => rfl
  rfl

/-- Counterexample to C6 as stated: in binary32, on the constant field `v = (1,0,0)`,
from the origin at time 0 with `dt = 0.05f = 13421773 / 2^28`, the Euler step ends at
`x = dt`, while the RK4 step ends at `x = fl(fl(dt/6) * 6) = 13421774 / 2^28` (a tie, rounded to
even), one unit in the last place further; both end at the time `dt`. -/
theorem advectRK4_rounding_counterexample :
    binary32 (1 / 20) = 13421773 / 268435456 ∧
    rounded._advectEuler binary32 exampleConstField (exampleParticle 0 0)
        (13421773 / 268435456) Particle.default =
      .ok (0, { Particle.default with
        location := ⟨13421773 / 268435456, 0, 0⟩, time := 13421773 / 268435456 }) ∧
    rounded._advectRK4 binary32 exampleConstField (exampleParticle 0 0)
        (13421773 / 268435456) Particle.default =
      .ok (0, { Particle.default with
        location := ⟨13421774 / 268435456, 0, 0⟩, time := 13421773 / 268435456 }) := by
  have hdt : binary32 (13421773 / 268435456) = 13421773 / 268435456 :=
    binary32_exact _ (-5) 13421773 (by norm_num) (by norm_num [abs_of_pos])
      (by norm_num [abs_of_pos]) (by norm_num)
  have h6 : binary32 (13421773 / 268435456 / 6) = 8947849 / 1073741824 := by
    rw [binary32_of_binade _ (-7) (by norm_num) (by norm_num [abs_of_pos])
      (by norm_num [abs_of_pos]),
      roundHalfEven_near _ 8947849 (by norm_num) (by norm_num)]
    norm_num
  have hB : binary32 (8947849 / 1073741824 * 6) = 13421774 / 268435456 := by
    rw [binary32_of_binade _ (-5) (by norm_num) (by norm_num [abs_of_pos])
      (by norm_num [abs_of_pos]),
      roundHalfEven_tie_odd _ 13421773 (by norm_num) (by decide)]
    norm_num
  have hB2 : binary32 (13421774 / 268435456) = 13421774 / 268435456 :=
    binary32_exact _ (-5) 13421774 (by norm_num) (by norm_num [abs_of_pos])
      (by norm_num [abs_of_pos]) (by norm_num)
  have h2 : binary32 2 = 2 := by simpa using binary32_nat 2 (by norm_num) (by norm_num)
  have h4 : binary32 4 = 4 := by simpa using binary32_nat 4 (by norm_num) (by norm_num)
  have h5 : binary32 5 = 5 := by simpa using binary32_nat 5 (by norm_num) (by norm_num)
  have h6' : binary32 6 = 6 := by simpa using binary32_nat 6 (by norm_num) (by norm_num)
  refine ⟨binary32_twentieth, ?_, ?_⟩
  · simp only [rounded._advectEuler, exampleConstField, exampleParticle, Vec3.addR, Vec3.smulR,
      ne_eq, not_true_eq_false, if_false, mul_one, mul_zero, zero_add, add_zero, hdt,
      binary32_zero]
  · have e1 : (1 : ℚ) + 1 = 2 := by norm_num
    have e2 : (2 : ℚ) * 2 = 4 := by norm_num
    have e3 : (1 : ℚ) + 4 = 5 := by norm_num
    have e4 : (5 : ℚ) + 1 = 6 := by norm_num
    simp only [rounded._advectRK4, exampleConstField, exampleParticle, Vec3.addR, Vec3.smulR,
      ne_eq, not_true_eq_false, if_false, mul_one, mul_zero, zero_add, add_zero, hdt,
      binary32_zero, e1, h2, e2, h4, e3, h5, e4, h6', h6, hB, hB2]

/-- C6, amended. On a velocity field that is constant in space and time and whose
sampling succeeds, for every base particle, every `dt` and every rounding of the
operations, the RK4 step and the Euler step both return status 0 and the same time,
the rounded sum `t0 + dt`. The Euler location is `x0 + dt * v`, the RK4 location is
`x0 + (dt / 6) * (v + 2 * (v + v) + v)`, each operation rounded. Without rounding
the two steps return the same particle. -/
theorem advectRK4_advectEuler_of_const (fl : ℚ → ℚ) (velocity : Field) (vel : Vec3)
    (hconst : ∀ (t : ℚ) (x : Vec3), velocity.GetVelocity t x = (0, vel))
    (p0 : Particle) (dt : ℚ) (q : Particle) :
    rounded._advectEuler fl velocity p0 dt q =
      .ok (0, { q with
        location := Vec3.addR fl p0.location (Vec3.smulR fl dt vel),
        time := fl (p0.time + dt) }) ∧
    rounded._advectRK4 fl velocity p0 dt q =
      .ok (0, { q with
        location := Vec3.addR fl p0.location (Vec3.smulR fl (fl (dt / 6))
          (Vec3.addR fl (Vec3.addR fl vel (Vec3.smulR fl 2 (Vec3.addR fl vel vel))) vel)),
        time := fl (p0.time + dt) }) ∧
    rounded._advectRK4 id velocity p0 dt q = rounded._advectEuler id velocity p0 dt q ∧
    _advectRK4 velocity p0 dt q = _advectEuler velocity p0 dt q := by
  have hexact := (advectRK4_exact_of_const velocity vel hconst p0 dt q).1
  refine ⟨?_, ?_, ?_, hexact⟩
  · simp only [rounded._advectEuler, hconst, ne_eq, not_true_eq_false, if_false]
  · simp only [rounded._advectRK4, hconst, ne_eq, not_true_eq_false, if_false]
  · rw [rounded_advectRK4_id, rounded_advectEuler_id]
    exact hexact

/-- Witness of C6, amended: in binary32, on the field `v = (1,0,0)`, from the origin at
time 0 with `dt = 1`, both steps end at the time `fl(0 + 1)`. -/
theorem advectRK4_advectEuler_of_const_witness :
    rounded._advectEuler binary32 exampleConstField (exampleParticle 0 0) 1 Particle.default =
      .ok (0, { Particle.default with
        location := Vec3.addR binary32 (exampleParticle 0 0).location
          (Vec3.smulR binary32 1 ⟨1, 0, 0⟩),
        time := binary32 ((exampleParticle 0 0).time + 1) }) ∧
    rounded._advectRK4 binary32 exampleConstField (exampleParticle 0 0) 1 Particle.default =
      .ok (0, { Particle.default with
        location := Vec3.addR binary32 (exampleParticle 0 0).location
          (Vec3.smulR binary32 (binary32 (1 / 6))
            (Vec3.addR binary32 (Vec3.addR binary32 ⟨1, 0, 0⟩
              (Vec3.smulR binary32 2 (Vec3.addR binary32 ⟨1, 0, 0⟩ ⟨1, 0, 0⟩))) ⟨1, 0, 0⟩)),
        time := binary32 ((exampleParticle 0 0).time + 1) }) :=
  ⟨(advectRK4_advectEuler_of_const binary32 exampleConstField ⟨1, 0, 0⟩ (fun _ _ => rfl)
      (exampleParticle 0 0) 1 Particle.default).1,
    (advectRK4_advectEuler_of_const binary32 exampleConstField ⟨1, 0, 0⟩ (fun _ _ => rfl)
      (exampleParticle 0 0) 1 Particle.default).2.1⟩

/-! ## The periodic correction in binary32 -/

theorem binary32_half : binary32 (1 / 2) = 1 / 2 :=
  binary32_exact (1 / 2) (-1) 8388608 (by norm_num) (by norm_num [abs_of_pos])
    (by norm_num [abs_of_pos]) (by norm_num)

theorem binary32_fortieth_kept :
    binary32 (13421773 / 536870912) = 13421773 / 536870912 :=
  binary32_exact (13421773 / 536870912) (-6) 13421773 (by norm_num)
    (by norm_num [abs_of_pos]) (by norm_num [abs_of_pos]) (by norm_num)

theorem binary32_fortieth_halved :
    binary32 (13421773 / 536870912 * (1 / 2)) = 13421773 / 1073741824 :=
  (binary32_exact (13421773 / 536870912 * (1 / 2)) (-7) 13421773 (by norm_num)
    (by norm_num [abs_of_pos]) (by norm_num [abs_of_pos]) (by norm_num)).trans (by norm_num)

theorem binary32_fortieth_raised :
    binary32 (13421773 / 536870912 * (5 / 4)) = 1 / 32 := by
  rw [binary32_of_binade (13421773 / 536870912 * (5 / 4)) (-5) (by norm_num)
    (by norm_num [abs_of_pos]) (by norm_num [abs_of_pos]),
    roundHalfEven_near _ 8388608 (by norm_num) (by norm_num)]
  norm_num

theorem rounded_calcAdjustFactor_values (fl : ℚ → ℚ) (G : Glm) (A : Advection)
    (p2 p1 p0 : Particle) :
    rounded._calcAdjustFactor fl G A p2 p1 p0 = 1 ∨
    rounded._calcAdjustFactor fl G A p2 p1 p0 = 5 / 4 ∨
    rounded._calcAdjustFactor fl G A p2 p1 p0 = 1 / 2 := by
  unfold rounded._calcAdjustFactor
  simp only
  split_ifs <;> simp

theorem rounded_advectEuler_ok (fl : ℚ → ℚ) (velocity : Field) (p0 : Particle) (dt : ℚ)
    (p1 : Particle) (h : (velocity.GetVelocity p0.time p0.location).1 = 0) :
    rounded._advectEuler fl velocity p0 dt p1 = .ok (0, { p1 with
      location := Vec3.addR fl p0.location
        (Vec3.smulR fl dt (velocity.GetVelocity p0.time p0.location).2),
      time := fl (p0.time + dt) }) := by
  unfold rounded._advectEuler
  rcases hg : velocity.GetVelocity p0.time p0.location with ⟨rv, v0⟩
  rw [hg] at h
  simp only at h
  subst h
  simp

/-- In binary32 with `deltaT = 1/2`, from a stream whose particles are all non-special
and at the time `2^24`, the step of `AdvectTillTime` is between 0 and 1. -/
theorem rounded_tillStepSize_stalled (G : Glm) (A : Advection) (s : List Particle)
    (p0 : Particle) (hp0 : p0.time = 16777216)
    (hs : ∀ p ∈ s, p.isSpecial = false ∧ p.time = 16777216) :
    0 ≤ rounded.AdvectTillTime.stepSize binary32 G A (1 / 2) s p0 ∧
    rounded.AdvectTillTime.stepSize binary32 G A (1 / 2) s p0 ≤ 1 := by
  have h25 : binary32 25 = 25 := by simpa using binary32_nat 25 (by norm_num) (by norm_num)
  have e1 : (1 : ℚ) / 2 * 50 = 25 := by norm_num
  have e2 : (1 : ℚ) / 2 / 20 = 1 / 40 := by norm_num
  unfold rounded.AdvectTillTime.stepSize
  simp only
  split
  · split
    · rename_i past1 past2 h1 h2
      have hm1 := hs past1 (List.getElem?_mem h1)
      have hm2 := hs past2 (List.getElem?_mem h2)
      simp only [Particle.IsSpecial, hm1.1, hm2.1, Bool.not_false, Bool.and_self, if_true,
        hp0, hm1.2, sub_self, binary32_zero, e1, e2, h25, binary32_fortieth]
      norm_num
      rcases rounded_calcAdjustFactor_values binary32 G A past2 past1 p0 with h | h | h <;>
        rw [h]
      · rw [mul_one, binary32_fortieth_kept]; norm_num
      · rw [binary32_fortieth_raised]; norm_num
      · rw [binary32_fortieth_halved]; norm_num
    · norm_num
  · norm_num

/-- In binary32 with `deltaT = 1/2` and the target time `2^24 + 2`, on a field whose
domain is everything and whose velocity can be sampled everywhere, the `while` loop
of `AdvectTillTime` started at the time `2^24` does not end: every new particle has
the time `2^24` again. -/
theorem rounded_whileLoop_stalls (fuel : Nat) (G : Glm) (A : Advection) (velocity : Field)
    (hin : ∀ (t : ℚ) (x : Vec3), velocity.InsideVolumeVelocity t x = true)
    (hv : ∀ (t : ℚ) (x : Vec3), (velocity.GetVelocity t x).1 = 0) :
    ∀ (n : Nat) (s : List Particle) (p0 : Particle) (v : LoopVars),
      p0.time = 16777216 → (∀ p ∈ s, p.isSpecial = false ∧ p.time = 16777216) →
      rounded.AdvectTillTime.whileLoop binary32 fuel G A velocity (1 / 2) 16777218 .EULER
        n s p0 v = .error .outOfFuel := by
  intro n
  induction n with
  | zero =>
    intro s p0 v hp0 _
    have hlt : p0.time < 16777218 := by rw [hp0]; norm_num
    simp only [rounded.AdvectTillTime.whileLoop, hlt, if_true]
  | succ n ih =>
    intro s p0 v hp0 hs
    have hlt : p0.time < 16777218 := by rw [hp0]; norm_num
    obtain ⟨hd0, hd1⟩ := rounded_tillStepSize_stalled G A s p0 hp0 hs
    have ht : binary32 (p0.time +
        rounded.AdvectTillTime.stepSize binary32 G A (1 / 2) s p0) = 16777216 := by
      rw [hp0]
      exact binary32_absorbs _ hd0 hd1
    simp only [rounded.AdvectTillTime.whileLoop, hlt, if_true, rounded.AdvectTillTime.wrap,
      hin, Bool.not_true, Bool.false_eq_true, if_false, bind, Except.bind, pure, Except.pure,
      rounded.advect, rounded_advectEuler_ok binary32 velocity p0 _ _ (hv _ _), ne_eq,
      not_true_eq_false, ht]
    apply ih
    · rfl
    · intro p hp
      rcases List.mem_append.mp hp with h | h
      · exact hs p h
      · rw [List.mem_singleton.mp h]
        exact ⟨rfl, rfl⟩

/-- C26, evaluation at the failing input. In binary32, from `UseSeedParticles` with one
non-special seed at the time `2^24 = 16777216`, one call of `AdvectOneStep` with
`deltaT = 1/2 > 0` on the constant field `v = (1,0,0)` returns `ADVECT_HAPPENED` and
appends a non-special particle whose time is `2^24` again, since `2^24 + 1/2` rounds
to `2^24`: the two consecutive non-special particles of the stream have equal times,
so the times do not increase strictly along the run. -/
theorem AdvectOneStep_time_stalls :
    (0 : ℚ) < 1 / 2 ∧
    rounded.AdvectOneStep binary32 exampleCodes 1 exampleEuclid
      (UseSeedParticles exampleFresh [exampleParticle 0 16777216]) exampleConstField (1 / 2)
      .EULER =
      .ok (exampleCodes.ADVECT_HAPPENED, { exampleFresh with
        _streams := [[exampleParticle 0 16777216, exampleParticle (1 / 2) 16777216]],
        _separatorCount := [0] }) ∧
    (exampleParticle 0 16777216).isSpecial = false ∧
    (exampleParticle (1 / 2) 16777216).isSpecial = false ∧
    ¬ ((exampleParticle 0 16777216).time < (exampleParticle (1 / 2) 16777216).time) := by
  have h0 : binary32 (16777216 + 1 / 2) = 16777216 :=
    binary32_absorbs (1 / 2) (by norm_num) (by norm_num)
  have h0b : binary32 (33554433 / 2) = 16777216 := by
    have e : (33554433 : ℚ) / 2 = 16777216 + 1 / 2 := by norm_num
    rw [e]; exact h0
  refine ⟨by norm_num, ?_, rfl, rfl, by norm_num [exampleParticle]⟩
  norm_num [rounded.AdvectOneStep, UseSeedParticles, UseSeedParticles.fill, vectorResize,
    pushBackAt, CheckReady, CheckReady.go, exampleFresh, exampleParticle,
    exampleConstField, exampleCodes, rounded.AdvectOneStep.loop, rounded.AdvectOneStep.body,
    rounded.AdvectOneStep.wrap, rounded.AdvectOneStep.integrate,
    rounded.AdvectOneStep.stepSize, rounded.advect, rounded._advectEuler, Particle.default,
    Vec3.addR, Vec3.smulR, bind, Except.bind, pure, Except.pure, binary32_zero, h0b, binary32_half]

/-- C28, evaluation at the failing input. In binary32, from `UseSeedParticles` with one
seed at the time `2^24 = 16777216`, the call of `AdvectTillTime` with `deltaT = 1/2 > 0`
and `targetT = 2^24 + 2` on the constant field `v = (1,0,0)`, without periodic axis,
does not terminate: whatever the number of iterations allowed to its loops, the
`while` loop of the stream is cut short. Every step, between 0 and 1, is absorbed
when added to the time `2^24`, so every appended particle has the time of its
predecessor, which stays below `targetT`. -/
theorem AdvectTillTime_never_returns :
    (0 : ℚ) < 1 / 2 ∧
    (∀ i : Fin 3,
      (UseSeedParticles exampleFresh [exampleParticle 0 16777216])._isPeriodic.get i = false) ∧
    ∀ fuel : Nat, rounded.AdvectTillTime binary32 exampleCodes fuel exampleEuclid
      (UseSeedParticles exampleFresh [exampleParticle 0 16777216]) exampleConstField (1 / 2)
      16777218 .EULER = .error .outOfFuel := by
  refine ⟨by norm_num, by decide, ?_⟩
  intro fuel
  have hloop := rounded_whileLoop_stalls fuel exampleEuclid
    (UseSeedParticles exampleFresh [exampleParticle 0 16777216]) exampleConstField
    (fun _ _ => rfl) (fun _ _ => rfl) fuel [exampleParticle 0 16777216]
    (exampleParticle 0 16777216) ⟨false, 0, [0]⟩ rfl (by
      intro p hp
      rw [List.mem_singleton.mp hp]
      exact ⟨rfl, rfl⟩)
  have hseed : (UseSeedParticles exampleFresh [exampleParticle 0 16777216]) =
      { exampleFresh with
        _streams := [[exampleParticle 0 16777216]],
        _separatorCount := [0] } := by
    simp [UseSeedParticles, UseSeedParticles.fill, vectorResize, pushBackAt, exampleFresh]
  rw [hseed] at hloop ⊢
  simp only [rounded.AdvectTillTime, CheckReady, CheckReady.go, List.length_singleton,
    Nat.lt_irrefl, if_false, ne_eq, not_true_eq_false, rounded.AdvectTillTime.loop,
    rounded.AdvectTillTime.body, List.getLast?_singleton, bind, Except.bind, hloop]

/-! ## Text import when `std::stof` may throw `std::out_of_range` -/

theorem cos_fifteen_lower : (16205546 : ℝ) / 16777216 < Real.cos (15 * Real.pi / 180) := by
  have harg : 15 * Real.pi / 180 = Real.pi / 12 := by ring
  rw [harg]
  have hsq : Real.cos (Real.pi / 12) ^ 2 = 1 / 2 + Real.sqrt 3 / 4 := by
    rw [Real.cos_sq, show 2 * (Real.pi / 12) = Real.pi / 6 by ring, Real.cos_pi_div_six]
    ring
  have hpos : 0 < Real.cos (Real.pi / 12) :=
    Real.cos_pos_of_mem_Ioo ⟨by linarith [Real.pi_pos], by linarith [Real.pi_pos]⟩
  have h3 : (17320508 : ℝ) / 10000000 < Real.sqrt 3 := by
    rw [Real.lt_sqrt (by norm_num)]
    norm_num
  by_contra hcon
  have hle : Real.cos (Real.pi / 12) ≤ 16205546 / 16777216 := not_lt.mp hcon
  have : Real.cos (Real.pi / 12) ^ 2 ≤ (16205546 / 16777216) ^ 2 :=
    pow_le_pow_left₀ hpos.le hle 2
  rw [hsq] at this
  norm_num at this
  linarith

theorem cos_fifteen_upper : Real.cos (15 * Real.pi / 180) < (16205547 : ℝ) / 16777216 := by
  have harg : 15 * Real.pi / 180 = Real.pi / 12 := by ring
  rw [harg]
  have hsq : Real.cos (Real.pi / 12) ^ 2 = 1 / 2 + Real.sqrt 3 / 4 := by
    rw [Real.cos_sq, show 2 * (Real.pi / 12) = Real.pi / 6 by ring, Real.cos_pi_div_six]
    ring
  have hpos : 0 < Real.cos (Real.pi / 12) :=
    Real.cos_pos_of_mem_Ioo ⟨by linarith [Real.pi_pos], by linarith [Real.pi_pos]⟩
  have h3 : Real.sqrt 3 < (17320509 : ℝ) / 10000000 := by
    rw [Real.sqrt_lt' (by norm_num)]
    norm_num
  by_contra hcon
  have hle : (16205547 : ℝ) / 16777216 ≤ Real.cos (Real.pi / 12) := not_lt.mp hcon
  have : ((16205547 : ℝ) / 16777216) ^ 2 ≤ Real.cos (Real.pi / 12) ^ 2 :=
    pow_le_pow_left₀ (by norm_num) hle 2
  rw [hsq] at this
  norm_num at this
  linarith

theorem sin_small_bounds :
    (2617691829 : ℝ) / 100000000000 < Real.sin (Real.pi / 120) ∧
    Real.sin (Real.pi / 120) < (2617697557 : ℝ) / 100000000000 := by
  have hlo : (3141592 : ℝ) / 1000000 / 120 < Real.pi / 120 := by
    have := Real.pi_gt_d6
    linarith
  have hhi : Real.pi / 120 < (3141593 : ℝ) / 1000000 / 120 := by
    have := Real.pi_lt_d6
    linarith
  have hy0 : 0 < Real.pi / 120 := by positivity
  have habs : |Real.pi / 120| ≤ 1 := by
    rw [abs_of_pos hy0]
    linarith
  have hb := Real.sin_bound habs
  rw [abs_of_pos hy0] at hb
  have hb2 := abs_le.mp hb
  have h3lo : ((3141592 : ℝ) / 1000000 / 120) ^ 3 ≤ (Real.pi / 120) ^ 3 :=
    pow_le_pow_left₀ (by norm_num) hlo.le 3
  have h3hi : (Real.pi / 120) ^ 3 ≤ ((3141593 : ℝ) / 1000000 / 120) ^ 3 :=
    pow_le_pow_left₀ hy0.le hhi.le 3
  have h4hi : (Real.pi / 120) ^ 4 ≤ ((3141593 : ℝ) / 1000000 / 120) ^ 4 :=
    pow_le_pow_left₀ hy0.le hhi.le 4
  constructor
  · have := hb2.1
    norm_num at h3hi h4hi hlo ⊢
    linarith
  · have := hb2.2
    norm_num at h3lo h4hi hhi ⊢
    linarith

theorem cos_three_bounds :
    (16754223 : ℝ) / 16777216 < Real.cos (3 * Real.pi / 180) ∧
    Real.cos (3 * Real.pi / 180) < (16754224 : ℝ) / 16777216 := by
  have harg : 3 * Real.pi / 180 = 2 * (Real.pi / 120) := by ring
  have hcos : Real.cos (2 * (Real.pi / 120)) = 1 - 2 * Real.sin (Real.pi / 120) ^ 2 := by
    rw [Real.cos_two_mul, Real.cos_sq']
    ring
  rw [harg, hcos]
  obtain ⟨h1, h2⟩ := sin_small_bounds
  have hs0 : 0 < Real.sin (Real.pi / 120) := lt_trans (by norm_num) h1
  have hsqlo : ((2617691829 : ℝ) / 100000000000) ^ 2 ≤ Real.sin (Real.pi / 120) ^ 2 :=
    pow_le_pow_left₀ (by norm_num) h1.le 2
  have hsqhi : Real.sin (Real.pi / 120) ^ 2 ≤ ((2617697557 : ℝ) / 100000000000) ^ 2 :=
    pow_le_pow_left₀ hs0.le h2.le 2
  constructor
  · norm_num at hsqhi ⊢
    linarith
  · norm_num at hsqlo ⊢
    linarith

/-- The stored cosines are the binary32 numbers just below the cosines of 3 and of 15
degrees. -/
theorem stored_cosines :
    (lowerAngleCos32 : ℝ) < Real.cos (3 * Real.pi / 180) ∧
    Real.cos (3 * Real.pi / 180) < (lowerAngleCos32 : ℝ) + 1 / 2 ^ 24 ∧
    (upperAngleCos32 : ℝ) < Real.cos (15 * Real.pi / 180) ∧
    Real.cos (15 * Real.pi / 180) < (upperAngleCos32 : ℝ) + 1 / 2 ^ 24 := by
  obtain ⟨h1, h2⟩ := cos_three_bounds
  have h3 := cos_fifteen_lower
  have h4 := cos_fifteen_upper
  refine ⟨?_, ?_, ?_, ?_⟩
  · simp only [lowerAngleCos32]; push_cast; linarith
  · simp only [lowerAngleCos32]; push_cast; norm_num; linarith
  · simp only [upperAngleCos32]; push_cast; linarith
  · simp only [upperAngleCos32]; push_cast; norm_num; linarith

/-! ## The angle of a turn and its cosine -/

theorem arccos_le_arccos_of_le (x y : ℝ) (h : x ≤ y) : Real.arccos y ≤ Real.arccos x := by
  rw [Real.arccos_eq_pi_div_two_sub_arcsin, Real.arccos_eq_pi_div_two_sub_arcsin]
  have := Real.monotone_arcsin h
  linarith

theorem arccos_le_of_cos_le (x t : ℝ) (h0 : 0 ≤ t) (hpi : t ≤ Real.pi) (h : Real.cos t ≤ x) :
    Real.arccos x ≤ t := by
  have := arccos_le_arccos_of_le _ _ h
  rwa [Real.arccos_cos h0 hpi] at this

theorem le_arccos_of_le_cos (x t : ℝ) (h0 : 0 ≤ t) (hpi : t ≤ Real.pi) (h : x ≤ Real.cos t) :
    t ≤ Real.arccos x := by
  have := arccos_le_arccos_of_le _ _ h
  rwa [Real.arccos_cos h0 hpi] at this

theorem cos_le_of_arccos_le (x t : ℝ) (hpi : t < Real.pi) (h : Real.arccos x ≤ t) :
    Real.cos t ≤ x := by
  by_contra hcon
  have hlt : x < Real.cos t := not_le.mp hcon
  have h0 : 0 ≤ t := le_trans (Real.arccos_nonneg x) h
  have h1 : t ≤ Real.arccos x := le_arccos_of_le_cos x t h0 hpi.le hlt.le
  have heq : Real.arccos x = t := le_antisymm h h1
  have hx1 : x ≤ 1 := le_trans hlt.le (Real.cos_le_one t)
  by_cases hx : -1 ≤ x
  · have := Real.cos_arccos hx hx1
    rw [heq] at this
    linarith
  · have := Real.arccos_of_le_neg_one (not_le.mp hx).le
    linarith

theorem le_cos_of_le_arccos (x t : ℝ) (h0 : 0 < t) (h : t ≤ Real.arccos x) :
    x ≤ Real.cos t := by
  by_contra hcon
  have hlt : Real.cos t < x := not_le.mp hcon
  have hpi : t ≤ Real.pi := le_trans h (Real.arccos_le_pi x)
  have h1 : Real.arccos x ≤ t := arccos_le_of_cos_le x t h0.le hpi hlt.le
  have heq : Real.arccos x = t := le_antisymm h1 h
  have hx1 : -1 ≤ x := le_trans (Real.neg_one_le_cos t) hlt.le
  by_cases hx : x ≤ 1
  · have := Real.cos_arccos hx1 hx
    rw [heq] at this
    linarith
  · have := Real.arccos_of_one_le (not_le.mp hx).le
    linarith

theorem degrees_le (a d : ℝ) : a * 180 / Real.pi ≤ d ↔ a ≤ d * Real.pi / 180 := by
  have hpi := Real.pi_pos
  rw [div_le_iff₀ hpi, le_div_iff₀ (by norm_num : (0 : ℝ) < 180)]

theorem le_degrees (a d : ℝ) : d ≤ a * 180 / Real.pi ↔ d * Real.pi / 180 ≤ a := by
  have hpi := Real.pi_pos
  rw [le_div_iff₀ hpi, div_le_iff₀ (by norm_num : (0 : ℝ) < 180)]

/-! ## The adjustment factor in binary32 -/

theorem rounded_calcAdjustFactor_eq (fl : ℚ → ℚ) (G : Glm) (A : Advection)
    (p2 p1 p0 : Particle) :
    rounded._calcAdjustFactor fl G A p2 p1 p0 =
      if rounded.segmentProduct fl G p2 p1 p0 < 1 / 10000000 then 1
      else if rounded.turnCosine fl G p2 p1 p0 > A._lowerAngleCos then 5 / 4
      else if rounded.turnCosine fl G p2 p1 p0 < A._upperAngleCos then 1 / 2
      else 1 := rfl

theorem rounded_calcAdjustFactor_id (G : Glm) (A : Advection) (p2 p1 p0 : Particle) :
    rounded._calcAdjustFactor id G A p2 p1 p0 = _calcAdjustFactor G A p2 p1 p0 := rfl

theorem rounded_turnCosine_id (G : Glm) (p2 p1 p0 : Particle) :
    rounded.turnCosine id G p2 p1 p0 = turnCosine G p2 p1 p0 := rfl

theorem rounded_segmentProduct_id (G : Glm) (p2 p1 p0 : Particle) :
    rounded.segmentProduct id G p2 p1 p0 = segmentProduct G p2 p1 p0 := rfl

theorem log_half (x : ℚ) (h : Int) (hx : 0 < x) (h1 : (2 : ℚ) ^ (2 * h) ≤ x)
    (h2 : x < 2 ^ (2 * h + 2)) : ⌊(Int.log 2 x : ℚ) / 2⌋ = h := by
  have hlo : 2 * h ≤ Int.log 2 x :=
    (Int.zpow_le_iff_le_log (by norm_num) hx).mp (by exact_mod_cast h1)
  have hhi : Int.log 2 x < 2 * h + 2 :=
    (Int.lt_zpow_iff_log_lt (by norm_num) hx).mp (by exact_mod_cast h2)
  rw [Int.floor_eq_iff]
  have hlo2 : ((2 * h : Int) : ℚ) ≤ (Int.log 2 x : ℚ) := by exact_mod_cast hlo
  have hhi2 : (Int.log 2 x : ℚ) ≤ ((2 * h + 1 : Int) : ℚ) := by
    exact_mod_cast Int.lt_add_one_iff.mp (by linarith)
  push_cast at hlo2 hhi2
  constructor <;> linarith

/-- The square root in binary32 when the root is nearer to `s * 2 ^ (h - 23)` than to
the next number. -/
theorem sqrt32_near (x : ℚ) (h : Int) (s : Nat) (hx : 0 < x) (h1 : (2 : ℚ) ^ (2 * h) ≤ x)
    (h2 : x < 2 ^ (2 * h + 2))
    (hs1 : (s : ℚ) ^ 2 ≤ x / (2 ^ (h - 23) * 2 ^ (h - 23)))
    (hs2 : x / (2 ^ (h - 23) * 2 ^ (h - 23)) < ((s : ℚ) + 1 / 2) ^ 2) :
    sqrt32 x = s * 2 ^ (h - 23) := by
  have hy0 : (0 : ℚ) ≤ x / (2 ^ (h - 23) * 2 ^ (h - 23)) := by positivity
  have hsq : Nat.sqrt ⌊x / ((2 : ℚ) ^ (h - 23) * 2 ^ (h - 23))⌋₊ = s := by
    symm
    rw [Nat.eq_sqrt]
    constructor
    · apply Nat.le_floor
      push_cast
      rw [← sq]
      exact hs1
    · rw [Nat.floor_lt hy0]
      push_cast
      nlinarith
  simp only [sqrt32, not_le.mpr hx, if_false, log_half x h hx h1 h2, hsq, hs2, if_true]

theorem binary32_one : binary32 1 = 1 := by
  simpa using binary32_nat 1 (by norm_num) (by norm_num)

theorem sqrt32_one : sqrt32 1 = 1 := by
  rw [sqrt32_near 1 0 8388608 (by norm_num) (by norm_num) (by norm_num) (by norm_num)
    (by norm_num)]
  norm_num

theorem binary32_turn_side :
    binary32 (4495443 / 16777216) = 4495443 / 16777216 :=
  binary32_exact (4495443 / 16777216) (-2) 8990886 (by norm_num)
    (by norm_num [abs_of_pos]) (by norm_num [abs_of_pos]) (by norm_num)

theorem binary32_turn_square :
    binary32 (20209007766249 / 281474976710656) = 4818203 / 67108864 := by
  rw [binary32_of_binade (20209007766249 / 281474976710656) (-4) (by norm_num)
    (by norm_num [abs_of_pos]) (by norm_num [abs_of_pos]),
    roundHalfEven_near _ 9636406 (by norm_num) (by norm_num)]
  norm_num

theorem binary32_turn_sum :
    binary32 (71927067 / 67108864) = 8990883 / 8388608 := by
  rw [binary32_of_binade (71927067 / 67108864) 0 (by norm_num)
    (by norm_num [abs_of_pos]) (by norm_num [abs_of_pos]),
    roundHalfEven_near _ 8990883 (by norm_num) (by norm_num)]
  norm_num

theorem binary32_turn_sum_kept :
    binary32 (8990883 / 8388608) = 8990883 / 8388608 :=
  binary32_exact (8990883 / 8388608) 0 8990883 (by norm_num)
    (by norm_num [abs_of_pos]) (by norm_num [abs_of_pos]) (by norm_num)

theorem sqrt32_turn : sqrt32 (8990883 / 8388608) = 4342263 / 4194304 := by
  rw [sqrt32_near (8990883 / 8388608) 0 8684526 (by norm_num) (by norm_num) (by norm_num)
    (by norm_num) (by norm_num)]
  norm_num

theorem binary32_turn_length :
    binary32 (4342263 / 4194304) = 4342263 / 4194304 :=
  binary32_exact (4342263 / 4194304) 0 8684526 (by norm_num)
    (by norm_num [abs_of_pos]) (by norm_num [abs_of_pos]) (by norm_num)

theorem binary32_turn_cosine :
    binary32 (4194304 / 4342263) = 8102773 / 8388608 := by
  rw [binary32_of_binade (4194304 / 4342263) (-1) (by norm_num)
    (by norm_num [abs_of_pos]) (by norm_num [abs_of_pos]),
    roundHalfEven_near _ 16205546 (by norm_num) (by norm_num)]
  norm_num

theorem turn_example_segmentProduct :
    rounded.segmentProduct binary32 exampleLength32 (examplePlanar (-1) 0 0)
      (examplePlanar 0 0 1) (examplePlanar 1 (4495443 / 16777216) 2) = 4342263 / 4194304 := by
  norm_num [rounded.segmentProduct, exampleLength32, examplePlanar, Vec3.subR, Vec3.dotR,
    binary32_zero, binary32_one, sqrt32_one, binary32_turn_side, binary32_turn_square,
    binary32_turn_sum, binary32_turn_sum_kept, sqrt32_turn, binary32_turn_length]

theorem turn_example_turnCosine :
    rounded.turnCosine binary32 exampleLength32 (examplePlanar (-1) 0 0)
      (examplePlanar 0 0 1) (examplePlanar 1 (4495443 / 16777216) 2) = upperAngleCos32 := by
  rw [rounded.turnCosine, turn_example_segmentProduct]
  norm_num [examplePlanar, Vec3.subR, Vec3.dotR, upperAngleCos32,
    binary32_zero, binary32_one, binary32_turn_side, binary32_turn_cosine]

/-- When the two lengths that `glm::length` returns are exact, the cosine computed
without rounding is the cosine of the angle between the two segments. -/
theorem turnCosine_real (G : Glm) (p2 p1 p0 : Particle) (x : ℝ)
    (h1 : 0 ≤ G.length (p1.location.sub p2.location))
    (h2 : G.length (p1.location.sub p2.location) ^ 2 =
      Vec3.dot (p1.location.sub p2.location) (p1.location.sub p2.location))
    (h3 : 0 ≤ G.length (p0.location.sub p1.location))
    (h4 : G.length (p0.location.sub p1.location) ^ 2 =
      Vec3.dot (p0.location.sub p1.location) (p0.location.sub p1.location))
    (hx : TurnCosineIs x p2 p1 p0) :
    x = ((rounded.turnCosine id G p2 p1 p0 : ℚ) : ℝ) := by
  have e1 : Real.sqrt ((Vec3.dot (p1.location.sub p2.location)
      (p1.location.sub p2.location) : ℚ) : ℝ) =
      ((G.length (p1.location.sub p2.location) : ℚ) : ℝ) := by
    rw [← h2]
    push_cast
    exact Real.sqrt_sq (by exact_mod_cast h1)
  have e2 : Real.sqrt ((Vec3.dot (p0.location.sub p1.location)
      (p0.location.sub p1.location) : ℚ) : ℝ) =
      ((G.length (p0.location.sub p1.location) : ℚ) : ℝ) := by
    rw [← h4]
    push_cast
    exact Real.sqrt_sq (by exact_mod_cast h3)
  rw [hx, e1, e2, rounded_turnCosine_id, turnCosine, segmentProduct]
  push_cast
  rfl

/-- Counterexample to C24 as stated, in binary32, with the two cosines that the
constructor stores. The segment from `(-1, 0, 0)` to the origin and the segment from
the origin to `(1, 4495443/2^24, 0)` are not degenerate and make a turn of at least
15 degrees: the tangent of the turn, `4495443/2^24`, is above that of 15 degrees. The
cosine that `_calcAdjustFactor` computes is rounded to the stored cosine of the upper
angle, so it is not below it, and the factor is 1, not `1/2`. -/
theorem calcAdjustFactor_rounding_counterexample :
    TurnAtLeast 15 (examplePlanar (-1) 0 0) (examplePlanar 0 0 1)
      (examplePlanar 1 (4495443 / 16777216) 2) ∧
    ¬ rounded.segmentProduct binary32 exampleLength32 (examplePlanar (-1) 0 0)
      (examplePlanar 0 0 1) (examplePlanar 1 (4495443 / 16777216) 2) < 1 / 10000000 ∧
    exampleConstructed._lowerAngleCos = lowerAngleCos32 ∧
    exampleConstructed._upperAngleCos = upperAngleCos32 ∧
    rounded.turnCosine binary32 exampleLength32 (examplePlanar (-1) 0 0)
      (examplePlanar 0 0 1) (examplePlanar 1 (4495443 / 16777216) 2) = upperAngleCos32 ∧
    rounded._calcAdjustFactor binary32 exampleLength32 exampleConstructed
      (examplePlanar (-1) 0 0) (examplePlanar 0 0 1)
      (examplePlanar 1 (4495443 / 16777216) 2) = 1 ∧
    (1 : ℚ) ≠ 1 / 2 := by
  refine ⟨?_, ?_, rfl, rfl, turn_example_turnCosine, ?_, by norm_num⟩
  · refine ⟨_, rfl, ?_⟩
    rw [le_degrees]
    apply le_arccos_of_le_cos _ _ (by positivity) (by linarith [Real.pi_pos])
    refine le_trans ?_ cos_fifteen_lower.le
    have hroot : (16777216 : ℝ) / 16205546 ≤
        Real.sqrt (1 + (4495443 / 16777216) ^ 2) := by
      apply Real.le_sqrt_of_sq_le
      norm_num
    have hpos : (0 : ℝ) < 16777216 / 16205546 := by norm_num
    have hinv := one_div_le_one_div_of_le hpos hroot
    norm_num [examplePlanar, Vec3.sub, Vec3.dot] at hinv ⊢
    norm_num [← sq] at hinv ⊢
    linarith
  · rw [turn_example_segmentProduct]
    norm_num
  · rw [rounded_calcAdjustFactor_eq, turn_example_segmentProduct, turn_example_turnCosine]
    norm_num [exampleConstructed, Advection.ctor, lowerAngleCos32, upperAngleCos32]

/-- C24, amended. For an `Advection` with the two cosines that the constructor stores
and for any rounding of the operations: `_calcAdjustFactor` returns 1 when the product
of the two lengths, as it computes it, is below `1e-7`; otherwise it returns `5/4` when
the cosine that it computes is above the stored cosine of the lower angle, `1/2` when
it is below the stored cosine of the upper angle, and 1 when it lies between the two
stored cosines, bounds included; the result is always one of `1/2`, 1 and `5/4`. The
stored cosines are the binary32 numbers just below the cosines of 3 and of 15 degrees,
less than `2^-24` away from them. Without rounding, when both lengths are exact and
their product is not below `1e-7`: a turn of at most 3 degrees gets `5/4`; a turn of at
least 15 degrees gets `1/2`, or 1 when its cosine is not below the stored cosine of the
upper angle; a turn of more than 3 and less than 15 degrees gets 1, or `5/4` when its
cosine is above the stored cosine of the lower angle. -/
theorem calcAdjustFactor_contract (fl : ℚ → ℚ) (G : Glm) (A : Advection) (p2 p1 p0 : Particle)
    (hA : A._lowerAngleCos = lowerAngleCos32 ∧ A._upperAngleCos = upperAngleCos32) :
    (rounded.segmentProduct fl G p2 p1 p0 < 1 / 10000000 →
      rounded._calcAdjustFactor fl G A p2 p1 p0 = 1) ∧
    (¬ rounded.segmentProduct fl G p2 p1 p0 < 1 / 10000000 →
      (lowerAngleCos32 < rounded.turnCosine fl G p2 p1 p0 →
        rounded._calcAdjustFactor fl G A p2 p1 p0 = 5 / 4) ∧
      (rounded.turnCosine fl G p2 p1 p0 < upperAngleCos32 →
        rounded._calcAdjustFactor fl G A p2 p1 p0 = 1 / 2) ∧
      (upperAngleCos32 ≤ rounded.turnCosine fl G p2 p1 p0 →
        rounded.turnCosine fl G p2 p1 p0 ≤ lowerAngleCos32 →
        rounded._calcAdjustFactor fl G A p2 p1 p0 = 1)) ∧
    (rounded._calcAdjustFactor fl G A p2 p1 p0 = 1 / 2 ∨
      rounded._calcAdjustFactor fl G A p2 p1 p0 = 1 ∨
      rounded._calcAdjustFactor fl G A p2 p1 p0 = 5 / 4) ∧
    ((lowerAngleCos32 : ℝ) < Real.cos (3 * Real.pi / 180) ∧
      Real.cos (3 * Real.pi / 180) < (lowerAngleCos32 : ℝ) + 1 / 2 ^ 24 ∧
      (upperAngleCos32 : ℝ) < Real.cos (15 * Real.pi / 180) ∧
      Real.cos (15 * Real.pi / 180) < (upperAngleCos32 : ℝ) + 1 / 2 ^ 24) ∧
    (0 ≤ G.length (p1.location.sub p2.location) →
      G.length (p1.location.sub p2.location) ^ 2 =
        Vec3.dot (p1.location.sub p2.location) (p1.location.sub p2.location) →
      0 ≤ G.length (p0.location.sub p1.location) →
      G.length (p0.location.sub p1.location) ^ 2 =
        Vec3.dot (p0.location.sub p1.location) (p0.location.sub p1.location) →
      ¬ rounded.segmentProduct id G p2 p1 p0 < 1 / 10000000 →
      (TurnAtMost 3 p2 p1 p0 → rounded._calcAdjustFactor id G A p2 p1 p0 = 5 / 4) ∧
      (TurnAtLeast 15 p2 p1 p0 →
        rounded._calcAdjustFactor id G A p2 p1 p0 = 1 / 2 ∨
        (rounded._calcAdjustFactor id G A p2 p1 p0 = 1 ∧
          upperAngleCos32 ≤ rounded.turnCosine id G p2 p1 p0 ∧
          ((rounded.turnCosine id G p2 p1 p0 : ℚ) : ℝ) ≤ Real.cos (15 * Real.pi / 180))) ∧
      (¬ TurnAtMost 3 p2 p1 p0 → ¬ TurnAtLeast 15 p2 p1 p0 →
        rounded._calcAdjustFactor id G A p2 p1 p0 = 1 ∨
        (rounded._calcAdjustFactor id G A p2 p1 p0 = 5 / 4 ∧
          lowerAngleCos32 < rounded.turnCosine id G p2 p1 p0 ∧
          ((rounded.turnCosine id G p2 p1 p0 : ℚ) : ℝ) < Real.cos (3 * Real.pi / 180)))) := by
  obtain ⟨hL, hU⟩ := hA
  have hord : upperAngleCos32 ≤ lowerAngleCos32 := by
    norm_num [upperAngleCos32, lowerAngleCos32]
  have hgap : upperAngleCos32 + 1 / 2 ^ 24 ≤ lowerAngleCos32 := by
    norm_num [upperAngleCos32, lowerAngleCos32]
  obtain ⟨hc1, hc2, hc3, hc4⟩ := stored_cosines
  have hvalues : ∀ f : ℚ → ℚ, rounded._calcAdjustFactor f G A p2 p1 p0 = 1 / 2 ∨
      rounded._calcAdjustFactor f G A p2 p1 p0 = 1 ∨
      rounded._calcAdjustFactor f G A p2 p1 p0 = 5 / 4 := by
    intro f
    rcases rounded_calcAdjustFactor_values f G A p2 p1 p0 with h | h | h
    · exact Or.inr (Or.inl h)
    · exact Or.inr (Or.inr h)
    · exact Or.inl h
  have hcode : ∀ f : ℚ → ℚ, ¬ rounded.segmentProduct f G p2 p1 p0 < 1 / 10000000 →
      (lowerAngleCos32 < rounded.turnCosine f G p2 p1 p0 →
        rounded._calcAdjustFactor f G A p2 p1 p0 = 5 / 4) ∧
      (rounded.turnCosine f G p2 p1 p0 < upperAngleCos32 →
        rounded._calcAdjustFactor f G A p2 p1 p0 = 1 / 2) ∧
      (upperAngleCos32 ≤ rounded.turnCosine f G p2 p1 p0 →
        rounded.turnCosine f G p2 p1 p0 ≤ lowerAngleCos32 →
        rounded._calcAdjustFactor f G A p2 p1 p0 = 1) := by
    intro f hd
    refine ⟨?_, ?_, ?_⟩
    · intro hc
      rw [rounded_calcAdjustFactor_eq, if_neg hd, hL, if_pos hc]
    · intro hc
      have hnot : ¬ rounded.turnCosine f G p2 p1 p0 > lowerAngleCos32 :=
        not_lt.mpr (by linarith)
      rw [rounded_calcAdjustFactor_eq, if_neg hd, hL, if_neg hnot, hU, if_pos hc]
    · intro h1 h2
      rw [rounded_calcAdjustFactor_eq, if_neg hd, hL, if_neg (not_lt.mpr h2), hU,
        if_neg (not_lt.mpr h1)]
  refine ⟨?_, hcode fl, hvalues fl, ⟨hc1, hc2, hc3, hc4⟩, ?_⟩
  · intro hd
    rw [rounded_calcAdjustFactor_eq, if_pos hd]
  · intro h1 h2 h3 h4 hd
    obtain ⟨k1, k2, k3⟩ := hcode id hd
    have hreal : ∀ x : ℝ, TurnCosineIs x p2 p1 p0 →
        x = ((rounded.turnCosine id G p2 p1 p0 : ℚ) : ℝ) :=
      fun x hx => turnCosine_real G p2 p1 p0 x h1 h2 h3 h4 hx
    have hLr : (lowerAngleCos32 : ℝ) < ((rounded.turnCosine id G p2 p1 p0 : ℚ) : ℝ) →
        lowerAngleCos32 < rounded.turnCosine id G p2 p1 p0 := fun h => by exact_mod_cast h
    have hUr : ((upperAngleCos32 : ℚ) : ℝ) < ((rounded.turnCosine id G p2 p1 p0 : ℚ) : ℝ) →
        upperAngleCos32 < rounded.turnCosine id G p2 p1 p0 := fun h => by exact_mod_cast h
    refine ⟨?_, ?_, ?_⟩
    · rintro ⟨x, hx, hle⟩
      rw [degrees_le] at hle
      have hcos := cos_le_of_arccos_le x _ (by linarith [Real.pi_pos]) hle
      rw [hreal x hx] at hcos
      exact k1 (hLr (lt_of_lt_of_le hc1 hcos))
    · rintro ⟨x, hx, hle⟩
      rw [le_degrees] at hle
      have hcos := le_cos_of_le_arccos x _ (by positivity) hle
      rw [hreal x hx] at hcos
      have hbelow : rounded.turnCosine id G p2 p1 p0 ≤ lowerAngleCos32 := by
        have hlt : ((rounded.turnCosine id G p2 p1 p0 : ℚ) : ℝ) <
            ((upperAngleCos32 + 1 / 2 ^ 24 : ℚ) : ℝ) := by
          push_cast
          linarith
        have hlt2 : rounded.turnCosine id G p2 p1 p0 < upperAngleCos32 + 1 / 2 ^ 24 := by
          exact_mod_cast hlt
        linarith
      by_cases hc : rounded.turnCosine id G p2 p1 p0 < upperAngleCos32
      · exact Or.inl (k2 hc)
      · exact Or.inr ⟨k3 (not_lt.mp hc) hbelow, not_lt.mp hc, hcos⟩
    · intro hno3 hno15
      have hx0 : TurnCosineIs (((rounded.turnCosine id G p2 p1 p0 : ℚ) : ℝ)) p2 p1 p0 := by
        have hself : TurnCosineIs _ p2 p1 p0 := rfl
        have := hreal _ hself
        rw [← this]
        exact hself
      have hlt3 : ((rounded.turnCosine id G p2 p1 p0 : ℚ) : ℝ) <
          Real.cos (3 * Real.pi / 180) := by
        by_contra hcon
        apply hno3
        refine ⟨_, hx0, ?_⟩
        rw [degrees_le]
        exact arccos_le_of_cos_le _ _ (by positivity) (by linarith [Real.pi_pos])
          (not_lt.mp hcon)
      have hgt15 : Real.cos (15 * Real.pi / 180) <
          ((rounded.turnCosine id G p2 p1 p0 : ℚ) : ℝ) := by
        by_contra hcon
        apply hno15
        refine ⟨_, hx0, ?_⟩
        rw [le_degrees]
        exact le_arccos_of_le_cos _ _ (by positivity) (by linarith [Real.pi_pos])
          (not_lt.mp hcon)
      have hU2 := hUr (lt_trans hc3 hgt15)
      by_cases hc : lowerAngleCos32 < rounded.turnCosine id G p2 p1 p0
      · exact Or.inr ⟨k1 hc, hc, hlt3⟩
      · exact Or.inl (k3 hU2.le (not_lt.mp hc))

/-- Witness of C24, amended: in binary32, with the cosines that the constructor stores,
a straight continuation, whose computed cosine is 1, gets the factor `5/4`. -/
theorem calcAdjustFactor_contract_witness :
    (exampleConstructed._lowerAngleCos = lowerAngleCos32 ∧
      exampleConstructed._upperAngleCos = upperAngleCos32) ∧
    ¬ rounded.segmentProduct binary32 exampleLength32 (examplePlanar 0 0 0)
      (examplePlanar 1 0 1) (examplePlanar 2 0 2) < 1 / 10000000 ∧
    lowerAngleCos32 < rounded.turnCosine binary32 exampleLength32 (examplePlanar 0 0 0)
      (examplePlanar 1 0 1) (examplePlanar 2 0 2) ∧
    rounded._calcAdjustFactor binary32 exampleLength32 exampleConstructed (examplePlanar 0 0 0)
      (examplePlanar 1 0 1) (examplePlanar 2 0 2) = 5 / 4 := by
  have e1 : (2 : ℚ) - 1 = 1 := by norm_num
  have hs : rounded.segmentProduct binary32 exampleLength32 (examplePlanar 0 0 0)
      (examplePlanar 1 0 1) (examplePlanar 2 0 2) = 1 := by
    norm_num [rounded.segmentProduct, exampleLength32, examplePlanar, Vec3.subR, Vec3.dotR,
      binary32_zero, binary32_one, sqrt32_one]
  have hd : ¬ rounded.segmentProduct binary32 exampleLength32 (examplePlanar 0 0 0)
      (examplePlanar 1 0 1) (examplePlanar 2 0 2) < 1 / 10000000 := by
    rw [hs]
    norm_num
  have hc : lowerAngleCos32 < rounded.turnCosine binary32 exampleLength32
      (examplePlanar 0 0 0) (examplePlanar 1 0 1) (examplePlanar 2 0 2) := by
    rw [rounded.turnCosine, hs]
    norm_num [examplePlanar, Vec3.subR, Vec3.dotR, lowerAngleCos32, binary32_zero,
      binary32_one]
  exact ⟨⟨rfl, rfl⟩, hd, hc,
    ((calcAdjustFactor_contract binary32 exampleLength32 exampleConstructed
      (examplePlanar 0 0 0) (examplePlanar 1 0 1) (examplePlanar 2 0 2) ⟨rfl, rfl⟩).2.1 hd).1 hc⟩

end flow
